import Mathlib

/-!
Pixel codec and image buffer of the people-counting camera stack.

A shallow embedding of `sensors-lib/camera/image/Pixel.cpp`,
`sensors-lib/camera/image/Image.cpp`, `sensors-lib/camera/model/TFLM_Model.cpp`
and the scan of `sensors-lib/camera/Ardu_Camera.cpp`.

Modelling conventions.

* A `uint8_t` is a `Nat`; every assignment to a `uint8_t` variable is written
  with an explicit `% 256`.  A `size_t` is a `Nat` in the image operations,
  which is what the program computes as long as no product exceeds the range
  of a `size_t`; the section on `size_t` arithmetic gives the buffer size and
  the pixel offset modulo `2 ^ bits`.  The `int inference_count` is an `Int`
  that wraps at `INT_MAX`.
* `uint8_t bytes_[MAX_PIXEL_BYTES]` is a `List Nat`; element `i` is read with
  `byteAt`.  Slots the C++ code never assigns hold an indeterminate value; the
  embedding takes that value from an explicit parameter `junk`, so every
  theorem holds for every content of uninitialised storage.
* `uint8_t* buffer_` is the `List Nat` of the bytes of the allocation the
  pointer refers to.  An access outside that allocation is undefined behaviour
  in C++ and is `none` here.
* `float` is a rational number: conversions from integers are exact and no
  operation rounds.  The conversion of a `float` to `uint8_t` is `none` when
  the truncated value is not a byte.
* The TensorFlow Lite interpreter is a function `Invoke` from the content of
  the input tensor to the content of the output tensor (`none` for a status
  other than `kTfLiteOk`).
* The `for` loops of the scan whose step is a constant are unrolled at most
  `fuel` times; a loop that has not ended by then yields `none`.
* The capture FIFO is a function `read_fifo` from the number of a read
  (counted from 0 after `flush_fifo`) to the byte that read returns, and the
  capture flag a function `cap_done` from the number of a poll to its result.
* `HorizontalFlip` and `VerticalFlip` give the receiver after the loops; the
  copy of the receiver that the C++ returns, and what its destructor does to
  a buffer the image allocated, is `Image.DeallocateBuffer`.
* `sensor_type.h` and `conversions.h` are not part of the sources: the status
  values of `GetData` and `IntToString` are modelled from the specification.
-/

namespace PeopleCounting

/-- Read of element `i` of a byte array. -/
def byteAt (bytes : List Nat) (i : Nat) : Nat := bytes.getD i 0

/-! ## Pixel.h / Pixel.cpp -/

/-- `enum Format {GRAYSCALE, RGB565, RGB888}`. -/
inductive Format where
  | GRAYSCALE
  | RGB565
  | RGB888
deriving DecidableEq, Repr

/-- `static const size_t MAX_PIXEL_BYTES = 4`. -/
def MAX_PIXEL_BYTES : Nat := 4

/-- `class Pixel`: the format tag and the four byte slots. -/
structure Pixel where
  format_ : Format
  bytes_ : List Nat
deriving DecidableEq, Repr

/-- `Pixel::GetChannels(Format fmt)`. -/
def Format.GetChannels (fmt : Format) : Nat :=
  match fmt with
  | .GRAYSCALE => 1
  | .RGB565 => 2
  | .RGB888 => 3

/-- `Pixel::GetChannels(void)`. -/
def Pixel.GetChannels (p : Pixel) : Nat := p.format_.GetChannels

/-- `Pixel::Pixel(Format fmt, uint8_t* bytes)`: copies `GetChannels()` bytes
from `bytes`; the remaining slots of `bytes_` stay uninitialised (`junk`). -/
def Pixel.new (fmt : Format) (bytes : List Nat) (junk : Nat → Nat) : Pixel :=
  { format_ := fmt
    bytes_ := (List.range MAX_PIXEL_BYTES).map
      (fun ch => if ch < fmt.GetChannels then byteAt bytes ch else junk ch) }

/-- `Pixel::GetFormat`. -/
def Pixel.GetFormat (p : Pixel) : Format := p.format_

/-- `Pixel::GetBytes`. -/
def Pixel.GetBytes (p : Pixel) : List Nat := p.bytes_

/-- `Pixel::ConvertRgb888ToRgb565`. -/
def Pixel.ConvertRgb888ToRgb565 (p : Pixel) (junk : Nat → Nat) : Pixel :=
  let red := byteAt p.bytes_ 0
  let green := byteAt p.bytes_ 1
  let blue := byteAt p.bytes_ 2
  let pix_hi := (red &&& 0xf8) % 256
  let pix_hi := (pix_hi ||| (green >>> 5)) % 256
  let pix_lo := ((green <<< 3) &&& 0xE0) % 256
  let pix_lo := (pix_lo ||| ((blue &&& 0xf8) >>> 3)) % 256
  let new_bytes := [pix_lo, pix_hi, junk 2, junk 3]
  Pixel.new .RGB565 new_bytes junk

/-- `Pixel::ConvertRgb565ToRgb888`. -/
def Pixel.ConvertRgb565ToRgb888 (p : Pixel) (junk : Nat → Nat) : Pixel :=
  let pix_lo := byteAt p.bytes_ 0
  let pix_hi := byteAt p.bytes_ 1
  let red := (0xF8 &&& pix_hi) % 256
  let green := (((0x07 &&& pix_hi) <<< 5) ||| ((0xE0 &&& pix_lo) >>> 3)) % 256
  let blue := ((0x1F &&& pix_lo) <<< 3) % 256
  let new_bytes := [red, green, blue, junk 3]
  Pixel.new .RGB888 new_bytes junk

/-- `Pixel::ConvertRgb888ToGrayscale`. -/
def Pixel.ConvertRgb888ToGrayscale (p : Pixel) (junk : Nat → Nat) : Pixel :=
  let red := byteAt p.bytes_ 0
  let green := byteAt p.bytes_ 1
  let blue := byteAt p.bytes_ 2
  let new_bytes := [((red / 3) + (green / 3) + (blue / 3)) % 256, junk 1, junk 2, junk 3]
  Pixel.new .GRAYSCALE new_bytes junk

/-- `Pixel::ConvertGrayscaleToRgb888`. -/
def Pixel.ConvertGrayscaleToRgb888 (p : Pixel) (junk : Nat → Nat) : Pixel :=
  let gray := byteAt p.bytes_ 0
  let new_bytes := [gray, gray, gray, junk 3]
  Pixel.new .RGB888 new_bytes junk

/-- `Pixel::Reformat(Format new_fmt)`. -/
def Pixel.Reformat (p : Pixel) (new_fmt : Format) (junk : Nat → Nat) : Pixel :=
  let old_fmt := p.format_
  if old_fmt = new_fmt then
    Pixel.new old_fmt p.bytes_ junk
  else if old_fmt = .RGB888 then
    if new_fmt = .GRAYSCALE then
      p.ConvertRgb888ToGrayscale junk
    else
      p.ConvertRgb888ToRgb565 junk
  else if old_fmt = .RGB565 then
    if new_fmt = .GRAYSCALE then
      (p.ConvertRgb565ToRgb888 junk).ConvertRgb888ToGrayscale junk
    else
      p.ConvertRgb565ToRgb888 junk
  else
    if new_fmt = .RGB888 then
      p.ConvertGrayscaleToRgb888 junk
    else
      (p.ConvertGrayscaleToRgb888 junk).ConvertRgb888ToRgb565 junk

/-- `Pixel::operator==`: the flag starts as the comparison of the formats and
is cleared by every differing byte below `this->GetChannels()`. -/
def Pixel.eq (p q : Pixel) : Bool :=
  let equal := decide (p.GetFormat = q.GetFormat)
  (List.range p.GetChannels).foldl
    (fun equal ch => if byteAt p.GetBytes ch ≠ byteAt q.GetBytes ch then false else equal)
    equal

/-- The RGB888 pixel with channels `r`, `g`, `b` (fourth slot `x`). -/
def rgb888 (r g b x : Nat) : Pixel := { format_ := .RGB888, bytes_ := [r, g, b, x] }

/-- The RGB565 pixel with bytes `lo`, `hi` (remaining slots `x`, `y`). -/
def rgb565 (lo hi x y : Nat) : Pixel := { format_ := .RGB565, bytes_ := [lo, hi, x, y] }

/-! ## Image.h / Image.cpp -/

/-- `image_size_t`. -/
structure image_size_t where
  height : Nat
  width : Nat
  channels : Nat
deriving DecidableEq, Repr

/-- `image_size_t::num_bytes`. -/
def image_size_t.num_bytes (sz : image_size_t) : Nat :=
  sz.height * sz.width * sz.channels

/-- `class Image`: `buffer_` is the allocation the pointer refers to. -/
structure Image where
  height_ : Nat
  width_ : Nat
  format_ : Format
  buffer_ : List Nat
  new_buffer_was_allocated_ : Bool
deriving DecidableEq, Repr

/-- `Image::GetHeight`. -/
def Image.GetHeight (img : Image) : Nat := img.height_

/-- `Image::GetWidth`. -/
def Image.GetWidth (img : Image) : Nat := img.width_

/-- `Image::GetFormat`. -/
def Image.GetFormat (img : Image) : Format := img.format_

/-- `Image::GetBuffer`. -/
def Image.GetBuffer (img : Image) : List Nat := img.buffer_

/-- `Image::GetChannels`. -/
def Image.GetChannels (img : Image) : Nat := img.GetFormat.GetChannels

/-- `Image::GetSize`. -/
def Image.GetSize (img : Image) : image_size_t :=
  { height := img.GetHeight, width := img.GetWidth, channels := img.GetChannels }

/-- `Image::GetBufferSize`. -/
def Image.GetBufferSize (img : Image) : Nat := img.GetSize.num_bytes

/-- `Image::Image` with `Image::AllocateBuffer`: with `buf == nullptr` (`none`)
a fresh array of `GetBufferSize()` bytes is allocated, its content
indeterminate (`junk`); otherwise the caller's array is used as it is. -/
def Image.new (height width : Nat) (fmt : Format) (buf : Option (List Nat))
    (junk : Nat → Nat) : Image :=
  match buf with
  | none =>
    { height_ := height, width_ := width, format_ := fmt
      buffer_ := (List.range (height * width * fmt.GetChannels)).map junk
      new_buffer_was_allocated_ := true }
  | some b =>
    { height_ := height, width_ := width, format_ := fmt
      buffer_ := b
      new_buffer_was_allocated_ := false }

/-- `Image::GetPixelLocation`. -/
def Image.GetPixelLocation (img : Image) (row col : Nat) : Nat :=
  (row * img.GetWidth + col) * img.GetChannels

/-- `Image::GetPixel`: the `Pixel` constructor reads `GetChannels()` bytes
starting at `buffer_ + pix_loc`; a read outside the allocation is `none`. -/
def Image.GetPixel (img : Image) (row col : Nat) (junk : Nat → Nat) : Option Pixel :=
  let pix_loc := img.GetPixelLocation row col
  if pix_loc + img.GetFormat.GetChannels ≤ img.buffer_.length then
    some (Pixel.new img.GetFormat (img.buffer_.drop pix_loc) junk)
  else
    none

/-- One iteration of the loop of `Image::SetPixel`:
`buffer_[pix_loc + ch] = pixel.bytes_[ch]`; a write outside the allocation is
`none`. -/
def Image.writeByte (img : Image) (i : Nat) (v : Nat) : Option Image :=
  if i < img.buffer_.length then
    some { img with buffer_ := img.buffer_.set i v }
  else
    none

/-- `Image::SetPixel`. -/
def Image.SetPixel (img : Image) (row col : Nat) (pixel : Pixel) : Option Image :=
  let channels := img.GetChannels
  let pix_loc := img.GetPixelLocation row col
  (List.range channels).foldlM
    (fun (im : Image) ch => im.writeByte (pix_loc + ch) (byteAt pixel.bytes_ ch)) img

/-- `Image::Reformat`.  The destination buffer is a different allocation from
the source buffer. -/
def Image.Reformat (img : Image) (new_fmt : Format) (buffer : Option (List Nat))
    (junk : Nat → Nat) : Option Image :=
  let new_img := Image.new img.GetHeight img.GetWidth new_fmt buffer junk
  (List.range img.GetHeight).foldlM
    (fun (new_img : Image) row =>
      (List.range img.GetWidth).foldlM
        (fun (new_img : Image) col => do
          let old_pixel ← img.GetPixel row col junk
          let new_pixel := old_pixel.Reformat new_fmt junk
          new_img.SetPixel row col new_pixel)
        new_img)
    new_img

/-- `Image::Crop`.  The destination buffer is a different allocation from the
source buffer. -/
def Image.Crop (img : Image) (top left height width : Nat) (buffer : Option (List Nat))
    (junk : Nat → Nat) : Option Image :=
  let new_fmt := img.GetFormat
  let new_img := Image.new height width new_fmt buffer junk
  (List.range' top height).foldlM
    (fun (new_img : Image) row =>
      (List.range' left width).foldlM
        (fun (new_img : Image) col => do
          let pixel ← img.GetPixel row col junk
          new_img.SetPixel (row - top) (col - left) pixel)
        new_img)
    new_img

/-- `Image::HorizontalFlip` (in place; the result is the receiver after the
loops).  The C++ returns a copy of the receiver (`return *this`); the
lifetime of that copy is not part of this function, see
`Image.DeallocateBuffer`. -/
def Image.HorizontalFlip (img : Image) (junk : Nat → Nat) : Option Image :=
  (List.range img.GetHeight).foldlM
    (fun (img : Image) row =>
      (List.range (img.GetWidth / 2)).foldlM
        (fun (img : Image) col => do
          let pixel1 ← img.GetPixel row col junk
          let pixel2 ← img.GetPixel row (img.GetWidth - col) junk
          let img ← img.SetPixel row (img.GetWidth - col) pixel1
          img.SetPixel row col pixel2)
        img)
    img

/-- `Image::VerticalFlip` (in place; the result is the receiver after the
loops).  The C++ returns a copy of the receiver (`return *this`); the
lifetime of that copy is not part of this function, see
`Image.DeallocateBuffer`. -/
def Image.VerticalFlip (img : Image) (junk : Nat → Nat) : Option Image :=
  (List.range (img.GetHeight / 2)).foldlM
    (fun (img : Image) row =>
      (List.range img.GetWidth).foldlM
        (fun (img : Image) col => do
          let pixel1 ← img.GetPixel row col junk
          let pixel2 ← img.GetPixel (img.GetHeight - row) col junk
          let img ← img.SetPixel (img.GetHeight - row) col pixel1
          img.SetPixel row col pixel2)
        img)
    img

/-- `Image::DeallocateBuffer`, called by the destructor through
`ClearMemory`: `delete[] buffer_` when the image allocated its buffer.  A
released allocation holds no byte.  The class has no copy constructor, so a
copy of an image holds the same `buffer_` pointer and the same flag: the
destructor of the copy that `HorizontalFlip` and `VerticalFlip` return
(`return *this`) releases the buffer of the receiver when the receiver
allocated it. -/
def Image.DeallocateBuffer (img : Image) : Image :=
  if img.new_buffer_was_allocated_ then { img with buffer_ := [] } else img

/-- A grayscale image over the bytes `buf` (caller-supplied buffer). -/
def grayImage (height width : Nat) (buf : List Nat) : Image :=
  Image.new height width .GRAYSCALE (some buf) (fun _ => 0)

/-- State of a destination image after its first `n` pixels (in row-major
order) have been written with the pixels `G 0, ..., G (n - 1)`. -/
def Filled (dst : Image) (G : Nat → Pixel) (n : Nat) (s : Image) : Prop :=
  s.height_ = dst.height_ ∧ s.width_ = dst.width_ ∧ s.format_ = dst.format_ ∧
  s.new_buffer_was_allocated_ = dst.new_buffer_was_allocated_ ∧
  s.buffer_.length = dst.buffer_.length ∧
  (∀ j ch, j < n → ch < dst.format_.GetChannels →
    byteAt s.buffer_ (j * dst.format_.GetChannels + ch) = byteAt (G j).bytes_ ch) ∧
  (∀ i, n * dst.format_.GetChannels ≤ i → byteAt s.buffer_ i = byteAt dst.buffer_ i)

/-- Two images of the same height, width, format and allocation size. -/
def SameShape (a b : Image) : Prop :=
  b.height_ = a.height_ ∧ b.width_ = a.width_ ∧ b.format_ = a.format_ ∧
    b.buffer_.length = a.buffer_.length

/-- `image.HorizontalFlip().HorizontalFlip()`. -/
def Image.HorizontalFlipTwice (img : Image) (junk : Nat → Nat) : Option Image := do
  let img ← img.HorizontalFlip junk
  img.HorizontalFlip junk

/-- `image.VerticalFlip().VerticalFlip()`. -/
def Image.VerticalFlipTwice (img : Image) (junk : Nat → Nat) : Option Image := do
  let img ← img.VerticalFlip junk
  img.VerticalFlip junk

/-! ## Image::Resize

`float` is modelled by exact rational arithmetic: a conversion from an integer
is exact and no operation rounds. -/

/-- `bilinear_interpolation`. -/
def bilinear_interpolation (top_offset left_offset top_left_val top_right_val
    bottom_left_val bottom_right_val : ℚ) : ℚ :=
  top_left_val * (1 - left_offset) * (1 - top_offset) +
  top_right_val * left_offset * (1 - top_offset) +
  bottom_left_val * (1 - left_offset) * top_offset +
  bottom_right_val * left_offset * top_offset

/-- The conversion `(uint8_t) x` of a `float`: truncation toward zero; the
behaviour is undefined (`none`) when the truncated value is not a `uint8_t`. -/
def castToUint8 (x : ℚ) : Option Nat :=
  if -1 < x ∧ x < 256 then some (Rat.floor x).toNat else none

/-- `float top_offset` in `Image::Resize`:
`((float) (row * GetHeight()) / (float) new_height) - float(orig_row)`. -/
def Image.ResizeTopOffset (img : Image) (new_height row orig_row : Nat) : ℚ :=
  ((row * img.GetHeight : Nat) : ℚ) / (new_height : ℚ) - (orig_row : ℚ)

/-- `float left_offset` in `Image::Resize`:
`((float) (row * GetWidth()) / (float) new_width) - float(orig_row)`. -/
def Image.ResizeLeftOffset (img : Image) (new_width row orig_row : Nat) : ℚ :=
  ((row * img.GetWidth : Nat) : ℚ) / (new_width : ℚ) - (orig_row : ℚ)

/-- The loop over the channels in `Image::Resize` that fills the local array
`new_pixel_bytes` (uninitialised before the loop). -/
def Image.ResizeChannels (img : Image) (new_height new_width row orig_row : Nat)
    (top_left_pixel top_right_pixel bottom_left_pixel bottom_right_pixel : Pixel)
    (junk : Nat → Nat) : Option (List Nat) :=
  (List.range img.GetChannels).foldlM
    (fun (new_pixel_bytes : List Nat) ch => do
      let top_offset := img.ResizeTopOffset new_height row orig_row
      let left_offset := img.ResizeLeftOffset new_width row orig_row
      let v ← castToUint8 (bilinear_interpolation top_offset left_offset
        (byteAt top_left_pixel.bytes_ ch : ℚ) (byteAt top_right_pixel.bytes_ ch : ℚ)
        (byteAt bottom_left_pixel.bytes_ ch : ℚ) (byteAt bottom_right_pixel.bytes_ ch : ℚ))
      pure (new_pixel_bytes.set ch v))
    [junk 0, junk 1, junk 2, junk 3]

/-- The body of the two loops of `Image::Resize` up to the construction of
`new_pixel`. -/
def Image.ResizePixel (img : Image) (new_height new_width row col : Nat)
    (junk : Nat → Nat) : Option Pixel := do
  let orig_row := (row * img.GetHeight) / new_height
  let orig_col := (col * img.GetWidth) / new_width
  let top_left_pixel ← img.GetPixel orig_row orig_col junk
  let top_right_pixel ← img.GetPixel orig_row (orig_col + 1) junk
  let bottom_left_pixel ← img.GetPixel (orig_row + 1) orig_col junk
  let bottom_right_pixel ← img.GetPixel (orig_row + 1) (orig_col + 1) junk
  let new_pixel_bytes ← img.ResizeChannels new_height new_width row orig_row
    top_left_pixel top_right_pixel bottom_left_pixel bottom_right_pixel junk
  pure (Pixel.new img.GetFormat new_pixel_bytes junk)

/-- The four source positions that one iteration of the loops of
`Image::Resize` reads with `GetPixel`, in the order of the code: top left,
top right, bottom left, bottom right. -/
def Image.ResizeReads (img : Image) (new_height new_width row col : Nat) : List (Nat × Nat) :=
  let orig_row := (row * img.GetHeight) / new_height
  let orig_col := (col * img.GetWidth) / new_width
  [(orig_row, orig_col), (orig_row, orig_col + 1), (orig_row + 1, orig_col),
    (orig_row + 1, orig_col + 1)]

/-- `Image::Resize`.  The destination buffer is a different allocation from the
source buffer. -/
def Image.Resize (img : Image) (new_height new_width : Nat) (buffer : Option (List Nat))
    (junk : Nat → Nat) : Option Image :=
  let new_img := Image.new new_height new_width img.GetFormat buffer junk
  (List.range new_height).foldlM
    (fun (new_img : Image) row =>
      (List.range new_width).foldlM
        (fun (new_img : Image) col => do
          let new_pixel ← img.ResizePixel new_height new_width row col junk
          new_img.SetPixel row col new_pixel)
        new_img)
    new_img

/-! ## Image::ToString

The result is the sequence of the bytes of the `std::string`. -/

/-- The bytes of a string literal. -/
def literalBytes (s : String) : List Nat := s.toList.map Char.toNat

/-- `std::to_string` of a non-negative integer: its decimal digits. -/
def to_string (n : Nat) : List Nat := (Nat.toDigits 10 n).map Char.toNat

/-- Output of a string under `std::setfill('0') << std::setw(w)`: padded on
the left with `'0'` up to `w` characters, never truncated. -/
def setfill0_setw (w : Nat) (s : List Nat) : List Nat :=
  List.replicate (w - s.length) 48 ++ s

/-- The integer value of a `Pixel::Format` enumerator. -/
def Format.toNat (fmt : Format) : Nat :=
  match fmt with
  | .GRAYSCALE => 0
  | .RGB565 => 1
  | .RGB888 => 2

/-- `Image::ToString`; reading `GetBuffer()[i]` outside the allocation is
`none`. -/
def Image.ToString (img : Image) : Option (List Nat) := do
  let strbuf := literalBytes "height:" ++ setfill0_setw 16 (to_string img.GetHeight)
  let strbuf := strbuf ++ literalBytes "width:" ++ setfill0_setw 16 (to_string img.GetHeight)
  let strbuf := strbuf ++ literalBytes "format:" ++ setfill0_setw 8 (to_string img.GetFormat.toNat)
  (List.range img.GetBufferSize).foldlM
    (fun (strbuf : List Nat) i => do
      let b ← img.GetBuffer[i]?
      pure (strbuf ++ [b]))
    strbuf
/-! ## TFLM_Model.cpp

The interpreter is an external collaborator: `Invoke` maps the content of the
input tensor to `none` when the status is not `kTfLiteOk`, and to the content
of the output tensor otherwise. -/

/-- The value that a 32-bit two's complement `int` holds after an arithmetic
result `x`.  Beyond `INT_MAX` the C++ behaviour is undefined (signed
overflow); the embedding takes the value the hardware produces, which wraps
to the negative range. -/
def int_wrap (x : Int) : Int := (x + 2147483648) % 4294967296 - 2147483648

/-- The fields of an initialised `TFLM_Model` that `RunInference` uses:
`input->bytes`, `input->data.uint8` and the `int inference_count`. -/
structure TFLM_Model where
  input_bytes : Nat
  input_data : List Nat
  inference_count : Int
deriving DecidableEq, Repr

/-- One iteration of the copy loop of `TFLM_Model::RunInference`:
`input->data.uint8[i] = input_buf[i]`. -/
def TFLM_Model.copyByte (input_buf : List Nat) (data : List Nat) (i : Nat) :
    Option (List Nat) := do
  let v ← input_buf[i]?
  if i < data.length then some (data.set i v) else none

/-- `TFLM_Model::RunInference`: the outer `Option` is `none` for an access
outside an array, the first component of the result is the returned pointer
(`none` for `nullptr`). -/
def TFLM_Model.RunInference (m : TFLM_Model) (Invoke : List Nat → Option (List Nat))
    (input_buf : List Nat) : Option (Option (List Nat) × TFLM_Model) := do
  let data ← (List.range m.input_bytes).foldlM (TFLM_Model.copyByte input_buf) m.input_data
  let m := { m with input_data := data }
  match Invoke data with
  | none => pure (none, m)
  | some output =>
    pure (some output, { m with inference_count := int_wrap (m.inference_count + 1) })

/-! ## Ardu_Camera.h / Ardu_Camera.cpp -/

/-- The compile-time constants of `Ardu_Camera` that the scan in `GetData`
uses. -/
structure Config where
  sliding_window_length : Nat
  sliding_window_freq : Nat
  cnn_img_height : Nat
  cnn_img_width : Nat
  cnn_img_fmt : Format
deriving DecidableEq, Repr

/-- `static constexpr int sliding_window_length = 80`. -/
def sliding_window_length : Nat := 80

/-- `static constexpr int sliding_window_freq = sliding_window_length`. -/
def sliding_window_freq : Nat := sliding_window_length

/-- `static constexpr int cnn_img_height = 96`. -/
def cnn_img_height : Nat := 96

/-- `static constexpr int cnn_img_width = 96`. -/
def cnn_img_width : Nat := 96

/-- `static constexpr Pixel::Format cnn_img_fmt = Pixel::GRAYSCALE`. -/
def cnn_img_fmt : Format := .GRAYSCALE

/-- `static constexpr size_t cam_img_height = 240`. -/
def cam_img_height : Nat := 240

/-- `static constexpr size_t cam_img_width = 320`. -/
def cam_img_width : Nat := 320

/-- `static constexpr size_t cam_channels = 2`. -/
def cam_channels : Nat := 2

/-- `static constexpr size_t img_buf_size = cnn_img_height * cnn_img_width * cam_channels`. -/
def img_buf_size : Nat := cnn_img_height * cnn_img_width * cam_channels

/-- `static constexpr Pixel::Format cam_img_fmt = Pixel::RGB565`. -/
def cam_img_fmt : Format := .RGB565

/-- The constants as `Ardu_Camera.h` defines them. -/
def Ardu_Camera.config : Config :=
  { sliding_window_length := sliding_window_length
    sliding_window_freq := sliding_window_freq
    cnn_img_height := cnn_img_height
    cnn_img_width := cnn_img_width
    cnn_img_fmt := cnn_img_fmt }

/-- What the scan does to the outside, in order. -/
inductive Event where
  | crop (row col : Nat)
  | run_inference (output_buf : Option (List Nat))
  | kick
deriving DecidableEq, Repr

/-- The state the scan in `Ardu_Camera::GetData` works on: the two scratch
arrays, the model, the counter `num_people`, and the log of what was done. -/
structure ScanState where
  img_buf_a : List Nat
  img_buf_b : List Nat
  model : TFLM_Model
  num_people : Nat
  trace : List Event
deriving DecidableEq, Repr

/-- The body of the inner loop of the scan in `Ardu_Camera::GetData`, for the
tile at `(row, col)`.  Dereferencing the pointer `output_buf` when it is
`nullptr`, or reading outside the output array, is `none`. -/
def Ardu_Camera.GetData_tile (cfg : Config) (Invoke : List Nat → Option (List Nat))
    (camera_image : Image) (junk : Nat → Nat) (st : ScanState) (row col : Nat) :
    Option ScanState := do
  let cropped_image ← camera_image.Crop row col cfg.sliding_window_length
    cfg.sliding_window_length (some st.img_buf_a) junk
  let formatted_image ← cropped_image.Reformat cfg.cnn_img_fmt (some st.img_buf_b) junk
  let resized_image ← formatted_image.Resize cfg.cnn_img_height cfg.cnn_img_width
    (some cropped_image.GetBuffer) junk
  let result ← st.model.RunInference Invoke resized_image.GetBuffer
  let output_buf ← result.1
  let person_score ← output_buf[1]?
  let no_person_score ← output_buf[2]?
  let person_detected := decide (person_score ≥ no_person_score)
  let num_people := if person_detected then st.num_people + 1 else st.num_people
  pure
    { img_buf_a := resized_image.GetBuffer
      img_buf_b := formatted_image.GetBuffer
      model := result.2
      num_people := num_people
      trace := st.trace ++ [Event.crop row col, Event.run_inference result.1, Event.kick] }

/-- The inner loop of the scan:
`for (col = ...; col + sliding_window_length <= GetWidth(); col += sliding_window_freq)`.
The loop is unrolled at most `fuel` times; `none` when that does not reach
the end of the loop. -/
def Ardu_Camera.GetData_cols (cfg : Config) (Invoke : List Nat → Option (List Nat))
    (camera_image : Image) (junk : Nat → Nat) (row : Nat) :
    Nat → Nat → ScanState → Option ScanState
  | 0, _, _ => none
  | fuel + 1, col, st =>
    if col + cfg.sliding_window_length ≤ camera_image.GetWidth then do
      let st ← Ardu_Camera.GetData_tile cfg Invoke camera_image junk st row col
      Ardu_Camera.GetData_cols cfg Invoke camera_image junk row fuel
        (col + cfg.sliding_window_freq) st
    else
      some st

/-- The outer loop of the scan:
`for (row = ...; row + sliding_window_length <= GetHeight(); row += sliding_window_length)`. -/
def Ardu_Camera.GetData_rows (cfg : Config) (Invoke : List Nat → Option (List Nat))
    (camera_image : Image) (junk : Nat → Nat) (col_fuel : Nat) :
    Nat → Nat → ScanState → Option ScanState
  | 0, _, _ => none
  | fuel + 1, row, st =>
    if row + cfg.sliding_window_length ≤ camera_image.GetHeight then do
      let st ← Ardu_Camera.GetData_cols cfg Invoke camera_image junk row col_fuel 0 st
      Ardu_Camera.GetData_rows cfg Invoke camera_image junk col_fuel fuel
        (row + cfg.sliding_window_length) st
    else
      some st

/-- The scan in `Ardu_Camera::GetData`: `num_people = 0`, then the two loops. -/
def Ardu_Camera.GetData_scan (cfg : Config) (Invoke : List Nat → Option (List Nat))
    (camera_image : Image) (junk : Nat → Nat) (fuel : Nat)
    (img_buf_a img_buf_b : List Nat) (model : TFLM_Model) : Option ScanState :=
  Ardu_Camera.GetData_rows cfg Invoke camera_image junk fuel fuel 0
    { img_buf_a := img_buf_a, img_buf_b := img_buf_b, model := model
      num_people := 0, trace := [] }

/-- The tile origins the scan cropped, in order. -/
def cropOrigins (trace : List Event) : List (Nat × Nat) :=
  trace.filterMap (fun e => match e with
    | .crop row col => some (row, col)
    | _ => none)

/-- A small configuration: tiles of edge 2 every 1 pixel, model input 1 x 1
grayscale. -/
def smallConfig : Config :=
  { sliding_window_length := 2, sliding_window_freq := 1
    cnn_img_height := 1, cnn_img_width := 1, cnn_img_fmt := .GRAYSCALE }

/-! ## Vocabulary for the log of a scan -/

/-- The test `output_buf[1] >= output_buf[2]` of `GetData` on a score array. -/
def isDetection (output_buf : List Nat) : Bool :=
  decide (byteAt output_buf 1 ≥ byteAt output_buf 2)

/-- The events of one tile: the crop at `(row, col)`, the inference call with
the pointer it returned, the kick. -/
def tileEvents (t : Nat × Nat × Option (List Nat)) : List Event :=
  [Event.crop t.1 t.2.1, Event.run_inference t.2.2, Event.kick]

/-- Number of inference calls in a log that returned scores with
`scores[1] >= scores[2]`. -/
def detections (trace : List Event) : Nat :=
  (trace.filter (fun e => match e with
    | .run_inference (some output_buf) => isDetection output_buf
    | _ => false)).length

/-- Number of `RunInference` calls in a log. -/
def inferenceCalls (trace : List Event) : Nat :=
  (trace.filter (fun e => match e with
    | .run_inference _ => true
    | _ => false)).length

/-- Number of watchdog kicks in a log. -/
def kicks (trace : List Event) : Nat :=
  (trace.filter (fun e => match e with
    | .kick => true
    | _ => false)).length

/-- The values of a loop variable that starts at `start`, advances by `step`,
and runs while `i + length <= bound` (at most `fuel` iterations). -/
def loopOrigins (length step bound : Nat) : Nat → Nat → List Nat
  | 0, _ => []
  | fuel + 1, i =>
    if i + length ≤ bound then i :: loopOrigins length step bound fuel (i + step) else []

/-- The tile origins of the two loops of the scan, in the order of the
iterations: the rows advance by `sliding_window_length`, the columns by
`sliding_window_freq`. -/
def scanOrigins (cfg : Config) (height width fuel : Nat) : List (Nat × Nat) :=
  (loopOrigins cfg.sliding_window_length cfg.sliding_window_length height fuel 0).flatMap
    (fun row =>
      (loopOrigins cfg.sliding_window_length cfg.sliding_window_freq width fuel 0).map
        (fun col => (row, col)))

/-- Every element of the array is a byte value. -/
def BytesValid (bytes : List Nat) : Prop := ∀ i, byteAt bytes i < 256

/-- What the loop body of the scan needs of the scratch arrays and the model,
for scratch arrays of `size_a` and `size_b` bytes: the sizes do not change,
`img_buf_b` holds byte values, and the input tensor is not larger than
`img_buf_a` nor than its own storage. -/
def ScanReady (size_a size_b : Nat) (st : ScanState) : Prop :=
  st.img_buf_a.length = size_a ∧ st.img_buf_b.length = size_b ∧
  BytesValid st.img_buf_b ∧
  st.model.input_bytes ≤ size_a ∧ st.model.input_bytes ≤ st.model.input_data.length

/-- The loop body has completed on the tiles with the origins `origins`, in
this order, taking the state `st` to `st2`: there is one score array (of at
least three entries) per tile, the log has grown by the events of these
tiles, and `num_people` by the number of score arrays with
`scores[1] >= scores[2]`. -/
def Scanned (origins : List (Nat × Nat)) (st st2 : ScanState) : Prop :=
  ∃ outs : List (List Nat), outs.length = origins.length ∧
    (∀ out ∈ outs, 3 ≤ out.length) ∧
    st2.trace = st.trace ++
      (List.zip origins outs).flatMap (fun p => tileEvents (p.1.1, p.1.2, some p.2)) ∧
    st2.num_people = st.num_people + (outs.filter isDetection).length

/-- What the scan needs of the constants, the interpreter and the frame, for
scratch arrays of `size_a` and `size_b` bytes: the frame's allocation holds
its `GetBufferSize()` byte values; tile edge and stride are at least 1; a
tile in the frame's format and the model input fit `img_buf_a`; a tile in the
model's format, with the `sliding_window_length + 1` pixels behind it that
`Resize` reads, fits `img_buf_b`; the model input is square; the interpreter
reports success with at least three scores. -/
def ScanSetup (cfg : Config) (Invoke : List Nat → Option (List Nat)) (camera_image : Image)
    (size_a size_b : Nat) : Prop :=
  camera_image.GetBufferSize ≤ camera_image.buffer_.length ∧
  BytesValid camera_image.buffer_ ∧
  1 ≤ cfg.sliding_window_length ∧
  1 ≤ cfg.sliding_window_freq ∧
  cfg.sliding_window_length * cfg.sliding_window_length
    * camera_image.GetFormat.GetChannels ≤ size_a ∧
  cfg.cnn_img_height * cfg.cnn_img_width * cfg.cnn_img_fmt.GetChannels ≤ size_a ∧
  (cfg.sliding_window_length * cfg.sliding_window_length + cfg.sliding_window_length + 1)
    * cfg.cnn_img_fmt.GetChannels ≤ size_b ∧
  cfg.cnn_img_height = cfg.cnn_img_width ∧
  ∀ x, ∃ out, Invoke x = some out ∧ 3 ≤ out.length

/-! ## The arrays of Ardu_Camera that hold image data -/

/-- The arrays `camera_buf`, `img_buf_a` and `img_buf_b` of `Ardu_Camera`. -/
inductive Ardu_Camera.Buffer where
  | camera_buf
  | img_buf_a
  | img_buf_b
deriving DecidableEq, Repr

/-- The declared number of elements of each array:
`camera_buf[cam_img_height * cam_img_width * cam_channels]`,
`img_buf_a[img_buf_size]`, `img_buf_b[img_buf_size]`. -/
def Ardu_Camera.Buffer.size (buf : Ardu_Camera.Buffer) : Nat :=
  match buf with
  | .camera_buf => cam_img_height * cam_img_width * cam_channels
  | .img_buf_a => img_buf_size
  | .img_buf_b => img_buf_size

/-- The array a stage of the loop body reads its source image from and the
array it is given for its result. -/
structure Ardu_Camera.Stage where
  source : Ardu_Camera.Buffer
  destination : Ardu_Camera.Buffer
deriving DecidableEq, Repr

/-- The three stages of the loop body of the scan in `Ardu_Camera::GetData`:
`camera_image.Crop(..., img_buf_a)`, where `camera_image` is a copy of
`image_` and shares its buffer `camera_buf`;
`cropped_image.Reformat(cnn_img_fmt, img_buf_b)`;
`formatted_image.Resize(cnn_img_height, cnn_img_width, img_buf_a)`. -/
def Ardu_Camera.GetData_stages : List Ardu_Camera.Stage :=
  [ { source := .camera_buf, destination := .img_buf_a },
    { source := .img_buf_a, destination := .img_buf_b },
    { source := .img_buf_b, destination := .img_buf_a } ]

/-! ## compute_uint8_tensor_size (TFLM_Model.cpp) -/

/-- `TfLiteIntArray`: the field `size` and the array `data` (the allocation
the flexible array member refers to). -/
structure TfLiteIntArray where
  size : Nat
  data : List Nat
deriving DecidableEq, Repr

/-- `compute_uint8_tensor_size`, on the field `dims` of the tensor:
`tensor_size = tensor_size * tensor->dims->data[num_dims]` for every
`i < num_dims`, and the result is `tensor_size * sizeof(uint8_t)`.  A read
outside the array `data` is `none`. -/
def compute_uint8_tensor_size (dims : TfLiteIntArray) : Option Nat := do
  let num_dims := dims.size
  let tensor_size ← (List.range num_dims).foldlM
    (fun (tensor_size : Nat) (_ : Nat) => do
      let d ← dims.data[num_dims]?
      pure (tensor_size * d))
    1
  pure (tensor_size * 1)

/-- `Image::ResizeNearest`.  The destination buffer is a different allocation
from the source buffer.  (The local array `pixel_bytes` of the loop body is
never used.) -/
def Image.ResizeNearest (img : Image) (new_height new_width : Nat)
    (buffer : Option (List Nat)) (junk : Nat → Nat) : Option Image :=
  let new_img := Image.new new_height new_width img.GetFormat buffer junk
  (List.range new_height).foldlM
    (fun (new_img : Image) row =>
      (List.range new_width).foldlM
        (fun (new_img : Image) col => do
          let orig_nearest_row := (row * img.GetHeight) / new_height
          let orig_nearest_col := (row * img.GetWidth) / new_width
          let pixel ← img.GetPixel orig_nearest_row orig_nearest_col junk
          new_img.SetPixel row col pixel)
        new_img)
    new_img

/-! ## is_all_black, ReadImage and GetData (Ardu_Camera.cpp) -/

/-- `is_all_black`: the flag starts as `true` and is cleared by every pixel
that does not compare equal to the black pixel; a read outside the
allocation of the image is `none`. -/
def is_all_black (image : Image) (junk : Nat → Nat) : Option Bool :=
  let all_black := true
  let zero_bytes := (List.range MAX_PIXEL_BYTES).foldl
    (fun (zero_bytes : List Nat) pos => zero_bytes.set pos 0) [junk 0, junk 1, junk 2, junk 3]
  let black_pixel := (Pixel.new .RGB888 zero_bytes junk).Reformat image.GetFormat junk
  (List.range image.GetHeight).foldlM
    (fun (all_black : Bool) row =>
      (List.range image.GetWidth).foldlM
        (fun (all_black : Bool) col => do
          let pixel ← image.GetPixel row col junk
          pure (if !(pixel.eq black_pixel) then false else all_black))
        all_black)
    all_black

/-- What `Ardu_Camera::ReadImage` works on: the image `image_`, the local
array `bytes`, and the number of calls of `read_fifo` so far. -/
structure ReadImageState where
  image_ : Image
  bytes : List Nat
  fifo_reads : Nat
deriving DecidableEq, Repr

/-- The loop over the channels in `Ardu_Camera::ReadImage`:
`bytes[ch] = arducam_.read_fifo()`.  The capture FIFO is an external
collaborator: `read_fifo n` is the byte that the call number `n` (counted
from 0 after `flush_fifo`) returns. -/
def Ardu_Camera.ReadImage_channels (read_fifo : Nat → Nat) (st : ReadImageState) :
    ReadImageState :=
  (List.range st.image_.GetChannels).foldl
    (fun (st : ReadImageState) ch =>
      { st with bytes := st.bytes.set ch (read_fifo st.fifo_reads)
                fifo_reads := st.fifo_reads + 1 })
    st

/-- `Ardu_Camera::ReadImage`: the result is `image_` afterwards and the number
of bytes read from the FIFO. -/
def Ardu_Camera.ReadImage (image_ : Image) (read_fifo : Nat → Nat) (junk : Nat → Nat) :
    Option (Image × Nat) := do
  let st : ReadImageState :=
    { image_ := image_, bytes := [junk 0, junk 1, junk 2, junk 3], fifo_reads := 0 }
  let st ← (List.range image_.GetHeight).foldlM
    (fun (st : ReadImageState) row =>
      (List.range st.image_.GetWidth).foldlM
        (fun (st : ReadImageState) col => do
          let st := Ardu_Camera.ReadImage_channels read_fifo st
          let pixel := Pixel.new st.image_.GetFormat st.bytes junk
          let image_ ← st.image_.SetPixel row col pixel
          pure { st with image_ := image_ })
        st)
    st
  pure (st.image_, st.fifo_reads)

/-- Modelled from the spec: the status that `GetData` of a `SensorType`
returns (`sensor_type.h` is not part of the sources); `DATA_OK` and
`DISCONNECT` are the two values that `Ardu_Camera.cpp` names. -/
inductive SensorStatus where
  | DATA_OK
  | DISCONNECT
deriving DecidableEq, Repr

/-- Modelled from the spec: `IntToString` of `conversions.h` (not part of the
sources), the decimal text of a non-negative integer. -/
def IntToString (n : Nat) : List Nat := to_string n

/-- `Ardu_Camera::Capture`: after `clear_fifo_flag()` and `start_capture()`,
`while (!(arducam_.get_bit(ARDUCHIP_TRIG, CAP_DONE_MASK))) sleep_for(50)`.
The camera is an external collaborator: `cap_done n` is what the call number
`n` of `get_bit` returns.  The loop is unrolled at most `fuel` times; `none`
when that does not reach the end of the loop.  The result is the number of
calls of `sleep_for`. -/
def Ardu_Camera.Capture (cap_done : Nat → Bool) : Nat → Nat → Option Nat
  | 0, _ => none
  | fuel + 1, polls =>
    if !(cap_done polls) then
      Ardu_Camera.Capture cap_done fuel (polls + 1)
    else
      some polls

/-- `Ardu_Camera::GetData`: `Capture`, `ReadImage`, the test `is_all_black`
(its result is only logged), the scan, `push_back` of the pair of key and
value, the read of `data_list[0]` for the log, `return DATA_OK`.  The result
is the status, `data_list` afterwards, `image_` afterwards and the state of
the scan. -/
def Ardu_Camera.GetData (cfg : Config) (Invoke : List Nat → Option (List Nat))
    (cap_done : Nat → Bool) (read_fifo : Nat → Nat) (image_ : Image) (junk : Nat → Nat)
    (cap_fuel fuel : Nat) (img_buf_a img_buf_b : List Nat) (model : TFLM_Model)
    (data_list : List (List Nat × List Nat)) :
    Option (SensorStatus × List (List Nat × List Nat) × Image × ScanState) :=
  if false then
    pure (SensorStatus.DISCONNECT, data_list, image_,
      { img_buf_a := img_buf_a, img_buf_b := img_buf_b, model := model
        num_people := 0, trace := [] })
  else do
    let _ ← Ardu_Camera.Capture cap_done cap_fuel 0
    let read ← Ardu_Camera.ReadImage image_ read_fifo junk
    let image_ := read.1
    let _ ← is_all_black image_ junk
    let camera_image := image_
    let st ← Ardu_Camera.GetData_scan cfg Invoke camera_image junk fuel img_buf_a img_buf_b
      model
    let data_list := data_list ++
      [(literalBytes "num_people_in_image", IntToString st.num_people)]
    let _ ← data_list[0]?
    pure (SensorStatus.DATA_OK, data_list, image_, st)

/-! ## The calls of a scan that does not complete

`Ardu_Camera.GetData_tile` gives no state when the loop body accesses memory
outside an array or dereferences `nullptr`.  The functions of this section
give the calls that the program has made to the outside up to that point. -/

/-- The calls of the body of the inner loop for the tile at `(row, col)`, up
to its end or to the access that `Ardu_Camera.GetData_tile` maps to `none`:
the crop; the inference call, once the three images exist and `RunInference`
has returned; the kick, once `output_buf[1]` and `output_buf[2]` have been
read. -/
def Ardu_Camera.GetData_tile_events (cfg : Config) (Invoke : List Nat → Option (List Nat))
    (camera_image : Image) (junk : Nat → Nat) (st : ScanState) (row col : Nat) : List Event :=
  Event.crop row col ::
    match (do
      let cropped_image ← camera_image.Crop row col cfg.sliding_window_length
        cfg.sliding_window_length (some st.img_buf_a) junk
      let formatted_image ← cropped_image.Reformat cfg.cnn_img_fmt (some st.img_buf_b) junk
      formatted_image.Resize cfg.cnn_img_height cfg.cnn_img_width
        (some cropped_image.GetBuffer) junk) with
    | none => []
    | some resized_image =>
      match st.model.RunInference Invoke resized_image.GetBuffer with
      | none => []
      | some result =>
        Event.run_inference result.1 ::
          match (do
            let output_buf ← result.1
            let _ ← output_buf[1]?
            output_buf[2]?) with
          | none => []
          | some _ => [Event.kick]

/-- The calls of the inner loop of the scan; they end with the first loop
body that does not complete. -/
def Ardu_Camera.GetData_cols_events (cfg : Config) (Invoke : List Nat → Option (List Nat))
    (camera_image : Image) (junk : Nat → Nat) (row : Nat) :
    Nat → Nat → ScanState → List Event
  | 0, _, _ => []
  | fuel + 1, col, st =>
    if col + cfg.sliding_window_length ≤ camera_image.GetWidth then
      Ardu_Camera.GetData_tile_events cfg Invoke camera_image junk st row col ++
        match Ardu_Camera.GetData_tile cfg Invoke camera_image junk st row col with
        | none => []
        | some st =>
          Ardu_Camera.GetData_cols_events cfg Invoke camera_image junk row fuel
            (col + cfg.sliding_window_freq) st
    else
      []

/-- The calls of the outer loop of the scan; they end with the first inner
loop that does not complete. -/
def Ardu_Camera.GetData_rows_events (cfg : Config) (Invoke : List Nat → Option (List Nat))
    (camera_image : Image) (junk : Nat → Nat) (col_fuel : Nat) :
    Nat → Nat → ScanState → List Event
  | 0, _, _ => []
  | fuel + 1, row, st =>
    if row + cfg.sliding_window_length ≤ camera_image.GetHeight then
      Ardu_Camera.GetData_cols_events cfg Invoke camera_image junk row col_fuel 0 st ++
        match Ardu_Camera.GetData_cols cfg Invoke camera_image junk row col_fuel 0 st with
        | none => []
        | some st =>
          Ardu_Camera.GetData_rows_events cfg Invoke camera_image junk col_fuel fuel
            (row + cfg.sliding_window_length) st
    else
      []

/-- The calls of the scan in `Ardu_Camera::GetData`, whether it completes or
not. -/
def Ardu_Camera.GetData_scan_events (cfg : Config) (Invoke : List Nat → Option (List Nat))
    (camera_image : Image) (junk : Nat → Nat) (fuel : Nat)
    (img_buf_a img_buf_b : List Nat) (model : TFLM_Model) : List Event :=
  Ardu_Camera.GetData_rows_events cfg Invoke camera_image junk fuel fuel 0
    { img_buf_a := img_buf_a, img_buf_b := img_buf_b, model := model
      num_people := 0, trace := [] }

/-! ## The input tensor and the scores of a tile -/

/-- The content of the input tensor with which the body of the inner loop of
the scan calls the interpreter for the tile at `(row, col)`: the three images
of the loop body, then the copy loop of `TFLM_Model::RunInference` on
`resized_image.GetBuffer()`. -/
def Ardu_Camera.GetData_input (cfg : Config) (camera_image : Image) (junk : Nat → Nat)
    (st : ScanState) (row col : Nat) : Option (List Nat) := do
  let cropped_image ← camera_image.Crop row col cfg.sliding_window_length
    cfg.sliding_window_length (some st.img_buf_a) junk
  let formatted_image ← cropped_image.Reformat cfg.cnn_img_fmt (some st.img_buf_b) junk
  let resized_image ← formatted_image.Resize cfg.cnn_img_height cfg.cnn_img_width
    (some cropped_image.GetBuffer) junk
  (List.range st.model.input_bytes).foldlM (TFLM_Model.copyByte resized_image.GetBuffer)
    st.model.input_data

/-- The score array that the interpreter returns for the tile at
`(row, col)`: `Invoke` on the input tensor of the tile (`none` for
`nullptr`). -/
def Ardu_Camera.GetData_scores (cfg : Config) (Invoke : List Nat → Option (List Nat))
    (camera_image : Image) (junk : Nat → Nat) (st : ScanState) (row col : Nat) :
    Option (List Nat) :=
  (Ardu_Camera.GetData_input cfg camera_image junk st row col).bind Invoke

/-- The test `output_buf[1] >= output_buf[2]` on the score array of the tile
with the origin `origin`. -/
def Ardu_Camera.GetData_detected (cfg : Config) (Invoke : List Nat → Option (List Nat))
    (camera_image : Image) (junk : Nat → Nat) (st : ScanState) (origin : Nat × Nat) : Bool :=
  match Ardu_Camera.GetData_scores cfg Invoke camera_image junk st origin.1 origin.2 with
  | some output_buf => isDetection output_buf
  | none => false

/-- The part of the state of the scan, besides the frame, that the input
tensor of a tile depends on, is in `st` as in `st0`: the sizes of the scratch
arrays, `img_buf_b` behind the reformatted tile, the size of the input tensor
and its storage behind the bytes that are copied. -/
def SameTail (cfg : Config) (st0 st : ScanState) : Prop :=
  st.img_buf_a.length = st0.img_buf_a.length ∧
  st.img_buf_b.length = st0.img_buf_b.length ∧
  (∀ i, cfg.sliding_window_length * cfg.sliding_window_length * cfg.cnn_img_fmt.GetChannels ≤ i →
    byteAt st.img_buf_b i = byteAt st0.img_buf_b i) ∧
  st.model.input_bytes = st0.model.input_bytes ∧
  st.model.input_data.length = st0.model.input_data.length ∧
  (∀ i, st0.model.input_bytes ≤ i →
    byteAt st.model.input_data i = byteAt st0.model.input_data i)

/-- The value of a `size_t` of `bits` bits after an arithmetic result `x`:
unsigned arithmetic wraps modulo `2 ^ bits`. -/
def size_t_wrap (bits : Nat) (x : Nat) : Nat := x % 2 ^ bits

/-- `image_size_t::num_bytes`, `height * width * channels`, in the arithmetic
of a `size_t` of `bits` bits. -/
def image_size_t.num_bytes_size_t (bits : Nat) (sz : image_size_t) : Nat :=
  size_t_wrap bits (size_t_wrap bits (sz.height * sz.width) * sz.channels)

/-- `Image::GetBufferSize` in the arithmetic of a `size_t` of `bits` bits. -/
def Image.GetBufferSize_size_t (bits : Nat) (img : Image) : Nat :=
  img.GetSize.num_bytes_size_t bits

/-- `Image::GetPixelLocation`, `(row * GetWidth() + col) * GetChannels()`, in
the arithmetic of a `size_t` of `bits` bits. -/
def Image.GetPixelLocation_size_t (bits : Nat) (img : Image) (row col : Nat) : Nat :=
  size_t_wrap bits
    (size_t_wrap bits (size_t_wrap bits (row * img.GetWidth) + col) * img.GetChannels)

/-! ## Bit-level facts about single bytes -/

set_option maxRecDepth 1000000 in
theorem and_f8_eq : ∀ r < 256, r &&& 0xf8 = 2 ^ 3 * (r / 8) := by decide

set_option maxRecDepth 1000000 in
theorem and_fc_eq : ∀ g < 256, g &&& 0xfc = 4 * (g / 4) := by decide

set_option maxRecDepth 1000000 in
theorem shl3_and_e0_eq : ∀ g < 256, (g <<< 3) &&& 0xE0 = 2 ^ 5 * (g / 4 % 8) := by decide

set_option maxRecDepth 1000000 in
theorem and_f8_shr3_eq : ∀ b < 256, (b &&& 0xf8) >>> 3 = b / 8 := by decide

set_option maxRecDepth 1000000 in
theorem f8_and_eq : ∀ hi < 256, 0xF8 &&& hi = 8 * (hi / 8) := by decide

set_option maxRecDepth 1000000 in
theorem seven_and_shl5_eq : ∀ hi < 256, (0x07 &&& hi) <<< 5 = 2 ^ 5 * (hi % 8) := by decide

set_option maxRecDepth 1000000 in
theorem e0_and_shr3_eq : ∀ lo < 256, (0xE0 &&& lo) >>> 3 = 4 * (lo / 32) := by decide

set_option maxRecDepth 1000000 in
theorem x1f_and_shl3_eq : ∀ lo < 256, (0x1F &&& lo) <<< 3 = 8 * (lo % 32) := by decide

/-- The high byte `(r AND 0xF8) OR (g >> 5)` in arithmetic form. -/
theorem or_hi_eq (r g : Nat) (hr : r < 256) (hg : g < 256) :
    (r &&& 0xf8) ||| (g >>> 5) = 8 * (r / 8) + g / 32 := by
  have h1 := and_f8_eq r hr
  have h2 : g >>> 5 = g / 32 := by rw [Nat.shiftRight_eq_div_pow]
  have h3 : g / 32 < 2 ^ 3 := by omega
  rw [h1, h2, ← Nat.mul_add_lt_is_or h3]

/-- The low byte `((g << 3) AND 0xE0) OR (b >> 3)` in arithmetic form. -/
theorem or_lo_eq (g b : Nat) (hg : g < 256) (hb : b < 256) :
    ((g <<< 3) &&& 0xE0) ||| (b >>> 3) = 32 * (g / 4 % 8) + b / 8 := by
  have h1 := shl3_and_e0_eq g hg
  have h2 : b >>> 3 = b / 8 := by rw [Nat.shiftRight_eq_div_pow]
  have h3 : b / 8 < 2 ^ 5 := by omega
  rw [h1, h2, ← Nat.mul_add_lt_is_or h3]

/-- The green channel `((hi AND 7) << 5) OR ((lo AND 0xE0) >> 3)` in arithmetic form. -/
theorem or_green_eq (lo hi : Nat) (hlo : lo < 256) (hhi : hi < 256) :
    ((0x07 &&& hi) <<< 5) ||| ((0xE0 &&& lo) >>> 3) = 32 * (hi % 8) + 4 * (lo / 32) := by
  have h1 := seven_and_shl5_eq hi hhi
  have h2 := e0_and_shr3_eq lo hlo
  have h3 : 4 * (lo / 32) < 2 ^ 5 := by omega
  rw [h1, h2, ← Nat.mul_add_lt_is_or h3]

/-- High byte written by `ConvertRgb888ToRgb565`, in arithmetic form. -/
theorem enc_hi_eq (r g : Nat) (hr : r < 256) (hg : g < 256) :
    ((r &&& 0xf8) % 256 ||| (g >>> 5)) % 256 = 8 * (r / 8) + g / 32 := by
  have h1 := and_f8_eq r hr
  have h4 : (r &&& 0xf8) % 256 = r &&& 0xf8 := Nat.mod_eq_of_lt (by omega)
  rw [h4, or_hi_eq r g hr hg]
  omega

/-- Low byte written by `ConvertRgb888ToRgb565`, in arithmetic form. -/
theorem enc_lo_eq (g b : Nat) (hg : g < 256) (hb : b < 256) :
    (((g <<< 3) &&& 0xE0) % 256 ||| ((b &&& 0xf8) >>> 3)) % 256 = 32 * (g / 4 % 8) + b / 8 := by
  have h1 := shl3_and_e0_eq g hg
  have h2 := and_f8_shr3_eq b hb
  have h3 : b >>> 3 = b / 8 := by rw [Nat.shiftRight_eq_div_pow]
  have h4 : ((g <<< 3) &&& 0xE0) % 256 = (g <<< 3) &&& 0xE0 := Nat.mod_eq_of_lt (by omega)
  rw [h4, h2, ← h3, or_lo_eq g b hg hb]
  omega

/-- Green channel computed by `ConvertRgb565ToRgb888`, in arithmetic form. -/
theorem dec_green_eq (lo hi : Nat) (hlo : lo < 256) (hhi : hi < 256) :
    (((0x07 &&& hi) <<< 5) ||| ((0xE0 &&& lo) >>> 3)) % 256 = 32 * (hi % 8) + 4 * (lo / 32) := by
  rw [or_green_eq lo hi hlo hhi]
  omega

/-! ## Pixel codec -/

theorem Pixel_new_eq (fmt : Format) (bytes : List Nat) (junk : Nat → Nat) :
    Pixel.new fmt bytes junk =
      { format_ := fmt
        bytes_ := [if 0 < fmt.GetChannels then byteAt bytes 0 else junk 0,
                   if 1 < fmt.GetChannels then byteAt bytes 1 else junk 1,
                   if 2 < fmt.GetChannels then byteAt bytes 2 else junk 2,
                   if 3 < fmt.GetChannels then byteAt bytes 3 else junk 3] } := rfl

theorem ConvertRgb888ToRgb565_eq (r g b x : Nat) (junk : Nat → Nat)
    (hr : r < 256) (hg : g < 256) (hb : b < 256) :
    (rgb888 r g b x).ConvertRgb888ToRgb565 junk =
      rgb565 (32 * (g / 4 % 8) + b / 8) (8 * (r / 8) + g / 32) (junk 2) (junk 3) := by
  simp only [Pixel.ConvertRgb888ToRgb565, Pixel_new_eq, Format.GetChannels, rgb888, rgb565]
  have e0 : byteAt [r, g, b, x] 0 = r := rfl
  have e1 : byteAt [r, g, b, x] 1 = g := rfl
  have e2 : byteAt [r, g, b, x] 2 = b := rfl
  rw [e0, e1, e2, enc_hi_eq _ _ hr hg, enc_lo_eq _ _ hg hb]
  simp [byteAt]

theorem ConvertRgb565ToRgb888_eq (lo hi x y : Nat) (junk : Nat → Nat)
    (hlo : lo < 256) (hhi : hi < 256) :
    (rgb565 lo hi x y).ConvertRgb565ToRgb888 junk =
      rgb888 (8 * (hi / 8)) (32 * (hi % 8) + 4 * (lo / 32)) (8 * (lo % 32)) (junk 3) := by
  simp only [Pixel.ConvertRgb565ToRgb888, Pixel_new_eq, Format.GetChannels, rgb888, rgb565]
  have e0 : byteAt [lo, hi, x, y] 0 = lo := rfl
  have e1 : byteAt [lo, hi, x, y] 1 = hi := rfl
  rw [e0, e1, dec_green_eq _ _ hlo hhi, f8_and_eq _ hhi, x1f_and_shl3_eq _ hlo]
  have h1 : 8 * (hi / 8) % 256 = 8 * (hi / 8) := by omega
  have h2 : 8 * (lo % 32) % 256 = 8 * (lo % 32) := by omega
  rw [h1, h2]
  simp [byteAt]

/-- C1: for every RGB888 pixel `(r, g, b)`, `Reformat(RGB565)` followed by
`Reformat(RGB888)` is the RGB888 pixel `(r AND 0xF8, g AND 0xFC, b AND 0xF8)`
(the fourth, unused slot is whatever the constructor left there). -/
theorem C1_rgb888_rgb565_rgb888 (r g b x : Nat) (junk junk2 : Nat → Nat)
    (hr : r < 256) (hg : g < 256) (hb : b < 256) :
    ((rgb888 r g b x).Reformat .RGB565 junk).Reformat .RGB888 junk2 =
      rgb888 (r &&& 0xF8) (g &&& 0xFC) (b &&& 0xF8) (junk2 3) := by
  have h1 : (rgb888 r g b x).Reformat .RGB565 junk = (rgb888 r g b x).ConvertRgb888ToRgb565 junk := by
    simp [Pixel.Reformat, rgb888]
  rw [h1, ConvertRgb888ToRgb565_eq r g b x junk hr hg hb]
  have h2 : ∀ lo hi, (rgb565 lo hi (junk 2) (junk 3)).Reformat .RGB888 junk2 =
      (rgb565 lo hi (junk 2) (junk 3)).ConvertRgb565ToRgb888 junk2 := by
    intro lo hi; simp [Pixel.Reformat, rgb565]
  rw [h2, ConvertRgb565ToRgb888_eq _ _ _ _ _ (by omega) (by omega)]
  have a0 := and_f8_eq r hr
  have a1 := and_fc_eq g hg
  have a2 := and_f8_eq b hb
  simp only [rgb888, Pixel.mk.injEq, List.cons.injEq, true_and, and_true]
  refine ⟨?_, ?_, ?_⟩ <;> omega

/-- C1 at `(255, 0, 0)` and at `(248, 0, 0)`: both round-trip to `(248, 0, 0)`. -/
theorem C1_rgb888_rgb565_rgb888_witness :
    ((rgb888 255 0 0 0).Reformat .RGB565 (fun _ => 0)).Reformat .RGB888 (fun _ => 0)
      = rgb888 248 0 0 0 ∧
    ((rgb888 248 0 0 0).Reformat .RGB565 (fun _ => 0)).Reformat .RGB888 (fun _ => 0)
      = rgb888 248 0 0 0 :=
  ⟨C1_rgb888_rgb565_rgb888 255 0 0 0 (fun _ => 0) (fun _ => 0) (by decide) (by decide) (by decide),
   C1_rgb888_rgb565_rgb888 248 0 0 0 (fun _ => 0) (fun _ => 0) (by decide) (by decide) (by decide)⟩

/-- The packed 16-bit RGB565 value, in arithmetic form. -/
theorem packed565_eq (r g b : Nat) (hg : g < 256) (hb : b < 256) :
    ((r >>> 3) <<< 11) ||| ((g >>> 2) <<< 5) ||| (b >>> 3) =
      2048 * (r / 8) + 32 * (g / 4) + b / 8 := by
  have h1 : (r >>> 3) <<< 11 = 2 ^ 11 * (r / 8) := by
    rw [Nat.shiftLeft_eq, Nat.shiftRight_eq_div_pow, Nat.mul_comm]
  have h2 : (g >>> 2) <<< 5 = 2 ^ 5 * (g / 4) := by
    rw [Nat.shiftLeft_eq, Nat.shiftRight_eq_div_pow, Nat.mul_comm]
  have h3 : b >>> 3 = b / 8 := by rw [Nat.shiftRight_eq_div_pow]
  have h4 : 2 ^ 5 * (g / 4) < 2 ^ 11 := by omega
  have h5 : b / 8 < 2 ^ 5 := by omega
  have h6 : 2 ^ 11 * (r / 8) + 2 ^ 5 * (g / 4) = 2 ^ 5 * (64 * (r / 8) + g / 4) := by omega
  rw [h1, h2, h3, ← Nat.mul_add_lt_is_or h4, h6, ← Nat.mul_add_lt_is_or h5]
  omega

/-- C2: for every RGB888 pixel `(r, g, b)`, `Reformat(RGB565)` is the RGB565
pixel whose bytes are `[low, high]` with `high = (r AND 0xF8) OR (g >> 5)` and
`low = ((g << 3) AND 0xE0) OR (b >> 3)`; read as a little-endian 16-bit value
the two bytes are `((r >> 3) << 11) OR ((g >> 2) << 5) OR (b >> 3)`. -/
theorem C2_rgb888_to_rgb565 (r g b x : Nat) (junk : Nat → Nat)
    (hr : r < 256) (hg : g < 256) (hb : b < 256) :
    (rgb888 r g b x).Reformat .RGB565 junk =
        rgb565 (((g <<< 3) &&& 0xE0) ||| (b >>> 3)) ((r &&& 0xF8) ||| (g >>> 5))
          (junk 2) (junk 3) ∧
      byteAt ((rgb888 r g b x).Reformat .RGB565 junk).bytes_ 0
          + 256 * byteAt ((rgb888 r g b x).Reformat .RGB565 junk).bytes_ 1 =
        ((r >>> 3) <<< 11) ||| ((g >>> 2) <<< 5) ||| (b >>> 3) := by
  have h1 : (rgb888 r g b x).Reformat .RGB565 junk = (rgb888 r g b x).ConvertRgb888ToRgb565 junk := by
    simp [Pixel.Reformat, rgb888]
  have hlo := or_lo_eq g b hg hb
  have hhi := or_hi_eq r g hr hg
  rw [h1, ConvertRgb888ToRgb565_eq r g b x junk hr hg hb, hlo, hhi, packed565_eq r g b hg hb]
  refine ⟨rfl, ?_⟩
  simp only [rgb565, byteAt, List.getD_cons_zero, List.getD_cons_succ]
  omega

/-- C2 at `(255, 128, 64)`: the bytes are `[0x08, 0xFC]`, the value `0xFC08`. -/
theorem C2_rgb888_to_rgb565_witness :
    (rgb888 255 128 64 0).Reformat .RGB565 (fun _ => 0) = rgb565 0x08 0xFC 0 0 ∧
      byteAt ((rgb888 255 128 64 0).Reformat .RGB565 (fun _ => 0)).bytes_ 0
          + 256 * byteAt ((rgb888 255 128 64 0).Reformat .RGB565 (fun _ => 0)).bytes_ 1 =
        0xFC08 :=
  C2_rgb888_to_rgb565 255 128 64 0 (fun _ => 0) (by decide) (by decide) (by decide)

/-- C3: for every RGB565 pixel with bytes `[low, high]`, `Reformat(RGB888)` is
the RGB888 pixel with `red = high AND 0xF8`,
`green = ((high AND 0x07) << 5) OR ((low AND 0xE0) >> 3)` and
`blue = (low AND 0x1F) << 3`; the low 3 bits of red and of blue and the low 2
bits of green are zero. -/
theorem C3_rgb565_to_rgb888 (lo hi x y : Nat) (junk : Nat → Nat)
    (hlo : lo < 256) (hhi : hi < 256) :
    (rgb565 lo hi x y).Reformat .RGB888 junk =
        rgb888 (hi &&& 0xF8) (((hi &&& 0x07) <<< 5) ||| ((lo &&& 0xE0) >>> 3))
          ((lo &&& 0x1F) <<< 3) (junk 3) ∧
      (hi &&& 0xF8) % 8 = 0 ∧
      (((hi &&& 0x07) <<< 5) ||| ((lo &&& 0xE0) >>> 3)) % 4 = 0 ∧
      ((lo &&& 0x1F) <<< 3) % 8 = 0 := by
  have h1 : (rgb565 lo hi x y).Reformat .RGB888 junk = (rgb565 lo hi x y).ConvertRgb565ToRgb888 junk := by
    simp [Pixel.Reformat, rgb565]
  have hr : hi &&& 0xF8 = 8 * (hi / 8) := by
    rw [Nat.and_comm]; exact f8_and_eq hi hhi
  have hb : (lo &&& 0x1F) <<< 3 = 8 * (lo % 32) := by
    rw [Nat.and_comm]; exact x1f_and_shl3_eq lo hlo
  have hg : ((hi &&& 0x07) <<< 5) ||| ((lo &&& 0xE0) >>> 3) = 32 * (hi % 8) + 4 * (lo / 32) := by
    rw [Nat.and_comm hi, Nat.and_comm lo]; exact or_green_eq lo hi hlo hhi
  rw [h1, ConvertRgb565ToRgb888_eq lo hi x y junk hlo hhi, hr, hb, hg]
  refine ⟨rfl, ?_, ?_, ?_⟩ <;> omega

/-- C3 at bytes `[0xFF, 0xFF]`: the result is `(248, 252, 248)`, not `(255, 255, 255)`. -/
theorem C3_rgb565_to_rgb888_witness :
    (rgb565 0xFF 0xFF 0 0).Reformat .RGB888 (fun _ => 0) = rgb888 248 252 248 0 ∧
      (248 : Nat) % 8 = 0 ∧ (252 : Nat) % 4 = 0 ∧ (248 : Nat) % 8 = 0 :=
  C3_rgb565_to_rgb888 0xFF 0xFF 0 0 (fun _ => 0) (by decide) (by decide)

/-- C4: for every RGB888 pixel `(r, g, b)`, `Reformat(GRAYSCALE)` is the
one-channel pixel with value `r / 3 + g / 3 + b / 3` (truncating division per
channel, then the sum; the other slots are whatever the constructor left). -/
theorem C4_rgb888_to_grayscale (r g b x : Nat) (junk : Nat → Nat)
    (hr : r < 256) (hg : g < 256) (hb : b < 256) :
    (rgb888 r g b x).Reformat .GRAYSCALE junk =
      { format_ := .GRAYSCALE, bytes_ := [r / 3 + g / 3 + b / 3, junk 1, junk 2, junk 3] } := by
  have h : (r / 3 + g / 3 + b / 3) % 256 = r / 3 + g / 3 + b / 3 := by omega
  simp [Pixel.Reformat, Pixel.ConvertRgb888ToGrayscale, Pixel_new_eq, rgb888, Format.GetChannels,
    byteAt, h]

/-- C4 at `(90, 90, 90)` and `(10, 10, 10)`: the gray values are `90` and `9`. -/
theorem C4_rgb888_to_grayscale_witness :
    (rgb888 90 90 90 0).Reformat .GRAYSCALE (fun _ => 0)
        = { format_ := .GRAYSCALE, bytes_ := [90, 0, 0, 0] } ∧
      (rgb888 10 10 10 0).Reformat .GRAYSCALE (fun _ => 0)
        = { format_ := .GRAYSCALE, bytes_ := [9, 0, 0, 0] } :=
  ⟨C4_rgb888_to_grayscale 90 90 90 0 (fun _ => 0) (by decide) (by decide) (by decide),
   C4_rgb888_to_grayscale 10 10 10 0 (fun _ => 0) (by decide) (by decide) (by decide)⟩

theorem foldl_clear_flag (l : List Nat) (P : Nat → Prop) [DecidablePred P] (init : Bool) :
    l.foldl (fun equal ch => if P ch then false else equal) init = true ↔
      init = true ∧ ∀ ch ∈ l, ¬ P ch := by
  induction l generalizing init with
  | nil => simp
  | cons a l ih =>
    simp only [List.foldl_cons, List.mem_cons, forall_eq_or_imp]
    rw [ih]
    by_cases h : P a <;> simp [h]

/-- The meaning of `Pixel::operator==`. -/
theorem Pixel_eq_iff (p q : Pixel) :
    p.eq q = true ↔
      p.format_ = q.format_ ∧
        ∀ ch, ch < p.format_.GetChannels → byteAt p.bytes_ ch = byteAt q.bytes_ ch := by
  unfold Pixel.eq
  simp only [Pixel.GetFormat, Pixel.GetBytes, Pixel.GetChannels]
  rw [foldl_clear_flag]
  simp

/-- C5: `p == q` is true exactly when `p` and `q` have the same format and
their bytes agree at every index below the channel count of that format; and
the result is the same for any two pixels that agree with `p` and `q` on the
format and on the bytes below the channel count, whatever their other bytes. -/
theorem C5_pixel_equality (p q : Pixel) :
    (p.eq q = true ↔
      p.format_ = q.format_ ∧
        ∀ ch, ch < p.format_.GetChannels → byteAt p.bytes_ ch = byteAt q.bytes_ ch) ∧
    (∀ p2 q2 : Pixel, p2.format_ = p.format_ → q2.format_ = q.format_ →
      (∀ ch, ch < p.format_.GetChannels → byteAt p2.bytes_ ch = byteAt p.bytes_ ch) →
      (∀ ch, ch < q.format_.GetChannels → byteAt q2.bytes_ ch = byteAt q.bytes_ ch) →
      p2.eq q2 = p.eq q) := by
  refine ⟨Pixel_eq_iff p q, ?_⟩
  intro p2 q2 hp hq hpb hqb
  rw [Bool.eq_iff_iff, Pixel_eq_iff, Pixel_eq_iff, hp, hq]
  constructor
  · rintro ⟨hf, hb⟩
    refine ⟨hf, fun ch hch => ?_⟩
    rw [← hpb ch hch, ← hqb ch (hf ▸ hch)]
    exact hb ch hch
  · rintro ⟨hf, hb⟩
    refine ⟨hf, fun ch hch => ?_⟩
    rw [hpb ch hch, hqb ch (hf ▸ hch)]
    exact hb ch hch


theorem byteAt_cons_zero (a : Nat) (l : List Nat) : byteAt (a :: l) 0 = a := rfl

theorem byteAt_cons_succ (a : Nat) (l : List Nat) (i : Nat) :
    byteAt (a :: l) (i + 1) = byteAt l i := rfl

/-! ## Loops and single-pixel access -/

/-- Invariant rule for a counted loop in the `Option` monad: if every
iteration succeeds and re-establishes the invariant, so does the loop. -/
theorem foldlM_range'_inv {σ : Type} (n : Nat) :
    ∀ (a : Nat) (step : σ → Nat → Option σ) (P : Nat → σ → Prop) (s0 : σ), P 0 s0 →
      (∀ i, i < n → ∀ s, P i s → ∃ s', step s (a + i) = some s' ∧ P (i + 1) s') →
      ∃ s', (List.range' a n).foldlM step s0 = some s' ∧ P n s' := by
  induction n with
  | zero =>
    intro a step P s0 h0 _
    exact ⟨s0, rfl, h0⟩
  | succ n ih =>
    intro a step P s0 h0 hstep
    obtain ⟨s1, hs1, hP1⟩ := hstep 0 (Nat.succ_pos n) s0 h0
    have ih2 := ih (a + 1) step (fun i s => P (i + 1) s) s1 hP1 (by
      intro i hi s hPs
      have := hstep (i + 1) (Nat.succ_lt_succ hi) s hPs
      rwa [show a + (i + 1) = a + 1 + i by omega] at this)
    obtain ⟨s2, hs2, hP2⟩ := ih2
    refine ⟨s2, ?_, hP2⟩
    rw [List.range'_succ, List.foldlM_cons]
    rw [Nat.add_zero] at hs1
    rw [hs1]
    exact hs2

/-- The same rule for a loop that counts from zero. -/
theorem foldlM_range_inv {σ : Type} (n : Nat) (step : σ → Nat → Option σ)
    (P : Nat → σ → Prop) (s0 : σ) (h0 : P 0 s0)
    (hstep : ∀ i, i < n → ∀ s, P i s → ∃ s', step s i = some s' ∧ P (i + 1) s') :
    ∃ s', (List.range n).foldlM step s0 = some s' ∧ P n s' := by
  rw [List.range_eq_range']
  apply foldlM_range'_inv n 0 step P s0 h0
  intro i hi s hs
  rw [Nat.zero_add]
  exact hstep i hi s hs

theorem byteAt_set (l : List Nat) (i v j : Nat) :
    byteAt (l.set i v) j = if i = j ∧ i < l.length then v else byteAt l j := by
  unfold byteAt
  rw [List.getD_eq_getElem?_getD, List.getD_eq_getElem?_getD, List.getElem?_set]
  by_cases h : i = j
  · subst h
    by_cases h2 : i < l.length
    · simp [h2]
    · have h3 : l[i]? = none := List.getElem?_eq_none (by omega)
      simp [h2, h3]
  · simp [h]

theorem byteAt_drop (l : List Nat) (n i : Nat) : byteAt (l.drop n) i = byteAt l (n + i) := by
  unfold byteAt
  rw [List.getD_eq_getElem?_getD, List.getD_eq_getElem?_getD, List.getElem?_drop]

theorem channels_pos (fmt : Format) : 0 < fmt.GetChannels := by
  cases fmt <;> decide

theorem channels_le (fmt : Format) : fmt.GetChannels ≤ 3 := by
  cases fmt <;> decide

/-- Two pixels built by the constructor from arrays that agree below the
channel count are the same pixel. -/
theorem new_congr (fmt : Format) (b1 b2 : List Nat) (junk : Nat → Nat)
    (h : ∀ ch, ch < fmt.GetChannels → byteAt b1 ch = byteAt b2 ch) :
    Pixel.new fmt b1 junk = Pixel.new fmt b2 junk := by
  unfold Pixel.new
  congr 1
  apply List.map_congr_left
  intro ch _
  by_cases hc : ch < fmt.GetChannels
  · simp [hc, h ch hc]
  · simp [hc]

/-- Bytes of a constructed pixel below the channel count. -/
theorem byteAt_new (fmt : Format) (b : List Nat) (junk : Nat → Nat) (ch : Nat)
    (h : ch < fmt.GetChannels) : byteAt (Pixel.new fmt b junk).bytes_ ch = byteAt b ch := by
  have h3 := channels_le fmt
  rw [Pixel_new_eq]
  have : ch = 0 ∨ ch = 1 ∨ ch = 2 := by omega
  rcases this with rfl | rfl | rfl <;> simp [byteAt, h]

/-- What `Image::SetPixel` does when the pixel's bytes lie inside the
allocation: it succeeds, changes nothing but the buffer, and in the buffer
exactly the `GetChannels()` bytes from `GetPixelLocation(row, col)` on. -/
theorem SetPixel_spec (im : Image) (row col : Nat) (p : Pixel)
    (hb : im.GetPixelLocation row col + im.format_.GetChannels ≤ im.buffer_.length) :
    ∃ im2, im.SetPixel row col p = some im2 ∧
      im2.height_ = im.height_ ∧ im2.width_ = im.width_ ∧ im2.format_ = im.format_ ∧
      im2.new_buffer_was_allocated_ = im.new_buffer_was_allocated_ ∧
      im2.buffer_.length = im.buffer_.length ∧
      ∀ i, byteAt im2.buffer_ i =
        if im.GetPixelLocation row col ≤ i ∧
            i < im.GetPixelLocation row col + im.format_.GetChannels
        then byteAt p.bytes_ (i - im.GetPixelLocation row col) else byteAt im.buffer_ i := by
  unfold Image.SetPixel
  have key := foldlM_range_inv im.GetChannels
    (fun (s : Image) ch => s.writeByte (im.GetPixelLocation row col + ch) (byteAt p.bytes_ ch))
    (fun m s => s.height_ = im.height_ ∧ s.width_ = im.width_ ∧ s.format_ = im.format_ ∧
      s.new_buffer_was_allocated_ = im.new_buffer_was_allocated_ ∧
      s.buffer_.length = im.buffer_.length ∧
      ∀ i, byteAt s.buffer_ i =
        if im.GetPixelLocation row col ≤ i ∧ i < im.GetPixelLocation row col + m
        then byteAt p.bytes_ (i - im.GetPixelLocation row col) else byteAt im.buffer_ i)
    im ⟨rfl, rfl, rfl, rfl, rfl, fun i => by rw [if_neg (by omega)]⟩ (by
      intro m hm s ⟨h1, h2, h3, h4, h5, h6⟩
      have hm2 : m < im.format_.GetChannels := hm
      have hlt : im.GetPixelLocation row col + m < s.buffer_.length := by omega
      refine ⟨{ s with buffer_ := s.buffer_.set (im.GetPixelLocation row col + m) (byteAt p.bytes_ m) },
        by simp [Image.writeByte, hlt], h1, h2, h3, h4, by simp [h5], ?_⟩
      intro i
      simp only [byteAt_set, hlt, and_true, h6 i]
      by_cases e : im.GetPixelLocation row col + m = i
      · subst e
        simp
      · simp only [e, if_false]
        by_cases c1 : im.GetPixelLocation row col ≤ i ∧ i < im.GetPixelLocation row col + m
        · rw [if_pos c1, if_pos ⟨c1.1, by omega⟩]
        · rw [if_neg c1, if_neg (by omega)])
  exact key


/-! ## Loops that fill a destination image pixel by pixel -/

theorem Filled_step (dst : Image) (G : Nat → Pixel) (n r c : Nat) (s : Image)
    (hlen : dst.height_ * dst.width_ * dst.format_.GetChannels ≤ dst.buffer_.length)
    (hn : n = r * dst.width_ + c) (hlt : n < dst.height_ * dst.width_)
    (hs : Filled dst G n s) :
    ∃ s2, s.SetPixel r c (G n) = some s2 ∧ Filled dst G (n + 1) s2 := by
  obtain ⟨h1, h2, h3, h4, h5, h6, h7⟩ := hs
  have hloc : s.GetPixelLocation r c = n * dst.format_.GetChannels := by
    simp [Image.GetPixelLocation, Image.GetWidth, Image.GetChannels, Image.GetFormat, h2, h3, hn]
  have e1 : (n + 1) * dst.format_.GetChannels = n * dst.format_.GetChannels + dst.format_.GetChannels :=
    Nat.succ_mul _ _
  have e2 : (n + 1) * dst.format_.GetChannels ≤ dst.height_ * dst.width_ * dst.format_.GetChannels :=
    Nat.mul_le_mul_right _ hlt
  obtain ⟨s2, hs2, g1, g2, g3, g4, g5, g6⟩ := SetPixel_spec s r c (G n) (by rw [hloc, h3, h5]; omega)
  refine ⟨s2, hs2, g1.trans h1, g2.trans h2, g3.trans h3, g4.trans h4, g5.trans h5, ?_, ?_⟩
  · intro j ch hj hch
    rw [g6, hloc, h3]
    by_cases hjn : j = n
    · subst hjn
      rw [if_pos ⟨by omega, by omega⟩]
      congr 1
      omega
    · have hj2 : j + 1 ≤ n := by omega
      have e3 : (j + 1) * dst.format_.GetChannels ≤ n * dst.format_.GetChannels :=
        Nat.mul_le_mul_right _ hj2
      have e4 : (j + 1) * dst.format_.GetChannels = j * dst.format_.GetChannels + dst.format_.GetChannels :=
        Nat.succ_mul _ _
      rw [if_neg (by omega)]
      exact h6 j ch (by omega) hch
  · intro i hi
    rw [g6, hloc, h3, if_neg (by omega)]
    exact h7 i (by omega)

/-- A pair of nested loops over the rows `a ..< a + height` and the columns
`b ..< b + width` whose body at `(a + r, b + c)` is `SetPixel(r, c, G (r * width + c))`
on the destination succeeds when the destination allocation holds
`height * width * channels` bytes, and leaves the destination `Filled`. -/
theorem fill_loops (dst : Image) (G : Nat → Pixel) (a b : Nat)
    (body : Image → Nat → Nat → Option Image)
    (hlen : dst.height_ * dst.width_ * dst.format_.GetChannels ≤ dst.buffer_.length)
    (hbody : ∀ r c, r < dst.height_ → c < dst.width_ → ∀ acc : Image,
      body acc (a + r) (b + c) = acc.SetPixel r c (G (r * dst.width_ + c))) :
    ∃ out,
      (List.range' a dst.height_).foldlM
        (fun (acc : Image) row =>
          (List.range' b dst.width_).foldlM (fun (acc : Image) col => body acc row col) acc)
        dst = some out ∧
      Filled dst G (dst.height_ * dst.width_) out := by
  apply foldlM_range'_inv dst.height_ a _ (fun r s => Filled dst G (r * dst.width_) s) dst
  · refine ⟨rfl, rfl, rfl, rfl, rfl, ?_, ?_⟩
    · intro j ch hj
      rw [Nat.zero_mul] at hj
      omega
    · intro i _
      rfl
  · intro r hr s hs
    have hrow : (r + 1) * dst.width_ = r * dst.width_ + dst.width_ := Nat.succ_mul _ _
    rw [hrow]
    apply foldlM_range'_inv dst.width_ b _ (fun c s => Filled dst G (r * dst.width_ + c) s) s hs
    intro c hc s2 hs2
    rw [hbody r c hr hc]
    have hle : (r + 1) * dst.width_ ≤ dst.height_ * dst.width_ := Nat.mul_le_mul_right _ hr
    exact Filled_step dst G (r * dst.width_ + c) r c s2 hlen rfl (by omega) hs2


/-! ## Reading pixels of an image -/

theorem Image_new_fields (height width : Nat) (fmt : Format) (buf : Option (List Nat))
    (junk : Nat → Nat) :
    (Image.new height width fmt buf junk).height_ = height ∧
      (Image.new height width fmt buf junk).width_ = width ∧
      (Image.new height width fmt buf junk).format_ = fmt := by
  cases buf <;> exact ⟨rfl, rfl, rfl⟩

theorem Image_new_length (height width : Nat) (fmt : Format) (buf : Option (List Nat))
    (junk : Nat → Nat)
    (hdst : ∀ b, buf = some b → height * width * fmt.GetChannels ≤ b.length) :
    height * width * fmt.GetChannels ≤ (Image.new height width fmt buf junk).buffer_.length := by
  cases buf with
  | none => simp [Image.new]
  | some b => exact hdst b rfl

/-- The bytes of an in-bounds pixel lie inside `height * width * channels`. -/
theorem pixel_loc_bound (h w k r c : Nat) (hr : r < h) (hc : c < w) :
    (r * w + c) * k + k ≤ h * w * k := by
  have h1 : (r + 1) * w ≤ h * w := Nat.mul_le_mul_right _ hr
  have h2 : (r + 1) * w = r * w + w := Nat.succ_mul _ _
  have h3 : (r * w + c + 1) * k ≤ h * w * k := Nat.mul_le_mul_right _ (by omega)
  have h4 : (r * w + c + 1) * k = (r * w + c) * k + k := Nat.succ_mul _ _
  omega

/-- Reading an in-bounds pixel of an image whose allocation holds
`GetBufferSize()` bytes succeeds. -/
theorem GetPixel_inbounds (img : Image) (r c : Nat) (junk : Nat → Nat)
    (hlen : img.GetBufferSize ≤ img.buffer_.length)
    (hr : r < img.height_) (hc : c < img.width_) :
    img.GetPixel r c junk =
      some (Pixel.new img.format_ (img.buffer_.drop ((r * img.width_ + c) * img.format_.GetChannels))
        junk) := by
  have hb := pixel_loc_bound img.height_ img.width_ img.format_.GetChannels r c hr hc
  have hlen2 : img.height_ * img.width_ * img.format_.GetChannels ≤ img.buffer_.length := hlen
  unfold Image.GetPixel
  simp only [Image.GetPixelLocation, Image.GetWidth, Image.GetChannels, Image.GetFormat]
  rw [if_pos (by omega)]

/-- Reading back a pixel of a filled destination. -/
theorem GetPixel_of_Filled (dst out : Image) (G : Nat → Pixel) (r c : Nat) (junk : Nat → Nat)
    (hlen : dst.height_ * dst.width_ * dst.format_.GetChannels ≤ dst.buffer_.length)
    (hf : Filled dst G (dst.height_ * dst.width_) out)
    (hr : r < dst.height_) (hc : c < dst.width_) :
    out.GetPixel r c junk = some (Pixel.new dst.format_ (G (r * dst.width_ + c)).bytes_ junk) := by
  obtain ⟨h1, h2, h3, _, h5, h6, _⟩ := hf
  have hlen2 : out.GetBufferSize ≤ out.buffer_.length := by
    show out.height_ * out.width_ * out.format_.GetChannels ≤ out.buffer_.length
    rw [h1, h2, h3, h5]; exact hlen
  rw [GetPixel_inbounds out r c junk hlen2 (h1 ▸ hr) (h2 ▸ hc), h2, h3]
  congr 1
  apply new_congr
  intro ch hch
  rw [byteAt_drop]
  have hlt : r * dst.width_ + c < dst.height_ * dst.width_ := by
    have h1 : (r + 1) * dst.width_ ≤ dst.height_ * dst.width_ := Nat.mul_le_mul_right _ hr
    have h2 : (r + 1) * dst.width_ = r * dst.width_ + dst.width_ := Nat.succ_mul _ _
    omega
  exact h6 _ ch hlt hch

theorem index_div (r w c : Nat) (hc : c < w) : (r * w + c) / w = r := by
  rw [Nat.mul_comm, Nat.mul_add_div (by omega), Nat.div_eq_of_lt hc, Nat.add_zero]

theorem index_mod (r w c : Nat) (hc : c < w) : (r * w + c) % w = c := by
  rw [Nat.mul_comm, Nat.mul_add_mod, Nat.mod_eq_of_lt hc]

/-! ## Crop -/

/-- `Crop` on a rectangle inside the source. -/
theorem Crop_filled (img : Image) (top left height width : Nat) (buffer : Option (List Nat))
    (junk : Nat → Nat)
    (hsrc : img.GetBufferSize ≤ img.buffer_.length)
    (hrow : top + height ≤ img.GetHeight) (hcol : left + width ≤ img.GetWidth)
    (hdst : ∀ b, buffer = some b → height * width * img.GetFormat.GetChannels ≤ b.length) :
    ∃ out, img.Crop top left height width buffer junk = some out ∧
      Filled (Image.new height width img.format_ buffer junk)
        (fun j => Pixel.new img.format_
          (img.buffer_.drop (((top + j / width) * img.width_ + (left + j % width))
            * img.format_.GetChannels)) junk)
        (height * width) out := by
  obtain ⟨e1, e2, e3⟩ := Image_new_fields height width img.format_ buffer junk
  have hlen := Image_new_length height width img.format_ buffer junk hdst
  have key := fill_loops (Image.new height width img.format_ buffer junk)
    (fun j => Pixel.new img.format_
      (img.buffer_.drop (((top + j / width) * img.width_ + (left + j % width))
        * img.format_.GetChannels)) junk)
    top left
    (fun acc row col => do
      let pixel ← img.GetPixel row col junk
      acc.SetPixel (row - top) (col - left) pixel)
    (by rw [e1, e2, e3]; exact hlen)
    (by
      intro r c hr hc acc
      rw [e1] at hr
      rw [e2] at hc
      have hr2 : top + r < img.height_ := by
        have : top + height ≤ img.height_ := hrow
        omega
      have hc2 : left + c < img.width_ := by
        have : left + width ≤ img.width_ := hcol
        omega
      beta_reduce
      rw [GetPixel_inbounds img (top + r) (left + c) junk hsrc hr2 hc2]
      simp only [Option.some_bind, Option.bind_eq_bind, Nat.add_sub_cancel_left, e2]
      rw [index_div r width c hc, index_mod r width c hc])
  rw [e1, e2] at key
  exact key


theorem getElem?_eq_byteAt (l : List Nat) (i : Nat) (h : i < l.length) :
    l[i]? = some (byteAt l i) := by
  unfold byteAt
  rw [List.getD_eq_getElem?_getD, List.getElem?_eq_getElem h]
  rfl

/-- Two byte arrays that agree on their first `n` bytes have the same first
`n` bytes. -/
theorem take_eq_of_byteAt (l1 l2 : List Nat) (n : Nat) (h1 : n ≤ l1.length)
    (h2 : n ≤ l2.length) (h : ∀ i, i < n → byteAt l1 i = byteAt l2 i) :
    l1.take n = l2.take n := by
  apply List.ext_getElem?
  intro i
  by_cases hi : i < n
  · rw [List.getElem?_take_of_lt hi, List.getElem?_take_of_lt hi,
      getElem?_eq_byteAt l1 i (by omega), getElem?_eq_byteAt l2 i (by omega), h i hi]
  · rw [List.getElem?_take_eq_none (by omega), List.getElem?_take_eq_none (by omega)]

/-- C6: for an image of height `H` and width `W` and a rectangle with
`top + height <= H` and `left + width <= W`, `Crop(top, left, height, width)`
returns an image of the same format with dimensions `height x width` whose
pixel at `(r, c)` is the source pixel at `(top + r, left + c)` for every
`r < height` and `c < width`. -/
theorem C6_crop (img : Image) (top left height width : Nat) (buffer : Option (List Nat))
    (junk : Nat → Nat)
    (hsrc : img.GetBufferSize ≤ img.buffer_.length)
    (hrow : top + height ≤ img.GetHeight) (hcol : left + width ≤ img.GetWidth)
    (hdst : ∀ b, buffer = some b → height * width * img.GetFormat.GetChannels ≤ b.length) :
    ∃ out, img.Crop top left height width buffer junk = some out ∧
      out.GetFormat = img.GetFormat ∧ out.GetHeight = height ∧ out.GetWidth = width ∧
      ∀ r c, r < height → c < width → ∀ junk2,
        ∃ p, img.GetPixel (top + r) (left + c) junk2 = some p ∧
          out.GetPixel r c junk2 = some p := by
  obtain ⟨out, hout, hfill⟩ := Crop_filled img top left height width buffer junk hsrc hrow hcol hdst
  obtain ⟨e1, e2, e3⟩ := Image_new_fields height width img.format_ buffer junk
  have hlen := Image_new_length height width img.format_ buffer junk hdst
  have hfill2 := hfill
  obtain ⟨h1, h2, h3, _, _, _, _⟩ := hfill
  refine ⟨out, hout, h3.trans e3, h1.trans e1, h2.trans e2, ?_⟩
  intro r c hr hc junk2
  have hr2 : top + r < img.height_ := by
    have : top + height ≤ img.height_ := hrow
    omega
  have hc2 : left + c < img.width_ := by
    have : left + width ≤ img.width_ := hcol
    omega
  refine ⟨_, GetPixel_inbounds img (top + r) (left + c) junk2 hsrc hr2 hc2, ?_⟩
  have hg := GetPixel_of_Filled (Image.new height width img.format_ buffer junk) out _ r c junk2
    (by rw [e1, e2, e3]; exact hlen) (by rw [e1, e2]; exact hfill2) (by rw [e1]; exact hr)
    (by rw [e2]; exact hc)
  rw [hg, e2, e3]
  congr 1
  apply new_congr
  intro ch hch
  rw [byteAt_new _ _ _ _ hch, index_div r width c hc, index_mod r width c hc]

/-- C6 on the 2 x 2 grayscale image `[[1, 2], [3, 4]]`: the 2 x 1 crop at
`(0, 1)` has the pixels of the right-hand column. -/
theorem C6_crop_witness :
    ∃ out, (grayImage 2 2 [1, 2, 3, 4]).Crop 0 1 2 1 (some [0, 0]) (fun _ => 0) = some out ∧
      out.GetFormat = (grayImage 2 2 [1, 2, 3, 4]).GetFormat ∧
      out.GetHeight = 2 ∧ out.GetWidth = 1 ∧
      ∀ r c, r < 2 → c < 1 → ∀ junk2,
        ∃ p, (grayImage 2 2 [1, 2, 3, 4]).GetPixel (0 + r) (1 + c) junk2 = some p ∧
          out.GetPixel r c junk2 = some p :=
  C6_crop (grayImage 2 2 [1, 2, 3, 4]) 0 1 2 1 (some [0, 0]) (fun _ => 0)
    (by decide) (by decide) (by decide)
    (by intro b hb; cases hb; decide)

/-- C7: for an image of height `H` and width `W`, `Crop(0, 0, H, W)` returns an
image of the same height, width and format whose `GetBufferSize()` buffer
bytes are byte for byte those of the source; with a freshly allocated
destination and a source allocation of exactly that size the two buffers are
equal. -/
theorem C7_crop_full (img : Image) (buffer : Option (List Nat)) (junk : Nat → Nat)
    (hsrc : img.GetBufferSize ≤ img.buffer_.length)
    (hdst : ∀ b, buffer = some b → img.GetBufferSize ≤ b.length) :
    ∃ out, img.Crop 0 0 img.GetHeight img.GetWidth buffer junk = some out ∧
      out.GetHeight = img.GetHeight ∧ out.GetWidth = img.GetWidth ∧
      out.GetFormat = img.GetFormat ∧
      out.buffer_.take img.GetBufferSize = img.buffer_.take img.GetBufferSize ∧
      (buffer = none → img.buffer_.length = img.GetBufferSize → out.buffer_ = img.buffer_) := by
  obtain ⟨out, hout, hfill⟩ := Crop_filled img 0 0 img.GetHeight img.GetWidth buffer junk hsrc
    (by omega) (by omega) hdst
  obtain ⟨e1, e2, e3⟩ := Image_new_fields img.GetHeight img.GetWidth img.format_ buffer junk
  have hlen := Image_new_length img.GetHeight img.GetWidth img.format_ buffer junk hdst
  obtain ⟨h1, h2, h3, _, h5, h6, _⟩ := hfill
  have hk := channels_pos img.format_
  have hsize : img.GetBufferSize = img.height_ * img.width_ * img.format_.GetChannels := rfl
  have htake : out.buffer_.take img.GetBufferSize = img.buffer_.take img.GetBufferSize := by
    apply take_eq_of_byteAt _ _ _ (by rw [h5]; exact hlen) hsrc
    intro i hi
    rw [hsize] at hi
    have hj : i / img.format_.GetChannels < img.height_ * img.width_ :=
      (Nat.div_lt_iff_lt_mul hk).2 hi
    have hch : i % img.format_.GetChannels < img.format_.GetChannels := Nat.mod_lt _ hk
    have hi2 : i / img.format_.GetChannels * img.format_.GetChannels
        + i % img.format_.GetChannels = i := Nat.div_add_mod' _ _
    have := h6 (i / img.format_.GetChannels) (i % img.format_.GetChannels) hj (by rw [e3]; exact hch)
    rw [e3, hi2] at this
    rw [this, byteAt_new _ _ _ _ hch, byteAt_drop]
    simp only [Nat.zero_add, Image.GetWidth]
    rw [Nat.div_add_mod', hi2]
  refine ⟨out, hout, h1.trans e1, h2.trans e2, h3.trans e3, htake, ?_⟩
  intro hnone hexact
  have hl : out.buffer_.length = img.GetBufferSize := by
    rw [h5, hnone]
    simp [Image.new, hsize, Image.GetHeight, Image.GetWidth]
  rw [← List.take_length out.buffer_, ← List.take_length img.buffer_, hl, hexact]
  exact htake

/-- C7 on the 2 x 2 grayscale image `[[1, 2], [3, 4]]`. -/
theorem C7_crop_full_witness :
    ∃ out, (grayImage 2 2 [1, 2, 3, 4]).Crop 0 0 (grayImage 2 2 [1, 2, 3, 4]).GetHeight
        (grayImage 2 2 [1, 2, 3, 4]).GetWidth none (fun _ => 0) = some out ∧
      out.GetHeight = (grayImage 2 2 [1, 2, 3, 4]).GetHeight ∧
      out.GetWidth = (grayImage 2 2 [1, 2, 3, 4]).GetWidth ∧
      out.GetFormat = (grayImage 2 2 [1, 2, 3, 4]).GetFormat ∧
      out.buffer_.take (grayImage 2 2 [1, 2, 3, 4]).GetBufferSize =
        (grayImage 2 2 [1, 2, 3, 4]).buffer_.take (grayImage 2 2 [1, 2, 3, 4]).GetBufferSize ∧
      ((none : Option (List Nat)) = none →
        (grayImage 2 2 [1, 2, 3, 4]).buffer_.length = (grayImage 2 2 [1, 2, 3, 4]).GetBufferSize →
        out.buffer_ = (grayImage 2 2 [1, 2, 3, 4]).buffer_) :=
  C7_crop_full (grayImage 2 2 [1, 2, 3, 4]) none (fun _ => 0) (by decide)
    (by intro b hb; cases hb)


/-! ## Reformat -/

theorem Reformat_format (p : Pixel) (F : Format) (junk : Nat → Nat) :
    (p.Reformat F junk).format_ = F := by
  obtain ⟨fmt, bytes⟩ := p
  cases fmt <;> cases F <;> rfl

/-- The channel bytes of a reformatted pixel depend only on the format and the
channel bytes of the pixel, not on the unused slots. -/
theorem Reformat_congr (p p2 : Pixel) (F : Format) (j j2 : Nat → Nat)
    (hf : p.format_ = p2.format_)
    (hb : ∀ ch, ch < p.format_.GetChannels → byteAt p.bytes_ ch = byteAt p2.bytes_ ch)
    (ch : Nat) (hch : ch < F.GetChannels) :
    byteAt (p.Reformat F j).bytes_ ch = byteAt (p2.Reformat F j2).bytes_ ch := by
  obtain ⟨fmt, bytes⟩ := p
  obtain ⟨fmt2, bytes2⟩ := p2
  simp only at hf hb
  subst hf
  have h3 := channels_le F
  have hc : ch = 0 ∨ ch = 1 ∨ ch = 2 := by omega
  cases fmt <;> cases F <;>
    simp only [Format.GetChannels] at hb hch <;>
    first
    | (have h0 := hb 0 (by decide)
       have h1 := hb 1 (by decide)
       have h2 := hb 2 (by decide)
       rcases hc with rfl | rfl | rfl <;>
         first
         | omega
         | simp [Pixel.Reformat, Pixel.ConvertRgb888ToRgb565, Pixel.ConvertRgb565ToRgb888,
             Pixel.ConvertRgb888ToGrayscale, Pixel.ConvertGrayscaleToRgb888, Pixel_new_eq,
             Format.GetChannels, byteAt_cons_zero, byteAt_cons_succ, h0, h1, h2])
    | (have h0 := hb 0 (by decide)
       have h1 := hb 1 (by decide)
       rcases hc with rfl | rfl | rfl <;>
         first
         | omega
         | simp [Pixel.Reformat, Pixel.ConvertRgb888ToRgb565, Pixel.ConvertRgb565ToRgb888,
             Pixel.ConvertRgb888ToGrayscale, Pixel.ConvertGrayscaleToRgb888, Pixel_new_eq,
             Format.GetChannels, byteAt_cons_zero, byteAt_cons_succ, h0, h1])
    | (have h0 := hb 0 (by decide)
       rcases hc with rfl | rfl | rfl <;>
         first
         | omega
         | simp [Pixel.Reformat, Pixel.ConvertRgb888ToRgb565, Pixel.ConvertRgb565ToRgb888,
             Pixel.ConvertRgb888ToGrayscale, Pixel.ConvertGrayscaleToRgb888, Pixel_new_eq,
             Format.GetChannels, byteAt_cons_zero, byteAt_cons_succ, h0])


/-- `Image::Reformat` on an image whose allocation holds `GetBufferSize()`
bytes. -/
theorem Reformat_filled (img : Image) (F : Format) (buffer : Option (List Nat))
    (junk : Nat → Nat)
    (hsrc : img.GetBufferSize ≤ img.buffer_.length)
    (hdst : ∀ b, buffer = some b → img.GetHeight * img.GetWidth * F.GetChannels ≤ b.length) :
    ∃ out, img.Reformat F buffer junk = some out ∧
      Filled (Image.new img.height_ img.width_ F buffer junk)
        (fun j => (Pixel.new img.format_
          (img.buffer_.drop (j * img.format_.GetChannels)) junk).Reformat F junk)
        (img.height_ * img.width_) out := by
  obtain ⟨e1, e2, e3⟩ := Image_new_fields img.height_ img.width_ F buffer junk
  have hlen := Image_new_length img.height_ img.width_ F buffer junk hdst
  have key := fill_loops (Image.new img.height_ img.width_ F buffer junk)
    (fun j => (Pixel.new img.format_
      (img.buffer_.drop (j * img.format_.GetChannels)) junk).Reformat F junk)
    0 0
    (fun acc row col => do
      let old_pixel ← img.GetPixel row col junk
      let new_pixel := old_pixel.Reformat F junk
      acc.SetPixel row col new_pixel)
    (by rw [e1, e2, e3]; exact hlen)
    (by
      intro r c hr hc acc
      rw [e1] at hr
      rw [e2] at hc
      beta_reduce
      rw [Nat.zero_add, Nat.zero_add, GetPixel_inbounds img r c junk hsrc hr hc]
      simp only [Option.some_bind, Option.bind_eq_bind, e2])
  rw [e1, e2] at key
  unfold Image.Reformat
  simp only [Image.GetHeight, Image.GetWidth, List.range_eq_range']
  exact key

/-- C8: for every image and every target format `F`, `Image::Reformat(F)`
returns an image of format `F` with the same height and width, whose buffer
size is `height * width * channels(F)`, and whose pixel at every in-bounds
`(r, c)` is equal (`==`) to `Pixel::Reformat(F)` of the source pixel at
`(r, c)`. -/
theorem C8_image_reformat (img : Image) (F : Format) (buffer : Option (List Nat))
    (junk : Nat → Nat)
    (hsrc : img.GetBufferSize ≤ img.buffer_.length)
    (hdst : ∀ b, buffer = some b → img.GetHeight * img.GetWidth * F.GetChannels ≤ b.length) :
    ∃ out, img.Reformat F buffer junk = some out ∧
      out.GetFormat = F ∧ out.GetHeight = img.GetHeight ∧ out.GetWidth = img.GetWidth ∧
      out.GetBufferSize = img.GetHeight * img.GetWidth * F.GetChannels ∧
      out.GetBufferSize ≤ out.buffer_.length ∧
      (buffer = none → out.buffer_.length = img.GetHeight * img.GetWidth * F.GetChannels) ∧
      ∀ r c, r < img.GetHeight → c < img.GetWidth → ∀ junk2,
        ∃ p q, img.GetPixel r c junk2 = some p ∧ out.GetPixel r c junk2 = some q ∧
          q.eq (p.Reformat F junk2) = true := by
  obtain ⟨out, hout, hfill⟩ := Reformat_filled img F buffer junk hsrc hdst
  obtain ⟨e1, e2, e3⟩ := Image_new_fields img.height_ img.width_ F buffer junk
  have hlen := Image_new_length img.height_ img.width_ F buffer junk hdst
  have hfill2 := hfill
  obtain ⟨h1, h2, h3, _, h5, _, _⟩ := hfill
  have hsz : out.GetBufferSize = img.GetHeight * img.GetWidth * F.GetChannels := by
    show out.height_ * out.width_ * out.format_.GetChannels = _
    rw [h1, h2, h3, e1, e2, e3]; rfl
  refine ⟨out, hout, h3.trans e3, h1.trans e1, h2.trans e2, hsz, ?_, ?_, ?_⟩
  · rw [hsz, h5]; exact hlen
  · intro hnone
    rw [h5, hnone]
    simp [Image.new, Image.GetHeight, Image.GetWidth]
  · intro r c hr hc junk2
    have hq := GetPixel_of_Filled (Image.new img.height_ img.width_ F buffer junk) out _ r c junk2
      (by rw [e1, e2, e3]; exact hlen) (by rw [e1, e2]; exact hfill2) (by rw [e1]; exact hr)
      (by rw [e2]; exact hc)
    refine ⟨_, _, GetPixel_inbounds img r c junk2 hsrc hr hc, hq, ?_⟩
    rw [Pixel_eq_iff]
    refine ⟨?_, ?_⟩
    · rw [Reformat_format]; exact e3
    · intro ch hch
      have hch2 : ch < F.GetChannels := by
        have : (Pixel.new (Image.new img.height_ img.width_ F buffer junk).format_
          ((fun j => (Pixel.new img.format_
            (img.buffer_.drop (j * img.format_.GetChannels)) junk).Reformat F junk)
            (r * (Image.new img.height_ img.width_ F buffer junk).width_ + c)).bytes_
          junk2).format_ = F := e3
        rw [this] at hch
        exact hch
      rw [e3, e2, byteAt_new _ _ _ _ hch2]
      refine Reformat_congr _ _ F junk junk2 ?_ ?_ ch hch2
      · rfl
      intro ch2 hch3
      have hch4 : ch2 < img.format_.GetChannels := hch3
      rw [byteAt_new _ _ _ _ hch4, byteAt_new _ _ _ _ hch4]

/-- C8 on the 1 x 2 RGB888 image `[(255, 0, 0), (10, 10, 10)]` reformatted to
GRAYSCALE into a caller-supplied buffer. -/
theorem C8_image_reformat_witness :
    ∃ out, (Image.new 1 2 .RGB888 (some [255, 0, 0, 10, 10, 10]) (fun _ => 0)).Reformat
        .GRAYSCALE (some [0, 0]) (fun _ => 0) = some out ∧
      out.GetFormat = .GRAYSCALE ∧
      out.GetHeight = (Image.new 1 2 .RGB888 (some [255, 0, 0, 10, 10, 10]) (fun _ => 0)).GetHeight ∧
      out.GetWidth = (Image.new 1 2 .RGB888 (some [255, 0, 0, 10, 10, 10]) (fun _ => 0)).GetWidth ∧
      out.GetBufferSize =
        (Image.new 1 2 .RGB888 (some [255, 0, 0, 10, 10, 10]) (fun _ => 0)).GetHeight *
        (Image.new 1 2 .RGB888 (some [255, 0, 0, 10, 10, 10]) (fun _ => 0)).GetWidth *
        Format.GRAYSCALE.GetChannels ∧
      out.GetBufferSize ≤ out.buffer_.length ∧
      (some [0, 0] = none → out.buffer_.length =
        (Image.new 1 2 .RGB888 (some [255, 0, 0, 10, 10, 10]) (fun _ => 0)).GetHeight *
        (Image.new 1 2 .RGB888 (some [255, 0, 0, 10, 10, 10]) (fun _ => 0)).GetWidth *
        Format.GRAYSCALE.GetChannels) ∧
      ∀ r c, r < (Image.new 1 2 .RGB888 (some [255, 0, 0, 10, 10, 10]) (fun _ => 0)).GetHeight →
        c < (Image.new 1 2 .RGB888 (some [255, 0, 0, 10, 10, 10]) (fun _ => 0)).GetWidth →
        ∀ junk2, ∃ p q,
          (Image.new 1 2 .RGB888 (some [255, 0, 0, 10, 10, 10]) (fun _ => 0)).GetPixel r c junk2
            = some p ∧
          out.GetPixel r c junk2 = some q ∧ q.eq (p.Reformat .GRAYSCALE junk2) = true :=
  C8_image_reformat (Image.new 1 2 .RGB888 (some [255, 0, 0, 10, 10, 10]) (fun _ => 0))
    .GRAYSCALE (some [0, 0]) (fun _ => 0) (by decide) (by intro b hb; cases hb; decide)


/-! ## Flips -/

/-- A read of pixel `(row, col)` whose bytes do not lie inside the allocation
fails. -/
theorem GetPixel_outside (img : Image) (row col : Nat) (junk : Nat → Nat)
    (h : img.buffer_.length < (row * img.width_ + col) * img.format_.GetChannels
      + img.format_.GetChannels) :
    img.GetPixel row col junk = none := by
  unfold Image.GetPixel
  simp only [Image.GetPixelLocation, Image.GetWidth, Image.GetChannels, Image.GetFormat]
  rw [if_neg (by omega)]

/-- A successful byte write keeps the shape of the image. -/
theorem writeByte_shape (im im2 : Image) (i v : Nat) (h : im.writeByte i v = some im2) :
    im2.height_ = im.height_ ∧ im2.width_ = im.width_ ∧ im2.format_ = im.format_ ∧
      im2.buffer_.length = im.buffer_.length := by
  unfold Image.writeByte at h
  by_cases hi : i < im.buffer_.length
  · rw [if_pos hi] at h
    cases h
    simp
  · rw [if_neg hi] at h
    cases h

/-- A loop in the `Option` monad whose successful iterations preserve a
reflexive and transitive relation to the start state preserves it. -/
theorem foldlM_preserves {σ α : Type} (R : σ → σ → Prop) (hrefl : ∀ s, R s s)
    (htrans : ∀ a b c, R a b → R b c → R a c) (step : σ → α → Option σ)
    (hstep : ∀ s a s2, step s a = some s2 → R s s2) :
    ∀ (l : List α) (s s2 : σ), l.foldlM step s = some s2 → R s s2 := by
  intro l
  induction l with
  | nil =>
    intro s s2 h
    cases h
    exact hrefl s
  | cons a l ih =>
    intro s s2 h
    rw [List.foldlM_cons] at h
    cases hs : step s a with
    | none => rw [hs] at h; cases h
    | some s1 =>
      rw [hs] at h
      exact htrans _ _ _ (hstep s a s1 hs) (ih s1 s2 h)

theorem SameShape_refl (a : Image) : SameShape a a := ⟨rfl, rfl, rfl, rfl⟩

theorem SameShape_trans (a b c : Image) (h1 : SameShape a b) (h2 : SameShape b c) :
    SameShape a c :=
  ⟨h2.1.trans h1.1, h2.2.1.trans h1.2.1, h2.2.2.1.trans h1.2.2.1, h2.2.2.2.trans h1.2.2.2⟩

/-- A successful `SetPixel` keeps the shape of the image. -/
theorem SetPixel_shape (im im2 : Image) (row col : Nat) (p : Pixel)
    (h : im.SetPixel row col p = some im2) : SameShape im im2 := by
  unfold Image.SetPixel at h
  exact foldlM_preserves SameShape SameShape_refl SameShape_trans _
    (fun s a s2 hs => writeByte_shape s s2 _ _ hs) _ _ _ h

/-- One swap of a flip, when it succeeds, keeps the shape of the image. -/
theorem swap_shape (im im2 : Image) (r1 c1 r2 c2 : Nat) (junk : Nat → Nat)
    (h : (do
      let pixel1 ← im.GetPixel r1 c1 junk
      let pixel2 ← im.GetPixel r2 c2 junk
      let im ← im.SetPixel r2 c2 pixel1
      im.SetPixel r1 c1 pixel2) = some im2) : SameShape im im2 := by
  cases h1 : im.GetPixel r1 c1 junk with
  | none => rw [h1] at h; cases h
  | some p1 =>
    cases h2 : im.GetPixel r2 c2 junk with
    | none => rw [h1, h2] at h; cases h
    | some p2 =>
      cases h3 : im.SetPixel r2 c2 p1 with
      | none => rw [h1, h2] at h; simp [h3] at h
      | some im1 =>
        rw [h1, h2] at h
        simp only [Option.some_bind, Option.bind_eq_bind, h3] at h
        exact SameShape_trans _ _ _ (SetPixel_shape _ _ _ _ _ h3) (SetPixel_shape _ _ _ _ _ h)

/-- `VerticalFlip` on an image of height at least 2 and width at least 1 whose
allocation has exactly `GetBufferSize()` bytes accesses a byte outside the
allocation in its first swap. -/
theorem VerticalFlip_exact_faults (img : Image) (junk : Nat → Nat)
    (hlen : img.buffer_.length = img.GetBufferSize)
    (hh : 2 ≤ img.GetHeight) (hw : 1 ≤ img.GetWidth) :
    img.VerticalFlip junk = none := by
  have hlen2 : img.buffer_.length = img.height_ * img.width_ * img.format_.GetChannels := hlen
  have hh2 : 2 ≤ img.height_ := hh
  have hw2 : 1 ≤ img.width_ := hw
  have hk := channels_pos img.format_
  obtain ⟨n, hn⟩ : ∃ n, img.height_ / 2 = n + 1 := ⟨img.height_ / 2 - 1, by omega⟩
  obtain ⟨m, hm⟩ : ∃ m, img.width_ = m + 1 := ⟨img.width_ - 1, by omega⟩
  have hout : img.GetPixel (img.height_ - 0) 0 junk = none := by
    apply GetPixel_outside
    rw [Nat.sub_zero, Nat.add_zero, hlen2]
    omega
  unfold Image.VerticalFlip
  simp only [Image.GetHeight, Image.GetWidth, List.range_eq_range']
  rw [hn, List.range'_succ, List.foldlM_cons]
  have hinner : ∀ s : Image, s = img →
      (List.range' 0 s.width_).foldlM
        (fun (img : Image) col => do
          let pixel1 ← img.GetPixel 0 col junk
          let pixel2 ← img.GetPixel (img.height_ - 0) col junk
          let img ← img.SetPixel (img.height_ - 0) col pixel1
          img.SetPixel 0 col pixel2) s = none := by
    intro s hs
    subst hs
    rw [hm, List.range'_succ, List.foldlM_cons, hout]
    cases s.GetPixel 0 0 junk <;> rfl
  rw [hinner img rfl]
  rfl


/-- `HorizontalFlip` on an image of height at least 1 and width at least 2
whose allocation has exactly `GetBufferSize()` bytes accesses a byte outside
the allocation in the first swap of its last row (if not earlier). -/
theorem HorizontalFlip_exact_faults (img : Image) (junk : Nat → Nat)
    (hlen : img.buffer_.length = img.GetBufferSize)
    (hh : 1 ≤ img.GetHeight) (hw : 2 ≤ img.GetWidth) :
    img.HorizontalFlip junk = none := by
  have hlen2 : img.buffer_.length = img.height_ * img.width_ * img.format_.GetChannels := hlen
  have hh2 : 1 ≤ img.height_ := hh
  have hw2 : 2 ≤ img.width_ := hw
  have hk := channels_pos img.format_
  obtain ⟨n, hn⟩ : ∃ n, img.height_ = n + 1 := ⟨img.height_ - 1, by omega⟩
  have hrow : ∀ (s s2 : Image) (row : Nat),
      (List.range (s.GetWidth / 2)).foldlM
        (fun (img : Image) col => do
          let pixel1 ← img.GetPixel row col junk
          let pixel2 ← img.GetPixel row (img.GetWidth - col) junk
          let img ← img.SetPixel row (img.GetWidth - col) pixel1
          img.SetPixel row col pixel2) s = some s2 → SameShape s s2 := by
    intro s s2 row h
    exact foldlM_preserves SameShape SameShape_refl SameShape_trans _
      (fun a col b hab => swap_shape a b row col row (a.GetWidth - col) junk hab) _ _ _ h
  have hlast : ∀ s : Image, SameShape img s →
      (List.range (s.GetWidth / 2)).foldlM
        (fun (img : Image) col => do
          let pixel1 ← img.GetPixel n col junk
          let pixel2 ← img.GetPixel n (img.GetWidth - col) junk
          let img ← img.SetPixel n (img.GetWidth - col) pixel1
          img.SetPixel n col pixel2) s = none := by
    intro s ⟨s1, s2, s3, s4⟩
    obtain ⟨m, hm⟩ : ∃ m, s.GetWidth / 2 = m + 1 :=
      ⟨s.GetWidth / 2 - 1, by have : s.GetWidth = s.width_ := rfl; omega⟩
    have hout : s.GetPixel n (s.GetWidth - 0) junk = none := by
      apply GetPixel_outside
      have e1 : s.GetWidth - 0 = img.width_ := s2
      have e2 : (n + 1) * img.width_ = n * img.width_ + img.width_ := Nat.succ_mul _ _
      rw [e1, s2, s3, s4, hlen2, hn, ← e2]
      omega
    rw [hm, List.range_eq_range', List.range'_succ, List.foldlM_cons, hout]
    cases s.GetPixel n 0 junk <;> rfl
  unfold Image.HorizontalFlip
  have hH : img.GetHeight = n + 1 := hn
  rw [hH, List.range_succ, List.foldlM_append]
  cases hfirst : (List.range n).foldlM
      (fun (img : Image) row =>
        (List.range (img.GetWidth / 2)).foldlM
          (fun (img : Image) col => do
            let pixel1 ← img.GetPixel row col junk
            let pixel2 ← img.GetPixel row (img.GetWidth - col) junk
            let img ← img.SetPixel row (img.GetWidth - col) pixel1
            img.SetPixel row col pixel2)
          img)
      img with
  | none => rfl
  | some s =>
    have hs : SameShape img s :=
      foldlM_preserves SameShape SameShape_refl SameShape_trans _
        (fun a row b hab => hrow a b row hab) _ _ _ hfirst
    show ((List.range (s.GetWidth / 2)).foldlM
        (fun (img : Image) col => do
          let pixel1 ← img.GetPixel n col junk
          let pixel2 ← img.GetPixel n (img.GetWidth - col) junk
          let img ← img.SetPixel n (img.GetWidth - col) pixel1
          img.SetPixel n col pixel2) s >>= fun s2 => (pure s2 : Option Image)) = none
    rw [hlast s hs]
    rfl


/-- C9: `HorizontalFlip` swaps column `col` with column `WIDTH - col`, not
`WIDTH - 1 - col`.  On every image of height at least 1 and width at least 2
whose buffer has exactly `GetBufferSize()` bytes it accesses a byte outside the
buffer.  On the 1 x 2 grayscale image `[1, 2]` the first swap accesses byte 2;
in a three-byte allocation `[1, 2, 3]` the call ends with `[3, 2, 1]`: pixel
`(0, 0)` holds the byte from outside the image, pixel `(0, 1)` is unchanged,
and the byte behind the image is overwritten.  On a 2 x 2 image the first row
is swapped with the start of the second row. -/
theorem C9_horizontal_flip_off_by_one :
    (∀ (img : Image) (junk : Nat → Nat), img.buffer_.length = img.GetBufferSize →
      1 ≤ img.GetHeight → 2 ≤ img.GetWidth → img.HorizontalFlip junk = none) ∧
    (grayImage 1 2 [1, 2]).HorizontalFlip (fun _ => 0) = none ∧
    (grayImage 1 2 [1, 2, 3]).HorizontalFlip (fun _ => 0) = some (grayImage 1 2 [3, 2, 1]) ∧
    (grayImage 2 2 [1, 2, 3, 4]).HorizontalFlip (fun _ => 0) = none ∧
    (grayImage 2 2 [1, 2, 3, 4, 5]).HorizontalFlip (fun _ => 0)
      = some (grayImage 2 2 [3, 2, 5, 4, 1]) := by
  refine ⟨HorizontalFlip_exact_faults, ?_⟩
  decide

/-- C10: `VerticalFlip` swaps row `row` with row `HEIGHT - row`, not
`HEIGHT - 1 - row`.  On every image of height at least 2 and width at least 1
whose buffer has exactly `GetBufferSize()` bytes it accesses a byte outside the
buffer.  On the 2 x 1 grayscale image `[1, 2]` the first swap accesses byte 2;
in a three-byte allocation `[1, 2, 3]` the call ends with `[3, 2, 1]`: pixel
`(0, 0)` holds the byte from outside the image, pixel `(1, 0)` is unchanged,
and the byte behind the image is overwritten. -/
theorem C10_vertical_flip_off_by_one :
    (∀ (img : Image) (junk : Nat → Nat), img.buffer_.length = img.GetBufferSize →
      2 ≤ img.GetHeight → 1 ≤ img.GetWidth → img.VerticalFlip junk = none) ∧
    (grayImage 2 1 [1, 2]).VerticalFlip (fun _ => 0) = none ∧
    (grayImage 2 1 [1, 2, 3]).VerticalFlip (fun _ => 0) = some (grayImage 2 1 [3, 2, 1]) ∧
    (grayImage 2 2 [1, 2, 3, 4]).VerticalFlip (fun _ => 0) = none ∧
    (grayImage 2 2 [1, 2, 3, 4, 5, 6]).VerticalFlip (fun _ => 0)
      = some (grayImage 2 2 [5, 6, 3, 4, 1, 2]) := by
  refine ⟨VerticalFlip_exact_faults, ?_⟩
  decide

/-! ## Flip twice -/

/-- C11: flipping twice does not restore the pixel grid.  The partner index is
off by one (`WIDTH - col`, `HEIGHT - row`), so on every image of height at
least 1 and width at least 2 (height at least 2 and width at least 1 for the
vertical flip) whose buffer has exactly `GetBufferSize()` bytes the first flip
already accesses a byte outside the buffer.  Inside a larger allocation the
2 x 2 grayscale image `[[1, 2], [3, 4]]` followed by the byte `5` becomes
`[[5, 2], [1, 4]]` followed by `3` after two horizontal flips. -/
theorem C11_flip_twice_not_identity :
    (∀ (img : Image) (junk : Nat → Nat), img.buffer_.length = img.GetBufferSize →
      1 ≤ img.GetHeight → 2 ≤ img.GetWidth → img.HorizontalFlipTwice junk = none) ∧
    (∀ (img : Image) (junk : Nat → Nat), img.buffer_.length = img.GetBufferSize →
      2 ≤ img.GetHeight → 1 ≤ img.GetWidth → img.VerticalFlipTwice junk = none) ∧
    (grayImage 2 2 [1, 2, 3, 4]).HorizontalFlipTwice (fun _ => 0) = none ∧
    (grayImage 2 2 [1, 2, 3, 4]).VerticalFlipTwice (fun _ => 0) = none ∧
    (grayImage 2 2 [1, 2, 3, 4, 5]).HorizontalFlipTwice (fun _ => 0)
      = some (grayImage 2 2 [5, 2, 1, 4, 3]) := by
  refine ⟨?_, ?_, ?_⟩
  · intro img junk h1 h2 h3
    unfold Image.HorizontalFlipTwice
    rw [HorizontalFlip_exact_faults img junk h1 h2 h3]
    rfl
  · intro img junk h1 h2 h3
    unfold Image.VerticalFlipTwice
    rw [VerticalFlip_exact_faults img junk h1 h2 h3]
    rfl
  · decide

/-! ## Resize reads the neighbours below and to the right without a bound -/

theorem last_row_orig (H nh : Nat) (hH : 1 ≤ H) (hn : H ≤ nh) :
    (nh - 1) * H / nh = H - 1 := by
  have hpos : 0 < nh := by omega
  have e : (nh - 1) * H = (nh - H) + nh * (H - 1) := by
    obtain ⟨a, rfl⟩ : ∃ a, nh = a + 1 := ⟨nh - 1, by omega⟩
    obtain ⟨b, rfl⟩ : ∃ b, H = b + 1 := ⟨H - 1, by omega⟩
    simp only [Nat.add_sub_cancel]
    have : a + 1 - (b + 1) = a - b := by omega
    rw [this]
    have hab : b ≤ a := by omega
    obtain ⟨c, rfl⟩ : ∃ c, a = b + c := ⟨a - b, by omega⟩
    simp only [Nat.add_sub_cancel_left]
    ring
  rw [e, Nat.add_mul_div_left _ _ hpos, Nat.div_eq_of_lt (by omega), Nat.zero_add]

/-- For the first destination pixel of the last destination row of an
enlargement (or a resize to the same height), `Resize` reads the source row
`GetHeight()`, which lies behind an exactly sized buffer. -/
theorem ResizePixel_last_row_faults (img : Image) (nh nw : Nat) (junk : Nat → Nat)
    (hlen : img.buffer_.length = img.GetBufferSize)
    (hH : 1 ≤ img.GetHeight) (hn : img.GetHeight ≤ nh) :
    img.ResizePixel nh nw (nh - 1) 0 junk = none := by
  have hlen2 : img.buffer_.length = img.height_ * img.width_ * img.format_.GetChannels := hlen
  have hk := channels_pos img.format_
  have horig : (nh - 1) * img.GetHeight / nh = img.height_ - 1 + 0 := last_row_orig _ _ hH hn
  have hH2 : 1 ≤ img.height_ := hH
  have hout : img.GetPixel (img.height_ - 1 + 0 + 1) (0 * img.GetWidth / nw) junk = none := by
    apply GetPixel_outside
    have e1 : img.height_ - 1 + 0 + 1 = img.height_ := by omega
    rw [e1, hlen2, Nat.add_mul]
    omega
  unfold Image.ResizePixel
  simp only [horig]
  rw [hout]
  cases img.GetPixel (img.height_ - 1 + 0) (0 * img.GetWidth / nw) junk with
  | none => rfl
  | some p1 =>
    cases img.GetPixel (img.height_ - 1 + 0) (0 * img.GetWidth / nw + 1) junk with
    | none => rfl
    | some p2 => rfl

/-- `Resize` to at least the height of the source, on a source whose buffer
has exactly `GetBufferSize()` bytes, reads outside the buffer. -/
theorem Resize_exact_faults (img : Image) (nh nw : Nat) (buffer : Option (List Nat))
    (junk : Nat → Nat)
    (hlen : img.buffer_.length = img.GetBufferSize)
    (hH : 1 ≤ img.GetHeight) (hn : img.GetHeight ≤ nh) (hw : 1 ≤ nw) :
    img.Resize nh nw buffer junk = none := by
  obtain ⟨n, rfl⟩ : ∃ n, nh = n + 1 := ⟨nh - 1, by omega⟩
  obtain ⟨m, rfl⟩ : ∃ m, nw = m + 1 := ⟨nw - 1, by omega⟩
  have hpix := ResizePixel_last_row_faults img (n + 1) (m + 1) junk hlen hH hn
  rw [Nat.add_sub_cancel] at hpix
  unfold Image.Resize
  simp only []
  rw [show List.range (n + 1) = List.range n ++ [n] from List.range_succ n, List.foldlM_append]
  cases (List.range n).foldlM
      (fun (new_img : Image) row =>
        (List.range (m + 1)).foldlM
          (fun (new_img : Image) col => do
            let new_pixel ← img.ResizePixel (n + 1) (m + 1) row col junk
            new_img.SetPixel row col new_pixel)
          new_img)
      (Image.new (n + 1) (m + 1) img.GetFormat buffer junk) with
  | none => rfl
  | some s =>
    show ((List.range (m + 1)).foldlM
        (fun (new_img : Image) col => do
          let new_pixel ← img.ResizePixel (n + 1) (m + 1) n col junk
          new_img.SetPixel n col new_pixel) s >>= fun s2 => (pure s2 : Option Image)) = none
    rw [List.range_eq_range', List.range'_succ, List.foldlM_cons, hpix]
    rfl

/-- C12: `Resize(H, W)` does not return the source image: for the pixels of
the last row it reads the neighbours in row `H`, so on every image of height
and width at least 1 whose buffer has exactly `GetBufferSize()` bytes it reads
outside the buffer.  When the allocation extends far enough behind the image
the two weights are 0 and the result is the source image, as on the 1 x 1
image `[7]` inside the allocation `[7, 1, 2, 3]`. -/
theorem C12_resize_same_size_reads_outside :
    (∀ (img : Image) (buffer : Option (List Nat)) (junk : Nat → Nat),
      img.buffer_.length = img.GetBufferSize → 1 ≤ img.GetHeight → 1 ≤ img.GetWidth →
      img.Resize img.GetHeight img.GetWidth buffer junk = none) ∧
    (grayImage 1 1 [7]).Resize 1 1 none (fun _ => 0) = none ∧
    (grayImage 2 2 [1, 2, 3, 4]).Resize 2 2 none (fun _ => 0) = none ∧
    (grayImage 1 1 [7, 1, 2, 3]).Resize 1 1 none (fun _ => 0)
      = some ⟨1, 1, .GRAYSCALE, [7], true⟩ := by
  refine ⟨?_, ?_, ?_, ?_⟩
  · intro img buffer junk hlen hH hW
    exact Resize_exact_faults img _ _ buffer junk hlen hH (Nat.le_refl _) hW
  · decide
  · decide!
  · decide!

/-- C13: `Resize` does not clamp the neighbour indices: it reads the rows
`orig_row + 1` and the columns `orig_col + 1` as they are.  For the first
pixel of the last destination row of a resize to at least the source height,
the bottom neighbours are in row `GetHeight()`; on a source whose buffer has
exactly `GetBufferSize()` bytes this read is outside the buffer.  On the 1 x 1
image `[7]` the reads of `(0, 1)`, `(1, 0)` and `(1, 1)` are all outside. -/
theorem C13_resize_neighbours_not_clamped :
    (∀ (img : Image) (nh nw : Nat) (junk : Nat → Nat),
      img.buffer_.length = img.GetBufferSize → 1 ≤ img.GetHeight → img.GetHeight ≤ nh →
      img.ResizePixel nh nw (nh - 1) 0 junk = none) ∧
    (∀ (img : Image) (nh nw : Nat) (buffer : Option (List Nat)) (junk : Nat → Nat),
      img.buffer_.length = img.GetBufferSize → 1 ≤ img.GetHeight → img.GetHeight ≤ nh →
      1 ≤ nw → img.Resize nh nw buffer junk = none) ∧
    (grayImage 1 1 [7]).GetPixel 0 0 (fun _ => 0) = some ⟨.GRAYSCALE, [7, 0, 0, 0]⟩ ∧
    (grayImage 1 1 [7]).GetPixel 0 (0 + 1) (fun _ => 0) = none ∧
    (grayImage 1 1 [7]).GetPixel (0 + 1) 0 (fun _ => 0) = none ∧
    (grayImage 1 1 [7]).GetPixel (0 + 1) (0 + 1) (fun _ => 0) = none ∧
    (grayImage 1 1 [7]).ResizePixel 1 1 0 0 (fun _ => 0) = none ∧
    (grayImage 2 2 [1, 2, 3, 4]).Resize 3 3 none (fun _ => 0) = none := by
  refine ⟨?_, ?_, ?_⟩
  · intro img nh nw junk hlen hH hn
    exact ResizePixel_last_row_faults img nh nw junk hlen hH hn
  · intro img nh nw buffer junk hlen hH hn hw
    exact Resize_exact_faults img nh nw buffer junk hlen hH hn hw
  · decide!

/-! ## The horizontal weight of Resize -/

/-- C14: the horizontal weight `left_offset` of `Resize` is computed from the
destination row and `orig_row`, not from the destination column and
`orig_col`.  For the 1 x 2 grayscale image `[0, 100]` (inside a larger
allocation) resized to 1 x 4, destination pixel `(0, 1)` has
`col * W / new_width - floor(col * W / new_width) = 1/2`, for which the
interpolation formula gives 50; the code uses the weight
`row * W / new_width - orig_row = 0` and writes 0, and the whole row is
`[0, 0, 100, 100]`.  Resizing a 2 x 1 image to 4 x 1 the weight of
destination row 3 is 2, the interpolated value is negative, and its
conversion to a byte is undefined. -/
theorem C14_resize_left_offset_uses_row :
    (grayImage 1 2 [0, 100, 0, 0, 0]).ResizeLeftOffset 4 0 (0 * 1 / 1) = 0 ∧
    ((1 * 2 : Nat) : ℚ) / ((4 : Nat) : ℚ) - ((1 * 2 / 4 : Nat) : ℚ) = 1 / 2 ∧
    castToUint8 (bilinear_interpolation 0 (1 / 2) 0 100 0 0) = some 50 ∧
    (grayImage 1 2 [0, 100, 0, 0, 0]).ResizePixel 1 4 0 1 (fun _ => 0)
      = some ⟨.GRAYSCALE, [0, 0, 0, 0]⟩ ∧
    (grayImage 1 2 [0, 100, 0, 0, 0]).Resize 1 4 none (fun _ => 0)
      = some ⟨1, 4, .GRAYSCALE, [0, 0, 100, 100], true⟩ ∧
    (grayImage 2 1 [0, 100, 0, 0, 0]).ResizeLeftOffset 1 3 (3 * 2 / 4) = 2 ∧
    (grayImage 2 1 [0, 100, 0, 0, 0]).ResizePixel 4 1 3 0 (fun _ => 0) = none ∧
    (grayImage 2 1 [0, 100, 0, 0, 0]).Resize 4 1 none (fun _ => 0) = none := by
  decide!

/-! ## ToString -/

/-- The result of `Image::ToString` on an image whose allocation holds
`GetBufferSize()` bytes: the three header fields, the second of which is
written from `GetHeight()`, and the `GetBufferSize()` buffer bytes. -/
theorem ToString_eq (img : Image) (hlen : img.GetBufferSize ≤ img.buffer_.length) :
    img.ToString = some
      (literalBytes "height:" ++ setfill0_setw 16 (to_string img.GetHeight)
        ++ literalBytes "width:" ++ setfill0_setw 16 (to_string img.GetHeight)
        ++ literalBytes "format:" ++ setfill0_setw 8 (to_string img.GetFormat.toNat)
        ++ img.buffer_.take img.GetBufferSize) := by
  unfold Image.ToString
  obtain ⟨s, hs, hP⟩ := foldlM_range_inv img.GetBufferSize
    (fun (strbuf : List Nat) i => do
      let b ← img.GetBuffer[i]?
      pure (strbuf ++ [b]))
    (fun i s => s = literalBytes "height:" ++ setfill0_setw 16 (to_string img.GetHeight)
        ++ literalBytes "width:" ++ setfill0_setw 16 (to_string img.GetHeight)
        ++ literalBytes "format:" ++ setfill0_setw 8 (to_string img.GetFormat.toNat)
        ++ img.buffer_.take i)
    (literalBytes "height:" ++ setfill0_setw 16 (to_string img.GetHeight)
        ++ literalBytes "width:" ++ setfill0_setw 16 (to_string img.GetHeight)
        ++ literalBytes "format:" ++ setfill0_setw 8 (to_string img.GetFormat.toNat))
    (by simp)
    (by
      intro i hi s hs
      have hi2 : i < img.buffer_.length := by omega
      refine ⟨s ++ [img.buffer_[i]], ?_, ?_⟩
      · simp [Image.GetBuffer, List.getElem?_eq_getElem hi2]
      · beta_reduce
        rw [List.take_succ, List.getElem?_eq_getElem hi2]
        simp [hs])
  simp only [Option.pure_def, Option.bind_eq_bind] at hs ⊢
  rw [hs, hP]

/-- C19: the `"width:"` field written by `ToString` holds the height, not
the width.  For every image whose allocation holds `GetBufferSize()` bytes
the result is `"height:"`, the padded height, `"width:"`, the padded height
again, `"format:"`, the padded format value, and the buffer bytes.  For the
1 x 2 grayscale image with bytes `"AB"` the width field reads
`0000000000000001`, not `0000000000000002`. -/
theorem C19_to_string_width_field_is_height :
    (∀ img : Image, img.GetBufferSize ≤ img.buffer_.length →
      img.ToString = some
        (literalBytes "height:" ++ setfill0_setw 16 (to_string img.GetHeight)
          ++ literalBytes "width:" ++ setfill0_setw 16 (to_string img.GetHeight)
          ++ literalBytes "format:" ++ setfill0_setw 8 (to_string img.GetFormat.toNat)
          ++ img.buffer_.take img.GetBufferSize)) ∧
    (grayImage 1 2 [65, 66]).ToString = some (literalBytes
      "height:0000000000000001width:0000000000000001format:00000000AB") ∧
    (grayImage 1 2 [65, 66]).ToString ≠ some (literalBytes
      "height:0000000000000001width:0000000000000002format:00000000AB") := by
  refine ⟨ToString_eq, ?_, ?_⟩
  · decide
  · decide

/-! ## The scan in GetData: stride of the rows, failure of the inference -/

/-- C16: the row origin of the scan advances by `sliding_window_length`, the
column origin by `sliding_window_freq`.  With tile edge 2 and stride 1 on a
3 x 3 frame the scan crops the tiles at `(0, 0)` and `(0, 1)` only; the tiles
at `(1, 0)` and `(1, 1)`, which also fit, are never cropped.  On a 4 x 4 frame
it crops the row origins 0 and 2 and skips row origin 1. -/
theorem C16_row_stride_is_tile_edge :
    (Ardu_Camera.GetData_scan smallConfig (fun _ => some [0, 1, 0])
      (grayImage 3 3 [1, 2, 3, 4, 5, 6, 7, 8, 9]) (fun _ => 0) 10
      [0, 0, 0, 0] [0, 0, 0, 0] ⟨1, [0], 0⟩).map (fun st => cropOrigins st.trace)
      = some [(0, 0), (0, 1)] ∧
    (Ardu_Camera.GetData_scan smallConfig (fun _ => some [0, 1, 0])
      (grayImage 4 4 [1, 2, 3, 4, 5, 6, 7, 8, 9, 10, 11, 12, 13, 14, 15, 16]) (fun _ => 0) 10
      [0, 0, 0, 0] [0, 0, 0, 0] ⟨1, [0], 0⟩).map (fun st => cropOrigins st.trace)
      = some [(0, 0), (0, 1), (0, 2), (2, 0), (2, 1), (2, 2)] := by
  decide!

/-- When the interpreter never reports success, `RunInference` returns
`nullptr` whenever it returns. -/
theorem RunInference_null (m : TFLM_Model) (Invoke : List Nat → Option (List Nat))
    (input_buf : List Nat) (hfail : ∀ x, Invoke x = none)
    (r : Option (List Nat) × TFLM_Model) (h : m.RunInference Invoke input_buf = some r) :
    r.1 = none := by
  unfold TFLM_Model.RunInference at h
  cases hc : (List.range m.input_bytes).foldlM (TFLM_Model.copyByte input_buf) m.input_data with
  | none => rw [hc] at h; cases h
  | some data =>
    rw [hc] at h
    simp only [Option.some_bind, Option.bind_eq_bind, hfail data, Option.pure_def] at h
    cases h
    rfl

/-- The loop body for a tile on which the inference fails: `output_buf` is
`nullptr` and `output_buf[1]` dereferences it. -/
theorem GetData_tile_null (cfg : Config) (Invoke : List Nat → Option (List Nat))
    (camera_image : Image) (junk : Nat → Nat) (st : ScanState) (row col : Nat)
    (hfail : ∀ x, Invoke x = none) :
    Ardu_Camera.GetData_tile cfg Invoke camera_image junk st row col = none := by
  unfold Ardu_Camera.GetData_tile
  cases h1 : camera_image.Crop row col cfg.sliding_window_length cfg.sliding_window_length
      (some st.img_buf_a) junk with
  | none => rfl
  | some cropped =>
    simp only [Option.some_bind, Option.bind_eq_bind]
    cases h2 : cropped.Reformat cfg.cnn_img_fmt (some st.img_buf_b) junk with
    | none => rfl
    | some formatted =>
      simp only [Option.some_bind]
      cases h3 : formatted.Resize cfg.cnn_img_height cfg.cnn_img_width (some cropped.GetBuffer)
          junk with
      | none => rfl
      | some resized =>
        simp only [Option.some_bind]
        cases hr : st.model.RunInference Invoke resized.GetBuffer with
        | none => rfl
        | some r =>
          have h4 := RunInference_null st.model Invoke resized.GetBuffer hfail r hr
          simp only [Option.some_bind, h4, Option.none_bind]

/-- C17: a tile on which `RunInference` fails is not treated as a
non-detection.  `GetData` reads `output_buf[1]` without testing the pointer,
so with an interpreter that never succeeds the loop body dereferences
`nullptr` on every tile, and a scan with at least one tile does not continue
to a count.  With an interpreter that succeeds on the first tile of a 3 x 3
frame and fails on the second the scan ends in the same way. -/
theorem C17_failed_inference_dereferences_null :
    (∀ (cfg : Config) (Invoke : List Nat → Option (List Nat)) (camera_image : Image)
      (junk : Nat → Nat) (st : ScanState) (row col : Nat), (∀ x, Invoke x = none) →
      Ardu_Camera.GetData_tile cfg Invoke camera_image junk st row col = none) ∧
    (∀ (cfg : Config) (Invoke : List Nat → Option (List Nat)) (camera_image : Image)
      (junk : Nat → Nat) (fuel : Nat) (img_buf_a img_buf_b : List Nat) (model : TFLM_Model),
      (∀ x, Invoke x = none) →
      cfg.sliding_window_length ≤ camera_image.GetHeight →
      cfg.sliding_window_length ≤ camera_image.GetWidth →
      Ardu_Camera.GetData_scan cfg Invoke camera_image junk fuel img_buf_a img_buf_b model
        = none) ∧
    Ardu_Camera.GetData_scan smallConfig (fun _ => none)
      (grayImage 3 3 [1, 2, 3, 4, 5, 6, 7, 8, 9]) (fun _ => 0) 10
      [0, 0, 0, 0] [0, 0, 0, 0] ⟨1, [0], 0⟩ = none ∧
    Ardu_Camera.GetData_scan smallConfig (fun x => if x = [1] then some [0, 1, 0] else none)
      (grayImage 3 3 [1, 2, 3, 4, 5, 6, 7, 8, 9]) (fun _ => 0) 10
      [0, 0, 0, 0] [0, 0, 0, 0] ⟨1, [0], 0⟩ = none := by
  refine ⟨?_, ?_, ?_, ?_⟩
  · intro cfg Invoke camera_image junk st row col hfail
    exact GetData_tile_null cfg Invoke camera_image junk st row col hfail
  · intro cfg Invoke camera_image junk fuel img_buf_a img_buf_b model hfail hH hW
    unfold Ardu_Camera.GetData_scan
    cases fuel with
    | zero => rfl
    | succ fuel =>
      simp only [Ardu_Camera.GetData_rows, Ardu_Camera.GetData_cols, Nat.zero_add, hH, hW,
        if_true, GetData_tile_null cfg Invoke camera_image junk _ 0 0 hfail]
      rfl
  · decide!
  · decide!

/-! ## What a completed loop body leaves in the state -/

theorem detections_append (a b : List Event) :
    detections (a ++ b) = detections a + detections b := by
  simp [detections, List.filter_append]

theorem inferenceCalls_append (a b : List Event) :
    inferenceCalls (a ++ b) = inferenceCalls a + inferenceCalls b := by
  simp [inferenceCalls, List.filter_append]

theorem kicks_append (a b : List Event) : kicks (a ++ b) = kicks a + kicks b := by
  simp [kicks, List.filter_append]

theorem cropOrigins_append (a b : List Event) :
    cropOrigins (a ++ b) = cropOrigins a ++ cropOrigins b := by
  simp [cropOrigins, List.filterMap_append]

theorem detections_tileEvents (row col : Nat) (out : List Nat) :
    detections (tileEvents (row, col, some out)) = if isDetection out then 1 else 0 := by
  by_cases h : isDetection out <;> simp [detections, tileEvents, List.filter, h]

theorem inferenceCalls_tileEvents (t : Nat × Nat × Option (List Nat)) :
    inferenceCalls (tileEvents t) = 1 := by
  simp [inferenceCalls, tileEvents, List.filter]

theorem kicks_tileEvents (t : Nat × Nat × Option (List Nat)) : kicks (tileEvents t) = 1 := by
  simp [kicks, tileEvents, List.filter]

theorem cropOrigins_tileEvents (t : Nat × Nat × Option (List Nat)) :
    cropOrigins (tileEvents t) = [(t.1, t.2.1)] := by
  simp [cropOrigins, tileEvents, List.filterMap]

/-- A loop body that completes has cropped the tile, obtained a score array
of at least three entries from the inference, compared entries 1 and 2,
counted the tile if entry 1 is not smaller, and kicked the watchdog. -/
theorem GetData_tile_some (cfg : Config) (Invoke : List Nat → Option (List Nat))
    (camera_image : Image) (junk : Nat → Nat) (st st2 : ScanState) (row col : Nat)
    (h : Ardu_Camera.GetData_tile cfg Invoke camera_image junk st row col = some st2) :
    ∃ out : List Nat, 3 ≤ out.length ∧
      st2.trace = st.trace ++ tileEvents (row, col, some out) ∧
      st2.num_people = st.num_people + (if isDetection out then 1 else 0) := by
  unfold Ardu_Camera.GetData_tile at h
  cases h1 : camera_image.Crop row col cfg.sliding_window_length cfg.sliding_window_length
      (some st.img_buf_a) junk with
  | none => rw [h1] at h; cases h
  | some cropped =>
    rw [h1] at h
    simp only [Option.some_bind, Option.bind_eq_bind] at h
    cases h2 : cropped.Reformat cfg.cnn_img_fmt (some st.img_buf_b) junk with
    | none => rw [h2] at h; cases h
    | some formatted =>
      rw [h2] at h
      simp only [Option.some_bind] at h
      cases h3 : formatted.Resize cfg.cnn_img_height cfg.cnn_img_width (some cropped.GetBuffer)
          junk with
      | none => rw [h3] at h; cases h
      | some resized =>
        rw [h3] at h
        simp only [Option.some_bind] at h
        cases hr : st.model.RunInference Invoke resized.GetBuffer with
        | none => rw [hr] at h; cases h
        | some r =>
          rw [hr] at h
          simp only [Option.some_bind] at h
          obtain ⟨o, m2⟩ := r
          cases o with
          | none => cases h
          | some out =>
            simp only [Option.some_bind] at h
            cases hs1 : out[1]? with
            | none => rw [hs1] at h; cases h
            | some s1 =>
              cases hs2 : out[2]? with
              | none => rw [hs1, hs2] at h; cases h
              | some s2 =>
                rw [hs1, hs2] at h
                simp only [Option.some_bind, Option.pure_def, Option.some.injEq] at h
                have hlen : 3 ≤ out.length := by
                  have := (List.getElem?_eq_some_iff.1 hs2).1
                  omega
                have e1 : byteAt out 1 = s1 := by
                  simp [byteAt, List.getD_eq_getElem?_getD, hs1]
                have e2 : byteAt out 2 = s2 := by
                  simp [byteAt, List.getD_eq_getElem?_getD, hs2]
                refine ⟨out, hlen, ?_, ?_⟩
                · rw [← h]
                  rfl
                · rw [← h]
                  simp only [isDetection, e1, e2]
                  by_cases hge : s1 ≥ s2 <;> simp [hge]

/-! ## What completed loops leave in the state -/

theorem loopOrigins_succ (length step bound fuel i : Nat) :
    loopOrigins length step bound (fuel + 1) i =
      if i + length ≤ bound then i :: loopOrigins length step bound fuel (i + step) else [] :=
  rfl

theorem Scanned_nil (st : ScanState) : Scanned [] st st :=
  ⟨[], rfl, by simp, by simp, by simp⟩

theorem Scanned_append (os1 os2 : List (Nat × Nat)) (st st1 st2 : ScanState)
    (h1 : Scanned os1 st st1) (h2 : Scanned os2 st1 st2) : Scanned (os1 ++ os2) st st2 := by
  obtain ⟨outs1, l1, v1, t1, n1⟩ := h1
  obtain ⟨outs2, l2, v2, t2, n2⟩ := h2
  refine ⟨outs1 ++ outs2, by simp [l1, l2], ?_, ?_, ?_⟩
  · intro out hout
    rcases List.mem_append.1 hout with h | h
    · exact v1 out h
    · exact v2 out h
  · rw [t2, t1, List.zip_append l1.symm, List.flatMap_append, List.append_assoc]
  · rw [n2, n1, List.filter_append, List.length_append, Nat.add_assoc]

theorem Scanned_tile (cfg : Config) (Invoke : List Nat → Option (List Nat))
    (camera_image : Image) (junk : Nat → Nat) (st st2 : ScanState) (row col : Nat)
    (h : Ardu_Camera.GetData_tile cfg Invoke camera_image junk st row col = some st2) :
    Scanned [(row, col)] st st2 := by
  obtain ⟨out, hlen, ht, hn⟩ := GetData_tile_some cfg Invoke camera_image junk st st2 row col h
  refine ⟨[out], rfl, ?_, ?_, ?_⟩
  · intro o ho
    rw [List.mem_singleton.1 ho]
    exact hlen
  · rw [ht]
    simp
  · rw [hn]
    by_cases hd : isDetection out <;> simp [List.filter, hd]

/-- The inner loop, when it completes, has run the loop body on the columns
`loopOrigins`, in order. -/
theorem GetData_cols_some (cfg : Config) (Invoke : List Nat → Option (List Nat))
    (camera_image : Image) (junk : Nat → Nat) (row : Nat) :
    ∀ (fuel col : Nat) (st st2 : ScanState),
      Ardu_Camera.GetData_cols cfg Invoke camera_image junk row fuel col st = some st2 →
      Scanned ((loopOrigins cfg.sliding_window_length cfg.sliding_window_freq
        camera_image.GetWidth fuel col).map (fun c => (row, c))) st st2 := by
  intro fuel
  induction fuel with
  | zero =>
    intro col st st2 h
    cases h
  | succ fuel ih =>
    intro col st st2 h
    unfold Ardu_Camera.GetData_cols at h
    rw [loopOrigins_succ]
    by_cases hc : col + cfg.sliding_window_length ≤ camera_image.GetWidth
    · rw [if_pos hc] at h
      rw [if_pos hc]
      cases ht : Ardu_Camera.GetData_tile cfg Invoke camera_image junk st row col with
      | none => rw [ht] at h; cases h
      | some st1 =>
        rw [ht] at h
        simp only [Option.some_bind, Option.bind_eq_bind] at h
        have h1 := Scanned_tile cfg Invoke camera_image junk st st1 row col ht
        have h2 := ih _ st1 st2 h
        exact Scanned_append _ _ st st1 st2 h1 h2
    · rw [if_neg hc] at h
      rw [if_neg hc]
      cases h
      exact Scanned_nil st

/-- The outer loop, when it completes, has run the loop body on the tiles of
the rows `loopOrigins`, in order, each row with the columns of the inner
loop. -/
theorem GetData_rows_some (cfg : Config) (Invoke : List Nat → Option (List Nat))
    (camera_image : Image) (junk : Nat → Nat) (col_fuel : Nat) :
    ∀ (fuel row : Nat) (st st2 : ScanState),
      Ardu_Camera.GetData_rows cfg Invoke camera_image junk col_fuel fuel row st = some st2 →
      Scanned ((loopOrigins cfg.sliding_window_length cfg.sliding_window_length
        camera_image.GetHeight fuel row).flatMap (fun r =>
          (loopOrigins cfg.sliding_window_length cfg.sliding_window_freq
            camera_image.GetWidth col_fuel 0).map (fun c => (r, c)))) st st2 := by
  intro fuel
  induction fuel with
  | zero =>
    intro row st st2 h
    cases h
  | succ fuel ih =>
    intro row st st2 h
    unfold Ardu_Camera.GetData_rows at h
    rw [loopOrigins_succ]
    by_cases hc : row + cfg.sliding_window_length ≤ camera_image.GetHeight
    · rw [if_pos hc] at h
      rw [if_pos hc]
      cases ht : Ardu_Camera.GetData_cols cfg Invoke camera_image junk row col_fuel 0 st with
      | none => rw [ht] at h; cases h
      | some st1 =>
        rw [ht] at h
        simp only [Option.some_bind, Option.bind_eq_bind] at h
        have h1 := GetData_cols_some cfg Invoke camera_image junk row col_fuel 0 st st1 ht
        have h2 := ih _ st1 st2 h
        rw [List.flatMap_cons]
        exact Scanned_append _ _ st st1 st2 h1 h2
    · rw [if_neg hc] at h
      rw [if_neg hc]
      cases h
      exact Scanned_nil st

/-- A scan that completes has run the loop body on the tiles `scanOrigins`,
in order. -/
theorem GetData_scan_some (cfg : Config) (Invoke : List Nat → Option (List Nat))
    (camera_image : Image) (junk : Nat → Nat) (fuel : Nat) (img_buf_a img_buf_b : List Nat)
    (model : TFLM_Model) (st : ScanState)
    (h : Ardu_Camera.GetData_scan cfg Invoke camera_image junk fuel img_buf_a img_buf_b model
      = some st) :
    Scanned (scanOrigins cfg camera_image.GetHeight camera_image.GetWidth fuel)
      { img_buf_a := img_buf_a, img_buf_b := img_buf_b, model := model
        num_people := 0, trace := [] } st :=
  GetData_rows_some cfg Invoke camera_image junk fuel fuel 0 _ st h

/-! ## The interpolation stays in the range of a byte -/

/-- The fractional part `a / b - floor(a / b)` lies in `[0, 1)`. -/
theorem frac_bounds (a b : Nat) (hb : 0 < b) :
    0 ≤ ((a : Nat) : ℚ) / (b : ℚ) - ((a / b : Nat) : ℚ) ∧
      ((a : Nat) : ℚ) / (b : ℚ) - ((a / b : Nat) : ℚ) < 1 := by
  have hbq : (0 : ℚ) < (b : ℚ) := by exact_mod_cast hb
  have hdm : ((b * (a / b) + a % b : Nat) : ℚ) = (a : ℚ) := by
    rw [Nat.div_add_mod]
  push_cast at hdm
  have hmod : ((a % b : Nat) : ℚ) < (b : ℚ) := by exact_mod_cast Nat.mod_lt a hb
  have hmod0 : (0 : ℚ) ≤ ((a % b : Nat) : ℚ) := by exact_mod_cast Nat.zero_le _
  have e : (a : ℚ) / (b : ℚ) - ((a / b : Nat) : ℚ) = ((a % b : Nat) : ℚ) / (b : ℚ) := by
    field_simp
    linarith
  rw [e]
  constructor
  · exact div_nonneg hmod0 (le_of_lt hbq)
  · rw [div_lt_one hbq]
    exact hmod

/-- With weights in `[0, 1]` and samples in `[0, 255]` the interpolated value
lies in `[0, 255]`. -/
theorem bilinear_bounds (t l a b c d : ℚ) (ht0 : 0 ≤ t) (ht1 : t ≤ 1) (hl0 : 0 ≤ l)
    (hl1 : l ≤ 1) (ha0 : 0 ≤ a) (ha : a ≤ 255) (hb0 : 0 ≤ b) (hb : b ≤ 255)
    (hc0 : 0 ≤ c) (hc : c ≤ 255) (hd0 : 0 ≤ d) (hd : d ≤ 255) :
    0 ≤ bilinear_interpolation t l a b c d ∧ bilinear_interpolation t l a b c d ≤ 255 := by
  unfold bilinear_interpolation
  have ht' : 0 ≤ 1 - t := by linarith
  have hl' : 0 ≤ 1 - l := by linarith
  have w1 : 0 ≤ (1 - l) * (1 - t) := mul_nonneg hl' ht'
  have w2 : 0 ≤ l * (1 - t) := mul_nonneg hl0 ht'
  have w3 : 0 ≤ (1 - l) * t := mul_nonneg hl' ht0
  have w4 : 0 ≤ l * t := mul_nonneg hl0 ht0
  have p1 : 0 ≤ a * ((1 - l) * (1 - t)) := mul_nonneg ha0 w1
  have p2 : 0 ≤ b * (l * (1 - t)) := mul_nonneg hb0 w2
  have p3 : 0 ≤ c * ((1 - l) * t) := mul_nonneg hc0 w3
  have p4 : 0 ≤ d * (l * t) := mul_nonneg hd0 w4
  have q1 : a * ((1 - l) * (1 - t)) ≤ 255 * ((1 - l) * (1 - t)) :=
    mul_le_mul_of_nonneg_right ha w1
  have q2 : b * (l * (1 - t)) ≤ 255 * (l * (1 - t)) := mul_le_mul_of_nonneg_right hb w2
  have q3 : c * ((1 - l) * t) ≤ 255 * ((1 - l) * t) := mul_le_mul_of_nonneg_right hc w3
  have q4 : d * (l * t) ≤ 255 * (l * t) := mul_le_mul_of_nonneg_right hd w4
  constructor
  · nlinarith [p1, p2, p3, p4]
  · nlinarith [q1, q2, q3, q4]

/-- A value in `[0, 255]` converts to a byte. -/
theorem castToUint8_some (x : ℚ) (h0 : 0 ≤ x) (h1 : x ≤ 255) :
    ∃ v, castToUint8 x = some v ∧ v < 256 := by
  unfold castToUint8
  rw [if_pos ⟨by linarith, by linarith⟩]
  refine ⟨_, rfl, ?_⟩
  have hf : Rat.floor x = ⌊x⌋ := rfl
  have h2 : ⌊x⌋ ≤ 255 := by
    have : ⌊x⌋ ≤ ⌊(255 : ℚ)⌋ := Int.floor_mono h1
    simpa using this
  have h3 : 0 ≤ ⌊x⌋ := Int.floor_nonneg.2 h0
  rw [hf]
  omega

/-! ## Resize of a square image inside a larger allocation -/

/-- A read of a pixel whose bytes lie inside the allocation succeeds. -/
theorem GetPixel_in_alloc (img : Image) (r c : Nat) (junk : Nat → Nat)
    (h : (r * img.width_ + c) * img.format_.GetChannels + img.format_.GetChannels
      ≤ img.buffer_.length) :
    img.GetPixel r c junk =
      some (Pixel.new img.format_
        (img.buffer_.drop ((r * img.width_ + c) * img.format_.GetChannels)) junk) := by
  unfold Image.GetPixel
  simp only [Image.GetPixelLocation, Image.GetWidth, Image.GetChannels, Image.GetFormat]
  rw [if_pos h]

/-- The channel bytes of a pixel read from an array of byte values are byte
values. -/
theorem byteAt_new_drop_lt (fmt : Format) (buf : List Nat) (loc : Nat) (junk : Nat → Nat)
    (hv : BytesValid buf) (ch : Nat) (hch : ch < fmt.GetChannels) :
    byteAt (Pixel.new fmt (buf.drop loc) junk).bytes_ ch < 256 := by
  rw [byteAt_new _ _ _ _ hch, byteAt_drop]
  exact hv _

/-- The channel loop of `Resize` completes when every conversion to a byte
is defined. -/
theorem ResizeChannels_some (img : Image) (nh nw row orig_row : Nat)
    (tl tr bl br : Pixel) (junk : Nat → Nat)
    (h : ∀ ch, ch < img.format_.GetChannels → ∃ v,
      castToUint8 (bilinear_interpolation (img.ResizeTopOffset nh row orig_row)
        (img.ResizeLeftOffset nw row orig_row)
        (byteAt tl.bytes_ ch : ℚ) (byteAt tr.bytes_ ch : ℚ)
        (byteAt bl.bytes_ ch : ℚ) (byteAt br.bytes_ ch : ℚ)) = some v) :
    ∃ l, img.ResizeChannels nh nw row orig_row tl tr bl br junk = some l := by
  unfold Image.ResizeChannels
  obtain ⟨l, hl, _⟩ := foldlM_range_inv img.GetChannels
    (fun (new_pixel_bytes : List Nat) ch => do
      let top_offset := img.ResizeTopOffset nh row orig_row
      let left_offset := img.ResizeLeftOffset nw row orig_row
      let v ← castToUint8 (bilinear_interpolation top_offset left_offset
        (byteAt tl.bytes_ ch : ℚ) (byteAt tr.bytes_ ch : ℚ)
        (byteAt bl.bytes_ ch : ℚ) (byteAt br.bytes_ ch : ℚ))
      pure (new_pixel_bytes.set ch v))
    (fun _ _ => True) [junk 0, junk 1, junk 2, junk 3] trivial
    (by
      intro ch hch s _
      obtain ⟨v, hv⟩ := h ch hch
      exact ⟨s.set ch v, by simp [hv], trivial⟩)
  exact ⟨l, hl⟩

theorem cast_byte_bounds (n : Nat) (h : n < 256) : (0 : ℚ) ≤ (n : ℚ) ∧ (n : ℚ) ≤ 255 := by
  constructor
  · exact_mod_cast Nat.zero_le n
  · have : n ≤ 255 := by omega
    exact_mod_cast this

/-- For a square source image of edge `L >= 1` whose allocation holds byte
values and extends `L + 1` pixels behind the image, the loop body of a
`Resize` to `M x M` computes a pixel for every destination position. -/
theorem ResizePixel_square_some (img : Image) (M r c : Nat) (junk : Nat → Nat)
    (hsq : img.height_ = img.width_) (hL : 1 ≤ img.width_)
    (hlen : (img.width_ * img.width_ + img.width_ + 1) * img.format_.GetChannels
      ≤ img.buffer_.length)
    (hv : BytesValid img.buffer_) (hr : r < M) (hc : c < M) :
    ∃ p, img.ResizePixel M M r c junk = some p := by
  have hM : 0 < M := by omega
  have hrow : r * img.width_ / M < img.width_ := by
    rw [Nat.div_lt_iff_lt_mul hM]
    calc r * img.width_ < M * img.width_ := Nat.mul_lt_mul_of_pos_right hr hL
      _ = img.width_ * M := Nat.mul_comm _ _
  have hcol : c * img.width_ / M < img.width_ := by
    rw [Nat.div_lt_iff_lt_mul hM]
    calc c * img.width_ < M * img.width_ := Nat.mul_lt_mul_of_pos_right hc hL
      _ = img.width_ * M := Nat.mul_comm _ _
  have hread : ∀ r2 c2, r2 ≤ img.width_ → c2 ≤ img.width_ →
      (r2 * img.width_ + c2) * img.format_.GetChannels + img.format_.GetChannels
        ≤ img.buffer_.length := by
    intro r2 c2 h1 h2
    have e1 : r2 * img.width_ ≤ img.width_ * img.width_ := Nat.mul_le_mul_right _ h1
    have e2 : (r2 * img.width_ + c2 + 1) * img.format_.GetChannels
        ≤ (img.width_ * img.width_ + img.width_ + 1) * img.format_.GetChannels :=
      Nat.mul_le_mul_right _ (by omega)
    have e3 : (r2 * img.width_ + c2 + 1) * img.format_.GetChannels
        = (r2 * img.width_ + c2) * img.format_.GetChannels + img.format_.GetChannels :=
      Nat.succ_mul _ _
    omega
  unfold Image.ResizePixel
  simp only [Image.GetHeight, Image.GetWidth, hsq]
  rw [GetPixel_in_alloc img _ _ junk (hread _ _ (by omega) (by omega)),
    GetPixel_in_alloc img _ _ junk (hread _ _ (by omega) (by omega)),
    GetPixel_in_alloc img _ _ junk (hread _ _ (by omega) (by omega)),
    GetPixel_in_alloc img _ _ junk (hread _ _ (by omega) (by omega))]
  simp only [Option.some_bind, Option.bind_eq_bind]
  obtain ⟨l, hl⟩ := ResizeChannels_some img M M r (r * img.width_ / M) _ _ _ _ junk (by
    intro ch hch
    have hfrac := frac_bounds (r * img.width_) M hM
    have ht : img.ResizeTopOffset M r (r * img.width_ / M)
        = ((r * img.width_ : Nat) : ℚ) / (M : ℚ) - ((r * img.width_ / M : Nat) : ℚ) := by
      simp only [Image.ResizeTopOffset, Image.GetHeight, hsq]
    have hlo : img.ResizeLeftOffset M r (r * img.width_ / M)
        = ((r * img.width_ : Nat) : ℚ) / (M : ℚ) - ((r * img.width_ / M : Nat) : ℚ) := by
      simp only [Image.ResizeLeftOffset, Image.GetWidth]
    rw [ht, hlo]
    have b1 := cast_byte_bounds _ (byteAt_new_drop_lt img.format_ img.buffer_
      ((r * img.width_ / M * img.width_ + c * img.width_ / M) * img.format_.GetChannels)
      junk hv ch hch)
    have b2 := cast_byte_bounds _ (byteAt_new_drop_lt img.format_ img.buffer_
      ((r * img.width_ / M * img.width_ + (c * img.width_ / M + 1)) * img.format_.GetChannels)
      junk hv ch hch)
    have b3 := cast_byte_bounds _ (byteAt_new_drop_lt img.format_ img.buffer_
      (((r * img.width_ / M + 1) * img.width_ + c * img.width_ / M) * img.format_.GetChannels)
      junk hv ch hch)
    have b4 := cast_byte_bounds _ (byteAt_new_drop_lt img.format_ img.buffer_
      (((r * img.width_ / M + 1) * img.width_ + (c * img.width_ / M + 1))
        * img.format_.GetChannels)
      junk hv ch hch)
    have hb := bilinear_bounds _ _ _ _ _ _ hfrac.1 (le_of_lt hfrac.2) hfrac.1
      (le_of_lt hfrac.2) b1.1 b1.2 b2.1 b2.2 b3.1 b3.2 b4.1 b4.2
    obtain ⟨v, hv1, _⟩ := castToUint8_some _ hb.1 hb.2
    exact ⟨v, hv1⟩)
  rw [hl]
  exact ⟨_, rfl⟩

/-- `Resize` completes when the loop body computes a pixel for every
destination position and the destination allocation is large enough; the
destination is then filled with these pixels. -/
theorem Resize_filled (img : Image) (nh nw : Nat) (buffer : Option (List Nat))
    (junk : Nat → Nat)
    (hdst : ∀ b, buffer = some b → nh * nw * img.format_.GetChannels ≤ b.length)
    (hpix : ∀ r c, r < nh → c < nw → ∃ p, img.ResizePixel nh nw r c junk = some p) :
    ∃ out, img.Resize nh nw buffer junk = some out ∧
      Filled (Image.new nh nw img.format_ buffer junk)
        (fun j => (img.ResizePixel nh nw (j / nw) (j % nw) junk).getD ⟨img.format_, []⟩)
        (nh * nw) out := by
  obtain ⟨e1, e2, e3⟩ := Image_new_fields nh nw img.format_ buffer junk
  have hlen := Image_new_length nh nw img.format_ buffer junk hdst
  have key := fill_loops (Image.new nh nw img.format_ buffer junk)
    (fun j => (img.ResizePixel nh nw (j / nw) (j % nw) junk).getD ⟨img.format_, []⟩)
    0 0
    (fun acc row col => do
      let new_pixel ← img.ResizePixel nh nw row col junk
      acc.SetPixel row col new_pixel)
    (by rw [e1, e2, e3]; exact hlen)
    (by
      intro r c hr hc acc
      rw [e1] at hr
      rw [e2] at hc
      beta_reduce
      obtain ⟨p, hp⟩ := hpix r c hr hc
      rw [Nat.zero_add, Nat.zero_add, e2, index_div r nw c hc, index_mod r nw c hc, hp]
      rfl)
  rw [e1, e2] at key
  unfold Image.Resize
  simp only [Image.GetFormat, List.range_eq_range']
  exact key

/-- A filled destination holds byte values when the destination allocation did
and the pixels written do. -/
theorem Filled_valid (dst out : Image) (G : Nat → Pixel) (n : Nat)
    (hf : Filled dst G n out) (hv : BytesValid dst.buffer_)
    (hG : ∀ j ch, j < n → ch < dst.format_.GetChannels → byteAt (G j).bytes_ ch < 256) :
    BytesValid out.buffer_ := by
  obtain ⟨_, _, _, _, _, h6, h7⟩ := hf
  have hk := channels_pos dst.format_
  intro i
  by_cases hi : i < n * dst.format_.GetChannels
  · have hj : i / dst.format_.GetChannels < n := (Nat.div_lt_iff_lt_mul hk).2 hi
    have hch : i % dst.format_.GetChannels < dst.format_.GetChannels := Nat.mod_lt _ hk
    have hi2 : i / dst.format_.GetChannels * dst.format_.GetChannels
        + i % dst.format_.GetChannels = i := Nat.div_add_mod' _ _
    have := h6 _ _ hj hch
    rw [hi2] at this
    rw [this]
    exact hG _ _ hj hch
  · rw [h7 i (by omega)]
    exact hv i

/-- The channel bytes of a reformatted pixel are byte values when those of
the pixel are. -/
theorem Reformat_bytes_lt (p : Pixel) (F : Format) (junk : Nat → Nat)
    (hb : ∀ ch, ch < p.format_.GetChannels → byteAt p.bytes_ ch < 256)
    (ch : Nat) (hch : ch < F.GetChannels) :
    byteAt (p.Reformat F junk).bytes_ ch < 256 := by
  obtain ⟨fmt, bytes⟩ := p
  simp only at hb
  have h3 := channels_le F
  have hc : ch = 0 ∨ ch = 1 ∨ ch = 2 := by omega
  have hm : ∀ x : Nat, x % 256 < 256 := fun x => Nat.mod_lt _ (by decide)
  cases fmt <;> cases F <;>
    simp only [Format.GetChannels] at hb hch <;>
    first
    | (have h0 := hb 0 (by decide)
       have h1 := hb 1 (by decide)
       have h2 := hb 2 (by decide)
       rcases hc with rfl | rfl | rfl <;>
         first
         | omega
         | simp [Pixel.Reformat, Pixel.ConvertRgb888ToRgb565, Pixel.ConvertRgb565ToRgb888,
             Pixel.ConvertRgb888ToGrayscale, Pixel.ConvertGrayscaleToRgb888, Pixel_new_eq,
             Format.GetChannels, byteAt_cons_zero, byteAt_cons_succ, h0, h1, h2, hm])
    | (have h0 := hb 0 (by decide)
       have h1 := hb 1 (by decide)
       rcases hc with rfl | rfl | rfl <;>
         first
         | omega
         | simp [Pixel.Reformat, Pixel.ConvertRgb888ToRgb565, Pixel.ConvertRgb565ToRgb888,
             Pixel.ConvertRgb888ToGrayscale, Pixel.ConvertGrayscaleToRgb888, Pixel_new_eq,
             Format.GetChannels, byteAt_cons_zero, byteAt_cons_succ, h0, h1, hm])
    | (have h0 := hb 0 (by decide)
       rcases hc with rfl | rfl | rfl <;>
         first
         | omega
         | simp [Pixel.Reformat, Pixel.ConvertRgb888ToRgb565, Pixel.ConvertRgb565ToRgb888,
             Pixel.ConvertRgb888ToGrayscale, Pixel.ConvertGrayscaleToRgb888, Pixel_new_eq,
             Format.GetChannels, byteAt_cons_zero, byteAt_cons_succ, h0, hm])

/-! ## The loop body of the scan completes -/

/-- `RunInference` on an input array that holds `input->bytes` bytes, with an
interpreter that reports success: the input is copied, the output array is
returned, and `inference_count` grows by one. -/
theorem RunInference_some (m : TFLM_Model) (Invoke : List Nat → Option (List Nat))
    (input_buf : List Nat) (h1 : m.input_bytes ≤ input_buf.length)
    (h2 : m.input_bytes ≤ m.input_data.length)
    (hI : ∀ x, ∃ out, Invoke x = some out ∧ 3 ≤ out.length) :
    ∃ data out, m.RunInference Invoke input_buf
        = some (some out, ⟨m.input_bytes, data, int_wrap (m.inference_count + 1)⟩) ∧
      data.length = m.input_data.length ∧ Invoke data = some out ∧ 3 ≤ out.length := by
  obtain ⟨data, hdata, hlen⟩ := foldlM_range_inv m.input_bytes
    (TFLM_Model.copyByte input_buf) (fun _ d => d.length = m.input_data.length)
    m.input_data rfl (by
      intro i hi d hd
      have hi1 : i < input_buf.length := by omega
      have hi2 : i < d.length := by omega
      refine ⟨d.set i input_buf[i], ?_, by simp [hd]⟩
      simp [TFLM_Model.copyByte, List.getElem?_eq_getElem hi1, hi2])
  obtain ⟨out, hout, hout3⟩ := hI data
  refine ⟨data, out, ?_, hlen, hout, hout3⟩
  unfold TFLM_Model.RunInference
  rw [hdata]
  simp only [Option.some_bind, Option.bind_eq_bind, hout, Option.pure_def]

/-- The loop body of the scan completes on a tile inside the frame and keeps
the state ready for the next tile. -/
theorem GetData_tile_ready (cfg : Config) (Invoke : List Nat → Option (List Nat))
    (camera_image : Image) (junk : Nat → Nat) (size_a size_b : Nat)
    (st : ScanState) (row col : Nat)
    (hcam : camera_image.GetBufferSize ≤ camera_image.buffer_.length)
    (hcamv : BytesValid camera_image.buffer_)
    (hL : 1 ≤ cfg.sliding_window_length)
    (hA1 : cfg.sliding_window_length * cfg.sliding_window_length
      * camera_image.GetFormat.GetChannels ≤ size_a)
    (hA2 : cfg.cnn_img_height * cfg.cnn_img_width * cfg.cnn_img_fmt.GetChannels ≤ size_a)
    (hB : (cfg.sliding_window_length * cfg.sliding_window_length + cfg.sliding_window_length + 1)
      * cfg.cnn_img_fmt.GetChannels ≤ size_b)
    (hM : cfg.cnn_img_height = cfg.cnn_img_width)
    (hI : ∀ x, ∃ out, Invoke x = some out ∧ 3 ≤ out.length)
    (hrow : row + cfg.sliding_window_length ≤ camera_image.GetHeight)
    (hcol : col + cfg.sliding_window_length ≤ camera_image.GetWidth)
    (hst : ScanReady size_a size_b st) :
    ∃ st2, Ardu_Camera.GetData_tile cfg Invoke camera_image junk st row col = some st2 ∧
      ScanReady size_a size_b st2 := by
  obtain ⟨ha, hb, hbv, hib, hid⟩ := hst
  -- Crop
  obtain ⟨cropped, hcrop, hcf⟩ := Crop_filled camera_image row col cfg.sliding_window_length
    cfg.sliding_window_length (some st.img_buf_a) junk hcam hrow hcol
    (by intro b hbb; cases hbb; rw [ha]; exact hA1)
  have hcf2 := hcf
  obtain ⟨c1, c2, c3, _, c5, c6, _⟩ := hcf
  have c1' : cropped.height_ = cfg.sliding_window_length := c1
  have c2' : cropped.width_ = cfg.sliding_window_length := c2
  have c3' : cropped.format_ = camera_image.format_ := c3
  have c5' : cropped.buffer_.length = size_a := c5.trans ha
  -- Reformat
  obtain ⟨formatted, hfmt, hff⟩ := Reformat_filled cropped cfg.cnn_img_fmt (some st.img_buf_b)
    junk (by
      show cropped.height_ * cropped.width_ * cropped.format_.GetChannels ≤ _
      rw [c1', c2', c3', c5']; exact hA1)
    (by
      intro b hbb; cases hbb
      show cropped.height_ * cropped.width_ * _ ≤ _
      rw [c1', c2', hb]
      have e : cfg.sliding_window_length * cfg.sliding_window_length
          * cfg.cnn_img_fmt.GetChannels
          ≤ (cfg.sliding_window_length * cfg.sliding_window_length
            + cfg.sliding_window_length + 1) * cfg.cnn_img_fmt.GetChannels :=
        Nat.mul_le_mul_right _ (by omega)
      omega)
  have hfv : BytesValid formatted.buffer_ := by
    apply Filled_valid _ _ _ _ hff hbv
    intro j ch hj hch
    apply Reformat_bytes_lt _ _ _ _ ch hch
    intro ch2 hch2
    have hch3 : ch2 < cropped.format_.GetChannels := hch2
    rw [byteAt_new _ _ _ _ hch3, byteAt_drop]
    have hj2 : j < cfg.sliding_window_length * cfg.sliding_window_length := by
      rw [c1', c2'] at hj; exact hj
    have hch4 : ch2 < camera_image.format_.GetChannels := by rw [← c3']; exact hch3
    have hbyte : byteAt cropped.buffer_ (j * camera_image.format_.GetChannels + ch2)
        = byteAt (Pixel.new camera_image.format_
            (camera_image.buffer_.drop
              (((row + j / cfg.sliding_window_length) * camera_image.width_
                + (col + j % cfg.sliding_window_length)) * camera_image.format_.GetChannels))
            junk).bytes_ ch2 := c6 j ch2 hj2 hch4
    rw [c3', hbyte]
    exact byteAt_new_drop_lt _ _ _ _ hcamv ch2 hch4
  obtain ⟨f1, f2, f3, _, f5, _, _⟩ := hff
  have f1' : formatted.height_ = cfg.sliding_window_length := f1.trans c1'
  have f2' : formatted.width_ = cfg.sliding_window_length := f2.trans c2'
  have f3' : formatted.format_ = cfg.cnn_img_fmt := f3
  have f5' : formatted.buffer_.length = size_b := f5.trans hb
  -- Resize
  obtain ⟨resized, hres, hrf⟩ := Resize_filled formatted cfg.cnn_img_width cfg.cnn_img_width
    (some cropped.GetBuffer) junk
    (by
      intro b hbb; cases hbb
      show _ ≤ cropped.buffer_.length
      rw [f3', c5']
      have hA2' := hA2
      rw [hM] at hA2'
      exact hA2')
    (by
      intro r c hr hc
      exact ResizePixel_square_some formatted cfg.cnn_img_width r c junk (f1'.trans f2'.symm)
        (by rw [f2']; exact hL) (by rw [f2', f3', f5']; exact hB) hfv hr hc)
  obtain ⟨_, _, _, _, r5, _, _⟩ := hrf
  have r5' : resized.buffer_.length = size_a := r5.trans c5'
  -- RunInference
  obtain ⟨data, out, hrun, hdl, _, hout3⟩ := RunInference_some st.model Invoke resized.GetBuffer
    (by show _ ≤ resized.buffer_.length; rw [r5']; exact hib) hid hI
  have hs1 : out[1]? = some out[1] := List.getElem?_eq_getElem (by omega)
  have hs2 : out[2]? = some out[2] := List.getElem?_eq_getElem (by omega)
  refine ⟨ScanState.mk resized.GetBuffer formatted.GetBuffer
    ⟨st.model.input_bytes, data, int_wrap (st.model.inference_count + 1)⟩
    (if decide (out[1] ≥ out[2]) then st.num_people + 1 else st.num_people)
    (st.trace ++ [Event.crop row col, Event.run_inference (some out), Event.kick]), ?_, ?_⟩
  · unfold Ardu_Camera.GetData_tile
    rw [hcrop]
    simp only [Option.some_bind, Option.bind_eq_bind]
    rw [hfmt]
    simp only [Option.some_bind]
    rw [hM, hres]
    simp only [Option.some_bind]
    rw [hrun]
    simp only [Option.some_bind, hs1, hs2, Option.pure_def]
  · exact ⟨r5', f5', hfv, hib, by rw [hdl]; exact hid⟩

/-! ## The loops of the scan complete -/

/-- The inner loop completes, given more fuel than the frame is wide. -/
theorem GetData_cols_ready (cfg : Config) (Invoke : List Nat → Option (List Nat))
    (camera_image : Image) (junk : Nat → Nat) (size_a size_b : Nat) (row : Nat)
    (hs : ScanSetup cfg Invoke camera_image size_a size_b)
    (hrow : row + cfg.sliding_window_length ≤ camera_image.GetHeight) :
    ∀ (fuel col : Nat) (st : ScanState), 0 < fuel → camera_image.GetWidth < fuel + col →
      ScanReady size_a size_b st →
      ∃ st2, Ardu_Camera.GetData_cols cfg Invoke camera_image junk row fuel col st = some st2 ∧
        ScanReady size_a size_b st2 := by
  obtain ⟨hcam, hcamv, hL, hS, hA1, hA2, hB, hM, hI⟩ := hs
  intro fuel
  induction fuel with
  | zero =>
    intro col st h0
    omega
  | succ fuel ih =>
    intro col st _ hfuel hst
    unfold Ardu_Camera.GetData_cols
    by_cases hc : col + cfg.sliding_window_length ≤ camera_image.GetWidth
    · rw [if_pos hc]
      obtain ⟨st1, ht, hst1⟩ := GetData_tile_ready cfg Invoke camera_image junk size_a size_b
        st row col hcam hcamv hL hA1 hA2 hB hM hI hrow hc hst
      rw [ht]
      simp only [Option.some_bind, Option.bind_eq_bind]
      exact ih _ st1 (by omega) (by omega) hst1
    · rw [if_neg hc]
      exact ⟨st, rfl, hst⟩

/-- The outer loop completes, given more fuel than the frame is high and
wide. -/
theorem GetData_rows_ready (cfg : Config) (Invoke : List Nat → Option (List Nat))
    (camera_image : Image) (junk : Nat → Nat) (size_a size_b : Nat) (col_fuel : Nat)
    (hs : ScanSetup cfg Invoke camera_image size_a size_b)
    (hcf : camera_image.GetWidth < col_fuel) :
    ∀ (fuel row : Nat) (st : ScanState), 0 < fuel → camera_image.GetHeight < fuel + row →
      ScanReady size_a size_b st →
      ∃ st2, Ardu_Camera.GetData_rows cfg Invoke camera_image junk col_fuel fuel row st
          = some st2 ∧
        ScanReady size_a size_b st2 := by
  have hL : 1 ≤ cfg.sliding_window_length := hs.2.2.1
  intro fuel
  induction fuel with
  | zero =>
    intro row st h0
    omega
  | succ fuel ih =>
    intro row st _ hfuel hst
    unfold Ardu_Camera.GetData_rows
    by_cases hc : row + cfg.sliding_window_length ≤ camera_image.GetHeight
    · rw [if_pos hc]
      obtain ⟨st1, ht, hst1⟩ := GetData_cols_ready cfg Invoke camera_image junk size_a size_b
        row hs hc col_fuel 0 st (by omega) (by omega) hst
      rw [ht]
      simp only [Option.some_bind, Option.bind_eq_bind]
      exact ih _ st1 (by omega) (by omega) hst1
    · rw [if_neg hc]
      exact ⟨st, rfl, hst⟩

/-- The scan completes, given more fuel than the frame is high and wide. -/
theorem GetData_scan_ready (cfg : Config) (Invoke : List Nat → Option (List Nat))
    (camera_image : Image) (junk : Nat → Nat) (fuel : Nat) (img_buf_a img_buf_b : List Nat)
    (model : TFLM_Model)
    (hs : ScanSetup cfg Invoke camera_image img_buf_a.length img_buf_b.length)
    (hbv : BytesValid img_buf_b)
    (hm1 : model.input_bytes ≤ img_buf_a.length)
    (hm2 : model.input_bytes ≤ model.input_data.length)
    (hfh : camera_image.GetHeight < fuel) (hfw : camera_image.GetWidth < fuel) :
    ∃ st, Ardu_Camera.GetData_scan cfg Invoke camera_image junk fuel img_buf_a img_buf_b model
        = some st ∧
      ScanReady img_buf_a.length img_buf_b.length st :=
  GetData_rows_ready cfg Invoke camera_image junk _ _ fuel hs hfw fuel 0 _ (by omega) (by omega)
    ⟨rfl, rfl, hbv, hm1, hm2⟩

/-! ## Reading the log of the tiles -/

theorem detections_zip (os : List (Nat × Nat)) :
    ∀ outs : List (List Nat),
      detections ((List.zip os outs).flatMap (fun p => tileEvents (p.1.1, p.1.2, some p.2)))
        = ((List.zip os outs).map (fun p => p.2) |>.filter isDetection).length := by
  induction os with
  | nil => intro outs; simp [detections]
  | cons o os ih =>
    intro outs
    cases outs with
    | nil => simp [detections]
    | cons out outs =>
      simp only [List.zip_cons_cons, List.flatMap_cons, detections_append, ih, List.map_cons,
        detections_tileEvents]
      by_cases hd : isDetection out
      · simp [List.filter, hd]
        omega
      · simp [List.filter, hd]

theorem inferenceCalls_zip (os : List (Nat × Nat)) :
    ∀ outs : List (List Nat),
      inferenceCalls ((List.zip os outs).flatMap (fun p => tileEvents (p.1.1, p.1.2, some p.2)))
        = (List.zip os outs).length := by
  induction os with
  | nil => intro outs; simp [inferenceCalls]
  | cons o os ih =>
    intro outs
    cases outs with
    | nil => simp [inferenceCalls]
    | cons out outs =>
      simp only [List.zip_cons_cons, List.flatMap_cons, inferenceCalls_append, ih,
        inferenceCalls_tileEvents, List.length_cons]
      omega

theorem kicks_zip (os : List (Nat × Nat)) :
    ∀ outs : List (List Nat),
      kicks ((List.zip os outs).flatMap (fun p => tileEvents (p.1.1, p.1.2, some p.2)))
        = (List.zip os outs).length := by
  induction os with
  | nil => intro outs; simp [kicks]
  | cons o os ih =>
    intro outs
    cases outs with
    | nil => simp [kicks]
    | cons out outs =>
      simp only [List.zip_cons_cons, List.flatMap_cons, kicks_append, ih,
        kicks_tileEvents, List.length_cons]
      omega

theorem cropOrigins_zip (os : List (Nat × Nat)) :
    ∀ outs : List (List Nat),
      cropOrigins ((List.zip os outs).flatMap (fun p => tileEvents (p.1.1, p.1.2, some p.2)))
        = (List.zip os outs).map (fun p => p.1) := by
  induction os with
  | nil => intro outs; simp [cropOrigins]
  | cons o os ih =>
    intro outs
    cases outs with
    | nil => simp [cropOrigins]
    | cons out outs =>
      simp only [List.zip_cons_cons, List.flatMap_cons, cropOrigins_append, ih,
        cropOrigins_tileEvents, List.map_cons, List.singleton_append]

/-- What the log and the counter of a scan say when the loop body has
completed on the tiles `origins` from the start of the scan. -/
theorem Scanned_from_start (origins : List (Nat × Nat)) (st0 st : ScanState)
    (h0 : st0.trace = []) (hn0 : st0.num_people = 0) (h : Scanned origins st0 st) :
    st.num_people = detections st.trace ∧
    cropOrigins st.trace = origins ∧
    inferenceCalls st.trace = origins.length ∧
    kicks st.trace = origins.length ∧
    ∃ outs : List (List Nat), outs.length = origins.length ∧
      st.trace = (List.zip origins outs).flatMap (fun p => tileEvents (p.1.1, p.1.2, some p.2)) ∧
      st.num_people = (outs.filter isDetection).length := by
  obtain ⟨outs, hlen, _, ht, hn⟩ := h
  rw [h0, List.nil_append] at ht
  rw [hn0, Nat.zero_add] at hn
  have hz2 : (List.zip origins outs).map (fun p => p.2) = outs := by
    rw [← List.unzip_snd, List.unzip_zip hlen.symm]
  have hz1 : (List.zip origins outs).map (fun p => p.1) = origins := by
    rw [← List.unzip_fst, List.unzip_zip hlen.symm]
  have hzl : (List.zip origins outs).length = origins.length := by
    rw [List.length_zip, hlen, Nat.min_self]
  refine ⟨?_, ?_, ?_, ?_, outs, hlen, ht, hn⟩
  · rw [ht, detections_zip, hz2, hn]
  · rw [ht, cropOrigins_zip, hz1]
  · rw [ht, inferenceCalls_zip, hzl]
  · rw [ht, kicks_zip, hzl]

/-! ## Arrays of one byte value -/

theorem BytesValid_replicate (n v : Nat) (hv : v < 256) : BytesValid (List.replicate n v) := by
  intro i
  unfold byteAt
  rw [List.getD_eq_getElem?_getD]
  cases h : (List.replicate n v)[i]? with
  | none => simp
  | some b =>
    have := List.getElem?_mem h
    rw [List.mem_replicate] at this
    simp only [Option.getD_some]
    omega

/-! ## Reformat: same format, composition through RGB888, grayscale to RGB888 -/

/-- C22: for a pixel `p` of any format, `p.Reformat(p.format)` has the format
of `p` and the bytes of `p` at every index below the channel count, so it
compares equal to `p` with `operator==` (in both directions), whatever the
unused slots hold. -/
theorem C22_reformat_same_format (p : Pixel) (junk : Nat → Nat) :
    (p.Reformat p.GetFormat junk).GetFormat = p.GetFormat ∧
    (∀ ch, ch < p.GetChannels →
      byteAt (p.Reformat p.GetFormat junk).GetBytes ch = byteAt p.GetBytes ch) ∧
    (p.Reformat p.GetFormat junk).eq p = true ∧
    p.eq (p.Reformat p.GetFormat junk) = true := by
  have hR : p.Reformat p.GetFormat junk = Pixel.new p.format_ p.bytes_ junk := by
    unfold Pixel.Reformat Pixel.GetFormat
    simp
  have hb : ∀ ch, ch < p.format_.GetChannels →
      byteAt (Pixel.new p.format_ p.bytes_ junk).bytes_ ch = byteAt p.bytes_ ch :=
    fun ch hch => byteAt_new _ _ _ ch hch
  rw [hR]
  refine ⟨rfl, hb, ?_, ?_⟩
  · rw [Pixel_eq_iff]
    exact ⟨rfl, hb⟩
  · rw [Pixel_eq_iff]
    exact ⟨rfl, fun ch hch => (hb ch hch).symm⟩

/-- C23: the conversions between RGB565 and GRAYSCALE go through RGB888.  For
an RGB565 pixel `p`, `p.Reformat(GRAYSCALE)` is the pixel
`p.Reformat(RGB888).Reformat(GRAYSCALE)`; for a GRAYSCALE pixel `q`,
`q.Reformat(RGB565)` is the pixel `q.Reformat(RGB888).Reformat(RGB565)`.
With the same content of uninitialised storage the two sides are the same
value; with any contents they have the same format and channel bytes and
compare equal with `operator==`. -/
theorem C23_reformat_through_rgb888 :
    (∀ (p : Pixel) (junk : Nat → Nat), p.GetFormat = .RGB565 →
      p.Reformat .GRAYSCALE junk = (p.Reformat .RGB888 junk).Reformat .GRAYSCALE junk) ∧
    (∀ (q : Pixel) (junk : Nat → Nat), q.GetFormat = .GRAYSCALE →
      q.Reformat .RGB565 junk = (q.Reformat .RGB888 junk).Reformat .RGB565 junk) ∧
    (∀ (p : Pixel) (j1 j2 j3 : Nat → Nat), p.GetFormat = .RGB565 →
      (p.Reformat .GRAYSCALE j1).eq ((p.Reformat .RGB888 j2).Reformat .GRAYSCALE j3) = true) ∧
    (∀ (q : Pixel) (j1 j2 j3 : Nat → Nat), q.GetFormat = .GRAYSCALE →
      (q.Reformat .RGB565 j1).eq ((q.Reformat .RGB888 j2).Reformat .RGB565 j3) = true) := by
  refine ⟨?_, ?_, ?_, ?_⟩
  · intro p junk hp
    obtain ⟨fmt, bytes⟩ := p
    simp only [Pixel.GetFormat] at hp
    subst hp
    rfl
  · intro q junk hq
    obtain ⟨fmt, bytes⟩ := q
    simp only [Pixel.GetFormat] at hq
    subst hq
    rfl
  · intro p j1 j2 j3 hp
    obtain ⟨fmt, bytes⟩ := p
    simp only [Pixel.GetFormat] at hp
    subst hp
    rw [Pixel_eq_iff]
    refine ⟨rfl, ?_⟩
    intro ch hch
    have hch0 : ch = 0 := by
      have : ch < 1 := hch
      omega
    subst hch0
    simp [Pixel.Reformat, Pixel.ConvertRgb565ToRgb888, Pixel.ConvertRgb888ToGrayscale,
      Pixel_new_eq, Format.GetChannels, byteAt_cons_zero, byteAt_cons_succ]
  · intro q j1 j2 j3 hq
    obtain ⟨fmt, bytes⟩ := q
    simp only [Pixel.GetFormat] at hq
    subst hq
    rw [Pixel_eq_iff]
    refine ⟨rfl, ?_⟩
    intro ch hch
    have hch0 : ch = 0 ∨ ch = 1 := by
      have : ch < 2 := hch
      omega
    rcases hch0 with rfl | rfl <;>
      simp [Pixel.Reformat, Pixel.ConvertGrayscaleToRgb888, Pixel.ConvertRgb888ToRgb565,
        Pixel_new_eq, Format.GetChannels, byteAt_cons_zero, byteAt_cons_succ]

/-- C23 at the RGB565 pixel with bytes `0x1F, 0xF8` and the GRAYSCALE pixel
with value 200. -/
theorem C23_reformat_through_rgb888_witness :
    (rgb565 31 248 0 0).Reformat .GRAYSCALE (fun _ => 0)
      = ((rgb565 31 248 0 0).Reformat .RGB888 (fun _ => 0)).Reformat .GRAYSCALE (fun _ => 0) ∧
    (Pixel.mk .GRAYSCALE [200, 0, 0, 0]).Reformat .RGB565 (fun _ => 0)
      = ((Pixel.mk .GRAYSCALE [200, 0, 0, 0]).Reformat .RGB888 (fun _ => 0)).Reformat .RGB565
        (fun _ => 0) :=
  ⟨C23_reformat_through_rgb888.1 (rgb565 31 248 0 0) (fun _ => 0) rfl,
   C23_reformat_through_rgb888.2.1 (Pixel.mk .GRAYSCALE [200, 0, 0, 0]) (fun _ => 0) rfl⟩

/-- C24: for a GRAYSCALE pixel whose value is `g`, `Reformat(RGB888)` is the
RGB888 pixel with the channel bytes `g, g, g` (the fourth slot is
uninitialised). -/
theorem C24_grayscale_to_rgb888 (p : Pixel) (junk : Nat → Nat)
    (hp : p.GetFormat = .GRAYSCALE) :
    p.Reformat .RGB888 junk
      = rgb888 (byteAt p.GetBytes 0) (byteAt p.GetBytes 0) (byteAt p.GetBytes 0) (junk 3) ∧
    (p.Reformat .RGB888 junk).GetFormat = .RGB888 ∧
    (p.Reformat .RGB888 junk).GetChannels = 3 ∧
    ∀ ch, ch < 3 → byteAt (p.Reformat .RGB888 junk).GetBytes ch = byteAt p.GetBytes 0 := by
  obtain ⟨fmt, bytes⟩ := p
  simp only [Pixel.GetFormat] at hp
  subst hp
  have h : (Pixel.mk .GRAYSCALE bytes).Reformat .RGB888 junk
      = rgb888 (byteAt bytes 0) (byteAt bytes 0) (byteAt bytes 0) (junk 3) := by
    simp [Pixel.Reformat, Pixel.ConvertGrayscaleToRgb888, Pixel_new_eq, Format.GetChannels,
      byteAt_cons_zero, byteAt_cons_succ, rgb888]
  refine ⟨h, ?_, ?_, ?_⟩
  · rw [h]; rfl
  · rw [h]; rfl
  · intro ch hch
    rw [h]
    have : ch = 0 ∨ ch = 1 ∨ ch = 2 := by omega
    rcases this with rfl | rfl | rfl <;> rfl

/-- C24 at the GRAYSCALE pixel with value 200. -/
theorem C24_grayscale_to_rgb888_witness :
    (Pixel.mk .GRAYSCALE [200, 7, 8, 9]).Reformat .RGB888 (fun _ => 0) = rgb888 200 200 200 0 :=
  (C24_grayscale_to_rgb888 (Pixel.mk .GRAYSCALE [200, 7, 8, 9]) (fun _ => 0) rfl).1

/-! ## Channel counts and the format tag of a reformatted pixel -/

/-- The array `bytes_` of a reformatted pixel has `MAX_PIXEL_BYTES` slots, and
the slots at or beyond the channel count of the target format were never
assigned. -/
theorem Reformat_slots (p : Pixel) (F : Format) (junk : Nat → Nat) :
    (p.Reformat F junk).bytes_.length = MAX_PIXEL_BYTES ∧
    ∀ ch, F.GetChannels ≤ ch → ch < MAX_PIXEL_BYTES →
      byteAt (p.Reformat F junk).bytes_ ch = junk ch := by
  obtain ⟨fmt, bytes⟩ := p
  refine ⟨by cases fmt <;> cases F <;> rfl, ?_⟩
  intro ch h1 h2
  have h4 : ch < 4 := h2
  have hc : ch = 0 ∨ ch = 1 ∨ ch = 2 ∨ ch = 3 := by omega
  cases fmt <;> cases F <;> simp only [Format.GetChannels] at h1 <;>
    rcases hc with rfl | rfl | rfl | rfl <;>
      first
      | omega
      | simp [Pixel.Reformat, Pixel.ConvertRgb888ToRgb565, Pixel.ConvertRgb565ToRgb888,
          Pixel.ConvertRgb888ToGrayscale, Pixel.ConvertGrayscaleToRgb888, Pixel_new_eq,
          Format.GetChannels, byteAt_cons_zero, byteAt_cons_succ]

/-- C25: `GetChannels` is 1 for GRAYSCALE, 2 for RGB565 and 3 for RGB888,
never more than `MAX_PIXEL_BYTES = 4`; for every pixel `p` and target format
`F` the pixel `p.Reformat(F)` has the format tag `F` and the channel count of
`F`; its `MAX_PIXEL_BYTES` slots are populated exactly below that count: the
bytes below the count are determined by the format and channel bytes of `p`
(they do not depend on uninitialised storage), each slot at or beyond the
count is uninitialised. -/
theorem C25_channels_and_reformat_tag :
    Format.GetChannels .GRAYSCALE = 1 ∧ Format.GetChannels .RGB565 = 2 ∧
    Format.GetChannels .RGB888 = 3 ∧ MAX_PIXEL_BYTES = 4 ∧
    (∀ fmt : Format, 1 ≤ fmt.GetChannels ∧ fmt.GetChannels ≤ MAX_PIXEL_BYTES) ∧
    (∀ p : Pixel, p.GetChannels = p.GetFormat.GetChannels) ∧
    (∀ (p : Pixel) (F : Format) (junk : Nat → Nat),
      (p.Reformat F junk).GetFormat = F ∧
      (p.Reformat F junk).GetChannels = F.GetChannels ∧
      (p.Reformat F junk).GetBytes.length = MAX_PIXEL_BYTES ∧
      (∀ (p2 : Pixel) (junk2 : Nat → Nat), p2.GetFormat = p.GetFormat →
        (∀ ch, ch < p.GetChannels → byteAt p2.GetBytes ch = byteAt p.GetBytes ch) →
        ∀ ch, ch < F.GetChannels →
          byteAt (p2.Reformat F junk2).GetBytes ch = byteAt (p.Reformat F junk).GetBytes ch) ∧
      (∀ ch, F.GetChannels ≤ ch → ch < MAX_PIXEL_BYTES →
        byteAt (p.Reformat F junk).GetBytes ch = junk ch)) := by
  refine ⟨rfl, rfl, rfl, rfl, ?_, fun _ => rfl, ?_⟩
  · intro fmt
    cases fmt <;> decide
  · intro p F junk
    have hf := Reformat_format p F junk
    refine ⟨hf, ?_, (Reformat_slots p F junk).1, ?_, (Reformat_slots p F junk).2⟩
    · show (p.Reformat F junk).format_.GetChannels = F.GetChannels
      rw [hf]
    · intro p2 junk2 h1 h2 ch hch
      exact Reformat_congr p2 p F junk2 junk h1
        (fun c hc => h2 c (by
          have e : p2.format_ = p.format_ := h1
          show c < p.format_.GetChannels
          rw [← e]
          exact hc)) ch hch

/-- C25 at the RGB888 pixel `(255, 0, 0)` reformatted to RGB565. -/
theorem C25_channels_and_reformat_tag_witness :
    ((rgb888 255 0 0 9).Reformat .RGB565 (fun _ => 7)).GetFormat = .RGB565 ∧
    ((rgb888 255 0 0 9).Reformat .RGB565 (fun _ => 7)).GetChannels = 2 ∧
    byteAt ((rgb888 255 0 0 9).Reformat .RGB565 (fun _ => 7)).GetBytes 2 = 7 :=
  ⟨(C25_channels_and_reformat_tag.2.2.2.2.2.2 (rgb888 255 0 0 9) .RGB565 (fun _ => 7)).1,
   (C25_channels_and_reformat_tag.2.2.2.2.2.2 (rgb888 255 0 0 9) .RGB565 (fun _ => 7)).2.1,
   (C25_channels_and_reformat_tag.2.2.2.2.2.2 (rgb888 255 0 0 9) .RGB565
     (fun _ => 7)).2.2.2.2 2 (by decide) (by decide)⟩

/-! ## SetPixel followed by GetPixel -/

/-- The bytes of two different pixels of an image do not overlap. -/
theorem pixel_bytes_disjoint (n m k ch : Nat) (hne : n ≠ m) (hch : ch < k) :
    ¬ (m * k ≤ n * k + ch ∧ n * k + ch < m * k + k) := by
  rintro ⟨h1, h2⟩
  rcases Nat.lt_or_gt_of_ne hne with h | h
  · have : (n + 1) * k ≤ m * k := Nat.mul_le_mul_right k h
    rw [Nat.add_mul, Nat.one_mul] at this
    omega
  · have : (m + 1) * k ≤ n * k := Nat.mul_le_mul_right k h
    rw [Nat.add_mul, Nat.one_mul] at this
    omega

/-- C21: on an image whose allocation holds its `GetBufferSize()` bytes, for
an in-bounds `(row, col)` and a pixel `p` of the image's format,
`SetPixel(row, col, p)` completes; it keeps height, width, format and the
size of the buffer; afterwards `GetPixel(row, col) == p`; the bytes written
are the `GetChannels()` bytes of `p`, at the offsets
`(row * width + col) * channels + ch`; every other byte of the buffer is
unchanged, and so is every other pixel of the image. -/
theorem C21_set_pixel_then_get_pixel (img : Image) (row col : Nat) (p : Pixel)
    (junk : Nat → Nat)
    (hlen : img.GetBufferSize ≤ img.GetBuffer.length)
    (hr : row < img.GetHeight) (hc : col < img.GetWidth)
    (hf : p.GetFormat = img.GetFormat) :
    ∃ out, img.SetPixel row col p = some out ∧
      out.GetHeight = img.GetHeight ∧ out.GetWidth = img.GetWidth ∧
      out.GetFormat = img.GetFormat ∧ out.GetBuffer.length = img.GetBuffer.length ∧
      (∃ q, out.GetPixel row col junk = some q ∧ q.eq p = true) ∧
      (∀ ch, ch < img.GetChannels →
        byteAt out.GetBuffer ((row * img.GetWidth + col) * img.GetChannels + ch)
          = byteAt p.GetBytes ch) ∧
      (∀ i, (i < (row * img.GetWidth + col) * img.GetChannels ∨
          (row * img.GetWidth + col) * img.GetChannels + img.GetChannels ≤ i) →
        byteAt out.GetBuffer i = byteAt img.GetBuffer i) ∧
      (∀ r c, r < img.GetHeight → c < img.GetWidth → (r, c) ≠ (row, col) →
        out.GetPixel r c junk = img.GetPixel r c junk) := by
  have hb := pixel_loc_bound img.height_ img.width_ img.format_.GetChannels row col hr hc
  have hlen2 : img.height_ * img.width_ * img.format_.GetChannels ≤ img.buffer_.length := hlen
  have hloc : img.GetPixelLocation row col = (row * img.width_ + col) * img.format_.GetChannels :=
    rfl
  obtain ⟨out, hset, e1, e2, e3, _, e5, e6⟩ := SetPixel_spec img row col p
    (by rw [hloc]; omega)
  rw [hloc] at e6
  have hlen3 : out.GetBufferSize ≤ out.buffer_.length := by
    show out.height_ * out.width_ * out.format_.GetChannels ≤ out.buffer_.length
    rw [e1, e2, e3, e5]
    exact hlen2
  simp only [Image.GetHeight, Image.GetWidth, Image.GetFormat, Image.GetBuffer,
    Image.GetChannels, Pixel.GetBytes]
  refine ⟨out, hset, e1, e2, e3, e5, ?_, ?_, ?_, ?_⟩
  · refine ⟨_, GetPixel_inbounds out row col junk hlen3 (by rw [e1]; exact hr)
      (by rw [e2]; exact hc), ?_⟩
    rw [Pixel_eq_iff]
    refine ⟨?_, ?_⟩
    · show out.format_ = p.format_
      rw [e3]
      exact hf.symm
    · intro ch hch
      have hch2 : ch < img.format_.GetChannels := by
        have : ch < out.format_.GetChannels := hch
        rw [e3] at this
        exact this
      rw [byteAt_new _ _ _ ch (show ch < out.format_.GetChannels from hch), byteAt_drop, e2, e3, e6,
        if_pos ⟨by omega, by omega⟩, Nat.add_sub_cancel_left]
  · intro ch hch
    rw [e6, if_pos ⟨by omega, by omega⟩, Nat.add_sub_cancel_left]
  · intro i hi
    rw [e6, if_neg (by omega)]
  · intro r c hr2 hc2 hne
    rw [GetPixel_inbounds out r c junk hlen3 (by rw [e1]; exact hr2) (by rw [e2]; exact hc2),
      GetPixel_inbounds img r c junk hlen hr2 hc2, e2, e3]
    congr 1
    apply new_congr
    intro ch hch
    have hidx : r * img.width_ + c ≠ row * img.width_ + col := by
      intro h
      apply hne
      have hr3 := index_div r img.width_ c hc2
      have hc3 := index_mod r img.width_ c hc2
      rw [h, index_div row img.width_ col hc] at hr3
      rw [h, index_mod row img.width_ col hc] at hc3
      rw [hr3, hc3]
    rw [byteAt_drop, byteAt_drop, e6,
      if_neg (pixel_bytes_disjoint _ _ _ ch hidx hch)]

/-- C21 on the 2 x 2 grayscale image `[1, 2, 3, 4]`, writing the pixel 9 at
`(1, 0)`. -/
theorem C21_set_pixel_then_get_pixel_witness :
    ∃ out, (grayImage 2 2 [1, 2, 3, 4]).SetPixel 1 0 (Pixel.mk .GRAYSCALE [9, 0, 0, 0])
        = some out ∧
      out.GetBuffer = [1, 2, 9, 4] := by
  obtain ⟨out, h, _⟩ := C21_set_pixel_then_get_pixel (grayImage 2 2 [1, 2, 3, 4]) 1 0
    (Pixel.mk .GRAYSCALE [9, 0, 0, 0]) (fun _ => 0) (by decide) (by decide) (by decide) rfl
  refine ⟨out, h, ?_⟩
  have h2 : (grayImage 2 2 [1, 2, 3, 4]).SetPixel 1 0 (Pixel.mk .GRAYSCALE [9, 0, 0, 0])
      = some ⟨2, 2, .GRAYSCALE, [1, 2, 9, 4], false⟩ := by decide
  rw [h2] at h
  cases h
  rfl

/-! ## RunInference -/

/-- The copy loop of `RunInference`: it completes when both arrays hold
`input->bytes` bytes, and it replaces exactly the first `input->bytes` bytes
of the input tensor by those of the caller's array. -/
theorem RunInference_copy (m : TFLM_Model) (input_buf : List Nat)
    (h1 : m.input_bytes ≤ input_buf.length) (h2 : m.input_bytes ≤ m.input_data.length) :
    ∃ data, (List.range m.input_bytes).foldlM (TFLM_Model.copyByte input_buf) m.input_data
        = some data ∧
      data.length = m.input_data.length ∧
      ∀ i, byteAt data i = if i < m.input_bytes then byteAt input_buf i
        else byteAt m.input_data i := by
  apply foldlM_range_inv m.input_bytes (TFLM_Model.copyByte input_buf)
    (fun n d => d.length = m.input_data.length ∧
      ∀ i, byteAt d i = if i < n then byteAt input_buf i else byteAt m.input_data i)
    m.input_data ⟨rfl, fun i => by simp⟩
  intro n hn d ⟨hd, hb⟩
  have hn1 : n < input_buf.length := by omega
  have hn2 : n < d.length := by omega
  refine ⟨d.set n input_buf[n], ?_, by simp [hd], ?_⟩
  · simp [TFLM_Model.copyByte, List.getElem?_eq_getElem hn1, hn2]
  · intro i
    rw [byteAt_set, hb i]
    by_cases e : n = i
    · subst e
      rw [if_pos ⟨rfl, hn2⟩, if_pos (by omega)]
      unfold byteAt
      rw [List.getD_eq_getElem?_getD, List.getElem?_eq_getElem hn1]
      rfl
    · rw [if_neg (by intro h; exact e h.1)]
      by_cases c : i < n
      · rw [if_pos c, if_pos (by omega)]
      · rw [if_neg c, if_neg (by omega)]

/-- The three stages of the loop body complete on a tile inside the frame,
and the images they produce have the shape of the tile, respectively of the
model input, inside the scratch arrays. -/
theorem GetData_stages_ready (cfg : Config) (camera_image : Image) (junk : Nat → Nat)
    (a b : List Nat) (row col : Nat)
    (hcam : camera_image.GetBufferSize ≤ camera_image.buffer_.length)
    (hcamv : BytesValid camera_image.buffer_)
    (hL : 1 ≤ cfg.sliding_window_length)
    (hA1 : cfg.sliding_window_length * cfg.sliding_window_length
      * camera_image.GetFormat.GetChannels ≤ a.length)
    (hA2 : cfg.cnn_img_height * cfg.cnn_img_width * cfg.cnn_img_fmt.GetChannels ≤ a.length)
    (hB : (cfg.sliding_window_length * cfg.sliding_window_length + cfg.sliding_window_length + 1)
      * cfg.cnn_img_fmt.GetChannels ≤ b.length)
    (hM : cfg.cnn_img_height = cfg.cnn_img_width)
    (hbv : BytesValid b)
    (hrow : row + cfg.sliding_window_length ≤ camera_image.GetHeight)
    (hcol : col + cfg.sliding_window_length ≤ camera_image.GetWidth) :
    ∃ cropped formatted resized : Image,
      camera_image.Crop row col cfg.sliding_window_length cfg.sliding_window_length
        (some a) junk = some cropped ∧
      cropped.Reformat cfg.cnn_img_fmt (some b) junk = some formatted ∧
      formatted.Resize cfg.cnn_img_height cfg.cnn_img_width (some cropped.GetBuffer) junk
        = some resized ∧
      (cropped.height_ = cfg.sliding_window_length ∧ cropped.width_ = cfg.sliding_window_length ∧
        cropped.format_ = camera_image.format_ ∧ cropped.buffer_.length = a.length) ∧
      (formatted.height_ = cfg.sliding_window_length ∧
        formatted.width_ = cfg.sliding_window_length ∧
        formatted.format_ = cfg.cnn_img_fmt ∧ formatted.buffer_.length = b.length) ∧
      (resized.height_ = cfg.cnn_img_height ∧ resized.width_ = cfg.cnn_img_width ∧
        resized.format_ = cfg.cnn_img_fmt ∧ resized.buffer_.length = a.length) := by
  -- Crop
  obtain ⟨cropped, hcrop, hcf⟩ := Crop_filled camera_image row col cfg.sliding_window_length
    cfg.sliding_window_length (some a) junk hcam hrow hcol
    (by intro b2 hbb; cases hbb; exact hA1)
  obtain ⟨c1, c2, c3, _, c5, c6, _⟩ := hcf
  have c1' : cropped.height_ = cfg.sliding_window_length := c1
  have c2' : cropped.width_ = cfg.sliding_window_length := c2
  have c3' : cropped.format_ = camera_image.format_ := c3
  have c5' : cropped.buffer_.length = a.length := c5
  -- Reformat
  obtain ⟨formatted, hfmt, hff⟩ := Reformat_filled cropped cfg.cnn_img_fmt (some b)
    junk (by
      show cropped.height_ * cropped.width_ * cropped.format_.GetChannels ≤ _
      rw [c1', c2', c3', c5']; exact hA1)
    (by
      intro b2 hbb; cases hbb
      show cropped.height_ * cropped.width_ * _ ≤ _
      rw [c1', c2']
      have e : cfg.sliding_window_length * cfg.sliding_window_length
          * cfg.cnn_img_fmt.GetChannels
          ≤ (cfg.sliding_window_length * cfg.sliding_window_length
            + cfg.sliding_window_length + 1) * cfg.cnn_img_fmt.GetChannels :=
        Nat.mul_le_mul_right _ (by omega)
      omega)
  have hfv : BytesValid formatted.buffer_ := by
    apply Filled_valid _ _ _ _ hff hbv
    intro j ch hj hch
    apply Reformat_bytes_lt _ _ _ _ ch hch
    intro ch2 hch2
    have hch3 : ch2 < cropped.format_.GetChannels := hch2
    rw [byteAt_new _ _ _ _ hch3, byteAt_drop]
    have hj2 : j < cfg.sliding_window_length * cfg.sliding_window_length := by
      rw [c1', c2'] at hj; exact hj
    have hch4 : ch2 < camera_image.format_.GetChannels := by rw [← c3']; exact hch3
    have hbyte : byteAt cropped.buffer_ (j * camera_image.format_.GetChannels + ch2)
        = byteAt (Pixel.new camera_image.format_
            (camera_image.buffer_.drop
              (((row + j / cfg.sliding_window_length) * camera_image.width_
                + (col + j % cfg.sliding_window_length)) * camera_image.format_.GetChannels))
            junk).bytes_ ch2 := c6 j ch2 hj2 hch4
    rw [c3', hbyte]
    exact byteAt_new_drop_lt _ _ _ _ hcamv ch2 hch4
  obtain ⟨f1, f2, f3, _, f5, _, _⟩ := hff
  have f1' : formatted.height_ = cfg.sliding_window_length := f1.trans c1'
  have f2' : formatted.width_ = cfg.sliding_window_length := f2.trans c2'
  have f3' : formatted.format_ = cfg.cnn_img_fmt := f3
  have f5' : formatted.buffer_.length = b.length := f5
  -- Resize
  obtain ⟨resized, hres, hrf⟩ := Resize_filled formatted cfg.cnn_img_width cfg.cnn_img_width
    (some cropped.GetBuffer) junk
    (by
      intro b2 hbb; cases hbb
      show _ ≤ cropped.buffer_.length
      rw [f3', c5']
      have hA2' := hA2
      rw [hM] at hA2'
      exact hA2')
    (by
      intro r c hr hc
      exact ResizePixel_square_some formatted cfg.cnn_img_width r c junk (f1'.trans f2'.symm)
        (by rw [f2']; exact hL) (by rw [f2', f3', f5']; exact hB) hfv hr hc)
  obtain ⟨r1, r2, r3, _, r5, _, _⟩ := hrf
  have r1' : resized.height_ = cfg.cnn_img_width := r1
  have r2' : resized.width_ = cfg.cnn_img_width := r2
  have r3' : resized.format_ = formatted.format_ := r3
  have r5' : resized.buffer_.length = a.length := r5.trans c5'
  refine ⟨cropped, formatted, resized, hcrop, hfmt, by rw [hM]; exact hres,
    ⟨c1', c2', c3', c5'⟩, ⟨f1', f2', f3', f5'⟩, ⟨by rw [hM]; exact r1', r2', r3'.trans f3', r5'⟩⟩

/-- C26: with the constants of `Ardu_Camera.h` the two scratch arrays have the
same size `img_buf_size`, which is
`cnn_img_height * cnn_img_width * max(channels of the camera format, channels of
the model format)` = 18432 bytes.  On every tile inside a frame of the camera
format, with scratch arrays of that size, the three stages of the loop body
complete (no stage accesses a byte outside an array); the crop is 80 x 80
RGB565 with `GetBufferSize()` 12800, the reformatted image 80 x 80 GRAYSCALE
with 6400, the resized image 96 x 96 GRAYSCALE with 9216, each at most
`img_buf_size`, and each image lies in an array of `img_buf_size` bytes.  In
each stage the source array and the destination array are different
arrays. -/
theorem C26_scratch_buffers :
    Ardu_Camera.Buffer.size .img_buf_a = img_buf_size ∧
    Ardu_Camera.Buffer.size .img_buf_b = img_buf_size ∧
    cam_channels = cam_img_fmt.GetChannels ∧
    img_buf_size = cnn_img_height * cnn_img_width
      * max cam_img_fmt.GetChannels cnn_img_fmt.GetChannels ∧
    img_buf_size = 18432 ∧
    (∀ (camera_image : Image) (junk : Nat → Nat) (a b : List Nat) (row col : Nat),
      camera_image.GetFormat = cam_img_fmt →
      camera_image.GetBufferSize ≤ camera_image.GetBuffer.length →
      BytesValid camera_image.GetBuffer →
      a.length = img_buf_size → b.length = img_buf_size → BytesValid b →
      row + sliding_window_length ≤ camera_image.GetHeight →
      col + sliding_window_length ≤ camera_image.GetWidth →
      ∃ cropped_image formatted_image resized_image : Image,
        camera_image.Crop row col sliding_window_length sliding_window_length (some a) junk
          = some cropped_image ∧
        cropped_image.Reformat cnn_img_fmt (some b) junk = some formatted_image ∧
        formatted_image.Resize cnn_img_height cnn_img_width (some cropped_image.GetBuffer) junk
          = some resized_image ∧
        (cropped_image.GetHeight = 80 ∧ cropped_image.GetWidth = 80 ∧
          cropped_image.GetFormat = .RGB565 ∧ cropped_image.GetBufferSize = 12800 ∧
          cropped_image.GetBufferSize ≤ img_buf_size ∧
          cropped_image.GetBuffer.length = img_buf_size) ∧
        (formatted_image.GetHeight = 80 ∧ formatted_image.GetWidth = 80 ∧
          formatted_image.GetFormat = .GRAYSCALE ∧ formatted_image.GetBufferSize = 6400 ∧
          formatted_image.GetBufferSize ≤ img_buf_size ∧
          formatted_image.GetBuffer.length = img_buf_size) ∧
        (resized_image.GetHeight = 96 ∧ resized_image.GetWidth = 96 ∧
          resized_image.GetFormat = .GRAYSCALE ∧ resized_image.GetBufferSize = 9216 ∧
          resized_image.GetBufferSize ≤ img_buf_size ∧
          resized_image.GetBuffer.length = img_buf_size)) ∧
    (∀ stage ∈ Ardu_Camera.GetData_stages, stage.source ≠ stage.destination) := by
  refine ⟨rfl, rfl, rfl, by decide, by decide, ?_, by decide⟩
  intro camera_image junk a b row col hfmt hcam hcamv ha hb hbv hrow hcol
  have hfmt2 : camera_image.format_ = .RGB565 := hfmt
  obtain ⟨cropped, formatted, resized, h1, h2, h3, ⟨c1, c2, c3, c5⟩, ⟨f1, f2, f3, f5⟩,
      ⟨r1, r2, r3, r5⟩⟩ :=
    GetData_stages_ready Ardu_Camera.config camera_image junk a b row col hcam hcamv
      (by decide)
      (by
        show 80 * 80 * camera_image.format_.GetChannels ≤ a.length
        rw [hfmt2, ha]
        decide)
      (by rw [ha]; decide) (by rw [hb]; decide) rfl hbv hrow hcol
  have c1' : cropped.height_ = 80 := c1
  have c2' : cropped.width_ = 80 := c2
  have c3' : cropped.format_ = .RGB565 := c3.trans hfmt2
  have f1' : formatted.height_ = 80 := f1
  have f2' : formatted.width_ = 80 := f2
  have f3' : formatted.format_ = .GRAYSCALE := f3
  have r1' : resized.height_ = 96 := r1
  have r2' : resized.width_ = 96 := r2
  have r3' : resized.format_ = .GRAYSCALE := r3
  have cs : cropped.GetBufferSize = 12800 := by
    show cropped.height_ * cropped.width_ * cropped.format_.GetChannels = 12800
    rw [c1', c2', c3']
    rfl
  have fs : formatted.GetBufferSize = 6400 := by
    show formatted.height_ * formatted.width_ * formatted.format_.GetChannels = 6400
    rw [f1', f2', f3']
    rfl
  have rs : resized.GetBufferSize = 9216 := by
    show resized.height_ * resized.width_ * resized.format_.GetChannels = 9216
    rw [r1', r2', r3']
    rfl
  refine ⟨cropped, formatted, resized, h1, h2, h3,
    ⟨c1', c2', c3', cs, by rw [cs]; decide, c5.trans ha⟩,
    ⟨f1', f2', f3', fs, by rw [fs]; decide, f5.trans hb⟩,
    ⟨r1', r2', r3', rs, by rw [rs]; decide, r5.trans ha⟩⟩

/-- C26 on the tile at `(160, 240)`, the last one, of a black 240 x 320 RGB565
frame with scratch arrays of `img_buf_size` zero bytes. -/
theorem C26_scratch_buffers_witness :
    ∃ cropped_image formatted_image resized_image : Image,
      (Image.new cam_img_height cam_img_width cam_img_fmt (some (List.replicate 153600 0))
        (fun _ => 0)).Crop 160 240 sliding_window_length sliding_window_length
        (some (List.replicate img_buf_size 0)) (fun _ => 0) = some cropped_image ∧
      cropped_image.Reformat cnn_img_fmt (some (List.replicate img_buf_size 0)) (fun _ => 0)
        = some formatted_image ∧
      formatted_image.Resize cnn_img_height cnn_img_width (some cropped_image.GetBuffer)
        (fun _ => 0) = some resized_image ∧
      cropped_image.GetBufferSize = 12800 ∧ formatted_image.GetBufferSize = 6400 ∧
      resized_image.GetBufferSize = 9216 := by
  obtain ⟨c, f, r, h1, h2, h3, hc, hf, hr⟩ := C26_scratch_buffers.2.2.2.2.2.1
    (Image.new cam_img_height cam_img_width cam_img_fmt (some (List.replicate 153600 0))
      (fun _ => 0))
    (fun _ => 0) (List.replicate img_buf_size 0) (List.replicate img_buf_size 0) 160 240 rfl
    (by
      show 240 * 320 * 2 ≤ (List.replicate 153600 0).length
      rw [List.length_replicate])
    (BytesValid_replicate _ _ (by decide))
    (by rw [List.length_replicate]) (by rw [List.length_replicate])
    (BytesValid_replicate _ _ (by decide)) (by decide) (by decide)
  exact ⟨c, f, r, h1, h2, h3, hc.2.2.2.1, hf.2.2.2.1, hr.2.2.2.1⟩

/-! ## The centre column and the centre row under the flips -/

/-- Invariant rule for a loop in the `Option` monad that may fail: a property
that every successful iteration on an element of the list preserves holds
after a successful loop. -/
theorem foldlM_inv_mem {σ α : Type} (Inv : σ → Prop) (step : σ → α → Option σ) :
    ∀ (l : List α), (∀ s a s2, a ∈ l → Inv s → step s a = some s2 → Inv s2) →
      ∀ s s2, Inv s → l.foldlM step s = some s2 → Inv s2 := by
  intro l
  induction l with
  | nil =>
    intro _ s s2 hs h
    cases h
    exact hs
  | cons a l ih =>
    intro hstep s s2 hs h
    rw [List.foldlM_cons] at h
    cases h1 : step s a with
    | none => rw [h1] at h; cases h
    | some s1 =>
      rw [h1] at h
      exact ih (fun t b t2 hb => hstep t b t2 (List.mem_cons_of_mem _ hb)) s1 s2
        (hstep s a s1 (List.mem_cons_self _ _) hs h1) h

/-- A successful `SetPixel` changes no byte outside the bytes of the pixel. -/
theorem SetPixel_frame (im im2 : Image) (row col : Nat) (p : Pixel)
    (h : im.SetPixel row col p = some im2) (i : Nat)
    (hi : i < im.GetPixelLocation row col ∨
      im.GetPixelLocation row col + im.format_.GetChannels ≤ i) :
    byteAt im2.buffer_ i = byteAt im.buffer_ i := by
  unfold Image.SetPixel at h
  refine foldlM_inv_mem (fun s : Image => byteAt s.buffer_ i = byteAt im.buffer_ i)
    (fun (s : Image) ch => s.writeByte (im.GetPixelLocation row col + ch) (byteAt p.bytes_ ch))
    (List.range im.GetChannels) ?_ im im2 rfl h
  intro s ch s2 hch hs hw
  have hch2 : ch < im.format_.GetChannels := List.mem_range.1 hch
  replace hw : s.writeByte (im.GetPixelLocation row col + ch) (byteAt p.bytes_ ch) = some s2 := hw
  unfold Image.writeByte at hw
  by_cases hlt : im.GetPixelLocation row col + ch < s.buffer_.length
  · rw [if_pos hlt] at hw
    cases hw
    show byteAt (s.buffer_.set _ _) i = _
    rw [byteAt_set, if_neg (by omega)]
    exact hs
  · rw [if_neg hlt] at hw
    cases hw

/-- One swap of a flip, when it succeeds, changes no byte outside the bytes
of the two pixels. -/
theorem swap_frame (im im2 : Image) (r1 c1 r2 c2 : Nat) (junk : Nat → Nat)
    (h : (do
      let pixel1 ← im.GetPixel r1 c1 junk
      let pixel2 ← im.GetPixel r2 c2 junk
      let im ← im.SetPixel r2 c2 pixel1
      im.SetPixel r1 c1 pixel2) = some im2) (i : Nat)
    (h1 : i < im.GetPixelLocation r1 c1 ∨
      im.GetPixelLocation r1 c1 + im.format_.GetChannels ≤ i)
    (h2 : i < im.GetPixelLocation r2 c2 ∨
      im.GetPixelLocation r2 c2 + im.format_.GetChannels ≤ i) :
    byteAt im2.buffer_ i = byteAt im.buffer_ i := by
  cases e1 : im.GetPixel r1 c1 junk with
  | none => rw [e1] at h; cases h
  | some p1 =>
    cases e2 : im.GetPixel r2 c2 junk with
    | none => rw [e1, e2] at h; cases h
    | some p2 =>
      cases e3 : im.SetPixel r2 c2 p1 with
      | none => rw [e1, e2] at h; simp [e3] at h
      | some im1 =>
        rw [e1, e2] at h
        simp only [Option.some_bind, Option.bind_eq_bind, e3] at h
        obtain ⟨_, s2, s3, _⟩ := SetPixel_shape _ _ _ _ _ e3
        have hloc : im1.GetPixelLocation r1 c1 = im.GetPixelLocation r1 c1 := by
          simp only [Image.GetPixelLocation, Image.GetWidth, Image.GetChannels, Image.GetFormat,
            s2, s3]
        rw [SetPixel_frame im1 im2 r1 c1 p2 h i (by rw [hloc, s3]; exact h1)]
        exact SetPixel_frame im im1 r2 c2 p1 e3 i h2

/-- The index of the pixel a byte belongs to. -/
theorem pixel_of_byte (n k ch : Nat) (hch : ch < k) : (n * k + ch) / k = n :=
  Nat.div_eq_of_lt_le (by omega) (by rw [Nat.add_mul, Nat.one_mul]; omega)

/-- A byte outside the bytes of a pixel: its pixel index is a different
one. -/
theorem byte_outside_pixel (n k i : Nat) (h : i / k ≠ n) :
    i < n * k ∨ n * k + k ≤ i := by
  by_contra hc
  apply h
  exact Nat.div_eq_of_lt_le (by omega) (by rw [Nat.add_mul, Nat.one_mul]; omega)

/-- Two images of the same shape that agree on the bytes of a pixel give the
same result for the read of that pixel. -/
theorem GetPixel_congr (img out : Image) (r c : Nat) (junk : Nat → Nat)
    (hs : SameShape img out)
    (hb : ∀ ch, ch < img.format_.GetChannels →
      byteAt out.buffer_ ((r * img.width_ + c) * img.format_.GetChannels + ch)
        = byteAt img.buffer_ ((r * img.width_ + c) * img.format_.GetChannels + ch)) :
    out.GetPixel r c junk = img.GetPixel r c junk := by
  obtain ⟨_, s2, s3, s4⟩ := hs
  unfold Image.GetPixel
  simp only [Image.GetPixelLocation, Image.GetWidth, Image.GetChannels, Image.GetFormat,
    s2, s3, s4]
  by_cases hl : (r * img.width_ + c) * img.format_.GetChannels + img.format_.GetChannels
      ≤ img.buffer_.length
  · rw [if_pos hl, if_pos hl]
    congr 1
    apply new_congr
    intro ch hch
    rw [byteAt_drop, byteAt_drop]
    exact hb ch hch
  · rw [if_neg hl, if_neg hl]

/-- A `HorizontalFlip` that completes keeps the shape of the image and every
byte of the pixels in column `WIDTH / 2`. -/
theorem HorizontalFlip_centre (img out : Image) (junk : Nat → Nat)
    (h : img.HorizontalFlip junk = some out) :
    SameShape img out ∧
    ∀ i, (i / img.format_.GetChannels) % img.width_ = img.width_ / 2 →
      byteAt out.buffer_ i = byteAt img.buffer_ i := by
  unfold Image.HorizontalFlip at h
  refine foldlM_inv_mem
    (fun s : Image => SameShape img s ∧
      ∀ i, (i / img.format_.GetChannels) % img.width_ = img.width_ / 2 →
        byteAt s.buffer_ i = byteAt img.buffer_ i)
    _ (List.range img.GetHeight) ?_ img out ⟨SameShape_refl img, fun _ _ => rfl⟩ h
  intro s row s2 _ hs hrow
  refine foldlM_inv_mem
    (fun s : Image => SameShape img s ∧
      ∀ i, (i / img.format_.GetChannels) % img.width_ = img.width_ / 2 →
        byteAt s.buffer_ i = byteAt img.buffer_ i)
    _ (List.range (s.GetWidth / 2)) ?_ s s2 hs hrow
  intro t col t2 hcol ⟨hts, htb⟩ hswap
  have hsw : s.width_ = img.width_ := hs.1.2.1
  have hcol2 : col < img.width_ / 2 := by
    have := List.mem_range.1 hcol
    rw [← hsw]
    exact this
  obtain ⟨_, tw, tf, _⟩ := hts
  have hshape := swap_shape t t2 row col row (t.GetWidth - col) junk hswap
  refine ⟨SameShape_trans _ _ _ ⟨by assumption, tw, tf, by assumption⟩ hshape, ?_⟩
  intro i hi
  rw [swap_frame t t2 row col row (t.GetWidth - col) junk hswap i ?_ ?_]
  · exact htb i hi
  · show i < (row * t.width_ + col) * t.format_.GetChannels ∨
      (row * t.width_ + col) * t.format_.GetChannels + t.format_.GetChannels ≤ i
    rw [tw, tf]
    apply byte_outside_pixel
    intro e
    rw [e, Nat.add_comm, Nat.add_mul_mod_self_right, Nat.mod_eq_of_lt (by omega)] at hi
    omega
  · show i < (row * t.width_ + (t.width_ - col)) * t.format_.GetChannels ∨
      (row * t.width_ + (t.width_ - col)) * t.format_.GetChannels + t.format_.GetChannels ≤ i
    rw [tw, tf]
    apply byte_outside_pixel
    intro e
    rw [e, Nat.add_comm, Nat.add_mul_mod_self_right] at hi
    by_cases h0 : col = 0
    · subst h0
      rw [Nat.sub_zero, Nat.mod_self] at hi
      omega
    · rw [Nat.mod_eq_of_lt (by omega)] at hi
      omega

/-- A `VerticalFlip` that completes keeps the shape of the image and every
byte of the pixels in row `HEIGHT / 2`. -/
theorem VerticalFlip_centre (img out : Image) (junk : Nat → Nat)
    (h : img.VerticalFlip junk = some out) :
    SameShape img out ∧
    ∀ i, (i / img.format_.GetChannels) / img.width_ = img.height_ / 2 →
      byteAt out.buffer_ i = byteAt img.buffer_ i := by
  unfold Image.VerticalFlip at h
  refine foldlM_inv_mem
    (fun s : Image => SameShape img s ∧
      ∀ i, (i / img.format_.GetChannels) / img.width_ = img.height_ / 2 →
        byteAt s.buffer_ i = byteAt img.buffer_ i)
    _ (List.range (img.GetHeight / 2)) ?_ img out ⟨SameShape_refl img, fun _ _ => rfl⟩ h
  intro s row s2 hrow hs hrows
  have hrow2 : row < img.height_ / 2 := List.mem_range.1 hrow
  refine foldlM_inv_mem
    (fun s : Image => SameShape img s ∧
      ∀ i, (i / img.format_.GetChannels) / img.width_ = img.height_ / 2 →
        byteAt s.buffer_ i = byteAt img.buffer_ i)
    _ (List.range s.GetWidth) ?_ s s2 hs hrows
  intro t col t2 hcol ⟨hts, htb⟩ hswap
  have hsw : s.width_ = img.width_ := hs.1.2.1
  have hcol2 : col < img.width_ := by
    have := List.mem_range.1 hcol
    rw [← hsw]
    exact this
  obtain ⟨th, tw, tf, _⟩ := hts
  have hshape := swap_shape t t2 row col (t.GetHeight - row) col junk hswap
  refine ⟨SameShape_trans _ _ _ ⟨th, tw, tf, by assumption⟩ hshape, ?_⟩
  intro i hi
  rw [swap_frame t t2 row col (t.GetHeight - row) col junk hswap i ?_ ?_]
  · exact htb i hi
  · show i < (row * t.width_ + col) * t.format_.GetChannels ∨
      (row * t.width_ + col) * t.format_.GetChannels + t.format_.GetChannels ≤ i
    rw [tw, tf]
    apply byte_outside_pixel
    intro e
    rw [e, index_div row img.width_ col hcol2] at hi
    omega
  · show i < ((t.height_ - row) * t.width_ + col) * t.format_.GetChannels ∨
      ((t.height_ - row) * t.width_ + col) * t.format_.GetChannels + t.format_.GetChannels ≤ i
    rw [th, tw, tf]
    apply byte_outside_pixel
    intro e
    rw [e, index_div (img.height_ - row) img.width_ col hcol2] at hi
    omega

/-! ## The flips inside a larger allocation -/

/-- One swap of a flip whose two pixels lie inside the allocation succeeds
and keeps the shape of the image. -/
theorem swap_some (im : Image) (r1 c1 r2 c2 : Nat) (junk : Nat → Nat)
    (h1 : (r1 * im.width_ + c1) * im.format_.GetChannels + im.format_.GetChannels
      ≤ im.buffer_.length)
    (h2 : (r2 * im.width_ + c2) * im.format_.GetChannels + im.format_.GetChannels
      ≤ im.buffer_.length) :
    ∃ im2, (do
      let pixel1 ← im.GetPixel r1 c1 junk
      let pixel2 ← im.GetPixel r2 c2 junk
      let im ← im.SetPixel r2 c2 pixel1
      im.SetPixel r1 c1 pixel2) = some im2 ∧ SameShape im im2 := by
  obtain ⟨a, ha, a1, a2, a3, _, a5, _⟩ := SetPixel_spec im r2 c2
    (Pixel.new im.format_
      (im.buffer_.drop ((r1 * im.width_ + c1) * im.format_.GetChannels)) junk) h2
  obtain ⟨b, hb, b1, b2, b3, _, b5, _⟩ := SetPixel_spec a r1 c1
    (Pixel.new im.format_
      (im.buffer_.drop ((r2 * im.width_ + c2) * im.format_.GetChannels)) junk) (by
      show (r1 * a.width_ + c1) * a.format_.GetChannels + a.format_.GetChannels ≤ _
      rw [a2, a3, a5]
      exact h1)
  refine ⟨b, ?_, b1.trans a1, b2.trans a2, b3.trans a3, b5.trans a5⟩
  rw [GetPixel_in_alloc im r1 c1 junk h1, GetPixel_in_alloc im r2 c2 junk h2]
  simp only [Option.some_bind, Option.bind_eq_bind]
  rw [ha]
  exact hb

/-- The bytes of the pixel with index `n` lie below `(m + 1) * k` when
`n <= m`. -/
theorem pixel_index_bound (n m k : Nat) (h : n ≤ m) : n * k + k ≤ (m + 1) * k := by
  have := Nat.mul_le_mul_right k (Nat.succ_le_succ h)
  rw [Nat.succ_mul] at this
  exact this

/-- `HorizontalFlip` completes on an image whose allocation holds the pixel
behind the image. -/
theorem HorizontalFlip_some (img : Image) (junk : Nat → Nat)
    (hlen : (img.height_ * img.width_ + 1) * img.format_.GetChannels ≤ img.buffer_.length) :
    ∃ out, img.HorizontalFlip junk = some out := by
  suffices h : ∃ out, img.HorizontalFlip junk = some out ∧ SameShape img out by
    obtain ⟨out, hout, _⟩ := h
    exact ⟨out, hout⟩
  unfold Image.HorizontalFlip
  apply foldlM_range_inv img.GetHeight _ (fun _ (s : Image) => SameShape img s)
    img (SameShape_refl img) (by
      intro r hr s hs
      have hr2 : r < img.height_ := hr
      have hsw : s.GetWidth = img.width_ := hs.2.1
      beta_reduce
      rw [hsw]
      apply foldlM_range_inv (img.width_ / 2) _ (fun _ (t : Image) => SameShape img t) s hs
      intro c hc t ⟨t1, t2, t3, t4⟩
      have hrow : (r + 1) * img.width_ ≤ img.height_ * img.width_ :=
        Nat.mul_le_mul_right _ hr2
      rw [Nat.succ_mul] at hrow
      have hc2 : c < img.width_ := by omega
      obtain ⟨t5, h5, hs5⟩ := swap_some t r c r (t.GetWidth - c) junk
        (by
          rw [t2, t3, t4]
          have := pixel_index_bound (r * img.width_ + c) (img.height_ * img.width_)
            img.format_.GetChannels (by omega)
          omega)
        (by
          show (r * t.width_ + (t.width_ - c)) * t.format_.GetChannels + _ ≤ _
          rw [t2, t3, t4]
          have := pixel_index_bound (r * img.width_ + (img.width_ - c))
            (img.height_ * img.width_) img.format_.GetChannels (by omega)
          omega)
      exact ⟨t5, h5, SameShape_trans _ _ _ ⟨t1, t2, t3, t4⟩ hs5⟩)

/-- `VerticalFlip` completes on an image whose allocation holds the row
behind the image. -/
theorem VerticalFlip_some (img : Image) (junk : Nat → Nat)
    (hlen : (img.height_ * img.width_ + img.width_) * img.format_.GetChannels
      ≤ img.buffer_.length) :
    ∃ out, img.VerticalFlip junk = some out := by
  suffices h : ∃ out, img.VerticalFlip junk = some out ∧ SameShape img out by
    obtain ⟨out, hout, _⟩ := h
    exact ⟨out, hout⟩
  unfold Image.VerticalFlip
  apply foldlM_range_inv (img.GetHeight / 2) _
    (fun _ (s : Image) => SameShape img s) img (SameShape_refl img) (by
      intro r hr s hs
      have hr2 : r < img.height_ / 2 := hr
      have hsw : s.GetWidth = img.width_ := hs.2.1
      beta_reduce
      rw [hsw]
      apply foldlM_range_inv img.width_ _ (fun _ (t : Image) => SameShape img t) s hs
      intro c hc t ⟨t1, t2, t3, t4⟩
      have hrow : (r + 1) * img.width_ ≤ img.height_ * img.width_ :=
        Nat.mul_le_mul_right _ (by omega)
      rw [Nat.succ_mul] at hrow
      have hrow2 : (img.height_ - r) * img.width_ ≤ img.height_ * img.width_ :=
        Nat.mul_le_mul_right _ (Nat.sub_le _ _)
      obtain ⟨t5, h5, hs5⟩ := swap_some t r c (t.GetHeight - r) c junk
        (by
          rw [t2, t3, t4]
          have := pixel_index_bound (r * img.width_ + c)
            (img.height_ * img.width_ + img.width_ - 1) img.format_.GetChannels (by omega)
          rw [show img.height_ * img.width_ + img.width_ - 1 + 1
            = img.height_ * img.width_ + img.width_ by omega] at this
          omega)
        (by
          show ((t.height_ - r) * t.width_ + c) * t.format_.GetChannels + _ ≤ _
          rw [t1, t2, t3, t4]
          have := pixel_index_bound ((img.height_ - r) * img.width_ + c)
            (img.height_ * img.width_ + img.width_ - 1) img.format_.GetChannels (by omega)
          rw [show img.height_ * img.width_ + img.width_ - 1 + 1
            = img.height_ * img.width_ + img.width_ by omega] at this
          omega)
      exact ⟨t5, h5, SameShape_trans _ _ _ ⟨t1, t2, t3, t4⟩ hs5⟩)

/-- C28: the flips never write the centre column, respectively the centre
row, but they pair column `col` with column `WIDTH - col` and row `row` with
row `HEIGHT - row`, and they return a copy of the receiver.  First and second
part: whenever `HorizontalFlip` on an image of width `2k + 1` over a buffer
of the caller completes, every pixel `(r, k)` is unchanged, and likewise every
pixel `(k, c)` for `VerticalFlip` on an image of height `2k + 1`.  Third and
fourth part: on every image of width at least 3 (height at least 3) whose
buffer has exactly `GetBufferSize()` bytes the flip accesses a byte outside
the buffer.  Fifth to eighth part: on the 1 x 3 grayscale image `[1, 2, 3]`
the first swap of `HorizontalFlip` accesses byte 3, and so does the first
swap of `VerticalFlip` on the 3 x 1 image `[1, 2, 3]`; in a four-byte
allocation `[1, 2, 3, 4]` both calls end with `[4, 2, 3, 1]`.  Ninth part: on
an image that allocated its buffer, once the copy a completed flip returned
is destroyed no pixel of the image can be read any more; the 1 x 1 image the
constructor allocates is an example, its pixel readable before the flip. -/
theorem C28_flip_centre_unmoved :
    (∀ (img out : Image) (junk : Nat → Nat) (k r : Nat),
      img.new_buffer_was_allocated_ = false → img.GetWidth = 2 * k + 1 →
      img.HorizontalFlip junk = some out →
      out.GetPixel r k junk = img.GetPixel r k junk) ∧
    (∀ (img out : Image) (junk : Nat → Nat) (k c : Nat),
      img.new_buffer_was_allocated_ = false → img.GetHeight = 2 * k + 1 →
      c < img.GetWidth → img.VerticalFlip junk = some out →
      out.GetPixel k c junk = img.GetPixel k c junk) ∧
    (∀ (img : Image) (junk : Nat → Nat), img.GetBuffer.length = img.GetBufferSize →
      1 ≤ img.GetHeight → 3 ≤ img.GetWidth → img.HorizontalFlip junk = none) ∧
    (∀ (img : Image) (junk : Nat → Nat), img.GetBuffer.length = img.GetBufferSize →
      3 ≤ img.GetHeight → 1 ≤ img.GetWidth → img.VerticalFlip junk = none) ∧
    (grayImage 1 3 [1, 2, 3]).HorizontalFlip (fun _ => 0) = none ∧
    (grayImage 3 1 [1, 2, 3]).VerticalFlip (fun _ => 0) = none ∧
    (grayImage 1 3 [1, 2, 3, 4]).HorizontalFlip (fun _ => 0)
      = some (grayImage 1 3 [4, 2, 3, 1]) ∧
    (grayImage 3 1 [1, 2, 3, 4]).VerticalFlip (fun _ => 0)
      = some (grayImage 3 1 [4, 2, 3, 1]) ∧
    ((∀ (img : Image) (junk : Nat → Nat) (r c : Nat),
        img.new_buffer_was_allocated_ = true →
        img.DeallocateBuffer.GetPixel r c junk = none) ∧
      (Image.new 1 1 .GRAYSCALE none (fun _ => 7)).HorizontalFlip (fun _ => 7)
        = some (Image.new 1 1 .GRAYSCALE none (fun _ => 7)) ∧
      (Image.new 1 1 .GRAYSCALE none (fun _ => 7)).VerticalFlip (fun _ => 7)
        = some (Image.new 1 1 .GRAYSCALE none (fun _ => 7)) ∧
      ((Image.new 1 1 .GRAYSCALE none (fun _ => 7)).GetPixel 0 0 (fun _ => 7)).isSome = true ∧
      (Image.new 1 1 .GRAYSCALE none (fun _ => 7)).DeallocateBuffer.GetPixel 0 0 (fun _ => 7)
        = none) := by
  refine ⟨?_, ?_, ?_, ?_, by decide, by decide, by decide, by decide,
    ?_, by decide, by decide, by decide, by decide⟩
  · intro img out junk k r _ hw h
    have hw2 : img.width_ = 2 * k + 1 := hw
    obtain ⟨hs, hb⟩ := HorizontalFlip_centre img out junk h
    apply GetPixel_congr img out r k junk hs
    intro ch hch
    apply hb
    rw [pixel_of_byte _ _ ch hch, Nat.add_comm, Nat.add_mul_mod_self_right,
      Nat.mod_eq_of_lt (by omega)]
    omega
  · intro img out junk k c _ hh hc h
    have hh2 : img.height_ = 2 * k + 1 := hh
    obtain ⟨hs, hb⟩ := VerticalFlip_centre img out junk h
    apply GetPixel_congr img out k c junk hs
    intro ch hch
    apply hb
    rw [pixel_of_byte _ _ ch hch, index_div k img.width_ c hc]
    omega
  · intro img junk hlen hh hw
    exact HorizontalFlip_exact_faults img junk hlen hh (by omega)
  · intro img junk hlen hh hw
    exact VerticalFlip_exact_faults img junk hlen (by omega) hw
  · intro img junk r c hown
    have hd : img.DeallocateBuffer = { img with buffer_ := [] } := by
      unfold Image.DeallocateBuffer
      rw [if_pos hown]
    rw [hd]
    apply GetPixel_outside
    have hk := channels_pos img.format_
    show 0 < (r * img.width_ + c) * img.format_.GetChannels + img.format_.GetChannels
    omega

/-! ## The tile origins of the scan -/

/-- Every value of the loop variable passed the test of the loop. -/
theorem loopOrigins_mem (length step bound : Nat) :
    ∀ (fuel i x : Nat), x ∈ loopOrigins length step bound fuel i → x + length ≤ bound := by
  intro fuel
  induction fuel with
  | zero =>
    intro i x hx
    cases hx
  | succ fuel ih =>
    intro i x hx
    rw [loopOrigins_succ] at hx
    by_cases hc : i + length ≤ bound
    · rw [if_pos hc] at hx
      rcases List.mem_cons.1 hx with rfl | h
      · exact hc
      · exact ih _ x h
    · rw [if_neg hc] at hx
      cases hx

/-- The number of iterations of a loop with a step of at least 1, given more
fuel than the distance to the bound. -/
theorem loopOrigins_length (length step bound : Nat) (hstep : 1 ≤ step) :
    ∀ (fuel i : Nat), bound < fuel + i →
      (loopOrigins length step bound fuel i).length
        = if i + length ≤ bound then (bound - length - i) / step + 1 else 0 := by
  intro fuel
  induction fuel with
  | zero =>
    intro i hf
    rw [if_neg (by omega)]
    rfl
  | succ fuel ih =>
    intro i hf
    rw [loopOrigins_succ]
    by_cases hc : i + length ≤ bound
    · rw [if_pos hc, if_pos hc, List.length_cons, ih (i + step) (by omega)]
      by_cases hc2 : i + step + length ≤ bound
      · rw [if_pos hc2, Nat.div_eq_sub_div hstep (by omega : step ≤ bound - length - i),
          show bound - length - (i + step) = bound - length - i - step by omega]
      · rw [if_neg hc2, Nat.div_eq_of_lt (by omega)]
    · rw [if_neg hc, if_neg hc]
      rfl

theorem length_flatMap_map {α β γ : Type} (l : List α) (m : List β) (f : α → β → γ) :
    (l.flatMap (fun a => m.map (f a))).length = l.length * m.length := by
  induction l with
  | nil => simp
  | cons a l ih =>
    rw [List.flatMap_cons, List.length_append, ih, List.length_map, List.length_cons,
      Nat.succ_mul, Nat.add_comm]

/-- Every tile origin of the two loops passed both loop tests. -/
theorem scanOrigins_mem (cfg : Config) (height width fuel : Nat) (o : Nat × Nat)
    (h : o ∈ scanOrigins cfg height width fuel) :
    o.1 + cfg.sliding_window_length ≤ height ∧ o.2 + cfg.sliding_window_length ≤ width := by
  unfold scanOrigins at h
  rw [List.mem_flatMap] at h
  obtain ⟨row, hrow, hm⟩ := h
  rw [List.mem_map] at hm
  obtain ⟨col, hcol, rfl⟩ := hm
  exact ⟨loopOrigins_mem _ _ _ _ _ _ hrow, loopOrigins_mem _ _ _ _ _ _ hcol⟩

/-- The number of tiles of the two loops: the rows advance by the tile edge,
the columns by the stride. -/
theorem scanOrigins_length (cfg : Config) (height width fuel : Nat)
    (hL : 1 ≤ cfg.sliding_window_length) (hS : 1 ≤ cfg.sliding_window_freq)
    (hfh : height < fuel) (hfw : width < fuel) :
    (scanOrigins cfg height width fuel).length
      = (if cfg.sliding_window_length ≤ height
          then (height - cfg.sliding_window_length) / cfg.sliding_window_length + 1 else 0)
        * (if cfg.sliding_window_length ≤ width
          then (width - cfg.sliding_window_length) / cfg.sliding_window_freq + 1 else 0) := by
  unfold scanOrigins
  rw [length_flatMap_map, loopOrigins_length _ _ _ hL fuel 0 (by omega),
    loopOrigins_length _ _ _ hS fuel 0 (by omega)]
  simp only [Nat.zero_add, Nat.sub_zero]

/-- C29: every tile the scan crops lies inside the frame.  First part: every
origin `(row, col)` produced by the headers of the two loops satisfies
`row + sliding_window_length <= height` and
`col + sliding_window_length <= width`.  Second part: the tiles a completed
scan has cropped are these origins, so each of them satisfies both bounds.
Third part: for a frame of byte values, scratch arrays that are large enough
and an interpreter that returns at least three scores for every input, the
scan completes (with more fuel than the frame is high and wide), so every
`Crop` of the scan stayed inside its arrays.  Fourth part: on a 250 x 330
frame with the constants of `Ardu_Camera.h` the origins are the twelve
origins of the 240 x 320 frame; the strips of 10 rows and 10 columns at the
bottom and right edge belong to no tile. -/
theorem C29_scanned_tiles_inside_frame :
    (∀ (cfg : Config) (height width fuel : Nat) (o : Nat × Nat),
      o ∈ scanOrigins cfg height width fuel →
      o.1 + cfg.sliding_window_length ≤ height ∧ o.2 + cfg.sliding_window_length ≤ width) ∧
    (∀ (cfg : Config) (Invoke : List Nat → Option (List Nat)) (camera_image : Image)
      (junk : Nat → Nat) (fuel : Nat) (img_buf_a img_buf_b : List Nat) (model : TFLM_Model)
      (st : ScanState),
      Ardu_Camera.GetData_scan cfg Invoke camera_image junk fuel img_buf_a img_buf_b model
        = some st →
      cropOrigins st.trace
        = scanOrigins cfg camera_image.GetHeight camera_image.GetWidth fuel ∧
      ∀ o ∈ cropOrigins st.trace,
        o.1 + cfg.sliding_window_length ≤ camera_image.GetHeight ∧
        o.2 + cfg.sliding_window_length ≤ camera_image.GetWidth) ∧
    (∀ (cfg : Config) (Invoke : List Nat → Option (List Nat)) (camera_image : Image)
      (junk : Nat → Nat) (fuel : Nat) (img_buf_a img_buf_b : List Nat) (model : TFLM_Model),
      ScanSetup cfg Invoke camera_image img_buf_a.length img_buf_b.length →
      BytesValid img_buf_b →
      model.input_bytes ≤ img_buf_a.length →
      model.input_bytes ≤ model.input_data.length →
      camera_image.GetHeight < fuel → camera_image.GetWidth < fuel →
      ∃ st : ScanState,
        Ardu_Camera.GetData_scan cfg Invoke camera_image junk fuel img_buf_a img_buf_b model
          = some st ∧
        ∀ o ∈ cropOrigins st.trace,
          o.1 + cfg.sliding_window_length ≤ camera_image.GetHeight ∧
          o.2 + cfg.sliding_window_length ≤ camera_image.GetWidth) ∧
    scanOrigins Ardu_Camera.config 250 330 331
      = [(0, 0), (0, 80), (0, 160), (0, 240), (80, 0), (80, 80), (80, 160), (80, 240),
         (160, 0), (160, 80), (160, 160), (160, 240)] := by
  have key : ∀ (cfg : Config) (Invoke : List Nat → Option (List Nat)) (camera_image : Image)
      (junk : Nat → Nat) (fuel : Nat) (img_buf_a img_buf_b : List Nat) (model : TFLM_Model)
      (st : ScanState),
      Ardu_Camera.GetData_scan cfg Invoke camera_image junk fuel img_buf_a img_buf_b model
        = some st →
      cropOrigins st.trace
        = scanOrigins cfg camera_image.GetHeight camera_image.GetWidth fuel ∧
      ∀ o ∈ cropOrigins st.trace,
        o.1 + cfg.sliding_window_length ≤ camera_image.GetHeight ∧
        o.2 + cfg.sliding_window_length ≤ camera_image.GetWidth := by
    intro cfg Invoke camera_image junk fuel img_buf_a img_buf_b model st h
    have hsc := GetData_scan_some cfg Invoke camera_image junk fuel img_buf_a img_buf_b model st h
    obtain ⟨_, h2, _⟩ := Scanned_from_start _ _ st rfl rfl hsc
    refine ⟨h2, ?_⟩
    intro o ho
    rw [h2] at ho
    exact scanOrigins_mem cfg _ _ fuel o ho
  refine ⟨scanOrigins_mem, key, ?_, ?_⟩
  · intro cfg Invoke camera_image junk fuel img_buf_a img_buf_b model hs hbv hm1 hm2 hfh hfw
    obtain ⟨st, hst, _⟩ := GetData_scan_ready cfg Invoke camera_image junk fuel img_buf_a
      img_buf_b model hs hbv hm1 hm2 hfh hfw
    exact ⟨st, hst, (key cfg Invoke camera_image junk fuel img_buf_a img_buf_b model st hst).2⟩
  · simp [scanOrigins, loopOrigins_succ, Ardu_Camera.config, sliding_window_length,
      sliding_window_freq]

/-- C29 on a black 240 x 320 RGB565 frame with the constants of
`Ardu_Camera.h`, scratch arrays of `img_buf_size` bytes and an interpreter
that always answers with the scores `[0, 1, 0]`. -/
theorem C29_scanned_tiles_inside_frame_witness :
    ∃ st : ScanState,
      Ardu_Camera.GetData_scan Ardu_Camera.config (fun _ => some [0, 1, 0])
        (Image.new cam_img_height cam_img_width cam_img_fmt
          (some (List.replicate 153600 0)) (fun _ => 0))
        (fun _ => 0) 321 (List.replicate img_buf_size 0) (List.replicate img_buf_size 0)
        ⟨9216, List.replicate 9216 0, 0⟩ = some st ∧
      ∀ o ∈ cropOrigins st.trace, o.1 + 80 ≤ 240 ∧ o.2 + 80 ≤ 320 :=
  C29_scanned_tiles_inside_frame.2.2.1 Ardu_Camera.config (fun _ => some [0, 1, 0])
    (Image.new cam_img_height cam_img_width cam_img_fmt
      (some (List.replicate 153600 0)) (fun _ => 0))
    (fun _ => 0) 321 (List.replicate img_buf_size 0) (List.replicate img_buf_size 0)
    ⟨9216, List.replicate 9216 0, 0⟩
    (by
      rw [List.length_replicate]
      refine ⟨?_, BytesValid_replicate _ _ (by decide), by decide, by decide, by decide,
        by decide, by decide, by decide, fun _ => ⟨[0, 1, 0], rfl, by decide⟩⟩
      show 240 * 320 * 2 ≤ (List.replicate 153600 0).length
      rw [List.length_replicate])
    (BytesValid_replicate _ _ (by decide))
    (by rw [List.length_replicate]; decide)
    (by show 9216 ≤ (List.replicate 9216 0).length; rw [List.length_replicate])
    (by decide) (by decide)

/-! ## The number of inference calls of the scan -/

/-- The counter of a completed scan is at most the number of its inference
calls. -/
theorem num_people_le_calls (origins : List (Nat × Nat)) (st0 st : ScanState)
    (h0 : st0.trace = []) (hn0 : st0.num_people = 0) (h : Scanned origins st0 st) :
    st.num_people ≤ inferenceCalls st.trace := by
  obtain ⟨_, _, h3, _, outs, hlen, _, hn⟩ := Scanned_from_start origins st0 st h0 hn0 h
  rw [h3, hn, ← hlen]
  exact List.length_filter_le _ _

/-- C30: the scan makes one inference call per tile; the rows of tiles
advance by `sliding_window_length`, the columns by `sliding_window_freq`.
First part: with tile edge `L >= 1`, stride `S >= 1` and more fuel than the
frame is high and wide, every completed scan of an `H x W` frame has made
`(floor((H - L) / L) + 1) * (floor((W - L) / S) + 1)` inference calls (no
call when `H < L` or `W < L`), and `num_people` is at most that number.
Second part: for a frame of byte values, scratch arrays that are large enough
and an interpreter that returns at least three scores for every input, the
scan completes.  Third part: with the constants of `Ardu_Camera.h` (where
`S = L = 80`) a 240 x 320 frame gives exactly 12 inference calls.  Fourth
part: with tile edge 2 and stride 1 on a 3 x 3 frame the scan makes 2
inference calls, while `(floor((H - L) / S) + 1) * (floor((W - L) / S) + 1)`
is 4. -/
theorem C30_number_of_inference_calls :
    (∀ (cfg : Config) (Invoke : List Nat → Option (List Nat)) (camera_image : Image)
      (junk : Nat → Nat) (fuel : Nat) (img_buf_a img_buf_b : List Nat) (model : TFLM_Model)
      (st : ScanState),
      1 ≤ cfg.sliding_window_length → 1 ≤ cfg.sliding_window_freq →
      camera_image.GetHeight < fuel → camera_image.GetWidth < fuel →
      Ardu_Camera.GetData_scan cfg Invoke camera_image junk fuel img_buf_a img_buf_b model
        = some st →
      inferenceCalls st.trace
        = (if cfg.sliding_window_length ≤ camera_image.GetHeight
            then (camera_image.GetHeight - cfg.sliding_window_length)
              / cfg.sliding_window_length + 1 else 0)
          * (if cfg.sliding_window_length ≤ camera_image.GetWidth
            then (camera_image.GetWidth - cfg.sliding_window_length)
              / cfg.sliding_window_freq + 1 else 0) ∧
      st.num_people ≤ inferenceCalls st.trace) ∧
    (∀ (cfg : Config) (Invoke : List Nat → Option (List Nat)) (camera_image : Image)
      (junk : Nat → Nat) (fuel : Nat) (img_buf_a img_buf_b : List Nat) (model : TFLM_Model),
      ScanSetup cfg Invoke camera_image img_buf_a.length img_buf_b.length →
      BytesValid img_buf_b →
      model.input_bytes ≤ img_buf_a.length →
      model.input_bytes ≤ model.input_data.length →
      camera_image.GetHeight < fuel → camera_image.GetWidth < fuel →
      ∃ st : ScanState,
        Ardu_Camera.GetData_scan cfg Invoke camera_image junk fuel img_buf_a img_buf_b model
          = some st) ∧
    (∀ (Invoke : List Nat → Option (List Nat)) (camera_image : Image)
      (junk : Nat → Nat) (fuel : Nat) (img_buf_a img_buf_b : List Nat) (model : TFLM_Model),
      ScanSetup Ardu_Camera.config Invoke camera_image img_buf_a.length img_buf_b.length →
      BytesValid img_buf_b →
      model.input_bytes ≤ img_buf_a.length →
      model.input_bytes ≤ model.input_data.length →
      camera_image.GetHeight = cam_img_height → camera_image.GetWidth = cam_img_width →
      cam_img_width < fuel →
      ∃ st : ScanState,
        Ardu_Camera.GetData_scan Ardu_Camera.config Invoke camera_image junk fuel
          img_buf_a img_buf_b model = some st ∧
        inferenceCalls st.trace = 12 ∧ st.num_people ≤ 12) ∧
    (Ardu_Camera.GetData_scan smallConfig (fun _ => some [0, 1, 0])
      (grayImage 3 3 [1, 2, 3, 4, 5, 6, 7, 8, 9]) (fun _ => 0) 10
      [0, 0, 0, 0] [0, 0, 0, 0] ⟨1, [0], 0⟩).map (fun st => inferenceCalls st.trace)
      = some 2 ∧
    ((3 - smallConfig.sliding_window_length) / smallConfig.sliding_window_freq + 1)
      * ((3 - smallConfig.sliding_window_length) / smallConfig.sliding_window_freq + 1) = 4 := by
  have key : ∀ (cfg : Config) (Invoke : List Nat → Option (List Nat)) (camera_image : Image)
      (junk : Nat → Nat) (fuel : Nat) (img_buf_a img_buf_b : List Nat) (model : TFLM_Model)
      (st : ScanState),
      1 ≤ cfg.sliding_window_length → 1 ≤ cfg.sliding_window_freq →
      camera_image.GetHeight < fuel → camera_image.GetWidth < fuel →
      Ardu_Camera.GetData_scan cfg Invoke camera_image junk fuel img_buf_a img_buf_b model
        = some st →
      inferenceCalls st.trace
        = (if cfg.sliding_window_length ≤ camera_image.GetHeight
            then (camera_image.GetHeight - cfg.sliding_window_length)
              / cfg.sliding_window_length + 1 else 0)
          * (if cfg.sliding_window_length ≤ camera_image.GetWidth
            then (camera_image.GetWidth - cfg.sliding_window_length)
              / cfg.sliding_window_freq + 1 else 0) ∧
      st.num_people ≤ inferenceCalls st.trace := by
    intro cfg Invoke camera_image junk fuel img_buf_a img_buf_b model st hL hS hfh hfw h
    have hsc := GetData_scan_some cfg Invoke camera_image junk fuel img_buf_a img_buf_b model st h
    obtain ⟨_, _, h3, _⟩ := Scanned_from_start _ _ st rfl rfl hsc
    refine ⟨?_, num_people_le_calls _ _ st rfl rfl hsc⟩
    rw [h3, scanOrigins_length cfg _ _ fuel hL hS hfh hfw]
  refine ⟨key, ?_, ?_, by decide!, by decide⟩
  · intro cfg Invoke camera_image junk fuel img_buf_a img_buf_b model hs hbv hm1 hm2 hfh hfw
    obtain ⟨st, hst, _⟩ := GetData_scan_ready cfg Invoke camera_image junk fuel img_buf_a
      img_buf_b model hs hbv hm1 hm2 hfh hfw
    exact ⟨st, hst⟩
  · intro Invoke camera_image junk fuel img_buf_a img_buf_b model hs hbv hm1 hm2 hH hW hfuel
    have hfw : camera_image.GetWidth < fuel := by rw [hW]; exact hfuel
    have hfh : camera_image.GetHeight < fuel := by
      rw [hH]
      have : cam_img_height < cam_img_width := by decide
      omega
    obtain ⟨st, hst, _⟩ := GetData_scan_ready Ardu_Camera.config Invoke camera_image junk fuel
      img_buf_a img_buf_b model hs hbv hm1 hm2 hfh hfw
    obtain ⟨h1, h2⟩ := key Ardu_Camera.config Invoke camera_image junk fuel img_buf_a img_buf_b
      model st (by decide) (by decide) hfh hfw hst
    rw [hH, hW] at h1
    have h12 : inferenceCalls st.trace = 12 := by
      rw [h1]
      decide
    exact ⟨st, hst, h12, by rw [← h12]; exact h2⟩

/-! ## RGB565 to RGB888 and back -/

/-- The two conversions between RGB565 and RGB888, in this order, give back
the two bytes of an RGB565 pixel. -/
theorem rgb565_roundtrip (lo hi x y : Nat) (j j2 : Nat → Nat) (hlo : lo < 256)
    (hhi : hi < 256) :
    ((rgb565 lo hi x y).ConvertRgb565ToRgb888 j).ConvertRgb888ToRgb565 j2
      = rgb565 lo hi (j2 2) (j2 3) := by
  rw [ConvertRgb565ToRgb888_eq lo hi x y j hlo hhi,
    ConvertRgb888ToRgb565_eq _ _ _ _ j2 (by omega) (by omega) (by omega)]
  simp only [rgb565, Pixel.mk.injEq, List.cons.injEq, true_and, and_true]
  refine ⟨?_, ?_⟩ <;> omega

theorem Reformat_565_888 (lo hi x y : Nat) (j : Nat → Nat) :
    (rgb565 lo hi x y).Reformat .RGB888 j = (rgb565 lo hi x y).ConvertRgb565ToRgb888 j := by
  simp [Pixel.Reformat, rgb565]

theorem Reformat_888_565 (r g b x : Nat) (j : Nat → Nat) :
    (rgb888 r g b x).Reformat .RGB565 j = (rgb888 r g b x).ConvertRgb888ToRgb565 j := by
  simp [Pixel.Reformat, rgb888]

/-- C35: converting an RGB565 pixel to RGB888 and back gives the pixel back.
First part: for the RGB565 pixel with the bytes `lo`, `hi`, the result of the
two conversions has the bytes `lo`, `hi` again.  Second part: for every pixel
`p` of format RGB565 the result compares equal to `p` with `operator==`.
Third part: every RGB565 pixel is the conversion of an RGB888 pixel.  Fourth
part: applying RGB888 -> RGB565 -> RGB888 twice gives the same pixel as
applying it once. -/
theorem C35_rgb565_rgb888_rgb565 :
    (∀ (lo hi x y : Nat) (j j2 : Nat → Nat), lo < 256 → hi < 256 →
      ((rgb565 lo hi x y).Reformat .RGB888 j).Reformat .RGB565 j2
        = rgb565 lo hi (j2 2) (j2 3)) ∧
    (∀ (p : Pixel) (j j2 : Nat → Nat), p.GetFormat = .RGB565 →
      byteAt p.GetBytes 0 < 256 → byteAt p.GetBytes 1 < 256 →
      ((p.Reformat .RGB888 j).Reformat .RGB565 j2).eq p = true ∧
      p.eq ((p.Reformat .RGB888 j).Reformat .RGB565 j2) = true) ∧
    (∀ (lo hi x y : Nat) (j : Nat → Nat), lo < 256 → hi < 256 →
      ∃ r g b : Nat, r < 256 ∧ g < 256 ∧ b < 256 ∧
        ((rgb888 r g b 0).Reformat .RGB565 j).eq (rgb565 lo hi x y) = true) ∧
    (∀ (r g b x : Nat) (j j2 j3 j4 : Nat → Nat), r < 256 → g < 256 → b < 256 →
      ((((rgb888 r g b x).Reformat .RGB565 j).Reformat .RGB888 j2).Reformat .RGB565
          j3).Reformat .RGB888 j4
        = ((rgb888 r g b x).Reformat .RGB565 j).Reformat .RGB888 j4) := by
  have first : ∀ (lo hi x y : Nat) (j j2 : Nat → Nat), lo < 256 → hi < 256 →
      ((rgb565 lo hi x y).Reformat .RGB888 j).Reformat .RGB565 j2
        = rgb565 lo hi (j2 2) (j2 3) := by
    intro lo hi x y j j2 hlo hhi
    rw [Reformat_565_888, ConvertRgb565ToRgb888_eq lo hi x y j hlo hhi, Reformat_888_565,
      ← ConvertRgb565ToRgb888_eq lo hi x y j hlo hhi]
    exact rgb565_roundtrip lo hi x y j j2 hlo hhi
  refine ⟨first, ?_, ?_, ?_⟩
  · intro p j j2 hp h0 h1
    have hp2 : p.format_ = .RGB565 := hp
    have h0' : byteAt p.bytes_ 0 < 256 := h0
    have h1' : byteAt p.bytes_ 1 < 256 := h1
    have hb : ∀ ch, ch < 2 →
        byteAt ((p.Reformat .RGB888 j).Reformat .RGB565 j2).bytes_ ch = byteAt p.bytes_ ch := by
      intro ch hch
      have e1 : byteAt ((p.Reformat .RGB888 j).Reformat .RGB565 j2).bytes_ ch
          = byteAt (((rgb565 (byteAt p.bytes_ 0) (byteAt p.bytes_ 1) 0 0).Reformat .RGB888
              j).Reformat .RGB565 j2).bytes_ ch := by
        refine Reformat_congr _ _ .RGB565 _ _ (by rw [Reformat_format, Reformat_format]) ?_ ch hch
        intro c hc
        rw [Reformat_format] at hc
        refine Reformat_congr _ _ .RGB888 _ _ hp2 ?_ c hc
        intro c2 hc2
        rw [hp2] at hc2
        have : c2 = 0 ∨ c2 = 1 := by
          have : c2 < 2 := hc2
          omega
        rcases this with rfl | rfl <;> rfl
      rw [e1, first _ _ _ _ j j2 h0' h1']
      have : ch = 0 ∨ ch = 1 := by omega
      rcases this with rfl | rfl <;> rfl
    have hf : ((p.Reformat .RGB888 j).Reformat .RGB565 j2).format_ = p.format_ := by
      rw [Reformat_format, hp2]
    refine ⟨?_, ?_⟩
    · rw [Pixel_eq_iff]
      refine ⟨hf, fun ch hch => hb ch ?_⟩
      rw [Reformat_format] at hch
      exact hch
    · rw [Pixel_eq_iff]
      refine ⟨hf.symm, fun ch hch => (hb ch ?_).symm⟩
      rw [hp2] at hch
      exact hch
  · intro lo hi x y j hlo hhi
    refine ⟨8 * (hi / 8), 32 * (hi % 8) + 4 * (lo / 32), 8 * (lo % 32), by omega, by omega,
      by omega, ?_⟩
    rw [Reformat_888_565, ← ConvertRgb565ToRgb888_eq lo hi x y (fun _ => 0) hlo hhi,
      rgb565_roundtrip lo hi x y (fun _ => 0) j hlo hhi, Pixel_eq_iff]
    refine ⟨rfl, ?_⟩
    intro ch hch
    have : ch = 0 ∨ ch = 1 := by
      have : ch < 2 := hch
      omega
    rcases this with rfl | rfl <;> rfl
  · intro r g b x j j2 j3 j4 hr hg hb
    rw [Reformat_888_565, ConvertRgb888ToRgb565_eq r g b x j hr hg hb]
    have h1 : 32 * (g / 4 % 8) + b / 8 < 256 := by omega
    have h2 : 8 * (r / 8) + g / 32 < 256 := by omega
    rw [first _ _ _ _ j2 j3 h1 h2, Reformat_565_888, Reformat_565_888,
      ConvertRgb565ToRgb888_eq _ _ _ _ j4 h1 h2, ConvertRgb565ToRgb888_eq _ _ _ _ j4 h1 h2]

/-- C35 at the RGB565 pixel with the bytes `0xAB`, `0xCD`. -/
theorem C35_rgb565_rgb888_rgb565_witness :
    ((rgb565 171 205 0 0).Reformat .RGB888 (fun _ => 0)).Reformat .RGB565 (fun _ => 0)
      = rgb565 171 205 0 0 :=
  C35_rgb565_rgb888_rgb565.1 171 205 0 0 (fun _ => 0) (fun _ => 0) (by decide) (by decide)

/-! ## The grayscale value -/

/-- C36: for an RGB888 pixel with channels `r`, `g`, `b` in 0..255 the
grayscale byte is `r / 3 + g / 3 + b / 3` without a wrap: the sum is at most
255, it does not exceed the mean `(r + g + b) / 3` and is less than it by at
most 2.  A GRAYSCALE pixel with value `v` converted to RGB888 and back has
the value `3 * (v / 3)`, which is `v` exactly when 3 divides `v`. -/
theorem C36_grayscale_value :
    (∀ (r g b x : Nat) (junk : Nat → Nat), r < 256 → g < 256 → b < 256 →
      r / 3 + g / 3 + b / 3 ≤ 255 ∧
      byteAt ((rgb888 r g b x).Reformat .GRAYSCALE junk).GetBytes 0 = r / 3 + g / 3 + b / 3 ∧
      r / 3 + g / 3 + b / 3 ≤ (r + g + b) / 3 ∧
      (r + g + b) / 3 ≤ r / 3 + g / 3 + b / 3 + 2) ∧
    (∀ (p : Pixel) (j j2 : Nat → Nat), p.GetFormat = .GRAYSCALE →
      byteAt p.GetBytes 0 < 256 →
      byteAt ((p.Reformat .RGB888 j).Reformat .GRAYSCALE j2).GetBytes 0
        = 3 * (byteAt p.GetBytes 0 / 3) ∧
      (byteAt ((p.Reformat .RGB888 j).Reformat .GRAYSCALE j2).GetBytes 0 = byteAt p.GetBytes 0
        ↔ 3 ∣ byteAt p.GetBytes 0)) := by
  refine ⟨?_, ?_⟩
  · intro r g b x junk hr hg hb
    refine ⟨by omega, ?_, by omega, by omega⟩
    have : (r / 3 + g / 3 + b / 3) % 256 = r / 3 + g / 3 + b / 3 := by omega
    simp [Pixel.Reformat, Pixel.ConvertRgb888ToGrayscale, Pixel_new_eq, Format.GetChannels,
      rgb888, Pixel.GetBytes, byteAt_cons_zero, byteAt_cons_succ, this]
  · intro p j j2 hp hv
    obtain ⟨fmt, bytes⟩ := p
    simp only [Pixel.GetFormat] at hp
    subst hp
    simp only [Pixel.GetBytes] at hv ⊢
    have e : byteAt (((Pixel.mk .GRAYSCALE bytes).Reformat .RGB888 j).Reformat .GRAYSCALE
        j2).bytes_ 0 = 3 * (byteAt bytes 0 / 3) := by
      have : (byteAt bytes 0 / 3 + byteAt bytes 0 / 3 + byteAt bytes 0 / 3) % 256
          = 3 * (byteAt bytes 0 / 3) := by omega
      simp [Pixel.Reformat, Pixel.ConvertGrayscaleToRgb888, Pixel.ConvertRgb888ToGrayscale,
        Pixel_new_eq, Format.GetChannels, byteAt_cons_zero, byteAt_cons_succ, this]
    refine ⟨e, ?_⟩
    rw [e]
    constructor
    · intro h
      exact ⟨byteAt bytes 0 / 3, h.symm⟩
    · intro h
      exact Nat.mul_div_cancel' h

/-- C36 at the RGB888 pixel `(255, 255, 255)`, whose grayscale value is 255,
and at `(2, 2, 2)`, whose grayscale value is 0 while the mean is 2. -/
theorem C36_grayscale_value_witness :
    byteAt ((rgb888 255 255 255 0).Reformat .GRAYSCALE (fun _ => 0)).GetBytes 0 = 255 ∧
    byteAt ((rgb888 2 2 2 0).Reformat .GRAYSCALE (fun _ => 0)).GetBytes 0 = 0 :=
  ⟨(C36_grayscale_value.1 255 255 255 0 (fun _ => 0) (by decide) (by decide) (by decide)).2.1,
   (C36_grayscale_value.1 2 2 2 0 (fun _ => 0) (by decide) (by decide) (by decide)).2.1⟩

/-! ## compute_uint8_tensor_size -/

/-- C40: `compute_uint8_tensor_size` multiplies, `dims->size` times, by the
entry `dims->data[dims->size]`, the one behind the last dimension, not by the
entries `data[0], ..., data[size - 1]`.  For the dimensions `[2, 3]` in an
array of exactly two entries the first iteration reads outside the array;
when the array goes on with the entry 5 the result is `5 * 5 = 25`, not
`2 * 3 = 6`; for the dimensions `[1, 96, 96, 1]` followed by 0 the result is
0, not 9216.  For every tensor with at least one dimension whose array has
exactly `dims->size` entries the call reads outside the array. -/
theorem C40_tensor_size_reads_behind_dims :
    compute_uint8_tensor_size ⟨2, [2, 3]⟩ = none ∧
    compute_uint8_tensor_size ⟨2, [2, 3, 5]⟩ = some 25 ∧
    compute_uint8_tensor_size ⟨4, [1, 96, 96, 1, 0]⟩ = some 0 ∧
    compute_uint8_tensor_size ⟨0, []⟩ = some 1 ∧
    (∀ dims : TfLiteIntArray, 1 ≤ dims.size → dims.data.length = dims.size →
      compute_uint8_tensor_size dims = none) := by
  refine ⟨by decide, by decide, by decide, by decide, ?_⟩
  intro dims h1 hlen
  obtain ⟨n, data⟩ := dims
  simp only at h1 hlen
  obtain ⟨m, rfl⟩ : ∃ m, n = m + 1 := ⟨n - 1, by omega⟩
  have hnone : data[m + 1]? = none := List.getElem?_eq_none (by omega)
  unfold compute_uint8_tensor_size
  simp only [List.range_succ_eq_map, List.foldlM_cons, hnone, Option.bind_eq_bind,
    Option.none_bind]

/-! ## ResizeNearest -/

/-- `ResizeNearest` when every source read stays inside the source
allocation and the destination allocation is large enough: the destination
is filled, row by row, with the source pixels at
`(row * HEIGHT / new_height, row * WIDTH / new_width)`. -/
theorem ResizeNearest_filled (img : Image) (nh nw : Nat) (buffer : Option (List Nat))
    (junk : Nat → Nat)
    (hdst : ∀ b, buffer = some b → nh * nw * img.format_.GetChannels ≤ b.length)
    (hsrc : ∀ r, r < nh →
      ((r * img.height_ / nh) * img.width_ + r * img.width_ / nw) * img.format_.GetChannels
        + img.format_.GetChannels ≤ img.buffer_.length) :
    ∃ out, img.ResizeNearest nh nw buffer junk = some out ∧
      Filled (Image.new nh nw img.format_ buffer junk)
        (fun j => Pixel.new img.format_
          (img.buffer_.drop ((((j / nw) * img.height_ / nh) * img.width_
            + (j / nw) * img.width_ / nw) * img.format_.GetChannels)) junk)
        (nh * nw) out := by
  obtain ⟨e1, e2, e3⟩ := Image_new_fields nh nw img.format_ buffer junk
  have hlen := Image_new_length nh nw img.format_ buffer junk hdst
  have key := fill_loops (Image.new nh nw img.format_ buffer junk)
    (fun j => Pixel.new img.format_
      (img.buffer_.drop ((((j / nw) * img.height_ / nh) * img.width_
        + (j / nw) * img.width_ / nw) * img.format_.GetChannels)) junk)
    0 0
    (fun acc row col => do
      let pixel ← img.GetPixel ((row * img.GetHeight) / nh) ((row * img.GetWidth) / nw) junk
      acc.SetPixel row col pixel)
    (by rw [e1, e2, e3]; exact hlen)
    (by
      intro r c hr hc acc
      rw [e1] at hr
      rw [e2] at hc
      beta_reduce
      rw [Nat.zero_add, Nat.zero_add, e2, index_div r nw c hc]
      show (img.GetPixel (r * img.height_ / nh) (r * img.width_ / nw) junk).bind _ = _
      rw [GetPixel_in_alloc img _ _ junk (hsrc r hr)]
      rfl)
  rw [e1, e2] at key
  unfold Image.ResizeNearest
  simp only [Image.GetFormat, List.range_eq_range']
  exact key

/-- C39: `ResizeNearest` takes the source column from the destination row:
`orig_nearest_col = (row * GetWidth()) / new_width`.  First part: whenever
the source reads stay inside the source allocation, the call returns an image
of dimensions `new_height x new_width` and the source's format whose pixel at
`(row, col)` is the source pixel at
`(row * HEIGHT / new_height, row * WIDTH / new_width)`, whatever `col` is.
Second part: the 1 x 2 grayscale image `[1, 2]` resized to 1 x 2 is `[1, 1]`,
not `[1, 2]`; the 2 x 2 image `[1, 2, 3, 4]` resized to 2 x 2 is
`[1, 1, 4, 4]`; and resizing the 3 x 1 image `[1, 2, 3]` to 3 x 1 reads the
pixel `(2, 2)`, outside the buffer. -/
theorem C39_resize_nearest_column_from_row :
    (∀ (img : Image) (nh nw : Nat) (buffer : Option (List Nat)) (junk : Nat → Nat),
      (∀ b, buffer = some b → nh * nw * img.GetChannels ≤ b.length) →
      (∀ r, r < nh →
        img.GetPixelLocation (r * img.GetHeight / nh) (r * img.GetWidth / nw)
          + img.GetChannels ≤ img.GetBuffer.length) →
      ∃ out, img.ResizeNearest nh nw buffer junk = some out ∧
        out.GetHeight = nh ∧ out.GetWidth = nw ∧ out.GetFormat = img.GetFormat ∧
        ∀ row col, row < nh → col < nw →
          ∃ p q, img.GetPixel (row * img.GetHeight / nh) (row * img.GetWidth / nw) junk
              = some p ∧
            out.GetPixel row col junk = some q ∧ q.eq p = true) ∧
    (grayImage 1 2 [1, 2]).ResizeNearest 1 2 none (fun _ => 0)
      = some ⟨1, 2, .GRAYSCALE, [1, 1], true⟩ ∧
    (grayImage 2 2 [1, 2, 3, 4]).ResizeNearest 2 2 none (fun _ => 0)
      = some ⟨2, 2, .GRAYSCALE, [1, 1, 4, 4], true⟩ ∧
    (grayImage 3 1 [1, 2, 3]).ResizeNearest 3 1 none (fun _ => 0) = none := by
  refine ⟨?_, by decide, by decide, by decide⟩
  intro img nh nw buffer junk hdst hsrc
  obtain ⟨out, hout, hf⟩ := ResizeNearest_filled img nh nw buffer junk hdst hsrc
  obtain ⟨e1, e2, e3⟩ := Image_new_fields nh nw img.format_ buffer junk
  have hlen := Image_new_length nh nw img.format_ buffer junk hdst
  have hf2 := hf
  obtain ⟨f1, f2, f3, _⟩ := hf2
  refine ⟨out, hout, f1.trans e1, f2.trans e2, f3.trans e3, ?_⟩
  intro row col hr hc
  have hg := GetPixel_of_Filled (Image.new nh nw img.format_ buffer junk) out _ row col junk
    (by rw [e1, e2, e3]; exact hlen) (by rw [e1, e2]; exact hf) (by rw [e1]; exact hr)
    (by rw [e2]; exact hc)
  rw [e2, e3, index_div row nw col hc] at hg
  refine ⟨_, _, GetPixel_in_alloc img _ _ junk (hsrc row hr), hg, ?_⟩
  rw [Pixel_eq_iff]
  refine ⟨rfl, ?_⟩
  intro ch hch
  exact byteAt_new _ _ _ ch hch

/-! ## The length of the header of ToString -/

/-- The number of decimal digits produced for a number below `10 ^ (k + 1)`
is at most `k + 1`. -/
theorem toDigitsCore_length_le :
    ∀ (fuel n : Nat) (ds : List Char) (k : Nat), n < 10 ^ (k + 1) → n < fuel →
      (Nat.toDigitsCore 10 fuel n ds).length ≤ k + 1 + ds.length := by
  intro fuel
  induction fuel with
  | zero =>
    intro n ds k _ hf
    omega
  | succ fuel ih =>
    intro n ds k hn hf
    unfold Nat.toDigitsCore
    by_cases h0 : n / 10 = 0
    · simp only [h0, if_true, List.length_cons]
      omega
    · simp only [h0, if_false]
      cases k with
      | zero =>
        exfalso
        apply h0
        have : n < 10 := by simpa using hn
        omega
      | succ k =>
        have hn2 : n / 10 < 10 ^ (k + 1) := by
          have e : 10 ^ (k + 1 + 1) = 10 * 10 ^ (k + 1) := by rw [Nat.pow_succ]; omega
          rw [e] at hn
          exact Nat.div_lt_of_lt_mul hn
        have := ih (n / 10) (Nat.digitChar (n % 10) :: ds) k hn2 (by omega)
        rw [List.length_cons] at this
        omega

/-- The decimal text of a number below `10 ^ 16` has at most 16 characters. -/
theorem to_string_length_le (n : Nat) (h : n < 10 ^ 16) : (to_string n).length ≤ 16 := by
  unfold to_string Nat.toDigits
  rw [List.length_map]
  have := toDigitsCore_length_le (n + 1) n [] 15 h (by omega)
  simpa using this

/-- A text of at most `w` characters fills a field of width `w` exactly. -/
theorem setfill0_setw_length (w : Nat) (s : List Nat) (h : s.length ≤ w) :
    (setfill0_setw w s).length = w := by
  unfold setfill0_setw
  rw [List.length_append, List.length_replicate]
  omega

/-- C34: for every image of height below `10 ^ 16` whose allocation holds
`GetBufferSize()` bytes, `ToString` returns a string whose first 60 bytes are
the header (`"height:"` and a field of 16 characters, `"width:"` and a field
of 16 characters, `"format:"` and a field of 8 characters), whose length is
`60 + GetBufferSize()`, and whose byte `60 + i` is byte `i` of the buffer for
every `i < GetBufferSize()`. -/
theorem C34_to_string_layout (img : Image) (hh : img.GetHeight < 10 ^ 16)
    (hlen : img.GetBufferSize ≤ img.GetBuffer.length) :
    ∃ s header : List Nat,
      img.ToString = some s ∧
      header = literalBytes "height:" ++ setfill0_setw 16 (to_string img.GetHeight)
        ++ literalBytes "width:" ++ setfill0_setw 16 (to_string img.GetHeight)
        ++ literalBytes "format:" ++ setfill0_setw 8 (to_string img.GetFormat.toNat) ∧
      (literalBytes "height:").length = 7 ∧
      (setfill0_setw 16 (to_string img.GetHeight)).length = 16 ∧
      (literalBytes "width:").length = 6 ∧
      (literalBytes "format:").length = 7 ∧
      (setfill0_setw 8 (to_string img.GetFormat.toNat)).length = 8 ∧
      header.length = 60 ∧
      s.take 60 = header ∧
      s.length = 60 + img.GetBufferSize ∧
      ∀ i, i < img.GetBufferSize → s[60 + i]? = img.GetBuffer[i]? := by
  have h16 : (setfill0_setw 16 (to_string img.GetHeight)).length = 16 :=
    setfill0_setw_length 16 _ (to_string_length_le _ hh)
  have h8 : (setfill0_setw 8 (to_string img.GetFormat.toNat)).length = 8 := by
    cases img.GetFormat <;> decide
  have hhead : (literalBytes "height:" ++ setfill0_setw 16 (to_string img.GetHeight)
      ++ literalBytes "width:" ++ setfill0_setw 16 (to_string img.GetHeight)
      ++ literalBytes "format:" ++ setfill0_setw 8 (to_string img.GetFormat.toNat)).length
      = 60 := by
    simp only [List.length_append, h16, h8]
    rfl
  refine ⟨_, _, ToString_eq img hlen, rfl, rfl, h16, rfl, rfl, h8, hhead, ?_, ?_, ?_⟩
  · rw [List.take_append_of_le_length (by rw [hhead]), ← hhead, List.take_length]
  · rw [List.length_append, hhead, List.length_take]
    have : img.GetBufferSize ≤ img.buffer_.length := hlen
    omega
  · intro i hi
    rw [List.getElem?_append_right (by rw [hhead]; omega), hhead, Nat.add_sub_cancel_left,
      List.getElem?_take_of_lt hi]
    rfl

/-- C34 on the 1 x 2 grayscale image with the bytes `A`, `B`. -/
theorem C34_to_string_layout_witness :
    ∃ s header : List Nat,
      (grayImage 1 2 [65, 66]).ToString = some s ∧
      header = literalBytes "height:0000000000000001width:0000000000000001format:00000000" ∧
      header.length = 60 ∧ s.take 60 = header ∧ s.length = 62 ∧
      s[60]? = some 65 ∧ s[61]? = some 66 := by
  obtain ⟨s, header, h1, h2, _, _, _, _, _, h3, h4, h5, h6⟩ :=
    C34_to_string_layout (grayImage 1 2 [65, 66]) (by decide) (by decide)
  refine ⟨s, header, h1, ?_, h3, h4, h5, h6 0 (by decide), h6 1 (by decide)⟩
  rw [h2]
  decide

/-! ## The indices and the shape of Resize -/

/-- A `Resize` that completes returns an image of the requested dimensions
and of the source's format. -/
theorem Resize_shape (img out : Image) (nh nw : Nat) (buffer : Option (List Nat))
    (junk : Nat → Nat) (h : img.Resize nh nw buffer junk = some out) :
    out.height_ = nh ∧ out.width_ = nw ∧ out.format_ = img.format_ := by
  obtain ⟨e1, e2, e3⟩ := Image_new_fields nh nw img.format_ buffer junk
  unfold Image.Resize at h
  have key : SameShape (Image.new nh nw img.format_ buffer junk) out := by
    refine foldlM_inv_mem
      (fun s : Image => SameShape (Image.new nh nw img.format_ buffer junk) s)
      _ (List.range nh) ?_ _ out (SameShape_refl _) h
    intro s row s2 _ hs hrow
    refine foldlM_inv_mem
      (fun s : Image => SameShape (Image.new nh nw img.format_ buffer junk) s)
      _ (List.range nw) ?_ s s2 hs hrow
    intro t col t2 _ ht hstep
    replace hstep : (do
      let new_pixel ← img.ResizePixel nh nw row col junk
      t.SetPixel row col new_pixel) = some t2 := hstep
    cases hp : img.ResizePixel nh nw row col junk with
    | none => rw [hp] at hstep; cases hstep
    | some p =>
      rw [hp] at hstep
      exact SameShape_trans _ _ _ ht (SetPixel_shape t t2 row col p hstep)
  obtain ⟨k1, k2, k3, _⟩ := key
  exact ⟨k1.trans e1, k2.trans e2, k3.trans e3⟩

/-- An iteration of the loops of `Resize` that completes has read all four
positions of `ResizeReads` inside the allocation. -/
theorem ResizePixel_reads (img : Image) (nh nw row col : Nat) (junk : Nat → Nat) (p : Pixel)
    (h : img.ResizePixel nh nw row col junk = some p) :
    ∀ rc ∈ img.ResizeReads nh nw row col, ∃ q, img.GetPixel rc.1 rc.2 junk = some q := by
  unfold Image.ResizePixel at h
  simp only [] at h
  cases e1 : img.GetPixel ((row * img.GetHeight) / nh) ((col * img.GetWidth) / nw) junk with
  | none => rw [e1] at h; cases h
  | some p1 =>
    cases e2 : img.GetPixel ((row * img.GetHeight) / nh) ((col * img.GetWidth) / nw + 1)
        junk with
    | none => rw [e1, e2] at h; cases h
    | some p2 =>
      cases e3 : img.GetPixel ((row * img.GetHeight) / nh + 1) ((col * img.GetWidth) / nw)
          junk with
      | none => rw [e1, e2, e3] at h; cases h
      | some p3 =>
        cases e4 : img.GetPixel ((row * img.GetHeight) / nh + 1)
            ((col * img.GetWidth) / nw + 1) junk with
        | none => rw [e1, e2, e3, e4] at h; cases h
        | some p4 =>
          intro rc hrc
          unfold Image.ResizeReads at hrc
          simp only [List.mem_cons, List.mem_singleton, List.not_mem_nil, or_false] at hrc
          rcases hrc with rfl | rfl | rfl | rfl
          · exact ⟨p1, e1⟩
          · exact ⟨p2, e2⟩
          · exact ⟨p3, e3⟩
          · exact ⟨p4, e4⟩

/-- C38: `Resize` divides by `new_height` and `new_width` only inside the
loops, where they are not zero, and its top-left read is inside the image,
but the three other reads are not kept inside it, so that `Resize` does not
return an image for every source and destination size.  First part: an
iteration of the loops that completes has read the four positions of
`ResizeReads` inside the allocation.  Second part: for a source of height and
width at least 1 and `row < new_height`, `col < new_width`, the divisors are
not zero and the first position read is
`(row * HEIGHT / new_height, col * WIDTH / new_width)`, inside the image, so
that this read stays inside a buffer of `GetBufferSize()` bytes.  Third part:
for `new_height >= HEIGHT` the third position read for the last destination
row is in row `HEIGHT`, below the image.  Fourth part: on every source of
height at least 1 whose buffer has exactly `GetBufferSize()` bytes, `Resize`
to a height of at least the source's and a width of at least 1 accesses a
byte outside the buffer; examples are the 1 x 1 image `[7]` resized to 1 x 1
and the 2 x 2 image `[10, 20, 30, 40]` resized to 3 x 3.  Fifth part: every
image that `Resize` returns has the dimensions `new_height x new_width` and
the source's format.  Sixth part: `Resize` returns for a square source that
lies, with the `WIDTH + 1` pixels behind it, in an allocation of byte values,
a square destination size and a destination buffer that is large enough, as
for the 2 x 2 image in an allocation of seven bytes resized to 3 x 3. -/
theorem C38_resize_indices_and_shape :
    (∀ (img : Image) (new_height new_width row col : Nat) (junk : Nat → Nat) (p : Pixel),
      img.ResizePixel new_height new_width row col junk = some p →
      ∀ rc ∈ img.ResizeReads new_height new_width row col,
        ∃ q, img.GetPixel rc.1 rc.2 junk = some q) ∧
    (∀ (img : Image) (new_height new_width row col : Nat) (junk : Nat → Nat),
      1 ≤ img.GetHeight → 1 ≤ img.GetWidth → row < new_height → col < new_width →
      new_height ≠ 0 ∧ new_width ≠ 0 ∧
      (img.ResizeReads new_height new_width row col).head?
        = some ((row * img.GetHeight) / new_height, (col * img.GetWidth) / new_width) ∧
      (row * img.GetHeight) / new_height < img.GetHeight ∧
      (col * img.GetWidth) / new_width < img.GetWidth ∧
      (img.GetBufferSize ≤ img.GetBuffer.length →
        ∃ p, img.GetPixel ((row * img.GetHeight) / new_height)
          ((col * img.GetWidth) / new_width) junk = some p)) ∧
    (∀ (img : Image) (new_height new_width : Nat),
      1 ≤ img.GetHeight → img.GetHeight ≤ new_height →
      (img.GetHeight, 0) ∈ img.ResizeReads new_height new_width (new_height - 1) 0) ∧
    ((∀ (img : Image) (new_height new_width : Nat) (buffer : Option (List Nat))
        (junk : Nat → Nat),
        img.GetBuffer.length = img.GetBufferSize → 1 ≤ img.GetHeight →
        img.GetHeight ≤ new_height → 1 ≤ new_width →
        img.Resize new_height new_width buffer junk = none) ∧
      (grayImage 1 1 [7]).Resize 1 1 none (fun _ => 0) = none ∧
      (grayImage 2 2 [10, 20, 30, 40]).Resize 3 3 none (fun _ => 0) = none) ∧
    (∀ (img out : Image) (new_height new_width : Nat) (buffer : Option (List Nat))
      (junk : Nat → Nat), img.Resize new_height new_width buffer junk = some out →
      out.GetHeight = new_height ∧ out.GetWidth = new_width ∧
      out.GetFormat = img.GetFormat) ∧
    ((∀ (img : Image) (M : Nat) (buffer : Option (List Nat)) (junk : Nat → Nat),
        img.GetHeight = img.GetWidth → 1 ≤ img.GetWidth →
        (img.GetWidth * img.GetWidth + img.GetWidth + 1) * img.GetChannels
          ≤ img.GetBuffer.length →
        BytesValid img.GetBuffer →
        (∀ b, buffer = some b → M * M * img.GetChannels ≤ b.length) →
        ∃ out, img.Resize M M buffer junk = some out ∧
          out.GetHeight = M ∧ out.GetWidth = M ∧ out.GetFormat = img.GetFormat) ∧
      ((grayImage 2 2 [10, 20, 30, 40, 0, 0, 0]).Resize 3 3 none (fun _ => 0)).isSome
        = true) := by
  refine ⟨ResizePixel_reads, ?_, ?_, ⟨?_, by decide!, by decide!⟩, ?_, ?_, by decide!⟩
  · intro img nh nw row col junk hH hW hr hc
    have hr2 : (row * img.GetHeight) / nh < img.GetHeight :=
      Nat.div_lt_of_lt_mul (Nat.mul_lt_mul_of_pos_right hr hH)
    have hc2 : (col * img.GetWidth) / nw < img.GetWidth :=
      Nat.div_lt_of_lt_mul (Nat.mul_lt_mul_of_pos_right hc hW)
    refine ⟨by omega, by omega, rfl, hr2, hc2, fun hlen => ?_⟩
    exact ⟨_, GetPixel_inbounds img _ _ junk hlen hr2 hc2⟩
  · intro img nh nw hH hn
    have hdiv : ((nh - 1) * img.GetHeight) / nh = img.GetHeight - 1 := by
      apply Nat.div_eq_of_lt_le
      · have e : (img.GetHeight - 1) * nh + (nh - img.GetHeight) = (nh - 1) * img.GetHeight := by
          obtain ⟨a, ha⟩ : ∃ a, img.GetHeight = a + 1 := ⟨img.GetHeight - 1, by omega⟩
          obtain ⟨b, hb⟩ : ∃ b, nh = a + 1 + b := ⟨nh - (a + 1), by omega⟩
          rw [ha, hb]
          simp only [Nat.add_sub_cancel]
          have e1 : a + 1 + b - 1 = a + b := by omega
          have e2 : a + 1 + b - (a + 1) = b := by omega
          rw [e1, e2]
          ring
        omega
      · have e : (img.GetHeight - 1 + 1) = img.GetHeight := by omega
        rw [e]
        have : (nh - 1) * img.GetHeight < nh * img.GetHeight :=
          Nat.mul_lt_mul_of_pos_right (by omega) hH
        rw [Nat.mul_comm img.GetHeight nh]
        exact this
    unfold Image.ResizeReads
    simp only [hdiv, Nat.zero_mul, Nat.zero_div, List.mem_cons]
    right; right; left
    rw [show img.GetHeight - 1 + 1 = img.GetHeight by omega]
  · intro img nh nw buffer junk hlen hH hn hw
    exact Resize_exact_faults img nh nw buffer junk hlen hH hn hw
  · intro img out nh nw buffer junk h
    exact Resize_shape img out nh nw buffer junk h
  · intro img M buffer junk hsq hW hlen hv hdst
    obtain ⟨out, hout, _⟩ := Resize_filled img M M buffer junk hdst
      (fun r c hr hc => ResizePixel_square_some img M r c junk hsq hW hlen hv hr hc)
    exact ⟨out, hout, Resize_shape img out M M buffer junk hout⟩

/-! ## Loops over the pixels of an image, in row-major order -/

/-- Invariant rule for the two nested counted loops over rows and columns:
the invariant is indexed by the number of pixels done. -/
theorem foldlM_grid_inv {σ : Type} (H W : Nat) (Wf : σ → Nat)
    (step : σ → Nat → Nat → Option σ) (P : Nat → σ → Prop) (s0 : σ) (h0 : P 0 s0)
    (hW : ∀ n s, P n s → Wf s = W)
    (hstep : ∀ r c, r < H → c < W → ∀ s, P (r * W + c) s →
      ∃ s', step s r c = some s' ∧ P (r * W + c + 1) s') :
    ∃ s', (List.range H).foldlM
        (fun s row => (List.range (Wf s)).foldlM (fun s col => step s row col) s) s0 = some s' ∧
      P (H * W) s' := by
  apply foldlM_range_inv H _ (fun r s => P (r * W) s) s0 (by rw [Nat.zero_mul]; exact h0)
  intro r hr s hs
  beta_reduce
  rw [hW _ s hs]
  have := foldlM_range_inv W (fun s col => step s r col) (fun c s => P (r * W + c) s) s
    hs (fun c hc t ht => hstep r c hr hc t ht)
  rw [Nat.succ_mul]
  exact this

/-! ## is_all_black -/

/-- The black pixel of `is_all_black` has the format asked for and all its
channel bytes zero. -/
theorem black_pixel_zero (fmt : Format) (junk : Nat → Nat) (ch : Nat)
    (hch : ch < fmt.GetChannels) :
    byteAt ((Pixel.new .RGB888 [0, 0, 0, 0] junk).Reformat fmt junk).bytes_ ch = 0 := by
  have h3 := channels_le fmt
  have hc : ch = 0 ∨ ch = 1 ∨ ch = 2 := by omega
  cases fmt <;> simp only [Format.GetChannels] at hch <;>
    rcases hc with rfl | rfl | rfl <;>
      first
      | omega
      | simp [Pixel.Reformat, Pixel.ConvertRgb888ToRgb565, Pixel.ConvertRgb888ToGrayscale,
          Pixel_new_eq, Format.GetChannels, byteAt_cons_zero, byteAt_cons_succ]
/-- `is_all_black` on an image whose allocation holds `GetBufferSize()`
bytes: it returns, and the flag is `true` exactly when all these bytes are
zero. -/
theorem is_all_black_spec (image : Image) (junk : Nat → Nat)
    (hlen : image.GetBufferSize ≤ image.buffer_.length) :
    ∃ b, is_all_black image junk = some b ∧
      (b = true ↔ ∀ i, i < image.GetBufferSize → byteAt image.buffer_ i = 0) := by
  have hz : (List.range MAX_PIXEL_BYTES).foldl
      (fun (zero_bytes : List Nat) pos => zero_bytes.set pos 0) [junk 0, junk 1, junk 2, junk 3]
      = [0, 0, 0, 0] := rfl
  have key := foldlM_grid_inv image.height_ image.width_ (fun _ => image.width_)
    (fun (all_black : Bool) row col => do
      let pixel ← image.GetPixel row col junk
      pure (if !(pixel.eq ((Pixel.new .RGB888 [0, 0, 0, 0] junk).Reformat image.format_ junk))
        then false else all_black))
    (fun n b => b = true ↔
      ∀ i, i < n * image.format_.GetChannels → byteAt image.buffer_ i = 0)
    true (by simp) (fun _ _ _ => rfl) (by
      intro r c hr hc b hb
      beta_reduce
      rw [GetPixel_inbounds image r c junk hlen hr hc]
      refine ⟨_, rfl, ?_⟩
      have heq : (Pixel.new image.format_
          (image.buffer_.drop ((r * image.width_ + c) * image.format_.GetChannels)) junk).eq
          ((Pixel.new .RGB888 [0, 0, 0, 0] junk).Reformat image.format_ junk) = true ↔
          ∀ ch, ch < image.format_.GetChannels →
            byteAt image.buffer_ ((r * image.width_ + c) * image.format_.GetChannels + ch)
              = 0 := by
        rw [Pixel_eq_iff]
        constructor
        · rintro ⟨_, h2⟩ ch hch
          have := h2 ch hch
          rw [byteAt_new _ _ _ ch hch, byteAt_drop, black_pixel_zero _ _ ch hch] at this
          exact this
        · intro h
          refine ⟨(Reformat_format _ _ _).symm, fun ch hch => ?_⟩
          have hch2 : ch < image.format_.GetChannels := hch
          rw [byteAt_new _ _ _ ch hch2, byteAt_drop, black_pixel_zero _ _ ch hch2]
          exact h ch hch2
      have hsplit : (∀ i, i < (r * image.width_ + c + 1) * image.format_.GetChannels →
          byteAt image.buffer_ i = 0) ↔
          (∀ i, i < (r * image.width_ + c) * image.format_.GetChannels →
            byteAt image.buffer_ i = 0) ∧
          ∀ ch, ch < image.format_.GetChannels →
            byteAt image.buffer_ ((r * image.width_ + c) * image.format_.GetChannels + ch)
              = 0 := by
        rw [Nat.succ_mul]
        constructor
        · intro h
          exact ⟨fun i hi => h i (by omega), fun ch hch => h _ (by omega)⟩
        · rintro ⟨h1, h2⟩ i hi
          by_cases hlt : i < (r * image.width_ + c) * image.format_.GetChannels
          · exact h1 i hlt
          · have := h2 (i - (r * image.width_ + c) * image.format_.GetChannels) (by omega)
            rw [Nat.add_sub_cancel' (by omega)] at this
            exact this
      rw [hsplit, ← hb, ← heq]
      generalize (Pixel.new image.format_
          (image.buffer_.drop ((r * image.width_ + c) * image.format_.GetChannels)) junk).eq
          ((Pixel.new .RGB888 [0, 0, 0, 0] junk).Reformat image.format_ junk) = e
      cases b <;> cases e <;> simp)
  unfold is_all_black
  rw [hz]
  exact key

/-- C31: on an image (of any of the three formats) whose allocation holds
`GetBufferSize()` bytes, `is_all_black` returns `true` exactly when every one
of the `height * width * channels` bytes of the buffer is zero; and the black
pixel it compares with, `Pixel(RGB888, zero_bytes).Reformat(format)`, has the
format of the image and all its channel bytes zero. -/
theorem C31_is_all_black (image : Image) (junk : Nat → Nat)
    (hlen : image.GetBufferSize ≤ image.GetBuffer.length) :
    (∃ b, is_all_black image junk = some b ∧
      (b = true ↔ ∀ i, i < image.GetHeight * image.GetWidth * image.GetChannels →
        byteAt image.GetBuffer i = 0)) ∧
    (∀ fmt : Format,
      ((Pixel.new .RGB888 [0, 0, 0, 0] junk).Reformat fmt junk).GetFormat = fmt ∧
      ∀ ch, ch < fmt.GetChannels →
        byteAt ((Pixel.new .RGB888 [0, 0, 0, 0] junk).Reformat fmt junk).GetBytes ch = 0) :=
  ⟨is_all_black_spec image junk hlen,
   fun fmt => ⟨Reformat_format _ fmt junk, fun ch hch => black_pixel_zero fmt junk ch hch⟩⟩

/-- C31 on three 1 x 2 images: the RGB565 image of four zero bytes is black,
the RGB565 image `[0, 0, 0, 1]` and the grayscale image `[0, 7]` are not. -/
theorem C31_is_all_black_witness :
    (∃ b, is_all_black (Image.new 1 2 .RGB565 (some [0, 0, 0, 0]) (fun _ => 0)) (fun _ => 0)
        = some b ∧
      (b = true ↔ ∀ i, i < 1 * 2 * 2 → byteAt [0, 0, 0, 0] i = 0)) ∧
    is_all_black (Image.new 1 2 .RGB565 (some [0, 0, 0, 0]) (fun _ => 0)) (fun _ => 0)
      = some true ∧
    is_all_black (Image.new 1 2 .RGB565 (some [0, 0, 0, 1]) (fun _ => 0)) (fun _ => 0)
      = some false ∧
    is_all_black (grayImage 1 2 [0, 7]) (fun _ => 0) = some false :=
  ⟨(C31_is_all_black (Image.new 1 2 .RGB565 (some [0, 0, 0, 0]) (fun _ => 0)) (fun _ => 0)
      (by decide)).1,
   by decide, by decide, by decide⟩

/-! ## ReadImage -/

/-- The loop over the channels of `ReadImage`, run for `m` channels: it reads
`m` bytes from the FIFO into the first `m` slots of `bytes`. -/
theorem ReadImage_channels_fold (read_fifo : Nat → Nat) (st : ReadImageState) :
    ∀ m, m ≤ st.bytes.length →
      ((List.range m).foldl
        (fun (st : ReadImageState) ch =>
          { st with bytes := st.bytes.set ch (read_fifo st.fifo_reads)
                    fifo_reads := st.fifo_reads + 1 }) st).image_ = st.image_ ∧
      ((List.range m).foldl
        (fun (st : ReadImageState) ch =>
          { st with bytes := st.bytes.set ch (read_fifo st.fifo_reads)
                    fifo_reads := st.fifo_reads + 1 }) st).fifo_reads = st.fifo_reads + m ∧
      ((List.range m).foldl
        (fun (st : ReadImageState) ch =>
          { st with bytes := st.bytes.set ch (read_fifo st.fifo_reads)
                    fifo_reads := st.fifo_reads + 1 }) st).bytes.length = st.bytes.length ∧
      ∀ ch, ch < m →
        byteAt ((List.range m).foldl
          (fun (st : ReadImageState) ch =>
            { st with bytes := st.bytes.set ch (read_fifo st.fifo_reads)
                      fifo_reads := st.fifo_reads + 1 }) st).bytes ch
          = read_fifo (st.fifo_reads + ch) := by
  intro m
  induction m with
  | zero =>
    intro _
    exact ⟨rfl, rfl, rfl, fun ch hch => by omega⟩
  | succ m ih =>
    intro hm
    obtain ⟨i1, i2, i3, i4⟩ := ih (by omega)
    rw [List.range_succ, List.foldl_append]
    simp only [List.foldl_cons, List.foldl_nil]
    refine ⟨i1, by rw [i2]; omega, by rw [List.length_set, i3], ?_⟩
    intro ch hch
    rw [byteAt_set, i2, i3]
    by_cases e : m = ch
    · subst e
      rw [if_pos ⟨rfl, by omega⟩]
    · rw [if_neg (by intro h; exact e h.1)]
      exact i4 ch (by omega)

/-- `ReadImage` on an image whose allocation holds `GetBufferSize()` bytes. -/
theorem ReadImage_spec (image_ : Image) (read_fifo : Nat → Nat) (junk : Nat → Nat)
    (hlen : image_.GetBufferSize ≤ image_.buffer_.length) :
    ∃ out, Ardu_Camera.ReadImage image_ read_fifo junk = some (out, image_.GetBufferSize) ∧
      SameShape image_ out ∧
      (∀ i, i < image_.GetBufferSize → byteAt out.buffer_ i = read_fifo i) ∧
      (∀ i, image_.GetBufferSize ≤ i → byteAt out.buffer_ i = byteAt image_.buffer_ i) := by
  have hlen2 : image_.height_ * image_.width_ * image_.format_.GetChannels
      ≤ image_.buffer_.length := hlen
  have hk3 := channels_le image_.format_
  obtain ⟨st, hst, ⟨hs, _, hn, hb1, hb2⟩⟩ := foldlM_grid_inv image_.height_ image_.width_
    (fun (st : ReadImageState) => st.image_.GetWidth)
    (fun (st : ReadImageState) row col => do
      let st := Ardu_Camera.ReadImage_channels read_fifo st
      let pixel := Pixel.new st.image_.GetFormat st.bytes junk
      let image_ ← st.image_.SetPixel row col pixel
      pure { st with image_ := image_ })
    (fun n (st : ReadImageState) => SameShape image_ st.image_ ∧ st.bytes.length = 4 ∧
      st.fifo_reads = n * image_.format_.GetChannels ∧
      (∀ i, i < n * image_.format_.GetChannels → byteAt st.image_.buffer_ i = read_fifo i) ∧
      (∀ i, n * image_.format_.GetChannels ≤ i →
        byteAt st.image_.buffer_ i = byteAt image_.buffer_ i))
    { image_ := image_, bytes := [junk 0, junk 1, junk 2, junk 3], fifo_reads := 0 }
    ⟨SameShape_refl _, rfl, by simp, fun i hi => by omega, fun _ _ => rfl⟩
    (fun n s hs => hs.1.2.1)
    (by
      intro r c hr hc s ⟨⟨s1, s2, s3, s4⟩, hbl, hn, hb1, hb2⟩
      have hfmt : s.image_.GetChannels = image_.format_.GetChannels := by
        show s.image_.format_.GetChannels = _
        rw [s3]
      obtain ⟨c1, c2, c3, c4⟩ := ReadImage_channels_fold read_fifo s
        image_.format_.GetChannels (by omega)
      have hch : Ardu_Camera.ReadImage_channels read_fifo s
          = (List.range image_.format_.GetChannels).foldl
            (fun (st : ReadImageState) ch =>
              { st with bytes := st.bytes.set ch (read_fifo st.fifo_reads)
                        fifo_reads := st.fifo_reads + 1 }) s := by
        unfold Ardu_Camera.ReadImage_channels
        rw [hfmt]
      rw [← hch] at c1 c2 c3 c4
      have hb := pixel_loc_bound image_.height_ image_.width_ image_.format_.GetChannels r c
        hr hc
      obtain ⟨out, hset, e1, e2, e3, _, e5, e6⟩ := SetPixel_spec s.image_ r c
        (Pixel.new s.image_.GetFormat (Ardu_Camera.ReadImage_channels read_fifo s).bytes junk)
        (by
          show (r * s.image_.width_ + c) * s.image_.format_.GetChannels
            + s.image_.format_.GetChannels ≤ _
          rw [s2, s3, s4]
          omega)
      have hloc : s.image_.GetPixelLocation r c
          = (r * image_.width_ + c) * image_.format_.GetChannels := by
        show (r * s.image_.width_ + c) * s.image_.format_.GetChannels = _
        rw [s2, s3]
      rw [hloc, s3] at e6
      refine ⟨{ Ardu_Camera.ReadImage_channels read_fifo s with image_ := out }, ?_,
        ⟨e1.trans s1, e2.trans s2, e3.trans s3, e5.trans s4⟩, c3.trans hbl, ?_, ?_, ?_⟩
      · dsimp only
        rw [c1, hset]
        rfl
      · show (Ardu_Camera.ReadImage_channels read_fifo s).fifo_reads = _
        rw [c2, hn, Nat.succ_mul]
      · intro i hi
        rw [Nat.succ_mul] at hi
        show byteAt out.buffer_ i = _
        rw [e6]
        by_cases hin : (r * image_.width_ + c) * image_.format_.GetChannels ≤ i
        · rw [if_pos ⟨hin, by omega⟩]
          have hlt : i - (r * image_.width_ + c) * image_.format_.GetChannels
              < image_.format_.GetChannels := by omega
          have hlt2 : i - (r * image_.width_ + c) * image_.format_.GetChannels
              < s.image_.GetFormat.GetChannels := by
            show _ < s.image_.format_.GetChannels
            rw [s3]
            exact hlt
          rw [byteAt_new _ _ _ _ hlt2, c4 _ hlt, hn, Nat.add_sub_cancel' hin]
        · rw [if_neg (by omega)]
          exact hb1 i (by omega)
      · intro i hi
        rw [Nat.succ_mul] at hi
        show byteAt out.buffer_ i = _
        rw [e6, if_neg (by omega)]
        exact hb2 i (by omega))
  refine ⟨st.image_, ?_, hs, hb1, hb2⟩
  have key : ∀ x : Option ReadImageState, x = some st →
      (x.bind fun st => some (st.image_, st.fifo_reads))
        = some (st.image_, image_.GetBufferSize) := by
    intro x hx
    rw [hx, Option.some_bind, hn]
    rfl
  exact key _ hst

/-- C32: `ReadImage` on an image whose allocation holds `GetBufferSize()`
bytes completes; it reads exactly `height * width * channels` bytes from the
FIFO; afterwards byte `i` of the buffer is the byte that read number `i`
returned, for every `i` below that number, so the byte of channel `ch` of the
pixel `(row, col)` is read number `(row * width + col) * channels + ch`;
height, width, format and the bytes behind the image are unchanged. -/
theorem C32_read_image (image_ : Image) (read_fifo : Nat → Nat) (junk : Nat → Nat)
    (hlen : image_.GetBufferSize ≤ image_.GetBuffer.length) :
    ∃ (out : Image) (reads : Nat),
      Ardu_Camera.ReadImage image_ read_fifo junk = some (out, reads) ∧
      reads = image_.GetHeight * image_.GetWidth * image_.GetChannels ∧
      out.GetHeight = image_.GetHeight ∧ out.GetWidth = image_.GetWidth ∧
      out.GetFormat = image_.GetFormat ∧
      out.GetBuffer.length = image_.GetBuffer.length ∧
      (∀ i, i < image_.GetHeight * image_.GetWidth * image_.GetChannels →
        byteAt out.GetBuffer i = read_fifo i) ∧
      (∀ row col ch, row < image_.GetHeight → col < image_.GetWidth →
        ch < image_.GetChannels →
        byteAt out.GetBuffer (out.GetPixelLocation row col + ch)
          = read_fifo ((row * image_.GetWidth + col) * image_.GetChannels + ch)) ∧
      (∀ i, image_.GetHeight * image_.GetWidth * image_.GetChannels ≤ i →
        byteAt out.GetBuffer i = byteAt image_.GetBuffer i) := by
  obtain ⟨out, hout, ⟨s1, s2, s3, s4⟩, hb1, hb2⟩ := ReadImage_spec image_ read_fifo junk hlen
  refine ⟨out, _, hout, rfl, s1, s2, s3, s4, hb1, ?_, hb2⟩
  intro row col ch hr hc hch
  have hb := pixel_loc_bound image_.height_ image_.width_ image_.format_.GetChannels row col
    hr hc
  have hch2 : ch < image_.format_.GetChannels := hch
  have hloc : out.GetPixelLocation row col
      = (row * image_.width_ + col) * image_.format_.GetChannels := by
    show (row * out.width_ + col) * out.format_.GetChannels = _
    rw [s2, s3]
  rw [hloc]
  exact hb1 _ (by
    show _ < image_.height_ * image_.width_ * image_.format_.GetChannels
    omega)

/-- C32 on a 1 x 2 RGB565 image over four bytes, with a FIFO that returns
10, 11, 12, 13, ...: four bytes are read and stored in this order. -/
theorem C32_read_image_witness :
    ∃ (out : Image) (reads : Nat),
      Ardu_Camera.ReadImage (Image.new 1 2 .RGB565 (some [0, 0, 0, 0]) (fun _ => 0))
        (fun n => 10 + n) (fun _ => 0) = some (out, reads) ∧
      reads = 4 ∧ out.GetBuffer = [10, 11, 12, 13] := by
  obtain ⟨out, reads, h, hr, _⟩ := C32_read_image
    (Image.new 1 2 .RGB565 (some [0, 0, 0, 0]) (fun _ => 0)) (fun n => 10 + n) (fun _ => 0)
    (by decide)
  have h2 : Ardu_Camera.ReadImage (Image.new 1 2 .RGB565 (some [0, 0, 0, 0]) (fun _ => 0))
      (fun n => 10 + n) (fun _ => 0)
      = some (⟨1, 2, .RGB565, [10, 11, 12, 13], false⟩, 4) := by decide
  rw [h2] at h
  cases h
  exact ⟨_, _, h2, rfl, rfl⟩

/-! ## Buffer size and pixel offset in size_t arithmetic -/

/-- The buffer size in `size_t` arithmetic is the product reduced modulo
`2 ^ bits`. -/
theorem GetBufferSize_size_t_eq (bits : Nat) (img : Image) :
    img.GetBufferSize_size_t bits
      = (img.height_ * img.width_ * img.format_.GetChannels) % 2 ^ bits := by
  show (img.height_ * img.width_ % 2 ^ bits * img.format_.GetChannels) % 2 ^ bits = _
  rw [Nat.mul_mod, Nat.mod_mod, ← Nat.mul_mod]

/-- The pixel offset in `size_t` arithmetic is the offset reduced modulo
`2 ^ bits`. -/
theorem GetPixelLocation_size_t_eq (bits : Nat) (img : Image) (row col : Nat) :
    img.GetPixelLocation_size_t bits row col
      = ((row * img.width_ + col) * img.format_.GetChannels) % 2 ^ bits := by
  show ((row * img.width_ % 2 ^ bits + col) % 2 ^ bits * img.format_.GetChannels) % 2 ^ bits = _
  rw [Nat.mod_add_mod, Nat.mul_mod, Nat.mod_mod, ← Nat.mul_mod]

/-- Where the product fits a `size_t`, the buffer size in `size_t`
arithmetic is the natural number `GetBufferSize`. -/
theorem GetBufferSize_size_t_fits (bits : Nat) (img : Image)
    (h : img.height_ * img.width_ * img.format_.GetChannels < 2 ^ bits) :
    img.GetBufferSize_size_t bits = img.GetBufferSize := by
  rw [GetBufferSize_size_t_eq, Nat.mod_eq_of_lt h]
  rfl

/-- Where the offset fits a `size_t`, the pixel offset in `size_t` arithmetic
is the natural number `GetPixelLocation`. -/
theorem GetPixelLocation_size_t_fits (bits : Nat) (img : Image) (row col : Nat)
    (h : (row * img.width_ + col) * img.format_.GetChannels < 2 ^ bits) :
    img.GetPixelLocation_size_t bits row col = img.GetPixelLocation row col := by
  rw [GetPixelLocation_size_t_eq, Nat.mod_eq_of_lt h]
  rfl

/-- The offset of an in-bounds pixel of an image whose buffer size fits a
`size_t` fits a `size_t`. -/
theorem inbounds_offset_fits (bits : Nat) (img : Image) (row col : Nat)
    (hfit : img.height_ * img.width_ * img.format_.GetChannels < 2 ^ bits)
    (hr : row < img.height_) (hc : col < img.width_) :
    (row * img.width_ + col) * img.format_.GetChannels < 2 ^ bits := by
  have hb := pixel_loc_bound img.height_ img.width_ img.format_.GetChannels row col hr hc
  have hk := channels_pos img.format_
  omega

/-- C20, for an image whose buffer size fits a `size_t` of `bits` bits
(`H * W * channels(F) < 2 ^ bits`): `GetBufferSize()` is
`H * W * channels(F)` and equals `GetSize().num_bytes()`; the byte offset of
every pixel `(row, col)` whose offset fits a `size_t`, in particular of every
in-bounds pixel, is `(row * W + col) * channels(F)`; and this offset is the
one `GetPixel` reads from and `SetPixel` writes to.  (Without the bound both
values are the products reduced modulo `2 ^ bits`.) -/
theorem C20_buffer_size_and_offset (bits : Nat) (img : Image)
    (hfit : img.GetHeight * img.GetWidth * img.GetFormat.GetChannels < 2 ^ bits) :
    img.GetBufferSize_size_t bits
      = img.GetHeight * img.GetWidth * img.GetFormat.GetChannels ∧
    img.GetBufferSize_size_t bits = img.GetSize.num_bytes_size_t bits ∧
    (∀ row col, (row * img.GetWidth + col) * img.GetFormat.GetChannels < 2 ^ bits →
      img.GetPixelLocation_size_t bits row col
        = (row * img.GetWidth + col) * img.GetFormat.GetChannels) ∧
    (∀ row col, row < img.GetHeight → col < img.GetWidth →
      img.GetPixelLocation_size_t bits row col
        = (row * img.GetWidth + col) * img.GetFormat.GetChannels) ∧
    (∀ row col junk, row < img.GetHeight → col < img.GetWidth →
      img.GetBufferSize_size_t bits ≤ img.GetBuffer.length →
      img.GetPixel row col junk = some (Pixel.new img.GetFormat
        (img.GetBuffer.drop (img.GetPixelLocation_size_t bits row col)) junk)) ∧
    (∀ row col (p : Pixel), row < img.GetHeight → col < img.GetWidth →
      img.GetBufferSize_size_t bits ≤ img.GetBuffer.length →
      ∃ out, img.SetPixel row col p = some out ∧
        ∀ i, byteAt out.GetBuffer i =
          if img.GetPixelLocation_size_t bits row col ≤ i ∧
              i < img.GetPixelLocation_size_t bits row col + img.GetFormat.GetChannels
          then byteAt p.GetBytes (i - img.GetPixelLocation_size_t bits row col)
          else byteAt img.GetBuffer i) := by
  have hfit2 : img.height_ * img.width_ * img.format_.GetChannels < 2 ^ bits := hfit
  have hsz := GetBufferSize_size_t_fits bits img hfit2
  have hloc : ∀ row col, row < img.height_ → col < img.width_ →
      img.GetPixelLocation_size_t bits row col = img.GetPixelLocation row col :=
    fun row col hr hc => GetPixelLocation_size_t_fits bits img row col
      (inbounds_offset_fits bits img row col hfit2 hr hc)
  refine ⟨by rw [hsz]; rfl, rfl, ?_, ?_, ?_, ?_⟩
  · intro row col h
    rw [GetPixelLocation_size_t_fits bits img row col h]
    rfl
  · intro row col hr hc
    rw [hloc row col hr hc]
    rfl
  · intro row col junk hr hc hlen
    rw [hsz] at hlen
    rw [hloc row col hr hc]
    exact GetPixel_inbounds img row col junk hlen hr hc
  · intro row col p hr hc hlen
    rw [hsz] at hlen
    rw [hloc row col hr hc]
    have hb := pixel_loc_bound img.height_ img.width_ img.format_.GetChannels row col hr hc
    have hlen2 : img.height_ * img.width_ * img.format_.GetChannels ≤ img.buffer_.length := hlen
    obtain ⟨out, hout, _, _, _, _, _, hbytes⟩ := SetPixel_spec img row col p (by
      show (row * img.width_ + col) * img.format_.GetChannels + img.format_.GetChannels ≤ _
      omega)
    exact ⟨out, hout, hbytes⟩

/-- C20 on the 240 x 320 RGB565 frame of the camera with a 32-bit `size_t`:
the buffer size is 153600 and the pixel `(239, 319)` is at offset 153598. -/
theorem C20_buffer_size_and_offset_witness :
    (Image.mk 240 320 .RGB565 [] false).GetBufferSize_size_t 32 = 240 * 320 * 2 ∧
    (Image.mk 240 320 .RGB565 [] false).GetPixelLocation_size_t 32 239 319
      = (239 * 320 + 319) * 2 :=
  ⟨(C20_buffer_size_and_offset 32 (Image.mk 240 320 .RGB565 [] false) (by decide)).1,
   (C20_buffer_size_and_offset 32 (Image.mk 240 320 .RGB565 [] false) (by decide)).2.2.2.1
     239 319 (by decide) (by decide)⟩

/-- C20 fails where the product does not fit a `size_t`: with a 32-bit
`size_t` the 65536 x 65536 GRAYSCALE image has `GetBufferSize()` 0, not
`65536 * 65536`, and in the 65536 x 65536 RGB565 image the pixel `(32768, 0)`
has the offset 0, not `32768 * 65536 * 2`; with a 64-bit `size_t` the same
holds for the `2 ^ 32 x 2 ^ 32` RGB565 image. -/
theorem C20_buffer_size_wraps :
    (Image.mk 65536 65536 .GRAYSCALE [] true).GetBufferSize_size_t 32 = 0 ∧
    (Image.mk 65536 65536 .GRAYSCALE [] true).GetBufferSize_size_t 32
      ≠ (Image.mk 65536 65536 .GRAYSCALE [] true).GetHeight
        * (Image.mk 65536 65536 .GRAYSCALE [] true).GetWidth
        * (Image.mk 65536 65536 .GRAYSCALE [] true).GetFormat.GetChannels ∧
    (Image.mk 65536 65536 .RGB565 [] true).GetPixelLocation_size_t 32 32768 0 = 0 ∧
    (Image.mk 65536 65536 .RGB565 [] true).GetPixelLocation_size_t 32 32768 0
      ≠ (32768 * (Image.mk 65536 65536 .RGB565 [] true).GetWidth + 0)
        * (Image.mk 65536 65536 .RGB565 [] true).GetFormat.GetChannels ∧
    (Image.mk 4294967296 4294967296 .RGB565 [] true).GetBufferSize_size_t 64 = 0 := by
  decide

/-! ## The byte ranges of the pixels -/

/-- C37, for an image whose buffer size fits a `size_t` of `bits` bits
(`H * W * k < 2 ^ bits`): for every in-bounds `(row, col)` the bytes of the
pixel, from `GetPixelLocation(row, col)` up to `GetPixelLocation(row, col) +
GetChannels()`, lie below `GetBufferSize()`; the bytes of two different
in-bounds positions do not overlap; and on an image whose allocation holds
`GetBufferSize()` bytes `GetPixel` and `SetPixel` at an in-bounds position
stay inside the allocation. -/
theorem C37_pixel_ranges (bits : Nat) (img : Image)
    (hfit : img.GetHeight * img.GetWidth * img.GetChannels < 2 ^ bits) :
    (∀ row col, row < img.GetHeight → col < img.GetWidth →
      img.GetPixelLocation_size_t bits row col + img.GetChannels
        ≤ img.GetBufferSize_size_t bits) ∧
    (∀ r1 c1 r2 c2, r1 < img.GetHeight → c1 < img.GetWidth → r2 < img.GetHeight →
      c2 < img.GetWidth → (r1, c1) ≠ (r2, c2) →
      img.GetPixelLocation_size_t bits r1 c1 + img.GetChannels
        ≤ img.GetPixelLocation_size_t bits r2 c2 ∨
      img.GetPixelLocation_size_t bits r2 c2 + img.GetChannels
        ≤ img.GetPixelLocation_size_t bits r1 c1) ∧
    (img.GetBufferSize_size_t bits ≤ img.GetBuffer.length →
      ∀ row col, row < img.GetHeight → col < img.GetWidth →
        (∀ junk, ∃ p, img.GetPixel row col junk = some p) ∧
        (∀ p, ∃ out, img.SetPixel row col p = some out)) := by
  have hfit2 : img.height_ * img.width_ * img.format_.GetChannels < 2 ^ bits := hfit
  have hsz := GetBufferSize_size_t_fits bits img hfit2
  have hloc : ∀ row col, row < img.height_ → col < img.width_ →
      img.GetPixelLocation_size_t bits row col
        = (row * img.width_ + col) * img.format_.GetChannels :=
    fun row col hr hc => GetPixelLocation_size_t_fits bits img row col
      (inbounds_offset_fits bits img row col hfit2 hr hc)
  refine ⟨?_, ?_, ?_⟩
  · intro row col hr hc
    rw [hloc row col hr hc, hsz]
    exact pixel_loc_bound img.height_ img.width_ img.format_.GetChannels row col hr hc
  · intro r1 c1 r2 c2 hr1 hc1 hr2 hc2 hne
    rw [hloc r1 c1 hr1 hc1, hloc r2 c2 hr2 hc2]
    have hidx : r1 * img.width_ + c1 ≠ r2 * img.width_ + c2 := by
      intro h
      apply hne
      have hr3 := index_div r1 img.width_ c1 hc1
      have hc3 := index_mod r1 img.width_ c1 hc1
      rw [h, index_div r2 img.width_ c2 hc2] at hr3
      rw [h, index_mod r2 img.width_ c2 hc2] at hc3
      rw [hr3, hc3]
    show (r1 * img.width_ + c1) * img.format_.GetChannels + img.format_.GetChannels
        ≤ (r2 * img.width_ + c2) * img.format_.GetChannels ∨
      (r2 * img.width_ + c2) * img.format_.GetChannels + img.format_.GetChannels
        ≤ (r1 * img.width_ + c1) * img.format_.GetChannels
    rcases Nat.lt_or_gt_of_ne hidx with h | h
    · left
      have := Nat.mul_le_mul_right img.format_.GetChannels h
      rw [Nat.succ_mul] at this
      exact this
    · right
      have := Nat.mul_le_mul_right img.format_.GetChannels h
      rw [Nat.succ_mul] at this
      exact this
  · intro hlen row col hr hc
    rw [hsz] at hlen
    have hb := pixel_loc_bound img.height_ img.width_ img.format_.GetChannels row col hr hc
    have hlen2 : img.height_ * img.width_ * img.format_.GetChannels ≤ img.buffer_.length := hlen
    refine ⟨fun junk => ⟨_, GetPixel_inbounds img row col junk hlen hr hc⟩, fun p => ?_⟩
    obtain ⟨out, hout, _⟩ := SetPixel_spec img row col p (by
      show (row * img.width_ + col) * img.format_.GetChannels + img.format_.GetChannels ≤ _
      omega)
    exact ⟨out, hout⟩

/-- C37 on the 2 x 2 RGB565 image with a 32-bit `size_t`: the pixel at
`(1, 1)` occupies the bytes 6 and 7 of the 8 bytes of the buffer, behind the
bytes of the pixel at `(1, 0)`. -/
theorem C37_pixel_ranges_witness :
    (Image.new 2 2 .RGB565 (some [1, 2, 3, 4, 5, 6, 7, 8])
        (fun _ => 0)).GetPixelLocation_size_t 32 1 1 + 2
      ≤ (Image.new 2 2 .RGB565 (some [1, 2, 3, 4, 5, 6, 7, 8])
        (fun _ => 0)).GetBufferSize_size_t 32 ∧
    ((Image.new 2 2 .RGB565 (some [1, 2, 3, 4, 5, 6, 7, 8])
          (fun _ => 0)).GetPixelLocation_size_t 32 1 0 + 2
        ≤ (Image.new 2 2 .RGB565 (some [1, 2, 3, 4, 5, 6, 7, 8])
          (fun _ => 0)).GetPixelLocation_size_t 32 1 1 ∨
      (Image.new 2 2 .RGB565 (some [1, 2, 3, 4, 5, 6, 7, 8])
          (fun _ => 0)).GetPixelLocation_size_t 32 1 1 + 2
        ≤ (Image.new 2 2 .RGB565 (some [1, 2, 3, 4, 5, 6, 7, 8])
          (fun _ => 0)).GetPixelLocation_size_t 32 1 0) :=
  ⟨(C37_pixel_ranges 32 (Image.new 2 2 .RGB565 (some [1, 2, 3, 4, 5, 6, 7, 8]) (fun _ => 0))
      (by decide)).1 1 1 (by decide) (by decide),
   (C37_pixel_ranges 32 (Image.new 2 2 .RGB565 (some [1, 2, 3, 4, 5, 6, 7, 8]) (fun _ => 0))
      (by decide)).2.1 1 0 1 1 (by decide) (by decide) (by decide) (by decide) (by decide)⟩

/-- C37 fails where the product does not fit a `size_t`: with a 32-bit
`size_t` the 65536 x 65536 GRAYSCALE image has `GetBufferSize()` 0, so the
byte of its in-bounds pixel `(0, 0)` does not lie below it; and in the
65536 x 65536 RGB565 image the in-bounds pixels `(0, 0)` and `(32768, 0)`
have the same offset 0, so their bytes overlap. -/
theorem C37_pixel_range_outside_wrapped_size :
    ¬ ((Image.mk 65536 65536 .GRAYSCALE [] true).GetPixelLocation_size_t 32 0 0
        + (Image.mk 65536 65536 .GRAYSCALE [] true).GetChannels
      ≤ (Image.mk 65536 65536 .GRAYSCALE [] true).GetBufferSize_size_t 32) ∧
    ¬ ((Image.mk 65536 65536 .RGB565 [] true).GetPixelLocation_size_t 32 0 0
          + (Image.mk 65536 65536 .RGB565 [] true).GetChannels
        ≤ (Image.mk 65536 65536 .RGB565 [] true).GetPixelLocation_size_t 32 32768 0 ∨
      (Image.mk 65536 65536 .RGB565 [] true).GetPixelLocation_size_t 32 32768 0
          + (Image.mk 65536 65536 .RGB565 [] true).GetChannels
        ≤ (Image.mk 65536 65536 .RGB565 [] true).GetPixelLocation_size_t 32 0 0) := by
  decide

/-! ## The watchdog kicks of the scan -/

/-- The log of a loop body that completes has grown by the calls of
`GetData_tile_events`. -/
theorem GetData_tile_events_some (cfg : Config) (Invoke : List Nat → Option (List Nat))
    (camera_image : Image) (junk : Nat → Nat) (st st2 : ScanState) (row col : Nat)
    (h : Ardu_Camera.GetData_tile cfg Invoke camera_image junk st row col = some st2) :
    st2.trace = st.trace
      ++ Ardu_Camera.GetData_tile_events cfg Invoke camera_image junk st row col := by
  unfold Ardu_Camera.GetData_tile at h
  unfold Ardu_Camera.GetData_tile_events
  cases h1 : camera_image.Crop row col cfg.sliding_window_length cfg.sliding_window_length
      (some st.img_buf_a) junk with
  | none => rw [h1] at h; cases h
  | some cropped =>
    rw [h1] at h
    simp only [Option.some_bind, Option.bind_eq_bind] at h
    cases h2 : cropped.Reformat cfg.cnn_img_fmt (some st.img_buf_b) junk with
    | none => rw [h2] at h; cases h
    | some formatted =>
      rw [h2] at h
      simp only [Option.some_bind] at h
      cases h3 : formatted.Resize cfg.cnn_img_height cfg.cnn_img_width (some cropped.GetBuffer)
          junk with
      | none => rw [h3] at h; cases h
      | some resized =>
        rw [h3] at h
        simp only [Option.some_bind] at h
        cases hr : st.model.RunInference Invoke resized.GetBuffer with
        | none => rw [hr] at h; cases h
        | some r =>
          rw [hr] at h
          simp only [Option.some_bind] at h
          obtain ⟨o, m2⟩ := r
          cases o with
          | none => cases h
          | some out =>
            simp only [Option.some_bind] at h
            cases hs1 : out[1]? with
            | none => rw [hs1] at h; cases h
            | some s1 =>
              cases hs2 : out[2]? with
              | none => rw [hs1, hs2] at h; cases h
              | some s2 =>
                rw [hs1, hs2] at h
                simp only [Option.some_bind, Option.pure_def, Option.some.injEq] at h
                rw [← h]
                simp [h1, h2, h3, hr, hs1, hs2]

/-- The log of an inner loop that completes has grown by the calls of
`GetData_cols_events`. -/
theorem GetData_cols_events_some (cfg : Config) (Invoke : List Nat → Option (List Nat))
    (camera_image : Image) (junk : Nat → Nat) (row : Nat) :
    ∀ (fuel col : Nat) (st st2 : ScanState),
      Ardu_Camera.GetData_cols cfg Invoke camera_image junk row fuel col st = some st2 →
      st2.trace = st.trace
        ++ Ardu_Camera.GetData_cols_events cfg Invoke camera_image junk row fuel col st := by
  intro fuel
  induction fuel with
  | zero =>
    intro col st st2 h
    cases h
  | succ fuel ih =>
    intro col st st2 h
    unfold Ardu_Camera.GetData_cols at h
    unfold Ardu_Camera.GetData_cols_events
    by_cases hc : col + cfg.sliding_window_length ≤ camera_image.GetWidth
    · rw [if_pos hc] at h
      rw [if_pos hc]
      cases ht : Ardu_Camera.GetData_tile cfg Invoke camera_image junk st row col with
      | none => rw [ht] at h; cases h
      | some st1 =>
        rw [ht] at h
        simp only [Option.some_bind, Option.bind_eq_bind] at h
        rw [ih _ st1 st2 h,
          GetData_tile_events_some cfg Invoke camera_image junk st st1 row col ht,
          List.append_assoc]
    · rw [if_neg hc] at h
      rw [if_neg hc]
      cases h
      simp

/-- The log of an outer loop that completes has grown by the calls of
`GetData_rows_events`. -/
theorem GetData_rows_events_some (cfg : Config) (Invoke : List Nat → Option (List Nat))
    (camera_image : Image) (junk : Nat → Nat) (col_fuel : Nat) :
    ∀ (fuel row : Nat) (st st2 : ScanState),
      Ardu_Camera.GetData_rows cfg Invoke camera_image junk col_fuel fuel row st = some st2 →
      st2.trace = st.trace
        ++ Ardu_Camera.GetData_rows_events cfg Invoke camera_image junk col_fuel fuel row
          st := by
  intro fuel
  induction fuel with
  | zero =>
    intro row st st2 h
    cases h
  | succ fuel ih =>
    intro row st st2 h
    unfold Ardu_Camera.GetData_rows at h
    unfold Ardu_Camera.GetData_rows_events
    by_cases hc : row + cfg.sliding_window_length ≤ camera_image.GetHeight
    · rw [if_pos hc] at h
      rw [if_pos hc]
      cases ht : Ardu_Camera.GetData_cols cfg Invoke camera_image junk row col_fuel 0 st with
      | none => rw [ht] at h; cases h
      | some st1 =>
        rw [ht] at h
        simp only [Option.some_bind, Option.bind_eq_bind] at h
        rw [ih _ st1 st2 h,
          GetData_cols_events_some cfg Invoke camera_image junk row col_fuel 0 st st1 ht,
          List.append_assoc]
    · rw [if_neg hc] at h
      rw [if_neg hc]
      cases h
      simp

/-- `RunInference` with an interpreter that reports a failure on the copied
input returns `nullptr` and leaves the counter as it is. -/
theorem RunInference_fails (m : TFLM_Model) (Invoke : List Nat → Option (List Nat))
    (input_buf : List Nat) (h1 : m.input_bytes ≤ input_buf.length)
    (h2 : m.input_bytes ≤ m.input_data.length) (hfail : ∀ x, Invoke x = none) :
    ∃ data, m.RunInference Invoke input_buf
      = some (none, ⟨m.input_bytes, data, m.inference_count⟩) := by
  obtain ⟨data, hd, _, _⟩ := RunInference_copy m input_buf h1 h2
  refine ⟨data, ?_⟩
  unfold TFLM_Model.RunInference
  rw [hd]
  simp only [Option.some_bind, Option.bind_eq_bind, hfail]
  rfl

/-- The calls of a loop body whose inference fails: the crop and the
inference call, no kick. -/
theorem GetData_tile_events_fail (cfg : Config) (Invoke : List Nat → Option (List Nat))
    (camera_image : Image) (junk : Nat → Nat) (st : ScanState) (row col : Nat)
    (hcam : camera_image.GetBufferSize ≤ camera_image.buffer_.length)
    (hcamv : BytesValid camera_image.buffer_)
    (hL : 1 ≤ cfg.sliding_window_length)
    (hA1 : cfg.sliding_window_length * cfg.sliding_window_length
      * camera_image.GetFormat.GetChannels ≤ st.img_buf_a.length)
    (hA2 : cfg.cnn_img_height * cfg.cnn_img_width * cfg.cnn_img_fmt.GetChannels
      ≤ st.img_buf_a.length)
    (hB : (cfg.sliding_window_length * cfg.sliding_window_length + cfg.sliding_window_length + 1)
      * cfg.cnn_img_fmt.GetChannels ≤ st.img_buf_b.length)
    (hM : cfg.cnn_img_height = cfg.cnn_img_width)
    (hbv : BytesValid st.img_buf_b)
    (hm1 : st.model.input_bytes ≤ st.img_buf_a.length)
    (hm2 : st.model.input_bytes ≤ st.model.input_data.length)
    (hrow : row + cfg.sliding_window_length ≤ camera_image.GetHeight)
    (hcol : col + cfg.sliding_window_length ≤ camera_image.GetWidth)
    (hfail : ∀ x, Invoke x = none) :
    Ardu_Camera.GetData_tile_events cfg Invoke camera_image junk st row col
      = [Event.crop row col, Event.run_inference none] := by
  obtain ⟨cropped, formatted, resized, h1, h2, h3, _, _, hr⟩ :=
    GetData_stages_ready cfg camera_image junk st.img_buf_a st.img_buf_b row col hcam hcamv hL
      hA1 hA2 hB hM hbv hrow hcol
  obtain ⟨data, hd⟩ := RunInference_fails st.model Invoke resized.GetBuffer
    (by
      show st.model.input_bytes ≤ resized.buffer_.length
      rw [hr.2.2.2]
      exact hm1) hm2 hfail
  unfold Ardu_Camera.GetData_tile_events
  simp [h1, h2, h3, hd]

/-- The calls of a scan whose first inference fails: the crop of the tile at
`(0, 0)` and the inference call, then the scan dereferences `nullptr`. -/
theorem GetData_scan_events_fail (cfg : Config) (Invoke : List Nat → Option (List Nat))
    (camera_image : Image) (junk : Nat → Nat) (fuel : Nat) (img_buf_a img_buf_b : List Nat)
    (model : TFLM_Model)
    (hcam : camera_image.GetBufferSize ≤ camera_image.buffer_.length)
    (hcamv : BytesValid camera_image.buffer_)
    (hL : 1 ≤ cfg.sliding_window_length)
    (hA1 : cfg.sliding_window_length * cfg.sliding_window_length
      * camera_image.GetFormat.GetChannels ≤ img_buf_a.length)
    (hA2 : cfg.cnn_img_height * cfg.cnn_img_width * cfg.cnn_img_fmt.GetChannels
      ≤ img_buf_a.length)
    (hB : (cfg.sliding_window_length * cfg.sliding_window_length + cfg.sliding_window_length + 1)
      * cfg.cnn_img_fmt.GetChannels ≤ img_buf_b.length)
    (hM : cfg.cnn_img_height = cfg.cnn_img_width)
    (hbv : BytesValid img_buf_b)
    (hm1 : model.input_bytes ≤ img_buf_a.length)
    (hm2 : model.input_bytes ≤ model.input_data.length)
    (hrow : cfg.sliding_window_length ≤ camera_image.GetHeight)
    (hcol : cfg.sliding_window_length ≤ camera_image.GetWidth)
    (hfuel : 0 < fuel)
    (hfail : ∀ x, Invoke x = none) :
    Ardu_Camera.GetData_scan_events cfg Invoke camera_image junk fuel img_buf_a img_buf_b model
      = [Event.crop 0 0, Event.run_inference none] := by
  obtain ⟨f, rfl⟩ : ∃ f, fuel = f + 1 := ⟨fuel - 1, by omega⟩
  have hrow2 : 0 + cfg.sliding_window_length ≤ camera_image.GetHeight := by omega
  have hcol2 : 0 + cfg.sliding_window_length ≤ camera_image.GetWidth := by omega
  have htile := GetData_tile_events_fail cfg Invoke camera_image junk
    { img_buf_a := img_buf_a, img_buf_b := img_buf_b, model := model
      num_people := 0, trace := [] } 0 0 hcam hcamv hL hA1 hA2 hB hM hbv hm1 hm2 hrow2 hcol2
    hfail
  have hnull := GetData_tile_null cfg Invoke camera_image junk
    { img_buf_a := img_buf_a, img_buf_b := img_buf_b, model := model
      num_people := 0, trace := [] } 0 0 hfail
  have hcols : Ardu_Camera.GetData_cols cfg Invoke camera_image junk 0 (f + 1) 0
      { img_buf_a := img_buf_a, img_buf_b := img_buf_b, model := model
        num_people := 0, trace := [] } = none := by
    unfold Ardu_Camera.GetData_cols
    rw [if_pos hcol2, hnull]
    rfl
  unfold Ardu_Camera.GetData_scan_events Ardu_Camera.GetData_rows_events
  rw [if_pos hrow2, hcols]
  unfold Ardu_Camera.GetData_cols_events
  rw [if_pos hcol2, hnull, htile]
  rfl

/-- C18: the scan kicks the watchdog after the inference call and the test
of its scores, so that a loop body that completes kicks once; but the test
dereferences the pointer that `RunInference` returned, and after an inference
call that returned `nullptr` there is no kick.  First part: a scan that
completes has logged the calls of `GetData_scan_events`, and in them the
kicks and the inference calls are both as many as the tiles.  Second part:
for a frame of byte values, scratch arrays that are large enough and an
interpreter that returns at least three scores for every input, the scan
completes (with more fuel than the frame is high and wide).  Third part: for
such a frame and such arrays, a frame that holds at least one tile and an
interpreter that reports a failure, the calls of the scan are the crop of the
tile at `(0, 0)` and one inference call: one inference call, no kick.
Fourth part: the scans of the 3 x 3 frame with tiles of edge 2, first with an
interpreter that always fails, then with one that fails on the second
tile. -/
theorem C18_one_kick_per_inference :
    (∀ (cfg : Config) (Invoke : List Nat → Option (List Nat)) (camera_image : Image)
      (junk : Nat → Nat) (fuel : Nat) (img_buf_a img_buf_b : List Nat) (model : TFLM_Model)
      (st : ScanState),
      Ardu_Camera.GetData_scan cfg Invoke camera_image junk fuel img_buf_a img_buf_b model
        = some st →
      st.trace = Ardu_Camera.GetData_scan_events cfg Invoke camera_image junk fuel
        img_buf_a img_buf_b model ∧
      kicks (Ardu_Camera.GetData_scan_events cfg Invoke camera_image junk fuel
          img_buf_a img_buf_b model)
        = inferenceCalls (Ardu_Camera.GetData_scan_events cfg Invoke camera_image junk fuel
          img_buf_a img_buf_b model) ∧
      inferenceCalls (Ardu_Camera.GetData_scan_events cfg Invoke camera_image junk fuel
          img_buf_a img_buf_b model)
        = (scanOrigins cfg camera_image.GetHeight camera_image.GetWidth fuel).length) ∧
    (∀ (cfg : Config) (Invoke : List Nat → Option (List Nat)) (camera_image : Image)
      (junk : Nat → Nat) (fuel : Nat) (img_buf_a img_buf_b : List Nat) (model : TFLM_Model),
      ScanSetup cfg Invoke camera_image img_buf_a.length img_buf_b.length →
      BytesValid img_buf_b →
      model.input_bytes ≤ img_buf_a.length →
      model.input_bytes ≤ model.input_data.length →
      camera_image.GetHeight < fuel → camera_image.GetWidth < fuel →
      ∃ st : ScanState,
        Ardu_Camera.GetData_scan cfg Invoke camera_image junk fuel img_buf_a img_buf_b model
          = some st) ∧
    (∀ (cfg : Config) (Invoke : List Nat → Option (List Nat)) (camera_image : Image)
      (junk : Nat → Nat) (fuel : Nat) (img_buf_a img_buf_b : List Nat) (model : TFLM_Model),
      camera_image.GetBufferSize ≤ camera_image.GetBuffer.length →
      BytesValid camera_image.GetBuffer →
      1 ≤ cfg.sliding_window_length →
      cfg.sliding_window_length * cfg.sliding_window_length
        * camera_image.GetFormat.GetChannels ≤ img_buf_a.length →
      cfg.cnn_img_height * cfg.cnn_img_width * cfg.cnn_img_fmt.GetChannels
        ≤ img_buf_a.length →
      (cfg.sliding_window_length * cfg.sliding_window_length + cfg.sliding_window_length + 1)
        * cfg.cnn_img_fmt.GetChannels ≤ img_buf_b.length →
      cfg.cnn_img_height = cfg.cnn_img_width →
      BytesValid img_buf_b →
      model.input_bytes ≤ img_buf_a.length →
      model.input_bytes ≤ model.input_data.length →
      cfg.sliding_window_length ≤ camera_image.GetHeight →
      cfg.sliding_window_length ≤ camera_image.GetWidth →
      0 < fuel →
      (∀ x, Invoke x = none) →
      Ardu_Camera.GetData_scan_events cfg Invoke camera_image junk fuel img_buf_a img_buf_b
          model = [Event.crop 0 0, Event.run_inference none] ∧
      inferenceCalls (Ardu_Camera.GetData_scan_events cfg Invoke camera_image junk fuel
        img_buf_a img_buf_b model) = 1 ∧
      kicks (Ardu_Camera.GetData_scan_events cfg Invoke camera_image junk fuel
        img_buf_a img_buf_b model) = 0 ∧
      Ardu_Camera.GetData_scan cfg Invoke camera_image junk fuel img_buf_a img_buf_b model
        = none) ∧
    (Ardu_Camera.GetData_scan_events smallConfig (fun _ => none)
        (grayImage 3 3 [1, 2, 3, 4, 5, 6, 7, 8, 9]) (fun _ => 0) 10
        [0, 0, 0, 0] [0, 0, 0, 0, 0, 0, 0] ⟨1, [0], 0⟩
      = [Event.crop 0 0, Event.run_inference none] ∧
    Ardu_Camera.GetData_scan_events smallConfig
        (fun x => if x = [1] then some [0, 1, 0] else none)
        (grayImage 3 3 [1, 2, 3, 4, 5, 6, 7, 8, 9]) (fun _ => 0) 10
        [0, 0, 0, 0] [0, 0, 0, 0, 0, 0, 0] ⟨1, [0], 0⟩
      = [Event.crop 0 0, Event.run_inference (some [0, 1, 0]), Event.kick,
          Event.crop 0 1, Event.run_inference none] ∧
    Ardu_Camera.GetData_scan_events smallConfig (fun _ => some [0, 1, 0])
        (grayImage 3 3 [1, 2, 3, 4, 5, 6, 7, 8, 9]) (fun _ => 0) 10
        [0, 0, 0, 0] [0, 0, 0, 0, 0, 0, 0] ⟨1, [0], 0⟩
      = [Event.crop 0 0, Event.run_inference (some [0, 1, 0]), Event.kick,
          Event.crop 0 1, Event.run_inference (some [0, 1, 0]), Event.kick]) := by
  refine ⟨?_, ?_, ?_, by decide!, by decide!, by decide!⟩
  · intro cfg Invoke camera_image junk fuel img_buf_a img_buf_b model st h
    have hsc := GetData_scan_some cfg Invoke camera_image junk fuel img_buf_a img_buf_b model st h
    obtain ⟨_, _, h3, h4, _⟩ := Scanned_from_start _ _ st rfl rfl hsc
    have he : st.trace = Ardu_Camera.GetData_scan_events cfg Invoke camera_image junk fuel
        img_buf_a img_buf_b model := by
      have := GetData_rows_events_some cfg Invoke camera_image junk fuel fuel 0 _ st h
      rw [this]
      rfl
    rw [← he]
    exact ⟨rfl, h4.trans h3.symm, h3⟩
  · intro cfg Invoke camera_image junk fuel img_buf_a img_buf_b model hs hbv hm1 hm2 hfh hfw
    obtain ⟨st, hst, _⟩ := GetData_scan_ready cfg Invoke camera_image junk fuel img_buf_a
      img_buf_b model hs hbv hm1 hm2 hfh hfw
    exact ⟨st, hst⟩
  · intro cfg Invoke camera_image junk fuel img_buf_a img_buf_b model hcam hcamv hL hA1 hA2 hB
      hM hbv hm1 hm2 hrow hcol hfuel hfail
    have he := GetData_scan_events_fail cfg Invoke camera_image junk fuel img_buf_a img_buf_b
      model hcam hcamv hL hA1 hA2 hB hM hbv hm1 hm2 hrow hcol hfuel hfail
    refine ⟨he, ?_, ?_, ?_⟩
    · rw [he]; rfl
    · rw [he]; rfl
    · obtain ⟨f, rfl⟩ : ∃ f, fuel = f + 1 := ⟨fuel - 1, by omega⟩
      have hnull := GetData_tile_null cfg Invoke camera_image junk
        { img_buf_a := img_buf_a, img_buf_b := img_buf_b, model := model
          num_people := 0, trace := [] } 0 0 hfail
      unfold Ardu_Camera.GetData_scan Ardu_Camera.GetData_rows
      rw [if_pos (by omega)]
      unfold Ardu_Camera.GetData_cols
      rw [if_pos (by omega), hnull]
      rfl

/-- C18 on a black 240 x 320 RGB565 frame with the constants of
`Ardu_Camera.h`, scratch arrays of `img_buf_size` bytes and an interpreter
that always reports a failure: one inference call and no kick. -/
theorem C18_one_kick_per_inference_witness :
    inferenceCalls (Ardu_Camera.GetData_scan_events Ardu_Camera.config (fun _ => none)
        (Image.new cam_img_height cam_img_width cam_img_fmt
          (some (List.replicate 153600 0)) (fun _ => 0))
        (fun _ => 0) 321 (List.replicate img_buf_size 0) (List.replicate img_buf_size 0)
        ⟨9216, List.replicate 9216 0, 0⟩) = 1 ∧
      kicks (Ardu_Camera.GetData_scan_events Ardu_Camera.config (fun _ => none)
        (Image.new cam_img_height cam_img_width cam_img_fmt
          (some (List.replicate 153600 0)) (fun _ => 0))
        (fun _ => 0) 321 (List.replicate img_buf_size 0) (List.replicate img_buf_size 0)
        ⟨9216, List.replicate 9216 0, 0⟩) = 0 :=
  ⟨(C18_one_kick_per_inference.2.2.1 Ardu_Camera.config (fun _ => none)
      (Image.new cam_img_height cam_img_width cam_img_fmt
        (some (List.replicate 153600 0)) (fun _ => 0))
      (fun _ => 0) 321 (List.replicate img_buf_size 0) (List.replicate img_buf_size 0)
      ⟨9216, List.replicate 9216 0, 0⟩
      (by
        show 240 * 320 * 2 ≤ (List.replicate 153600 0).length
        rw [List.length_replicate])
      (BytesValid_replicate _ _ (by decide)) (by decide)
      (by rw [List.length_replicate]; decide) (by rw [List.length_replicate]; decide)
      (by rw [List.length_replicate]; decide) (by decide)
      (BytesValid_replicate _ _ (by decide))
      (by rw [List.length_replicate]; decide)
      (by show 9216 ≤ (List.replicate 9216 0).length; rw [List.length_replicate])
      (by decide) (by decide) (by decide) (fun _ => rfl)).2.1,
   (C18_one_kick_per_inference.2.2.1 Ardu_Camera.config (fun _ => none)
      (Image.new cam_img_height cam_img_width cam_img_fmt
        (some (List.replicate 153600 0)) (fun _ => 0))
      (fun _ => 0) 321 (List.replicate img_buf_size 0) (List.replicate img_buf_size 0)
      ⟨9216, List.replicate 9216 0, 0⟩
      (by
        show 240 * 320 * 2 ≤ (List.replicate 153600 0).length
        rw [List.length_replicate])
      (BytesValid_replicate _ _ (by decide)) (by decide)
      (by rw [List.length_replicate]; decide) (by rw [List.length_replicate]; decide)
      (by rw [List.length_replicate]; decide) (by decide)
      (BytesValid_replicate _ _ (by decide))
      (by rw [List.length_replicate]; decide)
      (by show 9216 ≤ (List.replicate 9216 0).length; rw [List.length_replicate])
      (by decide) (by decide) (by decide) (fun _ => rfl)).2.2.1⟩

/-! ## The input tensor of a tile -/

/-- Two arrays of the same length with the same elements are equal. -/
theorem list_ext_byteAt (l1 l2 : List Nat) (hl : l1.length = l2.length)
    (h : ∀ i, i < l1.length → byteAt l1 i = byteAt l2 i) : l1 = l2 := by
  apply List.ext_getElem hl
  intro i h1 h2
  have := h i h1
  unfold byteAt at this
  rw [List.getD_eq_getElem?_getD, List.getD_eq_getElem?_getD, List.getElem?_eq_getElem h1,
    List.getElem?_eq_getElem h2] at this
  simpa using this

/-- The three images of the loop body on a tile inside the frame and the
input tensor: the reformatted image holds the reformatted pixels of the tile
and leaves `img_buf_b` behind them as it is; the first `input_bytes` bytes of
the input tensor are those of the resized image, which are the bytes of the
pixels that `ResizePixel` computes from the reformatted image. -/
theorem GetData_input_spec (cfg : Config) (camera_image : Image) (junk : Nat → Nat)
    (st : ScanState) (row col : Nat)
    (hcam : camera_image.GetBufferSize ≤ camera_image.buffer_.length)
    (hcamv : BytesValid camera_image.buffer_)
    (hL : 1 ≤ cfg.sliding_window_length)
    (hA1 : cfg.sliding_window_length * cfg.sliding_window_length
      * camera_image.GetFormat.GetChannels ≤ st.img_buf_a.length)
    (hA2 : cfg.cnn_img_height * cfg.cnn_img_width * cfg.cnn_img_fmt.GetChannels
      ≤ st.img_buf_a.length)
    (hB : (cfg.sliding_window_length * cfg.sliding_window_length + cfg.sliding_window_length + 1)
      * cfg.cnn_img_fmt.GetChannels ≤ st.img_buf_b.length)
    (hM : cfg.cnn_img_height = cfg.cnn_img_width)
    (hbv : BytesValid st.img_buf_b)
    (hm1 : st.model.input_bytes ≤ st.img_buf_a.length)
    (hm2 : st.model.input_bytes ≤ st.model.input_data.length)
    (hrow : row + cfg.sliding_window_length ≤ camera_image.GetHeight)
    (hcol : col + cfg.sliding_window_length ≤ camera_image.GetWidth) :
    ∃ (cropped formatted resized : Image) (data : List Nat),
      camera_image.Crop row col cfg.sliding_window_length cfg.sliding_window_length
        (some st.img_buf_a) junk = some cropped ∧
      cropped.Reformat cfg.cnn_img_fmt (some st.img_buf_b) junk = some formatted ∧
      formatted.Resize cfg.cnn_img_height cfg.cnn_img_width (some cropped.GetBuffer) junk
        = some resized ∧
      (List.range st.model.input_bytes).foldlM (TFLM_Model.copyByte resized.GetBuffer)
        st.model.input_data = some data ∧
      Ardu_Camera.GetData_input cfg camera_image junk st row col = some data ∧
      (formatted.height_ = cfg.sliding_window_length ∧
        formatted.width_ = cfg.sliding_window_length ∧
        formatted.format_ = cfg.cnn_img_fmt ∧
        formatted.new_buffer_was_allocated_ = false ∧
        formatted.buffer_.length = st.img_buf_b.length ∧
        BytesValid formatted.buffer_) ∧
      (∀ j ch, j < cfg.sliding_window_length * cfg.sliding_window_length →
        ch < cfg.cnn_img_fmt.GetChannels →
        byteAt formatted.buffer_ (j * cfg.cnn_img_fmt.GetChannels + ch)
          = byteAt ((Pixel.new camera_image.format_
              (camera_image.buffer_.drop
                (((row + j / cfg.sliding_window_length) * camera_image.width_
                  + (col + j % cfg.sliding_window_length))
                  * camera_image.format_.GetChannels)) junk).Reformat
              cfg.cnn_img_fmt junk).bytes_ ch) ∧
      (∀ i, cfg.sliding_window_length * cfg.sliding_window_length
          * cfg.cnn_img_fmt.GetChannels ≤ i →
        byteAt formatted.buffer_ i = byteAt st.img_buf_b i) ∧
      resized.buffer_.length = st.img_buf_a.length ∧
      (∀ j ch, j < cfg.cnn_img_width * cfg.cnn_img_width → ch < cfg.cnn_img_fmt.GetChannels →
        byteAt resized.buffer_ (j * cfg.cnn_img_fmt.GetChannels + ch)
          = byteAt ((formatted.ResizePixel cfg.cnn_img_width cfg.cnn_img_width
              (j / cfg.cnn_img_width) (j % cfg.cnn_img_width) junk).getD
              ⟨formatted.format_, []⟩).bytes_ ch) ∧
      data.length = st.model.input_data.length ∧
      (∀ i, byteAt data i = if i < st.model.input_bytes then byteAt resized.buffer_ i
        else byteAt st.model.input_data i) := by
  -- Crop
  obtain ⟨cropped, hcrop, hcf⟩ := Crop_filled camera_image row col cfg.sliding_window_length
    cfg.sliding_window_length (some st.img_buf_a) junk hcam hrow hcol
    (by intro b2 hbb; cases hbb; exact hA1)
  obtain ⟨c1, c2, c3, _, c5, c6, _⟩ := hcf
  have c1' : cropped.height_ = cfg.sliding_window_length := c1
  have c2' : cropped.width_ = cfg.sliding_window_length := c2
  have c3' : cropped.format_ = camera_image.format_ := c3
  have c5' : cropped.buffer_.length = st.img_buf_a.length := c5
  have hcb : ∀ j ch2, j < cfg.sliding_window_length * cfg.sliding_window_length →
      ch2 < camera_image.format_.GetChannels →
      byteAt cropped.buffer_ (j * camera_image.format_.GetChannels + ch2)
        = byteAt (Pixel.new camera_image.format_
            (camera_image.buffer_.drop
              (((row + j / cfg.sliding_window_length) * camera_image.width_
                + (col + j % cfg.sliding_window_length)) * camera_image.format_.GetChannels))
            junk).bytes_ ch2 := fun j ch2 hj hch => c6 j ch2 hj hch
  -- Reformat
  obtain ⟨formatted, hfmt, hff⟩ := Reformat_filled cropped cfg.cnn_img_fmt (some st.img_buf_b)
    junk (by
      show cropped.height_ * cropped.width_ * cropped.format_.GetChannels ≤ _
      rw [c1', c2', c3', c5']; exact hA1)
    (by
      intro b2 hbb; cases hbb
      show cropped.height_ * cropped.width_ * _ ≤ _
      rw [c1', c2']
      have e : cfg.sliding_window_length * cfg.sliding_window_length
          * cfg.cnn_img_fmt.GetChannels
          ≤ (cfg.sliding_window_length * cfg.sliding_window_length
            + cfg.sliding_window_length + 1) * cfg.cnn_img_fmt.GetChannels :=
        Nat.mul_le_mul_right _ (by omega)
      omega)
  have hfv : BytesValid formatted.buffer_ := by
    apply Filled_valid _ _ _ _ hff hbv
    intro j ch hj hch
    apply Reformat_bytes_lt _ _ _ _ ch hch
    intro ch2 hch2
    have hch3 : ch2 < cropped.format_.GetChannels := hch2
    rw [byteAt_new _ _ _ _ hch3, byteAt_drop]
    have hj2 : j < cfg.sliding_window_length * cfg.sliding_window_length := by
      rw [c1', c2'] at hj; exact hj
    have hch4 : ch2 < camera_image.format_.GetChannels := by rw [← c3']; exact hch3
    rw [c3', hcb j ch2 hj2 hch4]
    exact byteAt_new_drop_lt _ _ _ _ hcamv ch2 hch4
  obtain ⟨f1, f2, f3, f4, f5, f6, f7⟩ := hff
  have f1' : formatted.height_ = cfg.sliding_window_length := f1.trans c1'
  have f2' : formatted.width_ = cfg.sliding_window_length := f2.trans c2'
  have f3' : formatted.format_ = cfg.cnn_img_fmt := f3
  have f4' : formatted.new_buffer_was_allocated_ = false := f4
  have f5' : formatted.buffer_.length = st.img_buf_b.length := f5
  have hF1 : ∀ j ch, j < cfg.sliding_window_length * cfg.sliding_window_length →
      ch < cfg.cnn_img_fmt.GetChannels →
      byteAt formatted.buffer_ (j * cfg.cnn_img_fmt.GetChannels + ch)
        = byteAt ((Pixel.new camera_image.format_
            (camera_image.buffer_.drop
              (((row + j / cfg.sliding_window_length) * camera_image.width_
                + (col + j % cfg.sliding_window_length))
                * camera_image.format_.GetChannels)) junk).Reformat
            cfg.cnn_img_fmt junk).bytes_ ch := by
    intro j ch hj hch
    have h6 : byteAt formatted.buffer_ (j * cfg.cnn_img_fmt.GetChannels + ch)
        = byteAt ((Pixel.new cropped.format_
            (cropped.buffer_.drop (j * cropped.format_.GetChannels)) junk).Reformat
            cfg.cnn_img_fmt junk).bytes_ ch :=
      f6 j ch (by rw [c1', c2']; exact hj) hch
    rw [h6]
    refine Reformat_congr _ _ cfg.cnn_img_fmt junk junk c3' ?_ ch hch
    intro ch2 hch2
    have hch3 : ch2 < cropped.format_.GetChannels := hch2
    have hch4 : ch2 < camera_image.format_.GetChannels := by rw [← c3']; exact hch3
    rw [byteAt_new _ _ _ _ hch3, byteAt_drop, c3', hcb j ch2 hj hch4]
  have hF2 : ∀ i, cfg.sliding_window_length * cfg.sliding_window_length
      * cfg.cnn_img_fmt.GetChannels ≤ i →
      byteAt formatted.buffer_ i = byteAt st.img_buf_b i := by
    intro i hi
    exact f7 i (by
      show cropped.height_ * cropped.width_ * cfg.cnn_img_fmt.GetChannels ≤ i
      rw [c1', c2']; exact hi)
  -- Resize
  obtain ⟨resized, hres, hrf⟩ := Resize_filled formatted cfg.cnn_img_width cfg.cnn_img_width
    (some cropped.GetBuffer) junk
    (by
      intro b2 hbb; cases hbb
      show _ ≤ cropped.buffer_.length
      rw [f3', c5']
      have hA2' := hA2
      rw [hM] at hA2'
      exact hA2')
    (by
      intro r c hr hc
      exact ResizePixel_square_some formatted cfg.cnn_img_width r c junk (f1'.trans f2'.symm)
        (by rw [f2']; exact hL) (by rw [f2', f3', f5']; exact hB) hfv hr hc)
  obtain ⟨_, _, _, _, r5, r6, _⟩ := hrf
  have r5' : resized.buffer_.length = st.img_buf_a.length := r5.trans c5'
  have hR1 : ∀ j ch, j < cfg.cnn_img_width * cfg.cnn_img_width →
      ch < cfg.cnn_img_fmt.GetChannels →
      byteAt resized.buffer_ (j * cfg.cnn_img_fmt.GetChannels + ch)
        = byteAt ((formatted.ResizePixel cfg.cnn_img_width cfg.cnn_img_width
            (j / cfg.cnn_img_width) (j % cfg.cnn_img_width) junk).getD
            ⟨formatted.format_, []⟩).bytes_ ch := by
    intro j ch hj hch
    have := r6 j ch hj (by show ch < formatted.format_.GetChannels; rw [f3']; exact hch)
    rw [← f3']
    exact this
  -- the copy loop of RunInference
  obtain ⟨data, hd, hdl, hdb⟩ := RunInference_copy st.model resized.GetBuffer
    (by show _ ≤ resized.buffer_.length; rw [r5']; exact hm1) hm2
  have hres' : formatted.Resize cfg.cnn_img_height cfg.cnn_img_width (some cropped.GetBuffer)
      junk = some resized := by rw [hM]; exact hres
  refine ⟨cropped, formatted, resized, data, hcrop, hfmt, hres', hd, ?_,
    ⟨f1', f2', f3', f4', f5', hfv⟩, hF1, hF2, r5', hR1, hdl, hdb⟩
  unfold Ardu_Camera.GetData_input
  rw [hcrop]
  simp only [Option.some_bind, Option.bind_eq_bind]
  rw [hfmt]
  simp only [Option.some_bind]
  rw [hres']
  simp only [Option.some_bind]
  exact hd

/-- Two images with the same fields are equal. -/
theorem Image_ext (a b : Image) (h1 : a.height_ = b.height_) (h2 : a.width_ = b.width_)
    (h3 : a.format_ = b.format_) (h4 : a.buffer_ = b.buffer_)
    (h5 : a.new_buffer_was_allocated_ = b.new_buffer_was_allocated_) : a = b := by
  cases a
  cases b
  simp only [Image.mk.injEq]
  exact ⟨h1, h2, h3, h4, h5⟩

/-- The input tensor of a tile does not depend on what the earlier tiles left
in the scratch arrays and in the input tensor, when the input tensor is not
larger than the resized image. -/
theorem GetData_input_indep (cfg : Config) (camera_image : Image) (junk : Nat → Nat)
    (size_a size_b : Nat) (st0 st : ScanState) (row col : Nat)
    (hcam : camera_image.GetBufferSize ≤ camera_image.buffer_.length)
    (hcamv : BytesValid camera_image.buffer_)
    (hL : 1 ≤ cfg.sliding_window_length)
    (hA1 : cfg.sliding_window_length * cfg.sliding_window_length
      * camera_image.GetFormat.GetChannels ≤ size_a)
    (hA2 : cfg.cnn_img_height * cfg.cnn_img_width * cfg.cnn_img_fmt.GetChannels ≤ size_a)
    (hB : (cfg.sliding_window_length * cfg.sliding_window_length + cfg.sliding_window_length + 1)
      * cfg.cnn_img_fmt.GetChannels ≤ size_b)
    (hM : cfg.cnn_img_height = cfg.cnn_img_width)
    (hst0 : ScanReady size_a size_b st0) (hst : ScanReady size_a size_b st)
    (hsame : SameTail cfg st0 st)
    (hin : st0.model.input_bytes
      ≤ cfg.cnn_img_height * cfg.cnn_img_width * cfg.cnn_img_fmt.GetChannels)
    (hrow : row + cfg.sliding_window_length ≤ camera_image.GetHeight)
    (hcol : col + cfg.sliding_window_length ≤ camera_image.GetWidth) :
    Ardu_Camera.GetData_input cfg camera_image junk st row col
      = Ardu_Camera.GetData_input cfg camera_image junk st0 row col := by
  obtain ⟨ha, hb, hbv, hib, hid⟩ := hst
  obtain ⟨ha0, hb0, hbv0, hib0, hid0⟩ := hst0
  obtain ⟨_, s2, s3, s4, s5, s6⟩ := hsame
  have hk := channels_pos cfg.cnn_img_fmt
  obtain ⟨cropped, formatted, resized, data, _, _, _, _, hinput, ⟨f1, f2, f3, f4, f5, _⟩,
    hF1, hF2, _, hR1, hdl, hdb⟩ := GetData_input_spec cfg camera_image junk st row col hcam
      hcamv hL (by rw [ha]; exact hA1) (by rw [ha]; exact hA2) (by rw [hb]; exact hB) hM hbv
      (by rw [ha]; exact hib) hid hrow hcol
  obtain ⟨cropped0, formatted0, resized0, data0, _, _, _, _, hinput0, ⟨g1, g2, g3, g4, g5, _⟩,
    hG1, hG2, _, hS1, hdl0, hdb0⟩ := GetData_input_spec cfg camera_image junk st0 row col hcam
      hcamv hL (by rw [ha0]; exact hA1) (by rw [ha0]; exact hA2) (by rw [hb0]; exact hB) hM
      hbv0 (by rw [ha0]; exact hib0) hid0 hrow hcol
  have hbuf : formatted.buffer_ = formatted0.buffer_ := by
    apply list_ext_byteAt _ _ (by rw [f5, g5, s2])
    intro i _
    by_cases h : i < cfg.sliding_window_length * cfg.sliding_window_length
        * cfg.cnn_img_fmt.GetChannels
    · have e : i = (i / cfg.cnn_img_fmt.GetChannels) * cfg.cnn_img_fmt.GetChannels
          + i % cfg.cnn_img_fmt.GetChannels := (Nat.div_add_mod' i _).symm
      have hj : i / cfg.cnn_img_fmt.GetChannels
          < cfg.sliding_window_length * cfg.sliding_window_length :=
        Nat.div_lt_of_lt_mul (by rw [Nat.mul_comm]; exact h)
      rw [e, hF1 _ _ hj (Nat.mod_lt _ hk), hG1 _ _ hj (Nat.mod_lt _ hk)]
    · rw [hF2 i (by omega), hG2 i (by omega)]
      exact s3 i (by omega)
  have hfeq : formatted = formatted0 :=
    Image_ext _ _ (by rw [f1, g1]) (by rw [f2, g2]) (by rw [f3, g3]) hbuf (by rw [f4, g4])
  subst hfeq
  have hdata : data = data0 := by
    apply list_ext_byteAt _ _ (by rw [hdl, hdl0, s5])
    intro i _
    rw [hdb i, hdb0 i, s4]
    by_cases h : i < st0.model.input_bytes
    · rw [if_pos h, if_pos h]
      have hi : i < cfg.cnn_img_width * cfg.cnn_img_width * cfg.cnn_img_fmt.GetChannels := by
        rw [hM] at hin
        omega
      have e : i = (i / cfg.cnn_img_fmt.GetChannels) * cfg.cnn_img_fmt.GetChannels
          + i % cfg.cnn_img_fmt.GetChannels := (Nat.div_add_mod' i _).symm
      have hj : i / cfg.cnn_img_fmt.GetChannels < cfg.cnn_img_width * cfg.cnn_img_width :=
        Nat.div_lt_of_lt_mul (by rw [Nat.mul_comm]; exact hi)
      rw [e, hR1 _ _ hj (Nat.mod_lt _ hk), hS1 _ _ hj (Nat.mod_lt _ hk)]
    · rw [if_neg h, if_neg h]
      exact s6 i (by omega)
  rw [hinput, hinput0, hdata]

/-- The loop body on a tile inside the frame, in a state that the earlier
tiles of the scan have left: it completes, the interpreter was called on the
input tensor of the tile, the log has grown by the crop, the inference call
with the scores of the tile and the kick, and `num_people` by one if the
scores of the tile are a detection. -/
theorem GetData_tile_run (cfg : Config) (Invoke : List Nat → Option (List Nat))
    (camera_image : Image) (junk : Nat → Nat) (size_a size_b : Nat)
    (st0 st : ScanState) (row col : Nat)
    (hs : ScanSetup cfg Invoke camera_image size_a size_b)
    (hst0 : ScanReady size_a size_b st0) (hst : ScanReady size_a size_b st)
    (hsame : SameTail cfg st0 st)
    (hin : st0.model.input_bytes
      ≤ cfg.cnn_img_height * cfg.cnn_img_width * cfg.cnn_img_fmt.GetChannels)
    (hrow : row + cfg.sliding_window_length ≤ camera_image.GetHeight)
    (hcol : col + cfg.sliding_window_length ≤ camera_image.GetWidth) :
    ∃ st2, Ardu_Camera.GetData_tile cfg Invoke camera_image junk st row col = some st2 ∧
      ScanReady size_a size_b st2 ∧ SameTail cfg st0 st2 ∧
      st2.trace = st.trace ++ tileEvents (row, col,
        Ardu_Camera.GetData_scores cfg Invoke camera_image junk st0 row col) ∧
      st2.num_people = st.num_people +
        (if Ardu_Camera.GetData_detected cfg Invoke camera_image junk st0 (row, col)
          then 1 else 0) := by
  obtain ⟨hcam, hcamv, hL, hS, hA1, hA2, hB, hM, hI⟩ := hs
  have hindep := GetData_input_indep cfg camera_image junk size_a size_b st0 st row col hcam
    hcamv hL hA1 hA2 hB hM hst0 hst hsame hin hrow hcol
  obtain ⟨ha, hb, hbv, hib, hid⟩ := hst
  obtain ⟨s1, s2, s3, s4, s5, s6⟩ := hsame
  obtain ⟨cropped, formatted, resized, data, hcrop, hfmt, hres, hd, hinput,
    ⟨_, _, _, _, f5, hfv⟩, _, hF2, r5, _, hdl, hdb⟩ :=
    GetData_input_spec cfg camera_image junk st row col hcam
      hcamv hL (by rw [ha]; exact hA1) (by rw [ha]; exact hA2) (by rw [hb]; exact hB) hM hbv
      (by rw [ha]; exact hib) hid hrow hcol
  obtain ⟨out, hout, hout3⟩ := hI data
  have hscores : Ardu_Camera.GetData_scores cfg Invoke camera_image junk st0 row col
      = some out := by
    unfold Ardu_Camera.GetData_scores
    rw [← hindep, hinput]
    exact hout
  have hdet : Ardu_Camera.GetData_detected cfg Invoke camera_image junk st0 (row, col)
      = isDetection out := by
    unfold Ardu_Camera.GetData_detected
    rw [hscores]
  have hrun : st.model.RunInference Invoke resized.GetBuffer
      = some (some out, ⟨st.model.input_bytes, data,
          int_wrap (st.model.inference_count + 1)⟩) := by
    unfold TFLM_Model.RunInference
    rw [hd]
    simp only [Option.some_bind, Option.bind_eq_bind, hout]
    rfl
  have hs1 : out[1]? = some out[1] := List.getElem?_eq_getElem (by omega)
  have hs2 : out[2]? = some out[2] := List.getElem?_eq_getElem (by omega)
  have e1 : byteAt out 1 = out[1] := by
    simp [byteAt, List.getD_eq_getElem?_getD, hs1]
  have e2 : byteAt out 2 = out[2] := by
    simp [byteAt, List.getD_eq_getElem?_getD, hs2]
  refine ⟨ScanState.mk resized.GetBuffer formatted.GetBuffer
    ⟨st.model.input_bytes, data, int_wrap (st.model.inference_count + 1)⟩
    (if decide (out[1] ≥ out[2]) then st.num_people + 1 else st.num_people)
    (st.trace ++ [Event.crop row col, Event.run_inference (some out), Event.kick]),
    ?_, ?_, ?_, ?_, ?_⟩
  · unfold Ardu_Camera.GetData_tile
    rw [hcrop]
    simp only [Option.some_bind, Option.bind_eq_bind]
    rw [hfmt]
    simp only [Option.some_bind]
    rw [hres]
    simp only [Option.some_bind]
    rw [hrun]
    simp only [Option.some_bind, hs1, hs2, Option.pure_def]
  · exact ⟨r5.trans ha, f5.trans hb, hfv, hib, by rw [hdl]; exact hid⟩
  · refine ⟨r5.trans s1, f5.trans s2, ?_, s4, hdl.trans s5, ?_⟩
    · intro i hi
      exact (hF2 i hi).trans (s3 i hi)
    · intro i hi
      have hd2 : byteAt data i = if i < st.model.input_bytes then byteAt resized.buffer_ i
          else byteAt st.model.input_data i := hdb i
      show byteAt data i = _
      rw [hd2, if_neg (by rw [s4]; omega)]
      exact s6 i hi
  · rw [hscores]
    rfl
  · have key : (if decide (out[1] ≥ out[2]) then st.num_people + 1 else st.num_people)
        = st.num_people + (if isDetection out then 1 else 0) := by
      unfold isDetection
      rw [e1, e2]
      by_cases hge : out[1] ≥ out[2] <;> simp [hge]
    exact key.trans (by rw [hdet])

/-- The inner loop of the scan, in a state that the earlier tiles have left:
it completes (given more fuel than the frame is wide), the log has grown by
the events of the tiles of the row with their scores, and `num_people` by the
number of these tiles whose scores are a detection. -/
theorem GetData_cols_run (cfg : Config) (Invoke : List Nat → Option (List Nat))
    (camera_image : Image) (junk : Nat → Nat) (size_a size_b : Nat) (st0 : ScanState)
    (row : Nat)
    (hs : ScanSetup cfg Invoke camera_image size_a size_b)
    (hst0 : ScanReady size_a size_b st0)
    (hin : st0.model.input_bytes
      ≤ cfg.cnn_img_height * cfg.cnn_img_width * cfg.cnn_img_fmt.GetChannels)
    (hrow : row + cfg.sliding_window_length ≤ camera_image.GetHeight) :
    ∀ (fuel col : Nat) (st : ScanState), 0 < fuel → camera_image.GetWidth < fuel + col →
      ScanReady size_a size_b st → SameTail cfg st0 st →
      ∃ st2, Ardu_Camera.GetData_cols cfg Invoke camera_image junk row fuel col st = some st2 ∧
        ScanReady size_a size_b st2 ∧ SameTail cfg st0 st2 ∧
        st2.trace = st.trace ++
          ((loopOrigins cfg.sliding_window_length cfg.sliding_window_freq
            camera_image.GetWidth fuel col).map (fun c => (row, c))).flatMap
            (fun rc => tileEvents (rc.1, rc.2,
              Ardu_Camera.GetData_scores cfg Invoke camera_image junk st0 rc.1 rc.2)) ∧
        st2.num_people = st.num_people +
          (((loopOrigins cfg.sliding_window_length cfg.sliding_window_freq
            camera_image.GetWidth fuel col).map (fun c => (row, c))).filter
            (Ardu_Camera.GetData_detected cfg Invoke camera_image junk st0)).length := by
  have hL : 1 ≤ cfg.sliding_window_length := hs.2.2.1
  have hS : 1 ≤ cfg.sliding_window_freq := hs.2.2.2.1
  intro fuel
  induction fuel with
  | zero =>
    intro col st h0
    omega
  | succ fuel ih =>
    intro col st _ hfuel hst hsame
    unfold Ardu_Camera.GetData_cols
    rw [loopOrigins_succ]
    by_cases hc : col + cfg.sliding_window_length ≤ camera_image.GetWidth
    · rw [if_pos hc, if_pos hc]
      obtain ⟨st1, ht, hst1, hsame1, htr1, hn1⟩ := GetData_tile_run cfg Invoke camera_image junk
        size_a size_b st0 st row col hs hst0 hst hsame hin hrow hc
      rw [ht]
      simp only [Option.some_bind, Option.bind_eq_bind]
      obtain ⟨st2, h2, hst2, hsame2, htr2, hn2⟩ :=
        ih (col + cfg.sliding_window_freq) st1 (by omega) (by omega) hst1 hsame1
      refine ⟨st2, h2, hst2, hsame2, ?_, ?_⟩
      · rw [htr2, htr1, List.map_cons, List.flatMap_cons, List.append_assoc]
      · rw [hn2, hn1, List.map_cons, List.filter_cons]
        by_cases hd : Ardu_Camera.GetData_detected cfg Invoke camera_image junk st0 (row, col)
        · rw [if_pos hd, if_pos hd, List.length_cons]
          omega
        · rw [if_neg hd, if_neg hd]
          omega
    · rw [if_neg hc, if_neg hc]
      exact ⟨st, rfl, hst, hsame, by simp, by simp⟩

/-- The outer loop of the scan, in a state that the earlier tiles have left:
it completes (given more fuel than the frame is high and wide), the log has
grown by the events of the tiles with their scores, and `num_people` by the
number of tiles whose scores are a detection. -/
theorem GetData_rows_run (cfg : Config) (Invoke : List Nat → Option (List Nat))
    (camera_image : Image) (junk : Nat → Nat) (size_a size_b : Nat) (st0 : ScanState)
    (col_fuel : Nat)
    (hs : ScanSetup cfg Invoke camera_image size_a size_b)
    (hst0 : ScanReady size_a size_b st0)
    (hin : st0.model.input_bytes
      ≤ cfg.cnn_img_height * cfg.cnn_img_width * cfg.cnn_img_fmt.GetChannels)
    (hcf : camera_image.GetWidth < col_fuel) :
    ∀ (fuel row : Nat) (st : ScanState), 0 < fuel → camera_image.GetHeight < fuel + row →
      ScanReady size_a size_b st → SameTail cfg st0 st →
      ∃ st2, Ardu_Camera.GetData_rows cfg Invoke camera_image junk col_fuel fuel row st
          = some st2 ∧
        ScanReady size_a size_b st2 ∧ SameTail cfg st0 st2 ∧
        st2.trace = st.trace ++
          ((loopOrigins cfg.sliding_window_length cfg.sliding_window_length
            camera_image.GetHeight fuel row).flatMap (fun r =>
              (loopOrigins cfg.sliding_window_length cfg.sliding_window_freq
                camera_image.GetWidth col_fuel 0).map (fun c => (r, c)))).flatMap
            (fun rc => tileEvents (rc.1, rc.2,
              Ardu_Camera.GetData_scores cfg Invoke camera_image junk st0 rc.1 rc.2)) ∧
        st2.num_people = st.num_people +
          (((loopOrigins cfg.sliding_window_length cfg.sliding_window_length
            camera_image.GetHeight fuel row).flatMap (fun r =>
              (loopOrigins cfg.sliding_window_length cfg.sliding_window_freq
                camera_image.GetWidth col_fuel 0).map (fun c => (r, c)))).filter
            (Ardu_Camera.GetData_detected cfg Invoke camera_image junk st0)).length := by
  have hL : 1 ≤ cfg.sliding_window_length := hs.2.2.1
  intro fuel
  induction fuel with
  | zero =>
    intro row st h0
    omega
  | succ fuel ih =>
    intro row st _ hfuel hst hsame
    unfold Ardu_Camera.GetData_rows
    rw [loopOrigins_succ]
    by_cases hc : row + cfg.sliding_window_length ≤ camera_image.GetHeight
    · rw [if_pos hc, if_pos hc]
      obtain ⟨st1, ht, hst1, hsame1, htr1, hn1⟩ := GetData_cols_run cfg Invoke camera_image junk
        size_a size_b st0 row hs hst0 hin hc col_fuel 0 st (by omega) (by omega) hst hsame
      rw [ht]
      simp only [Option.some_bind, Option.bind_eq_bind]
      obtain ⟨st2, h2, hst2, hsame2, htr2, hn2⟩ :=
        ih (row + cfg.sliding_window_length) st1 (by omega) (by omega) hst1 hsame1
      refine ⟨st2, h2, hst2, hsame2, ?_, ?_⟩
      · rw [htr2, htr1, List.flatMap_cons, List.flatMap_append, List.append_assoc]
      · rw [hn2, hn1, List.flatMap_cons, List.filter_append, List.length_append]
        omega
    · rw [if_neg hc, if_neg hc]
      exact ⟨st, rfl, hst, hsame, by simp, by simp⟩

/-- The scan on a frame of byte values, with scratch arrays that are large
enough, an input tensor that is not larger than the resized image and an
interpreter that returns at least three scores for every input: it completes
(given more fuel than the frame is high and wide), its log holds, tile by
tile in the order of `scanOrigins`, the crop, the inference call with the
scores that the interpreter returns on the input tensor of the tile, and the
kick, and `num_people` is the number of tiles whose scores are a
detection. -/
theorem GetData_scan_run (cfg : Config) (Invoke : List Nat → Option (List Nat))
    (camera_image : Image) (junk : Nat → Nat) (fuel : Nat) (img_buf_a img_buf_b : List Nat)
    (model : TFLM_Model)
    (hs : ScanSetup cfg Invoke camera_image img_buf_a.length img_buf_b.length)
    (hbv : BytesValid img_buf_b)
    (hm1 : model.input_bytes ≤ img_buf_a.length)
    (hm2 : model.input_bytes ≤ model.input_data.length)
    (hin : model.input_bytes
      ≤ cfg.cnn_img_height * cfg.cnn_img_width * cfg.cnn_img_fmt.GetChannels)
    (hfh : camera_image.GetHeight < fuel) (hfw : camera_image.GetWidth < fuel) :
    ∃ st, Ardu_Camera.GetData_scan cfg Invoke camera_image junk fuel img_buf_a img_buf_b model
        = some st ∧
      st.trace = (scanOrigins cfg camera_image.GetHeight camera_image.GetWidth fuel).flatMap
        (fun rc => tileEvents (rc.1, rc.2,
          Ardu_Camera.GetData_scores cfg Invoke camera_image junk
            ⟨img_buf_a, img_buf_b, model, 0, []⟩ rc.1 rc.2)) ∧
      st.num_people = ((scanOrigins cfg camera_image.GetHeight camera_image.GetWidth fuel).filter
        (Ardu_Camera.GetData_detected cfg Invoke camera_image junk
          ⟨img_buf_a, img_buf_b, model, 0, []⟩)).length := by
  obtain ⟨st, h, _, _, htr, hn⟩ := GetData_rows_run cfg Invoke camera_image junk
    img_buf_a.length img_buf_b.length ⟨img_buf_a, img_buf_b, model, 0, []⟩ fuel hs
    ⟨rfl, rfl, hbv, hm1, hm2⟩ hin hfw fuel 0 ⟨img_buf_a, img_buf_b, model, 0, []⟩
    (by omega) (by omega) ⟨rfl, rfl, hbv, hm1, hm2⟩
    ⟨rfl, rfl, fun _ _ => rfl, rfl, rfl, fun _ _ => rfl⟩
  refine ⟨st, h, ?_, ?_⟩
  · rw [htr]
    exact List.nil_append _
  · rw [hn]
    exact Nat.zero_add _

/-! ## The first byte of the input tensor -/

/-- Every tile of the scan has an input tensor, and the interpreter returns
its scores. -/
theorem GetData_scores_some (cfg : Config) (Invoke : List Nat → Option (List Nat))
    (camera_image : Image) (junk : Nat → Nat) (fuel : Nat) (img_buf_a img_buf_b : List Nat)
    (model : TFLM_Model)
    (hs : ScanSetup cfg Invoke camera_image img_buf_a.length img_buf_b.length)
    (hbv : BytesValid img_buf_b)
    (hm1 : model.input_bytes ≤ img_buf_a.length)
    (hm2 : model.input_bytes ≤ model.input_data.length)
    (rc : Nat × Nat)
    (hrc : rc ∈ scanOrigins cfg camera_image.GetHeight camera_image.GetWidth fuel) :
    ∃ data out,
      Ardu_Camera.GetData_input cfg camera_image junk
        ⟨img_buf_a, img_buf_b, model, 0, []⟩ rc.1 rc.2 = some data ∧
      Invoke data = some out ∧ 3 ≤ out.length ∧
      Ardu_Camera.GetData_scores cfg Invoke camera_image junk
        ⟨img_buf_a, img_buf_b, model, 0, []⟩ rc.1 rc.2 = some out ∧
      Ardu_Camera.GetData_detected cfg Invoke camera_image junk
        ⟨img_buf_a, img_buf_b, model, 0, []⟩ rc = isDetection out := by
  obtain ⟨hcam, hcamv, hL, hS, hA1, hA2, hB, hM, hI⟩ := hs
  obtain ⟨hrow, hcol⟩ := scanOrigins_mem cfg _ _ fuel rc hrc
  obtain ⟨_, _, _, data, _, _, _, _, hinput, _⟩ := GetData_input_spec cfg camera_image junk
    ⟨img_buf_a, img_buf_b, model, 0, []⟩ rc.1 rc.2 hcam hcamv hL hA1 hA2 hB hM hbv hm1 hm2
    hrow hcol
  obtain ⟨out, hout, hout3⟩ := hI data
  have hscores : Ardu_Camera.GetData_scores cfg Invoke camera_image junk
      ⟨img_buf_a, img_buf_b, model, 0, []⟩ rc.1 rc.2 = some out := by
    unfold Ardu_Camera.GetData_scores
    rw [hinput]
    exact hout
  refine ⟨data, out, hinput, hout, hout3, hscores, ?_⟩
  unfold Ardu_Camera.GetData_detected
  rw [hscores]

/-- The detections in a log of tiles with their scores are the tiles whose
scores are a detection. -/
theorem detections_scores (cfg : Config) (Invoke : List Nat → Option (List Nat))
    (camera_image : Image) (junk : Nat → Nat) (st0 : ScanState) (os : List (Nat × Nat)) :
    detections (os.flatMap (fun rc => tileEvents (rc.1, rc.2,
        Ardu_Camera.GetData_scores cfg Invoke camera_image junk st0 rc.1 rc.2)))
      = (os.filter (Ardu_Camera.GetData_detected cfg Invoke camera_image junk st0)).length := by
  induction os with
  | nil => rfl
  | cons o os ih =>
    rw [List.flatMap_cons, detections_append, ih, List.filter_cons]
    have h1 : detections (tileEvents (o.1, o.2,
        Ardu_Camera.GetData_scores cfg Invoke camera_image junk st0 o.1 o.2))
        = if Ardu_Camera.GetData_detected cfg Invoke camera_image junk st0 o then 1 else 0 := by
      unfold Ardu_Camera.GetData_detected
      cases Ardu_Camera.GetData_scores cfg Invoke camera_image junk st0 o.1 o.2 with
      | none => simp [detections, tileEvents, List.filter]
      | some out => exact detections_tileEvents o.1 o.2 out
    rw [h1]
    by_cases hd : Ardu_Camera.GetData_detected cfg Invoke camera_image junk st0 o
    · rw [if_pos hd, if_pos hd, List.length_cons]
      omega
    · rw [if_neg hd, if_neg hd]
      omega

/-- `Capture` returns when the camera sets the bit `CAP_DONE_MASK` within the
fuel. -/
theorem Capture_some (cap_done : Nat → Bool) (n : Nat) (hn : cap_done n = true) :
    ∀ (fuel polls : Nat), polls ≤ n → n < polls + fuel →
      ∃ k, Ardu_Camera.Capture cap_done fuel polls = some k := by
  intro fuel
  induction fuel with
  | zero =>
    intro polls h1 h2
    omega
  | succ fuel ih =>
    intro polls h1 h2
    unfold Ardu_Camera.Capture
    by_cases hd : cap_done polls = true
    · rw [if_neg (by rw [hd]; decide)]
      exact ⟨polls, rfl⟩
    · rw [if_pos (by
        cases hc : cap_done polls
        · rfl
        · exact absurd hc hd)]
      have hne : polls ≠ n := by
        intro e
        rw [e] at hd
        exact hd hn
      exact ih (polls + 1) (by omega) (by omega)

/-- `Capture` does not return while the camera never sets the bit
`CAP_DONE_MASK`. -/
theorem Capture_never (cap_done : Nat → Bool) (h : ∀ n, cap_done n = false) :
    ∀ (fuel polls : Nat), Ardu_Camera.Capture cap_done fuel polls = none := by
  intro fuel
  induction fuel with
  | zero => intro polls; rfl
  | succ fuel ih =>
    intro polls
    unfold Ardu_Camera.Capture
    rw [h polls, if_pos (by decide)]
    exact ih (polls + 1)

/-- What a call of `GetData` that returns has done: `Capture` has returned,
the scan has completed on the image that `ReadImage` left, and the result is
`DATA_OK` with the pair of key and value appended to `data_list`. -/
theorem GetData_some (cfg : Config) (Invoke : List Nat → Option (List Nat))
    (cap_done : Nat → Bool) (read_fifo : Nat → Nat) (image_ : Image) (junk : Nat → Nat)
    (cap_fuel fuel : Nat) (img_buf_a img_buf_b : List Nat) (model : TFLM_Model)
    (data_list : List (List Nat × List Nat))
    (r : SensorStatus × List (List Nat × List Nat) × Image × ScanState)
    (h : Ardu_Camera.GetData cfg Invoke cap_done read_fifo image_ junk cap_fuel fuel img_buf_a
      img_buf_b model data_list = some r) :
    (∃ polls, Ardu_Camera.Capture cap_done cap_fuel 0 = some polls) ∧
    (∃ reads, Ardu_Camera.ReadImage image_ read_fifo junk = some (r.2.2.1, reads)) ∧
      Ardu_Camera.GetData_scan cfg Invoke r.2.2.1 junk fuel img_buf_a img_buf_b model
        = some r.2.2.2 ∧
      r.1 = SensorStatus.DATA_OK ∧
      r.2.1 = data_list ++
        [(literalBytes "num_people_in_image", IntToString r.2.2.2.num_people)] := by
  unfold Ardu_Camera.GetData at h
  simp only [Bool.false_eq_true, if_false] at h
  cases hC : Ardu_Camera.Capture cap_done cap_fuel 0 with
  | none => rw [hC] at h; cases h
  | some polls =>
    rw [hC] at h
    simp only [Option.some_bind, Option.bind_eq_bind] at h
    cases hR : Ardu_Camera.ReadImage image_ read_fifo junk with
    | none => rw [hR] at h; cases h
    | some read =>
      rw [hR] at h
      simp only [Option.some_bind] at h
      cases hB : is_all_black read.1 junk with
      | none => rw [hB] at h; cases h
      | some b =>
        rw [hB] at h
        simp only [Option.some_bind] at h
        cases hS : Ardu_Camera.GetData_scan cfg Invoke read.1 junk fuel img_buf_a img_buf_b
            model with
        | none => rw [hS] at h; cases h
        | some st =>
          rw [hS] at h
          simp only [Option.some_bind] at h
          cases hD : (data_list ++
              [(literalBytes "num_people_in_image", IntToString st.num_people)])[0]? with
          | none => rw [hD] at h; cases h
          | some d =>
            rw [hD] at h
            simp only [Option.some_bind, Option.pure_def, Option.some.injEq] at h
            subst h
            exact ⟨⟨polls, rfl⟩, ⟨read.2, rfl⟩, hS, rfl, rfl⟩

/-- The scan of a frame that holds at least one tile, with an interpreter
that reports a failure, dereferences `nullptr`. -/
theorem GetData_scan_fails (cfg : Config) (Invoke : List Nat → Option (List Nat))
    (camera_image : Image) (junk : Nat → Nat) (fuel : Nat) (img_buf_a img_buf_b : List Nat)
    (model : TFLM_Model) (hfail : ∀ x, Invoke x = none)
    (hrow : cfg.sliding_window_length ≤ camera_image.GetHeight)
    (hcol : cfg.sliding_window_length ≤ camera_image.GetWidth) :
    Ardu_Camera.GetData_scan cfg Invoke camera_image junk fuel img_buf_a img_buf_b model
      = none := by
  cases fuel with
  | zero => rfl
  | succ f =>
    have hnull := GetData_tile_null cfg Invoke camera_image junk
      { img_buf_a := img_buf_a, img_buf_b := img_buf_b, model := model
        num_people := 0, trace := [] } 0 0 hfail
    unfold Ardu_Camera.GetData_scan Ardu_Camera.GetData_rows
    rw [if_pos (by omega)]
    unfold Ardu_Camera.GetData_cols
    rw [if_pos (by omega), hnull]
    rfl

/-- C33: a call of `GetData` that returns, returns `DATA_OK` and has appended
the count of the scan, but not every call returns.  First part: every call
that returns, returns `DATA_OK`, never `DISCONNECT`; the scan has completed
on the image that `ReadImage` left, and `data_list` afterwards is `data_list`
before followed by one entry, whose key is `"num_people_in_image"` and whose
value is the decimal text of the `num_people` of that scan, the number of its
detections.  Second part: when the camera signals the end of the capture, the
image holds `GetBufferSize()` byte values, the FIFO returns byte values, the
scratch arrays are large enough, the input tensor is not larger than the
resized image and the interpreter returns at least three scores for every
input, `GetData` returns, and the value is the decimal text of the number of
tiles of the image read on whose input tensor the interpreter returned scores
with `scores[1] >= scores[2]`.  Third part: when the interpreter reports a
failure and the image holds at least one tile, the scan dereferences
`nullptr`: no status is returned and nothing is appended.  Fourth part: while
the camera does not signal the end of the capture, `GetData` does not return.
Fifth part: `GetData` on a 3 x 3 image with tiles of edge 2, with an
interpreter that detects on both tiles (value `"2"`), on the first tile only
(value `"1"`), and with one that fails. -/
theorem C33_get_data_result :
    (∀ (cfg : Config) (Invoke : List Nat → Option (List Nat)) (cap_done : Nat → Bool)
      (read_fifo : Nat → Nat) (image_ : Image) (junk : Nat → Nat) (cap_fuel fuel : Nat)
      (img_buf_a img_buf_b : List Nat) (model : TFLM_Model)
      (data_list : List (List Nat × List Nat))
      (r : SensorStatus × List (List Nat × List Nat) × Image × ScanState),
      Ardu_Camera.GetData cfg Invoke cap_done read_fifo image_ junk cap_fuel fuel img_buf_a
        img_buf_b model data_list = some r →
      r.1 = SensorStatus.DATA_OK ∧ r.1 ≠ SensorStatus.DISCONNECT ∧
      (∃ reads, Ardu_Camera.ReadImage image_ read_fifo junk = some (r.2.2.1, reads)) ∧
      (∃ st, Ardu_Camera.GetData_scan cfg Invoke r.2.2.1 junk fuel img_buf_a img_buf_b model
          = some st ∧
        r.2.1 = data_list ++
          [(literalBytes "num_people_in_image", to_string st.num_people)] ∧
        st.num_people = detections st.trace) ∧
      r.2.1.length = data_list.length + 1 ∧
      (∀ i, i < data_list.length → r.2.1[i]? = data_list[i]?)) ∧
    (∀ (cfg : Config) (Invoke : List Nat → Option (List Nat)) (cap_done : Nat → Bool)
      (read_fifo : Nat → Nat) (image_ : Image) (junk : Nat → Nat) (cap_fuel fuel : Nat)
      (img_buf_a img_buf_b : List Nat) (model : TFLM_Model)
      (data_list : List (List Nat × List Nat)),
      ScanSetup cfg Invoke image_ img_buf_a.length img_buf_b.length →
      (∀ n, read_fifo n < 256) →
      BytesValid img_buf_b →
      model.input_bytes ≤ img_buf_a.length →
      model.input_bytes ≤ model.input_data.length →
      model.input_bytes
        ≤ cfg.cnn_img_height * cfg.cnn_img_width * cfg.cnn_img_fmt.GetChannels →
      image_.GetHeight < fuel → image_.GetWidth < fuel →
      (∃ n, n < cap_fuel ∧ cap_done n = true) →
      ∃ (image2 : Image) (st : ScanState),
        Ardu_Camera.ReadImage image_ read_fifo junk = some (image2, image_.GetBufferSize) ∧
        Ardu_Camera.GetData_scan cfg Invoke image2 junk fuel img_buf_a img_buf_b model
          = some st ∧
        Ardu_Camera.GetData cfg Invoke cap_done read_fifo image_ junk cap_fuel fuel img_buf_a
          img_buf_b model data_list
          = some (SensorStatus.DATA_OK,
              data_list ++ [(literalBytes "num_people_in_image",
                to_string ((scanOrigins cfg image_.GetHeight image_.GetWidth fuel).filter
                  (Ardu_Camera.GetData_detected cfg Invoke image2 junk
                    ⟨img_buf_a, img_buf_b, model, 0, []⟩)).length)],
              image2, st)) ∧
    (∀ (cfg : Config) (Invoke : List Nat → Option (List Nat)) (cap_done : Nat → Bool)
      (read_fifo : Nat → Nat) (image_ : Image) (junk : Nat → Nat) (cap_fuel fuel : Nat)
      (img_buf_a img_buf_b : List Nat) (model : TFLM_Model)
      (data_list : List (List Nat × List Nat)),
      image_.GetBufferSize ≤ image_.GetBuffer.length →
      (∀ x, Invoke x = none) →
      cfg.sliding_window_length ≤ image_.GetHeight →
      cfg.sliding_window_length ≤ image_.GetWidth →
      Ardu_Camera.GetData cfg Invoke cap_done read_fifo image_ junk cap_fuel fuel img_buf_a
        img_buf_b model data_list = none) ∧
    (∀ (cfg : Config) (Invoke : List Nat → Option (List Nat)) (cap_done : Nat → Bool)
      (read_fifo : Nat → Nat) (image_ : Image) (junk : Nat → Nat) (cap_fuel fuel : Nat)
      (img_buf_a img_buf_b : List Nat) (model : TFLM_Model)
      (data_list : List (List Nat × List Nat)),
      (∀ n, cap_done n = false) →
      Ardu_Camera.GetData cfg Invoke cap_done read_fifo image_ junk cap_fuel fuel img_buf_a
        img_buf_b model data_list = none) ∧
    ((Ardu_Camera.GetData smallConfig (fun _ => some [0, 1, 0]) (fun n => decide (2 ≤ n))
        (fun n => n + 1) (grayImage 3 3 [0, 0, 0, 0, 0, 0, 0, 0, 0]) (fun _ => 0) 5 10
        [0, 0, 0, 0] [0, 0, 0, 0, 0, 0, 0] ⟨1, [0], 0⟩ [([107], [118])]).map
          (fun r => (r.1, r.2.1, r.2.2.1))
      = some (SensorStatus.DATA_OK,
          [([107], [118]), (literalBytes "num_people_in_image", literalBytes "2")],
          grayImage 3 3 [1, 2, 3, 4, 5, 6, 7, 8, 9]) ∧
    (Ardu_Camera.GetData smallConfig
        (fun x => if x = [1] then some [0, 1, 0] else some [0, 0, 1]) (fun n => decide (2 ≤ n))
        (fun n => n + 1) (grayImage 3 3 [0, 0, 0, 0, 0, 0, 0, 0, 0]) (fun _ => 0) 5 10
        [0, 0, 0, 0] [0, 0, 0, 0, 0, 0, 0] ⟨1, [0], 0⟩ [([107], [118])]).map
          (fun r => (r.1, r.2.1, r.2.2.1))
      = some (SensorStatus.DATA_OK,
          [([107], [118]), (literalBytes "num_people_in_image", literalBytes "1")],
          grayImage 3 3 [1, 2, 3, 4, 5, 6, 7, 8, 9]) ∧
    Ardu_Camera.GetData smallConfig (fun x => if x = [1] then some [0, 1, 0] else none)
        (fun n => decide (2 ≤ n))
        (fun n => n + 1) (grayImage 3 3 [0, 0, 0, 0, 0, 0, 0, 0, 0]) (fun _ => 0) 5 10
        [0, 0, 0, 0] [0, 0, 0, 0, 0, 0, 0] ⟨1, [0], 0⟩ [([107], [118])]
      = none) := by
  refine ⟨?_, ?_, ?_, ?_, by decide!, by decide!, by decide!⟩
  · intro cfg Invoke cap_done read_fifo image_ junk cap_fuel fuel img_buf_a img_buf_b model
      data_list r h
    obtain ⟨_, hR, hS, h1, h2⟩ := GetData_some cfg Invoke cap_done read_fifo image_ junk
      cap_fuel fuel img_buf_a img_buf_b model data_list r h
    have hsc := GetData_scan_some cfg Invoke r.2.2.1 junk fuel img_buf_a img_buf_b model
      r.2.2.2 hS
    obtain ⟨h3, _⟩ := Scanned_from_start _ _ r.2.2.2 rfl rfl hsc
    refine ⟨h1, by rw [h1]; decide, hR, ⟨r.2.2.2, hS, h2, h3⟩, by rw [h2]; simp, ?_⟩
    intro i hi
    rw [h2, List.getElem?_append_left hi]
  · intro cfg Invoke cap_done read_fifo image_ junk cap_fuel fuel img_buf_a img_buf_b model
      data_list hs hfifo hbv hm1 hm2 hin hfh hfw hcap
    obtain ⟨hcam, hcamv, hL, hS, hA1, hA2, hB, hM, hI⟩ := hs
    obtain ⟨n, hn1, hn2⟩ := hcap
    obtain ⟨polls, hpolls⟩ := Capture_some cap_done n hn2 cap_fuel 0 (Nat.zero_le _)
      (by omega)
    obtain ⟨out, hread, ⟨s1, s2, s3, s4⟩, hb1, hb2⟩ := ReadImage_spec image_ read_fifo junk hcam
    have hsize : out.GetBufferSize = image_.GetBufferSize := by
      show out.height_ * out.width_ * out.format_.GetChannels
        = image_.height_ * image_.width_ * image_.format_.GetChannels
      rw [s1, s2, s3]
    have hcam2 : out.GetBufferSize ≤ out.buffer_.length := by
      rw [hsize, s4]
      exact hcam
    have hv2 : BytesValid out.buffer_ := by
      intro i
      by_cases hi : i < image_.GetBufferSize
      · rw [hb1 i hi]
        exact hfifo i
      · rw [hb2 i (by omega)]
        exact hcamv i
    obtain ⟨b, hblack, _⟩ := is_all_black_spec out junk hcam2
    have hH : out.GetHeight = image_.GetHeight := s1
    have hW : out.GetWidth = image_.GetWidth := s2
    obtain ⟨st, hst, _, hn⟩ := GetData_scan_run cfg Invoke out junk fuel img_buf_a img_buf_b
      model
      ⟨hcam2, hv2, hL, hS, by
        show _ * out.format_.GetChannels ≤ _
        rw [s3]
        exact hA1, hA2, hB, hM, hI⟩
      hbv hm1 hm2 hin (by rw [hH]; exact hfh) (by rw [hW]; exact hfw)
    rw [hH, hW] at hn
    refine ⟨out, st, hread, hst, ?_⟩
    have hD : ∃ d, (data_list ++
        [(literalBytes "num_people_in_image", IntToString st.num_people)])[0]? = some d := by
      cases data_list with
      | nil => exact ⟨_, rfl⟩
      | cons a l => exact ⟨a, by simp⟩
    obtain ⟨d, hd⟩ := hD
    rw [← hn]
    unfold Ardu_Camera.GetData
    simp only [Bool.false_eq_true, if_false]
    rw [hpolls]
    simp only [Option.some_bind, Option.bind_eq_bind]
    rw [hread]
    simp only [Option.some_bind]
    rw [hblack]
    simp only [Option.some_bind]
    rw [hst]
    simp only [Option.some_bind]
    rw [hd]
    rfl
  · intro cfg Invoke cap_done read_fifo image_ junk cap_fuel fuel img_buf_a img_buf_b model
      data_list hcam hfail hrow hcol
    cases h : Ardu_Camera.GetData cfg Invoke cap_done read_fifo image_ junk cap_fuel fuel
        img_buf_a img_buf_b model data_list with
    | none => rfl
    | some r =>
      exfalso
      obtain ⟨_, ⟨reads, hR⟩, hS, _⟩ := GetData_some cfg Invoke cap_done read_fifo image_ junk
        cap_fuel fuel img_buf_a img_buf_b model data_list r h
      obtain ⟨out, hread, ⟨s1, s2, _, _⟩, _⟩ := ReadImage_spec image_ read_fifo junk hcam
      rw [hread] at hR
      have e : out = r.2.2.1 := by
        have := Option.some.inj hR
        exact congrArg Prod.fst this
      rw [← e] at hS
      have hnone := GetData_scan_fails cfg Invoke out junk fuel img_buf_a img_buf_b model hfail
        (by show _ ≤ out.height_; rw [s1]; exact hrow)
        (by show _ ≤ out.width_; rw [s2]; exact hcol)
      rw [hnone] at hS
      cases hS
  · intro cfg Invoke cap_done read_fifo image_ junk cap_fuel fuel img_buf_a img_buf_b model
      data_list hnever
    unfold Ardu_Camera.GetData
    simp only [Bool.false_eq_true, if_false]
    rw [Capture_never cap_done hnever cap_fuel 0]
    rfl

/-- With an interpreter that answers every input with the same scores, every
tile of the scan is a detection or none is. -/
theorem GetData_detected_const (cfg : Config) (scores : List Nat) (camera_image : Image)
    (junk : Nat → Nat) (fuel : Nat) (img_buf_a img_buf_b : List Nat) (model : TFLM_Model)
    (hs : ScanSetup cfg (fun _ => some scores) camera_image img_buf_a.length img_buf_b.length)
    (hbv : BytesValid img_buf_b)
    (hm1 : model.input_bytes ≤ img_buf_a.length)
    (hm2 : model.input_bytes ≤ model.input_data.length) :
    ((scanOrigins cfg camera_image.GetHeight camera_image.GetWidth fuel).filter
      (Ardu_Camera.GetData_detected cfg (fun _ => some scores) camera_image junk
        ⟨img_buf_a, img_buf_b, model, 0, []⟩)).length
      = if isDetection scores
        then (scanOrigins cfg camera_image.GetHeight camera_image.GetWidth fuel).length
        else 0 := by
  have hall : ∀ rc ∈ scanOrigins cfg camera_image.GetHeight camera_image.GetWidth fuel,
      Ardu_Camera.GetData_detected cfg (fun _ => some scores) camera_image junk
        ⟨img_buf_a, img_buf_b, model, 0, []⟩ rc = isDetection scores := by
    intro rc hrc
    obtain ⟨data, out, _, e2, _, _, e5⟩ := GetData_scores_some cfg (fun _ => some scores)
      camera_image junk fuel img_buf_a img_buf_b model hs hbv hm1 hm2 rc hrc
    have e : scores = out := Option.some.inj e2
    rw [e5, e]
  by_cases hd : isDetection scores
  · rw [if_pos hd, List.filter_eq_self.2 (fun rc hrc => by rw [hall rc hrc]; exact hd)]
  · rw [if_neg hd, List.filter_eq_nil_iff.2 (fun rc hrc => by rw [hall rc hrc]; exact hd)]
    rfl

/-- C33 on a 240 x 320 RGB565 frame with the constants of `Ardu_Camera.h`, a
camera that signals the end of the capture at the fourth poll, a FIFO that
returns zero bytes, scratch arrays of `img_buf_size` bytes, an interpreter
that always answers with the scores `[0, 1, 0]`, and a `data_list` that
already holds one entry: `GetData` returns `DATA_OK` and has appended the
value `"12"`, the number of tiles. -/
theorem C33_get_data_result_witness :
    ∃ (image2 : Image) (st : ScanState),
      Ardu_Camera.GetData Ardu_Camera.config (fun _ => some [0, 1, 0])
        (fun n => decide (3 ≤ n)) (fun _ => 0)
        (Image.new cam_img_height cam_img_width cam_img_fmt
          (some (List.replicate 153600 7)) (fun _ => 0))
        (fun _ => 0) 10 321 (List.replicate img_buf_size 0) (List.replicate img_buf_size 0)
        ⟨9216, List.replicate 9216 0, 0⟩ [([107], [118])]
        = some (SensorStatus.DATA_OK,
            [([107], [118]), (literalBytes "num_people_in_image", literalBytes "12")],
            image2, st) := by
  have hsetup : ∀ img : Image, img.GetBufferSize ≤ img.buffer_.length →
      BytesValid img.buffer_ → img.format_ = .RGB565 →
      ScanSetup Ardu_Camera.config (fun _ => some [0, 1, 0]) img
        (List.replicate img_buf_size 0).length (List.replicate img_buf_size 0).length := by
    intro img h1 h2 h3
    rw [List.length_replicate]
    refine ⟨h1, h2, by decide, by decide, ?_, by decide, by decide, by decide,
      fun _ => ⟨[0, 1, 0], rfl, by decide⟩⟩
    show _ * img.format_.GetChannels ≤ _
    rw [h3]
    decide
  have hcam : (Image.new cam_img_height cam_img_width cam_img_fmt
      (some (List.replicate 153600 7)) (fun _ => 0)).GetBufferSize
      ≤ (Image.new cam_img_height cam_img_width cam_img_fmt
        (some (List.replicate 153600 7)) (fun _ => 0)).buffer_.length := by
    show 240 * 320 * 2 ≤ (List.replicate 153600 7).length
    rw [List.length_replicate]
  have hbv : BytesValid (List.replicate img_buf_size 0) := BytesValid_replicate _ _ (by decide)
  have hm1 : (9216 : Nat) ≤ (List.replicate img_buf_size 0).length := by
    rw [List.length_replicate]; decide
  have hm2 : (9216 : Nat) ≤ (List.replicate 9216 0).length := by
    rw [List.length_replicate]
  obtain ⟨image2, st, hread, _, hget⟩ := C33_get_data_result.2.1 Ardu_Camera.config
    (fun _ => some [0, 1, 0]) (fun n => decide (3 ≤ n)) (fun _ => 0)
    (Image.new cam_img_height cam_img_width cam_img_fmt
      (some (List.replicate 153600 7)) (fun _ => 0))
    (fun _ => 0) 10 321 (List.replicate img_buf_size 0) (List.replicate img_buf_size 0)
    ⟨9216, List.replicate 9216 0, 0⟩ [([107], [118])]
    (hsetup _ hcam (BytesValid_replicate _ _ (by decide)) rfl)
    (fun _ => Nat.zero_lt_succ 255) hbv hm1 hm2 (by decide) (by decide) (by decide)
    ⟨3, by decide, by decide⟩
  obtain ⟨out, hread2, ⟨s1, s2, s3, s4⟩, hb1, hb2⟩ := ReadImage_spec
    (Image.new cam_img_height cam_img_width cam_img_fmt
      (some (List.replicate 153600 7)) (fun _ => 0)) (fun _ => 0) (fun _ => 0) hcam
  have e : out = image2 := by
    rw [hread2] at hread
    exact congrArg Prod.fst (Option.some.inj hread)
  subst e
  have hcam2 : out.GetBufferSize ≤ out.buffer_.length := by
    show out.height_ * out.width_ * out.format_.GetChannels ≤ _
    rw [s1, s2, s3, s4]
    exact hcam
  have hv2 : BytesValid out.buffer_ := by
    intro i
    by_cases hi : i < (Image.new cam_img_height cam_img_width cam_img_fmt
        (some (List.replicate 153600 7)) (fun _ => 0)).GetBufferSize
    · rw [hb1 i hi]
      exact Nat.zero_lt_succ 255
    · rw [hb2 i (by omega)]
      exact BytesValid_replicate 153600 7 (by decide) i
  have hcount := GetData_detected_const Ardu_Camera.config [0, 1, 0] out (fun _ => 0) 321
    (List.replicate img_buf_size 0) (List.replicate img_buf_size 0)
    ⟨9216, List.replicate 9216 0, 0⟩ (hsetup out hcam2 hv2 s3) hbv hm1 hm2
  have hH : out.GetHeight = 240 := s1
  have hW : out.GetWidth = 320 := s2
  rw [hH, hW, if_pos (by decide)] at hcount
  have h12 : (scanOrigins Ardu_Camera.config 240 320 321).length = 12 := by decide
  rw [h12] at hcount
  have hH0 : (Image.new cam_img_height cam_img_width cam_img_fmt
      (some (List.replicate 153600 7)) (fun _ => 0)).GetHeight = 240 := rfl
  have hW0 : (Image.new cam_img_height cam_img_width cam_img_fmt
      (some (List.replicate 153600 7)) (fun _ => 0)).GetWidth = 320 := rfl
  rw [hH0, hW0, hcount] at hget
  exact ⟨out, st, hget⟩

end PeopleCounting
